import Mathlib

/-! Compound-file (OLE2) container reader: a shallow embedding.

The definitions below follow the Go package `ole2` of the repository
(`src/ole2/header.go`, `src/ole2/dir.go`, `src/ole2/ole.go`,
`src/ole2/stream_reader.go`) function by function; the last sections follow
`writeOutput` of `src/Picture.go`, `fromLZ77` of `src/Decompress.go` and the row
and table readers of `src/odf/ods/read.go`.

Conventions of the embedding:

* a byte is a `Nat` below 256, a byte slice is a `List Nat`;
* `uint16`/`uint32` values are `Nat`, `int32`/`int64`/`int` values are `Int`;
  every place where Go arithmetic can wrap goes through `u32`, `i32`, `i64`;
* a Go `error` is `Option GoError` (`none` is `nil`);
* a Go run-time panic (index or slice out of range, a slice length that `make`
  refuses) is the `Fault` branch of `Except`; loops that Go may run for ever take a fuel argument and answer
  `Fault.fuel` when it is used up;
* a call that fills a caller-supplied slice `p []byte` takes the old contents
  of `p` and returns the new contents (same length).
-/

namespace Ole2

/-! ## Machine integers -/

/-- Conversion to `uint32`: the value modulo 2^32. -/
def u32 (x : Int) : Nat := (x % 4294967296).toNat

/-- Conversion to `int32`: two's complement wrap-around. -/
def i32 (x : Int) : Int := (x + 2147483648) % 4294967296 - 2147483648

/-- Conversion to `int64`: two's complement wrap-around. -/
def i64 (x : Int) : Int :=
  (x + 9223372036854775808) % 18446744073709551616 - 9223372036854775808

/-! ## Errors, faults and the `io.ReadSeeker` interface -/

/-- The Go error values that the package distinguishes: `io.EOF` and any other error. -/
inductive GoError where
  | EOF
  | other
  deriving DecidableEq, Repr

/-- Abnormal ends of a Go call: a run-time panic, or fuel exhausted in a loop. -/
inductive Fault where
  | indexOutOfRange
  | sliceBounds
  | fuel
  | makeslice
  deriving DecidableEq, Repr

/-- Result of `Read(p)`: the reader afterwards, the contents of `p` afterwards,
the returned count `n` and the returned error. -/
structure ReadResult (ρ : Type) where
  reader : ρ
  p : List Nat
  n : Int
  err : Option GoError

/-- Result of `Seek(offset, whence)`: the reader afterwards, the returned offset and error. -/
structure SeekResult (ρ : Type) where
  reader : ρ
  offsetResult : Int
  err : Option GoError

/-- The Go interface `io.ReadSeeker`. -/
class ReadSeeker (ρ : Type) where
  Read : ρ → List Nat → Except Fault (ReadResult ρ)
  Seek : ρ → Int → Int → Except Fault (SeekResult ρ)

/-- The in-memory source `bytes.Reader` of the Go standard library: the
underlying byte slice `s` and the current reading index `i`. -/
structure BytesReader where
  s : List Nat
  i : Int
  deriving DecidableEq, Repr

/-- The method `(*bytes.Reader).Read`: end-of-file when the index is at or past the end
(also for an empty `b`), otherwise `copy(b, s[i:])`. -/
def BytesReader.Read (r : BytesReader) (b : List Nat) : ReadResult BytesReader :=
  if r.i ≥ (r.s.length : Int) then
    { reader := r, p := b, n := 0, err := some GoError.EOF }
  else
    let src := (r.s.drop r.i.toNat).take b.length
    { reader := { r with i := r.i + (src.length : Int) }
      p := src ++ b.drop src.length
      n := (src.length : Int)
      err := none }

/-- The method `(*bytes.Reader).Seek`: an invalid `whence` or a negative
target position is an error and leaves the index unchanged. -/
def BytesReader.Seek (r : BytesReader) (offset : Int) (whence : Int) : SeekResult BytesReader :=
  if whence = 0 ∨ whence = 1 ∨ whence = 2 then
    let abs : Int :=
      if whence = 0 then offset
      else if whence = 1 then i64 (r.i + offset)
      else i64 ((r.s.length : Int) + offset)
    if abs < 0 then { reader := r, offsetResult := 0, err := some GoError.other }
    else { reader := { r with i := abs }, offsetResult := abs, err := none }
  else { reader := r, offsetResult := 0, err := some GoError.other }

instance : ReadSeeker BytesReader where
  Read r b := Except.ok (r.Read b)
  Seek r offset whence := Except.ok (r.Seek offset whence)

/-! ## `ole.go`: sector ids and sector positions -/

/-- Sector id marking a sector that holds the master (DIFAT) table. -/
def MSATSecID : Int := -4
/-- Sector id marking a sector that holds the allocation table. -/
def SATSecID : Int := -3
/-- End-of-chain sector id. -/
def EOFSecID : Int := -2
/-- Free sector id. -/
def FreeSecID : Int := -1

/-- Go: `func sector_pos(sid int32, size uint32) int32 { return 512 + sid*int32(size) }`. -/
def sector_pos (sid : Int) (size : Nat) : Int := i32 (512 + i32 (sid * i32 size))

/-- Go: `func short_sector_pos(sid int32, size uint32) int32 { return sid * int32(size) }`. -/
def short_sector_pos (sid : Int) (size : Nat) : Int := i32 (sid * i32 size)

/-! ## `stream_reader.go` -/

/-- The struct `StreamReader`; `ρ` is the dynamic type behind the `io.ReadSeeker` field. -/
structure StreamReader (ρ : Type) where
  sat : List Int
  start : Int
  reader : ρ
  offsetOfSector : Int
  offsetInSector : Nat
  sizeSector : Nat
  size : Int
  offset : Int
  sectorPos : Int → Nat → Int

/-- Go indexing `sat[i]` with an `int32` index: `none` stands for the index-out-of-range panic. -/
def index (sat : List Int) (i : Int) : Option Int :=
  if 0 ≤ i ∧ i < (sat.length : Int) then sat.get? i.toNat else none

/-- Go slice expression `p[lo:hi]` (capacity taken equal to the length):
`none` stands for the slice-bounds panic. -/
def slice (p : List Nat) (lo hi : Nat) : Option (List Nat) :=
  if lo ≤ hi ∧ hi ≤ p.length then some ((p.drop lo).take (hi - lo)) else none

/-- Contents of `p` after a callee has turned the sub-slice starting at `lo` into `q`. -/
def splice (p : List Nat) (lo : Nat) (q : List Nat) : List Nat :=
  p.take lo ++ q ++ p.drop (lo + q.length)

/-- The `for` loop of `StreamReader.Read` (lines 32-53) followed by the final read
(lines 54-62); `readed` is the loop variable of the same name. -/
def StreamReader.readLoop {ρ : Type} [ReadSeeker ρ] :
    Nat → StreamReader ρ → List Nat → Nat → Except Fault (ReadResult (StreamReader ρ))
  | 0, _, _, _ => Except.error Fault.fuel
  | fuel + 1, r, p, readed =>
    let remainLen := u32 ((u32 p.length : Int) - (readed : Int))
    if remainLen > u32 ((r.sizeSector : Int) - (r.offsetInSector : Int)) then
      match slice p readed (u32 ((readed : Int) + (r.sizeSector : Int) - (r.offsetInSector : Int))) with
      | none => Except.error Fault.sliceBounds
      | some chunk =>
        match ReadSeeker.Read r.reader chunk with
        | Except.error f => Except.error f
        | Except.ok res =>
          let p1 := splice p readed res.p
          if res.err ≠ none then
            Except.ok { reader := { r with reader := res.reader }, p := p1,
                        n := (readed : Int) + res.n, err := res.err }
          else
            let readed1 := u32 ((readed : Int) + (u32 res.n : Int))
            let r1 := { r with reader := res.reader, offsetInSector := 0 }
            if r1.offsetOfSector ≥ i32 (r1.sat.length : Int) then
              Except.ok { reader := r1, p := p1, n := (readed1 : Int), err := some GoError.EOF }
            else
              match index r1.sat r1.offsetOfSector with
              | none => Except.error Fault.indexOutOfRange
              | some next =>
                let r2 := { r1 with offsetOfSector := next }
                if r2.offsetOfSector = EOFSecID then
                  Except.ok { reader := r2, p := p1, n := (readed1 : Int), err := some GoError.EOF }
                else
                  let pos := i32 (r2.sectorPos r2.offsetOfSector r2.sizeSector
                                    + i32 (r2.offsetInSector : Int))
                  match ReadSeeker.Seek r2.reader pos 0 with
                  | Except.error f => Except.error f
                  | Except.ok sk => readLoop fuel { r2 with reader := sk.reader } p1 readed1
    else
      match slice p readed p.length with
      | none => Except.error Fault.sliceBounds
      | some chunk =>
        match ReadSeeker.Read r.reader chunk with
        | Except.error f => Except.error f
        | Except.ok res =>
          let p1 := splice p readed res.p
          if res.err = none then
            Except.ok { reader := { r with reader := res.reader,
                                           offsetInSector := u32 ((r.offsetInSector : Int)
                                                                   + (u32 res.n : Int)) },
                        p := p1, n := (p.length : Int), err := none }
          else
            Except.ok { reader := { r with reader := res.reader }, p := p1,
                        n := (readed : Int) + res.n, err := res.err }

/-- The method `(*StreamReader).Read`. The loop is given `len(p) + 2` rounds: with a
non-zero sector size every round but the first consumes at least one byte of `p`
whenever the underlying reader delivers at least one byte per successful non-empty read. -/
def StreamReader.Read {ρ : Type} [ReadSeeker ρ] (r : StreamReader ρ) (p : List Nat) :
    Except Fault (ReadResult (StreamReader ρ)) :=
  if r.offsetOfSector = EOFSecID then
    Except.ok { reader := r, p := p, n := 0, err := some GoError.EOF }
  else
    let pos := i32 (r.sectorPos r.offsetOfSector r.sizeSector + i32 (r.offsetInSector : Int))
    match ReadSeeker.Seek r.reader pos 0 with
    | Except.error f => Except.error f
    | Except.ok sk => StreamReader.readLoop (p.length + 2) { r with reader := sk.reader } p 0

/-- The `for` loop of `StreamReader.Seek` (lines 81-89) followed by lines 91-99;
`offset` is the local variable of the same name. -/
def StreamReader.seekLoop {ρ : Type} :
    Nat → StreamReader ρ → Int → Except Fault (SeekResult (StreamReader ρ))
  | 0, _, _ => Except.error Fault.fuel
  | fuel + 1, r, offset =>
    if offset ≥ (u32 ((r.sizeSector : Int) - (r.offsetInSector : Int)) : Int) then
      match index r.sat r.offsetOfSector with
      | none => Except.error Fault.indexOutOfRange
      | some next =>
        let offset1 := i64 (offset - (u32 ((r.sizeSector : Int) - (r.offsetInSector : Int)) : Int))
        let r1 := { r with offsetOfSector := next, offsetInSector := 0 }
        if r1.offsetOfSector = EOFSecID then
          Except.ok { reader := r1, offsetResult := r1.offset, err := some GoError.EOF }
        else seekLoop fuel r1 offset1
    else if r.size ≤ r.offset then
      Except.ok { reader := { r with offset := r.size }, offsetResult := r.size,
                  err := some GoError.EOF }
    else
      Except.ok { reader := { r with offsetInSector := u32 ((r.offsetInSector : Int)
                                                             + (u32 offset : Int)) },
                  offsetResult := r.offset, err := none }

/-- The method `(*StreamReader).Seek`. The loop is given `offset + 2` rounds: with a
non-zero sector size every round but the first takes a whole sector off `offset`. -/
def StreamReader.Seek {ρ : Type} (r : StreamReader ρ) (offset : Int) (whence : Int) :
    Except Fault (SeekResult (StreamReader ρ)) :=
  let r1 : StreamReader ρ :=
    if whence = 0 then { r with offsetOfSector := r.start, offsetInSector := 0, offset := offset }
    else { r with offset := i64 (r.offset + offset) }
  if r1.offsetOfSector = EOFSecID then
    Except.ok { reader := r1, offsetResult := r1.offset, err := some GoError.EOF }
  else StreamReader.seekLoop (offset.toNat + 2) r1 offset

instance {ρ : Type} [ReadSeeker ρ] : ReadSeeker (StreamReader ρ) where
  Read := StreamReader.Read
  Seek := StreamReader.Seek

/-! ## `header.go` -/

/-- Little-endian `uint16` at byte offset `off` of `b`. -/
def le16 (b : List Nat) (off : Nat) : Nat :=
  b.getD off 0 % 256 + 256 * (b.getD (off + 1) 0 % 256)

/-- Little-endian `uint32` at byte offset `off` of `b`. -/
def le32 (b : List Nat) (off : Nat) : Nat :=
  le16 b off + 65536 * le16 b (off + 2)

/-- Little-endian `int32` at byte offset `off` of `b`. -/
def le32s (b : List Nat) (off : Nat) : Int := i32 (le32 b off : Int)

/-- The struct `Header` (the blank padding fields are left out: `binary.Read`
consumes their bytes and stores nothing). -/
structure Header where
  Signature : List Nat
  Clid : List Nat
  RevisionNumber : Nat
  VersionNumber : Nat
  ByteOrder : Nat
  SizeOfSector : Nat
  SizeOfShortSector : Nat
  NumberOfSectorsSAT : Nat
  FirstSecIDDirectory : Int
  MinSizeOfStandardStream : Nat
  FirstSecIDSSAT : Int
  NumberOfSectorsSSAT : Nat
  FirstSecIDMSAT : Int
  NumberOfSectorsMSAT : Nat
  FirstPartOfMSAT : List Int
  deriving DecidableEq, Repr

/-- The zero value `new(Header)`. -/
def Header.zero : Header :=
  { Signature := [0, 0], Clid := [0, 0, 0, 0], RevisionNumber := 0, VersionNumber := 0,
    ByteOrder := 0, SizeOfSector := 0, SizeOfShortSector := 0, NumberOfSectorsSAT := 0,
    FirstSecIDDirectory := 0, MinSizeOfStandardStream := 0, FirstSecIDSSAT := 0,
    NumberOfSectorsSSAT := 0, FirstSecIDMSAT := 0, NumberOfSectorsMSAT := 0,
    FirstPartOfMSAT := List.replicate 109 0 }

/-- The call `binary.Read(buf, binary.LittleEndian, header)` on a buffer holding `bts`:
the 512 bytes of the struct are read in full or nothing is stored (the error is dropped
by the caller); the fields are then decoded at their fixed offsets. -/
def Header.decode (bts : List Nat) : Header :=
  if bts.length < 512 then Header.zero
  else
    { Signature := [le32 bts 0, le32 bts 4]
      Clid := [le32 bts 8, le32 bts 12, le32 bts 16, le32 bts 20]
      RevisionNumber := le16 bts 24
      VersionNumber := le16 bts 26
      ByteOrder := le16 bts 28
      SizeOfSector := le16 bts 30
      SizeOfShortSector := le16 bts 32
      NumberOfSectorsSAT := le32 bts 44
      FirstSecIDDirectory := le32s bts 48
      MinSizeOfStandardStream := le32 bts 56
      FirstSecIDSSAT := le32s bts 60
      NumberOfSectorsSSAT := le32 bts 64
      FirstSecIDMSAT := le32s bts 68
      NumberOfSectorsMSAT := le32 bts 72
      FirstPartOfMSAT := (List.range 109).map (fun i => le32s bts (76 + 4 * i)) }

/-- Go: `func parseHeader(bts []byte) (*Header, error)`; `none` is the `nil` header. -/
def parseHeader (bts : List Nat) : Option Header × Option GoError :=
  let header := Header.decode bts
  if header.Signature.getD 0 0 ≠ 0xE011CFD0 ∨ header.Signature.getD 1 0 ≠ 0xE11AB1A1
      ∨ header.ByteOrder ≠ 0xFFFE then
    (none, some GoError.other)
  else (some header, none)

/-! ## `dir.go` -/

/-- Directory entry type of an unused record. -/
def EMPTY : Nat := 0
/-- Directory entry type of a user storage. -/
def USERSTORAGE : Nat := 1
/-- Directory entry type of a user stream. -/
def USERSTREAM : Nat := 2
/-- Directory entry type of lock bytes. -/
def LOCKBYTES : Nat := 3
/-- Directory entry type of a property. -/
def PROPERTY : Nat := 4
/-- Directory entry type of the root storage. -/
def ROOT : Nat := 5

/-- The struct `File`, one 128-byte directory record (`Type_` is the Go field `Type`). -/
structure File where
  NameBts : List Nat
  Bsize : Nat
  Type_ : Nat
  Flag : Nat
  Left : Nat
  Right : Nat
  Child : Nat
  GUID : List Nat
  Userflags : Nat
  Time : List Nat
  Sstart : Int
  Size : Nat
  Proptype : Nat
  deriving DecidableEq, Repr

/-! ## `ole.go` -/

/-- The type `Sector` (`[]byte`). -/
abbrev Sector := List Nat

/-- Modelled from the spec: the method `Sector.AllValues` is not part of the sources at
hand; the spec has a FAT sector read as "that sector's raw bytes as an array of sector
ids", here the `size/4` little-endian 32-bit slots of the sector. -/
def Sector.AllValues (s : Sector) (size : Nat) : List Int :=
  (List.range (size / 4)).map (fun k => le32s s (4 * k))

/-- Modelled from the spec: the method `Sector.MsatValues` is not part of the sources at
hand; the spec has a DIFAT sector hold sector ids in "all but its last slot". -/
def Sector.MsatValues (s : Sector) (size : Nat) : List Int :=
  (List.range (size / 4 - 1)).map (fun k => le32s s (4 * k))

/-- Modelled from the spec: the method `Sector.NextSid` is not part of the sources at
hand; the spec has the last slot of a DIFAT sector be "the next DIFAT sector id or the
end-of-chain terminator". -/
def Sector.NextSid (s : Sector) (size : Nat) : Int := le32s s (size - 4)

/-- The struct `Ole`; `ρ` is the dynamic type behind the `io.ReadSeeker` field. -/
structure Ole (ρ : Type) where
  header : Header
  Lsector : Nat
  Lssector : Nat
  SecID : List Int
  SSecID : List Int
  Files : List File
  reader : ρ

/-- Result of `sector_read`: the container afterwards (its source has moved), the
sector (`none` is `nil`) and the error. -/
structure SectorResult (ρ : Type) where
  ole : Ole ρ
  sector : Option Sector
  err : Option GoError

/-- The method `(*Ole).sector_read_internal`. -/
def Ole.sector_read_internal {ρ : Type} [ReadSeeker ρ] (o : Ole ρ) (sid : Int) (size : Nat) :
    Except Fault (SectorResult ρ) :=
  let pos := sector_pos sid size
  match ReadSeeker.Seek o.reader pos 0 with
  | Except.error f => Except.error f
  | Except.ok sk =>
    if sk.err = none then
      match ReadSeeker.Read sk.reader (List.replicate size 0) with
      | Except.error f => Except.error f
      | Except.ok res =>
        Except.ok { ole := { o with reader := res.reader }, sector := some res.p, err := none }
    else
      Except.ok { ole := { o with reader := sk.reader }, sector := none, err := sk.err }

/-- The method `(*Ole).sector_read`. -/
def Ole.sector_read {ρ : Type} [ReadSeeker ρ] (o : Ole ρ) (sid : Int) :
    Except Fault (SectorResult ρ) :=
  o.sector_read_internal sid o.Lsector

/-- The method `(*Ole).short_sector_read`. -/
def Ole.short_sector_read {ρ : Type} [ReadSeeker ρ] (o : Ole ρ) (sid : Int) :
    Except Fault (SectorResult ρ) :=
  o.sector_read_internal sid o.Lssector

/-- Reads the sectors named by `sids` one after the other and appends all their values
to `SecID`; `j` is incremented once per id (the inner `for ... range sids` loop of
`readMSAT`, and with `j` unused the body of its first loop). -/
def Ole.appendSectors {ρ : Type} [ReadSeeker ρ] :
    List Int → Ole ρ → Nat → Except Fault (Ole ρ × Nat × Option GoError)
  | [], o, j => Except.ok (o, j, none)
  | sid :: rest, o, j =>
    match o.sector_read (i32 sid) with
    | Except.error f => Except.error f
    | Except.ok sr =>
      match sr.sector with
      | some sector =>
        if sr.err = none then
          appendSectors rest { sr.ole with SecID := sr.ole.SecID ++ Sector.AllValues sector sr.ole.Lsector }
            (u32 ((j : Int) + 1))
        else Except.ok (sr.ole, u32 ((j : Int) + 1), sr.err)
      | none => Except.ok (sr.ole, u32 ((j : Int) + 1), sr.err)

/-- The second loop of `readMSAT` (the walk along the DIFAT chain). -/
def Ole.readMSATChain {ρ : Type} [ReadSeeker ρ] :
    Nat → Ole ρ → Int → Nat → Except Fault (Ole ρ × Option GoError)
  | 0, _, _, _ => Except.error Fault.fuel
  | fuel + 1, o, sid, j =>
    if sid ≠ EOFSecID ∧ j < o.header.NumberOfSectorsSAT then
      match o.sector_read sid with
      | Except.error f => Except.error f
      | Except.ok sr =>
        match sr.sector with
        | some sector =>
          if sr.err = none then
            let sids := Sector.MsatValues sector sr.ole.Lsector
            match Ole.appendSectors sids sr.ole j with
            | Except.error f => Except.error f
            | Except.ok (o1, j1, err) =>
              if err = none then readMSATChain fuel o1 (Sector.NextSid sector o1.Lsector) j1
              else Except.ok (o1, err)
          else Except.ok (sr.ole, sr.err)
        | none => Except.ok (sr.ole, sr.err)
    else Except.ok (o, none)

/-- The method `(*Ole).readMSAT`. The chain walk is given `NumberOfSectorsSAT + 1`
rounds: every round over a sector of at least eight bytes advances `j` by at least one. -/
def Ole.readMSAT {ρ : Type} [ReadSeeker ρ] (o : Ole ρ) : Except Fault (Ole ρ × Option GoError) :=
  let first := (List.range (min 109 o.header.NumberOfSectorsSAT)).map
    (fun i => o.header.FirstPartOfMSAT.getD i 0)
  match Ole.appendSectors first o 0 with
  | Except.error f => Except.error f
  | Except.ok (o1, _, err) =>
    if err ≠ none then Except.ok (o1, err)
    else if o1.header.NumberOfSectorsSAT > 109 ∧ o1.header.NumberOfSectorsMSAT ≠ 0
        ∧ o1.header.FirstSecIDMSAT ≥ 0 then
      Ole.readMSATChain (o1.header.NumberOfSectorsSAT + 1) o1 o1.header.FirstSecIDMSAT 109
    else Except.ok (o1, none)

/-- The loop of `readSSAT`; the first argument counts the rounds still to run. -/
def Ole.readSSATLoop {ρ : Type} [ReadSeeker ρ] :
    Nat → Ole ρ → Int → Except Fault (Ole ρ × Option GoError)
  | 0, o, _ => Except.ok (o, none)
  | n + 1, o, sid =>
    if sid ≠ EOFSecID then
      match o.sector_read sid with
      | Except.error f => Except.error f
      | Except.ok sr =>
        match sr.sector with
        | some sector =>
          if sr.err = none then
            readSSATLoop n
              { sr.ole with SSecID := sr.ole.SSecID ++ Sector.MsatValues sector sr.ole.Lsector }
              (Sector.NextSid sector sr.ole.Lsector)
          else Except.ok (sr.ole, sr.err)
        | none => Except.ok (sr.ole, sr.err)
    else readSSATLoop n o sid

/-- The method `(*Ole).readSSAT`. -/
def Ole.readSSAT {ρ : Type} [ReadSeeker ρ] (o : Ole ρ) : Except Fault (Ole ρ × Option GoError) :=
  Ole.readSSATLoop o.header.NumberOfSectorsSSAT o o.header.FirstSecIDSSAT

/-- Go: `func Open(reader io.ReadSeeker, charset string) (ole *Ole, err error)`;
`none` in the first component is the `nil` container. The `charset` argument is unused
by the function. -/
def Open {ρ : Type} [ReadSeeker ρ] (reader : ρ) : Except Fault (Option (Ole ρ) × Option GoError) :=
  match ReadSeeker.Read reader (List.replicate 512 0) with
  | Except.error f => Except.error f
  | Except.ok res =>
    match parseHeader res.p with
    | (some header, none) =>
      let ole : Ole ρ :=
        { header := header, Lsector := 512, Lssector := 64, SecID := [], SSecID := [],
          Files := [], reader := res.reader }
      match ole.readMSAT with
      | Except.error f => Except.error f
      | Except.ok (ole1, err1) =>
        if err1 ≠ none then Except.ok (some ole1, err1)
        else
          match ole1.readSSAT with
          | Except.error f => Except.error f
          | Except.ok (ole2, err2) =>
            if err2 ≠ none then Except.ok (some ole2, err2)
            else Except.ok (some ole2, none)
    | (_, err) => Except.ok (none, err)

/-- The method `(*Ole).stream_read`. -/
def Ole.stream_read {ρ : Type} (o : Ole ρ) (sid : Int) (size : Nat) : StreamReader ρ :=
  { sat := o.SecID, start := sid, reader := o.reader, offsetOfSector := sid,
    offsetInSector := 0, sizeSector := o.Lsector, size := (size : Int), offset := 0,
    sectorPos := sector_pos }

/-- The method `(*Ole).short_stream_read`. -/
def Ole.short_stream_read {ρ : Type} (o : Ole ρ) (sid : Int) (size : Nat) (startSecId : Int) :
    StreamReader (StreamReader ρ) :=
  let ssatReader : StreamReader ρ :=
    { sat := o.SecID, start := startSecId, reader := o.reader, offsetOfSector := sid,
      offsetInSector := 0, sizeSector := o.Lsector,
      size := (u32 (((u32 (o.SSecID.length : Int) : Nat) : Int) * (o.Lssector : Int)) : Int),
      offset := 0, sectorPos := sector_pos }
  { sat := o.SSecID, start := sid, reader := ssatReader, offsetOfSector := sid,
    offsetInSector := 0, sizeSector := o.Lssector, size := (size : Int), offset := 0,
    sectorPos := short_sector_pos }

/-- The method `(*Ole).OpenFile`: the returned `io.ReadSeeker` is either a reader over
the mini-FAT (left) or a reader over the FAT (right). -/
def Ole.OpenFile {ρ : Type} (o : Ole ρ) (file : File) (root : File) :
    StreamReader (StreamReader ρ) ⊕ StreamReader ρ :=
  if file.Size < o.header.MinSizeOfStandardStream then
    Sum.inl (o.short_stream_read file.Sstart file.Size root.Sstart)
  else
    Sum.inr (o.stream_read file.Sstart file.Size)

/-! ## Observations used in the statements -/

/-- What a caller sees of a `Read`: the count `n`, the error and the bytes `p[0:n]`
(or the fault that ended the call). -/
def observe {ρ : Type} (x : Except Fault (ReadResult ρ)) :
    Except Fault (Int × Option GoError × List Nat) :=
  match x with
  | Except.error f => Except.error f
  | Except.ok res => Except.ok (res.n, res.err, res.p.take res.n.toNat)

/-- A caller issuing successive `Read` calls on one reader, one call per buffer of the
list; the answer lists what each call returned (count, error, bytes `p[0:n]`). -/
def readMany {ρ : Type} [ReadSeeker ρ] :
    StreamReader ρ → List (List Nat) → Except Fault (List (Int × Option GoError × List Nat))
  | _, [] => Except.ok []
  | r, p :: ps =>
    match r.Read p with
    | Except.error f => Except.error f
    | Except.ok res =>
      match readMany res.reader ps with
      | Except.error f => Except.error f
      | Except.ok outs => Except.ok ((res.n, res.err, res.p.take res.n.toNat) :: outs)

/-- The 512-byte payload of sector `sid` in the source bytes `src`: the bytes at
offsets `512 + 512*sid .. 512 + 512*sid + 512`. -/
def sectorBytes (src : List Nat) (sid : Int) : List Nat :=
  (src.drop (512 + 512 * sid).toNat).take 512

/-- The magic signature `D0 CF 11 E0 A1 B1 1A E1` of a compound file. -/
def magicSignature : List Nat := [0xD0, 0xCF, 0x11, 0xE0, 0xA1, 0xB1, 0x1A, 0xE1]

/-- The byte-order marker `FE FF` found at offset 28 of a compound file. -/
def byteOrderMarker : List Nat := [0xFE, 0xFF]

/-- The fields of a container that reading sectors leaves alone. -/
def Ole.sameGeometry {ρ : Type} (o o1 : Ole ρ) : Prop :=
  o1.Lsector = o.Lsector ∧ o1.Lssector = o.Lssector ∧ o1.header = o.header

/-- A 512-byte header with the signature, the byte-order marker, threshold 4096 and no
FAT or mini-FAT sectors. -/
def emptyContainerBytes : List Nat :=
  [0xD0, 0xCF, 0x11, 0xE0, 0xA1, 0xB1, 0x1A, 0xE1] ++ List.replicate 20 0 ++ [0xFE, 0xFF]
    ++ [9, 0, 6, 0] ++ List.replicate 22 0 ++ [0x00, 0x10, 0x00, 0x00] ++ List.replicate 452 0

/-- The container that `Open` builds from `emptyContainerBytes`. -/
def emptyContainer : Ole BytesReader :=
  { header := Header.decode emptyContainerBytes, Lsector := 512, Lssector := 64, SecID := [],
    SSecID := [], Files := [], reader := BytesReader.mk emptyContainerBytes 512 }

/-- What a caller sees of a `Seek`: the returned offset and error (or the fault). -/
def observeSeek {ρ : Type} (x : Except Fault (SeekResult ρ)) :
    Except Fault (Int × Option GoError) :=
  match x with
  | Except.error f => Except.error f
  | Except.ok sk => Except.ok (sk.offsetResult, sk.err)

/-- A caller issuing `Seek(offset, whence)` and then `Read(p)` on the same reader: what
the `Read` returned. -/
def seekThenRead {ρ : Type} [ReadSeeker ρ] (r : StreamReader ρ) (offset whence : Int)
    (p : List Nat) : Except Fault (Int × Option GoError × List Nat) :=
  match r.Seek offset whence with
  | Except.error f => Except.error f
  | Except.ok sk => observe (sk.reader.Read p)

/-- A container as `Open` leaves it (sector size 512, mini-sector size 64) with the given
FAT and mini-FAT over the in-memory source `src`. -/
def containerOf (SecID SSecID : List Int) (src : List Nat) : Ole BytesReader :=
  { header := Header.zero, Lsector := 512, Lssector := 64, SecID := SecID, SSecID := SSecID,
    Files := [], reader := BytesReader.mk src 512 }

/-- A source of `n` sectors after the 512-byte header; every byte of the header is 255
and every byte of sector `k` is `k`. -/
def numberedSource (n : Nat) : List Nat :=
  List.replicate 512 255 ++ ((List.range n).map (fun k => List.replicate 512 k)).flatten

/-- Equality of Go call outcomes is decidable when it is for faults and results. -/
instance instDecidableEqExcept {ε α : Type} [DecidableEq ε] [DecidableEq α] :
    DecidableEq (Except ε α)
  | Except.ok a, Except.ok b =>
    if h : a = b then isTrue (by rw [h]) else isFalse (by intro h1; cases h1; exact h rfl)
  | Except.error a, Except.error b =>
    if h : a = b then isTrue (by rw [h]) else isFalse (by intro h1; cases h1; exact h rfl)
  | Except.ok _, Except.error _ => isFalse (by intro h; cases h)
  | Except.error _, Except.ok _ => isFalse (by intro h; cases h)

/-- Bytes that a read of `R` bytes delivers along the sectors `ss` when a read of `c`
bytes at the start of sector `s` delivers `D s c` and a sector holds `S` bytes: whole
sectors first, then the first bytes of the sector where the read ends. -/
def chainBytes (D : Int → Nat → List Nat) (S : Nat) : List Int → Nat → List Nat
  | [], _ => []
  | s :: rest, R => if R ≤ S then D s R else D s S ++ chainBytes D S rest (R - S)

/-- A container over a source of 2^31 + 512 bytes (first byte 1, all others 0) whose table
has 4194304 entries, so that sector 4194303 (at source offset 2^31) is in range; its
mini-FAT has the one entry end-of-chain. -/
def farContainer : Ole BytesReader :=
  { header := Header.zero, Lsector := 512, Lssector := 64,
    SecID := List.replicate 4194304 EOFSecID, SSecID := [EOFSecID], Files := [],
    reader := BytesReader.mk (1 :: List.replicate 2147484159 0) 0 }

/-- A reader whose `Read` keeps the length of the buffer and returns a count between 0
and that length. -/
def BoundedRead (ρ : Type) [ReadSeeker ρ] : Prop :=
  ∀ (rd : ρ) (b : List Nat) (res : ReadResult ρ), ReadSeeker.Read rd b = Except.ok res →
    0 ≤ res.n ∧ res.n ≤ (b.length : Int) ∧ res.p.length = b.length

/-! ## `encoding/binary` and `io.ReadFull` as used by `header.go` and `ListDir` -/

/-- Little-endian `uint64` at byte offset `off` of `b`. -/
def le64 (b : List Nat) (off : Nat) : Nat :=
  le32 b off + 4294967296 * le32 b (off + 4)

/-- The struct `decoder` of `encoding/binary`: the buffer and the offset of the next field;
the byte order is `binary.LittleEndian` throughout the package. -/
structure decoder where
  buf : List Nat
  offset : Nat

/-- The method `(*decoder).uint16`. -/
def decoder.uint16 (d : decoder) : Nat × decoder :=
  (le16 d.buf d.offset, { d with offset := d.offset + 2 })

/-- The method `(*decoder).uint32`. -/
def decoder.uint32 (d : decoder) : Nat × decoder :=
  (le32 d.buf d.offset, { d with offset := d.offset + 4 })

/-- The method `(*decoder).int32`. -/
def decoder.int32 (d : decoder) : Int × decoder :=
  (le32s d.buf d.offset, { d with offset := d.offset + 4 })

/-- The method `(*decoder).skip` for a blank field of `n` bytes. -/
def decoder.skip (d : decoder) (n : Nat) : decoder :=
  { d with offset := d.offset + n }

/-- The method `(*decoder).value` on an array of `n` `uint32`. -/
def decoder.uint32s : Nat → decoder → List Nat × decoder
  | 0, d => ([], d)
  | n + 1, d =>
    let (x, d1) := d.uint32
    let (xs, d2) := decoder.uint32s n d1
    (x :: xs, d2)

/-- The method `(*decoder).value` on an array of `n` `int32`. -/
def decoder.int32s : Nat → decoder → List Int × decoder
  | 0, d => ([], d)
  | n + 1, d =>
    let (x, d1) := d.int32
    let (xs, d2) := decoder.int32s n d1
    (x :: xs, d2)

/-- The method `(*decoder).value` on the struct `Header`: the fields in the order of their
declaration, the blank fields (`uint16`, `uint64`, `uint32`) skipped. -/
def Header.value (d : decoder) : Header × decoder :=
  let (signature, d) := decoder.uint32s 2 d
  let (clid, d) := decoder.uint32s 4 d
  let (revisionNumber, d) := d.uint16
  let (versionNumber, d) := d.uint16
  let (byteOrder, d) := d.uint16
  let (sizeOfSector, d) := d.uint16
  let (sizeOfShortSector, d) := d.uint16
  let d := d.skip 2
  let d := d.skip 8
  let (numberOfSectorsSAT, d) := d.uint32
  let (firstSecIDDirectory, d) := d.int32
  let d := d.skip 4
  let (minSizeOfStandardStream, d) := d.uint32
  let (firstSecIDSSAT, d) := d.int32
  let (numberOfSectorsSSAT, d) := d.uint32
  let (firstSecIDMSAT, d) := d.int32
  let (numberOfSectorsMSAT, d) := d.uint32
  let (firstPartOfMSAT, d) := decoder.int32s 109 d
  ({ Signature := signature, Clid := clid, RevisionNumber := revisionNumber,
     VersionNumber := versionNumber, ByteOrder := byteOrder, SizeOfSector := sizeOfSector,
     SizeOfShortSector := sizeOfShortSector, NumberOfSectorsSAT := numberOfSectorsSAT,
     FirstSecIDDirectory := firstSecIDDirectory,
     MinSizeOfStandardStream := minSizeOfStandardStream, FirstSecIDSSAT := firstSecIDSSAT,
     NumberOfSectorsSSAT := numberOfSectorsSSAT, FirstSecIDMSAT := firstSecIDMSAT,
     NumberOfSectorsMSAT := numberOfSectorsMSAT, FirstPartOfMSAT := firstPartOfMSAT }, d)

/-- The zero value `new(File)`. -/
def File.zero : File :=
  { NameBts := List.replicate 32 0, Bsize := 0, Type_ := 0, Flag := 0, Left := 0, Right := 0,
    Child := 0, GUID := List.replicate 8 0, Userflags := 0, Time := [0, 0], Sstart := 0,
    Size := 0, Proptype := 0 }

/-- The fields of a `File` decoded from its 128 bytes, each at its offset in the struct
(`binary.Read` with `binary.LittleEndian`). -/
def File.decode (b : List Nat) : File :=
  { NameBts := (List.range 32).map (fun i => le16 b (2 * i))
    Bsize := le16 b 64
    Type_ := b.getD 66 0 % 256
    Flag := b.getD 67 0 % 256
    Left := le32 b 68
    Right := le32 b 72
    Child := le32 b 76
    GUID := (List.range 8).map (fun i => le16 b (80 + 2 * i))
    Userflags := le32 b 96
    Time := [le64 b 100, le64 b 108]
    Sstart := le32s b 116
    Size := le32 b 120
    Proptype := le32 b 124 }

/-- The end of `io.ReadAtLeast`: with `n >= min` the error is dropped, and an `io.EOF`
after some bytes becomes `io.ErrUnexpectedEOF` (here `GoError.other`). -/
def ReadAtLeastResult {ρ : Type} (r : ρ) (buf : List Nat) (min n : Int)
    (err : Option GoError) : ReadResult ρ :=
  { reader := r, p := buf, n := n,
    err := if n ≥ min then none
           else if n > 0 ∧ err = some GoError.EOF then some GoError.other else err }

/-- The loop `for n < min && err == nil` of `io.ReadAtLeast`; a round starts with
`err == nil`. -/
def ReadAtLeastLoop {ρ : Type} [ReadSeeker ρ] :
    Nat → ρ → List Nat → Int → Int → Except Fault (ReadResult ρ)
  | 0, _, _, _, _ => Except.error Fault.fuel
  | fuel + 1, r, buf, min, n =>
    if n < min then
      if n < 0 then Except.error Fault.sliceBounds
      else
        match slice buf n.toNat buf.length with
        | none => Except.error Fault.sliceBounds
        | some chunk =>
          match ReadSeeker.Read r chunk with
          | Except.error f => Except.error f
          | Except.ok res =>
            let buf1 := splice buf n.toNat res.p
            let n1 := i64 (n + res.n)
            if res.err = none then ReadAtLeastLoop fuel res.reader buf1 min n1
            else Except.ok (ReadAtLeastResult res.reader buf1 min n1 res.err)
    else Except.ok (ReadAtLeastResult r buf min n none)

/-- Go: `io.ReadAtLeast(r, buf, min)`; `io.ErrShortBuffer` is `GoError.other`. The loop
is given `min + 1` rounds: a round that returns no error and at least one byte brings
`n` closer to `min`. -/
def ReadAtLeast {ρ : Type} [ReadSeeker ρ] (r : ρ) (buf : List Nat) (min : Int) :
    Except Fault (ReadResult ρ) :=
  if (buf.length : Int) < min then
    Except.ok { reader := r, p := buf, n := 0, err := some GoError.other }
  else ReadAtLeastLoop (min.toNat + 1) r buf min 0

/-- Go: `io.ReadFull(r, buf)`. -/
def ReadFull {ρ : Type} [ReadSeeker ρ] (r : ρ) (buf : List Nat) : Except Fault (ReadResult ρ) :=
  ReadAtLeast r buf (buf.length : Int)

/-- The call `binary.Read(sector, binary.LittleEndian, d)` with `d = new(File)`: the 128
bytes of the struct are read with `io.ReadFull`; on an error `d` keeps its zero value. -/
def binaryReadFile {ρ : Type} [ReadSeeker ρ] (sector : ρ) :
    Except Fault (ρ × File × Option GoError) :=
  match ReadFull sector (List.replicate 128 0) with
  | Except.error f => Except.error f
  | Except.ok res =>
    if res.err ≠ none then Except.ok (res.reader, File.zero, res.err)
    else Except.ok (res.reader, File.decode res.p, none)

/-- The `for` loop of `ListDir` (lines 55-63); the first argument bounds the number of
rounds, the Go loop has no bound. -/
def ListDirLoop {ρ : Type} [ReadSeeker ρ] :
    Nat → StreamReader ρ → List File → Except Fault (List File × Option GoError)
  | 0, _, _ => Except.error Fault.fuel
  | fuel + 1, sector, dir =>
    match binaryReadFile sector with
    | Except.error f => Except.error f
    | Except.ok (sector1, d, err) =>
      if err = none ∧ d.Type_ ≠ EMPTY then ListDirLoop fuel sector1 (dir ++ [d])
      else Except.ok (dir, err)

/-- The method `(*Ole).ListDir`, its loop given `fuel` rounds. The slice `dir` comes from
`make([]*File, 0)` and is never `nil`, so the test `dir != nil` always holds. -/
def Ole.ListDir {ρ : Type} [ReadSeeker ρ] (o : Ole ρ) (fuel : Nat) :
    Except Fault (List File × Option GoError) :=
  match ListDirLoop fuel (o.stream_read o.header.FirstSecIDDirectory 0) [] with
  | Except.error f => Except.error f
  | Except.ok (dir, err) =>
    if err = some GoError.EOF then Except.ok (dir, none) else Except.ok (dir, err)

/-- The four bytes of the little-endian 32-bit encoding of `x`. -/
def put32 (x : Int) : List Nat :=
  [u32 x % 256, u32 x / 256 % 256, u32 x / 65536 % 256, u32 x / 16777216 % 256]

/-- A 512-byte header image: signature, byte-order marker, sector-size exponent `e`,
mini-sector exponent 6, threshold 4096, the given counts and start ids, and the bootstrap
ids `boot` followed by free ids (-1). -/
def headerImage (e nSAT : Nat) (dirStart ssatStart : Int) (nSSAT : Nat) (msatStart : Int)
    (nMSAT : Nat) (boot : List Int) : List Nat :=
  magicSignature ++ List.replicate 20 0 ++ byteOrderMarker ++ [e % 256, e / 256 % 256, 6, 0]
    ++ List.replicate 10 0 ++ put32 nSAT ++ put32 dirStart ++ [0, 0, 0, 0] ++ put32 4096
    ++ put32 ssatStart ++ put32 nSSAT ++ put32 msatStart ++ put32 nMSAT
    ++ ((boot.take 109).map put32).flatten ++ List.replicate (4 * (109 - boot.length)) 255

/-- A 128-byte directory record whose type byte (offset 66) is `t`, all other bytes 0. -/
def recordOf (t : Nat) : List Nat :=
  List.replicate 66 0 ++ [t] ++ List.replicate 61 0

/-- The buffer `bts` of `sector_read_internal` after `o.reader.Read(bts)` on an in-memory
source `src` positioned at `pos`: the bytes of the source from `pos` on, as far as they
exist, and the zeros of the fresh buffer after them. -/
def sectorImage (src : List Nat) (pos : Int) (size : Nat) : List Nat :=
  (src.drop pos.toNat).take size
    ++ List.replicate (size - ((src.drop pos.toNat).take size).length) 0

/-- The table entries that `readMSAT` appends for the FAT sector id `sid` read from the
in-memory source `src` with 512-byte sectors. -/
def fatOf (src : List Nat) (sid : Int) : List Int :=
  Sector.AllValues (sectorImage src (sector_pos (i32 sid) 512) 512) 512

/-- The FAT sector ids held by the DIFAT sector `d` of the source `src`. -/
def msatIds (src : List Nat) (d : Int) : List Int :=
  Sector.MsatValues (sectorImage src (sector_pos d 512) 512) 512

/-- The id of the DIFAT sector that follows the DIFAT sector `d` of the source `src`. -/
def nextOf (src : List Nat) (d : Int) : Int :=
  Sector.NextSid (sectorImage src (sector_pos d 512) 512) 512

/-- The first `n` little-endian 32-bit slots of `b`, decoded in one pass over `b`; bytes
past the end of `b` read as 0. The theorems `AllValues_run` and `MsatValues_run` show that
`Sector.AllValues` and `Sector.MsatValues` of a 512-byte sector are such runs. -/
def le32sRun : List Nat → Nat → List Int
  | _, 0 => []
  | a :: b :: c :: d :: rest, n + 1 => le32s [a, b, c, d] 0 :: le32sRun rest n
  | short, n + 1 => le32s short 0 :: le32sRun [] n

/-- The DIFAT sectors `ds` are those that the walk visits when it starts at the id `sid`
with the counter at `j` and `n` FAT sectors are declared: each is not the end-of-chain id,
is reached with `j < n`, can be positioned at (its position and those of the ids in its
slots are not negative) and is followed by the id in its last slot; the walk ends at the
end-of-chain id or with `n <= j`. -/
def DifatWalk (src : List Nat) (n : Nat) : Int → Nat → List Int → Prop
  | sid, j, [] => sid = EOFSecID ∨ n ≤ j
  | sid, j, d :: rest =>
    sid = d ∧ d ≠ EOFSecID ∧ j < n ∧ 0 ≤ sector_pos d 512
      ∧ (∀ id ∈ msatIds src d, 0 ≤ sector_pos (i32 id) 512)
      ∧ DifatWalk src n (nextOf src d) (j + 127) rest

/-- The table entries contributed by the DIFAT sectors `ds`: for each of them in turn and
for each of its slots but the last, in slot order, the entries of the FAT sector named. -/
def difatTable (src : List Nat) (ds : List Int) : List Int :=
  (ds.map (fun d => ((msatIds src d).map (fatOf src)).flatten)).flatten

/-- Whether a list of DIFAT sectors is the walk of `DifatWalk` can be computed. -/
instance instDecidableDifatWalk (src : List Nat) (n : Nat) :
    ∀ (sid : Int) (j : Nat) (ds : List Int), Decidable (DifatWalk src n sid j ds)
  | sid, j, [] => by unfold DifatWalk; exact inferInstance
  | sid, j, d :: rest => by
    unfold DifatWalk
    have := instDecidableDifatWalk src n (nextOf src d) (j + 127) rest
    exact inferInstance

/-- The container that `Open` sets up over an in-memory source `src` of at least 512
bytes once the header is accepted and before the tables are read. -/
def opened (src : List Nat) : Ole BytesReader :=
  { header := Header.decode (src.take 512), Lsector := 512, Lssector := 64, SecID := [],
    SSecID := [], Files := [], reader := BytesReader.mk src 512 }

/-- A 512-byte FAT sector: entry 0 is the FAT marker -3, entry 1 the end-of-chain id, all
other entries are free (-1). -/
def fatSectorImage : List Nat :=
  put32 SATSecID ++ put32 EOFSecID ++ List.replicate 504 255

/-- A 512-byte DIFAT sector: slot 0 names FAT sector 0, the other slots are free (-1), the
last slot is the end-of-chain id. -/
def difatSectorImage : List Nat :=
  put32 0 ++ List.replicate 504 255 ++ put32 EOFSecID

/-- A source with 110 FAT sectors declared, all 109 bootstrap ids naming sector 0 (a FAT
sector), the directory at sector 1, and the DIFAT chain starting at sector 2 (a DIFAT
sector); the header declares `nMSAT` DIFAT sectors. -/
def difatSource (nMSAT : Nat) : List Nat :=
  headerImage 9 110 1 EOFSecID 0 2 nMSAT (List.replicate 109 0) ++ fatSectorImage
    ++ List.replicate 512 0 ++ difatSectorImage

/-- The four directory records held by sector `s` of the source `src`: record `j` is
decoded from the 128 bytes at source offset `512 + 512*s + 128*j`. -/
def recordsOf (src : List Nat) (s : Int) : List File :=
  (List.range 4).map
    (fun (j : Nat) =>
      File.decode ((src.drop (512 + 512 * s + ((128 * j : Nat) : Int)).toNat).take 128))

/-- The directory records of the sectors `ss`, in the order of the chain. -/
def dirRecords (src : List Nat) (ss : List Int) : List File :=
  (ss.map (recordsOf src)).flatten

/-- The directory chain that starts at sector `s` and goes on with the sectors `rest` in
the table `sat` over the source `src`: every sector is held by the source below offset
2^31, each is linked to the next by the table, a sector that has a successor does not end
the source, and the table has the end-of-chain id for the last one. -/
def DirChain (sat : List Int) (src : List Nat) : Int → List Int → Prop
  | s, [] =>
    0 ≤ s ∧ 512 + 512 * s + 512 ≤ (src.length : Int) ∧ 512 + 512 * s + 512 < 2147483648
      ∧ index sat s = some EOFSecID
  | s, s1 :: rest =>
    0 ≤ s ∧ 512 + 512 * s + 512 < (src.length : Int) ∧ 512 + 512 * s + 512 < 2147483648
      ∧ index sat s = some s1 ∧ DirChain sat src s1 rest

/-- Whether a list of sectors is a directory chain can be computed. -/
instance instDecidableDirChain (sat : List Int) (src : List Nat) :
    ∀ (s : Int) (rest : List Int), Decidable (DirChain sat src s rest)
  | s, [] => by unfold DirChain; exact inferInstance
  | s, s1 :: rest => by
    unfold DirChain
    have := instDecidableDirChain sat src s1 rest
    exact inferInstance

/-- The state of a stream reader over the table `sat` and the in-memory source `src`, with
512-byte sectors, whose cursor stands `a` bytes into sector `s`. -/
def DirCursor (sat : List Int) (src : List Nat) (r : StreamReader BytesReader) (s : Int)
    (a : Nat) : Prop :=
  r.sat = sat ∧ r.sizeSector = 512 ∧ r.sectorPos = sector_pos ∧ r.reader.s = src
    ∧ r.offsetOfSector = s ∧ r.offsetInSector = a

/-- A source whose sector 0 holds four directory records of the types root, storage,
stream, stream, followed by one more byte. -/
def cyclicDirSource : List Nat :=
  List.replicate 512 255 ++ recordOf ROOT ++ recordOf USERSTORAGE ++ recordOf USERSTREAM
    ++ recordOf USERSTREAM ++ [0]

/-- A source whose sector 0 holds directory records of the types root, stream, unused,
stream, and whose sector 1 holds records of the types storage, unused, unused, unused. -/
def gapDirSource : List Nat :=
  List.replicate 512 255 ++ recordOf ROOT ++ recordOf USERSTREAM ++ recordOf EMPTY
    ++ recordOf USERSTREAM ++ recordOf USERSTORAGE ++ recordOf EMPTY ++ recordOf EMPTY
    ++ recordOf EMPTY

/-- A source whose sectors 0 and 1 hold eight directory records of the types root,
stream, stream, storage, stream, stream, unused, unused. -/
def twoSectorDirSource : List Nat :=
  List.replicate 512 255 ++ recordOf ROOT ++ recordOf USERSTREAM ++ recordOf USERSTREAM
    ++ recordOf USERSTORAGE ++ recordOf USERSTREAM ++ recordOf USERSTREAM ++ recordOf EMPTY
    ++ recordOf EMPTY

/-- A source whose sectors 0 and 1 hold eight directory records of used types (root,
storage, six streams), followed by one more byte. -/
def fullDirSource : List Nat :=
  List.replicate 512 255 ++ recordOf ROOT ++ recordOf USERSTORAGE ++ recordOf USERSTREAM
    ++ recordOf USERSTREAM ++ recordOf USERSTREAM ++ recordOf USERSTREAM
    ++ recordOf USERSTREAM ++ recordOf USERSTREAM ++ [0]

/-! ## `dir.go`: `File.Name` -/

/-- Conversion to `uint16`: the value modulo 2^16. -/
def u16 (x : Int) : Nat := (x % 65536).toNat

/-- Go: `utf16.Decode(s []uint16) []rune` of the standard library: a code unit outside the
surrogate range is a rune, a high surrogate followed by a low surrogate is the rune
`((r1 - 0xd800) << 10 | (r2 - 0xdc00)) + 0x10000`, any other surrogate is U+FFFD. -/
def utf16Decode : List Nat → List Nat
  | [] => []
  | [r] => if r < 0xd800 ∨ 0xe000 ≤ r then [r] else [0xFFFD]
  | r :: r2 :: rest =>
    if r < 0xd800 ∨ 0xe000 ≤ r then r :: utf16Decode (r2 :: rest)
    else if 0xd800 ≤ r ∧ r < 0xdc00 ∧ 0xdc00 ≤ r2 ∧ r2 < 0xe000 then
      ((r - 0xd800) * 1024 + (r2 - 0xdc00) + 0x10000) :: utf16Decode rest
    else 0xFFFD :: utf16Decode (r2 :: rest)

/-- The method `(*File).Name`; the string is given by its code points (`string(runes)`),
the empty string by the empty list. The test is made in `int`, the slice bound
`d.Bsize/2-1` is computed in `uint16`. -/
def File.Name (d : File) : Except Fault (List Nat) :=
  if (d.Bsize : Int) / 2 - 1 > (d.NameBts.length : Int) ∨ (d.Bsize : Int) / 2 - 1 < 0 then
    Except.ok []
  else
    match slice d.NameBts 0 (u16 (((d.Bsize / 2 : Nat) : Int) - 1)) with
    | none => Except.error Fault.sliceBounds
    | some units => Except.ok (utf16Decode units)

/-! ## `Picture.go`: `writeOutput` -/

/-- Result of `Write(p)`: the writer afterwards, the returned count and the returned error. -/
structure WriteResult (ω : Type) where
  writer : ω
  n : Int
  err : Option GoError

/-- The Go interface `io.Writer`. -/
class Writer (ω : Type) where
  Write : ω → List Nat → WriteResult ω

/-- The writer and the two counters `*alreadyWritten` and `*size` that successive calls of
`writeOutput` share. -/
structure OutputState (ω : Type) where
  writer : ω
  alreadyWritten : Int
  size : Int

/-- Go: `func writeOutput(writer io.Writer, output []byte, alreadyWritten *int64,
size *int64) (err error)`; the slice expression `output[:*size]` panics for a negative
`*size`. -/
def writeOutput {ω : Type} [Writer ω] (st : OutputState ω) (output : List Nat) :
    Except Fault (OutputState ω × Option GoError) :=
  let clipped : Except Fault (List Nat) :=
    if (output.length : Int) > st.size then
      if st.size < 0 then Except.error Fault.sliceBounds
      else
        match slice output 0 st.size.toNat with
        | none => Except.error Fault.sliceBounds
        | some o => Except.ok o
    else Except.ok output
  match clipped with
  | Except.error f => Except.error f
  | Except.ok out =>
    let size1 := i64 (st.size - (out.length : Int))
    let res := Writer.Write st.writer out
    Except.ok ({ writer := res.writer,
                 alreadyWritten := i64 (st.alreadyWritten + i64 res.n),
                 size := size1 }, res.err)

/-- A caller issuing successive `writeOutput` calls that share the writer and the two
counters, one call per output of the list; the answer lists the errors returned. -/
def writeOutputs {ω : Type} [Writer ω] :
    OutputState ω → List (List Nat) → Except Fault (OutputState ω × List (Option GoError))
  | st, [] => Except.ok (st, [])
  | st, output :: rest =>
    match writeOutput st output with
    | Except.error f => Except.error f
    | Except.ok (st1, err) =>
      match writeOutputs st1 rest with
      | Except.error f => Except.error f
      | Except.ok (st2, errs) => Except.ok (st2, err :: errs)

/-- The byte slices that a sequence of outputs offers under the limit `size`: of each
output its first `min(len(output), size)` bytes, the limit going down by that number. -/
def offers : Int → List (List Nat) → List (List Nat)
  | _, [] => []
  | size, output :: rest =>
    output.take (min output.length size.toNat)
      :: offers (size - (min output.length size.toNat : Nat)) rest

/-- A caller handing the byte slices `chunks` to the writer one `Write` after the other,
adding the returned counts to `alreadyWritten` (in `int64`) and listing the errors. -/
def feed {ω : Type} [Writer ω] : ω → Int → List (List Nat) → ω × Int × List (Option GoError)
  | w, written, [] => (w, written, [])
  | w, written, chunk :: rest =>
    let res := Writer.Write w chunk
    let r := feed res.writer (i64 (written + i64 res.n)) rest
    (r.1, r.2.1, res.err :: r.2.2)

/-- A writer that keeps what it is offered and accepts every byte. -/
structure Recorder where
  log : List (List Nat)

instance : Writer Recorder where
  Write w p := { writer := { log := w.log ++ [p] }, n := (p.length : Int), err := none }

/-! ## `Decompress.go`: `fromLZ77` -/

/-- The Go assignment `buffer[pos] = v` on the array `buffer`: an index outside the array
is the index-out-of-range panic. -/
def setAt (buffer : List Nat) (pos : Int) (v : Nat) : Except Fault (List Nat) :=
  if 0 ≤ pos ∧ pos < (buffer.length : Int) then Except.ok (buffer.set pos.toNat v)
  else Except.error Fault.indexOutOfRange

/-- The method `(*bytes.Reader).ReadByte` on the bytes still to read: the next byte, or 0
and `io.EOF` at the end. -/
def ReadByte (text : List Nat) : Nat × Option GoError × List Nat :=
  match text with
  | [] => (0, some GoError.EOF, [])
  | c :: rest => (c, none, rest)

/-- The loop of the case `0x01..0x08` of `fromLZ77`: `length` bytes are read and stored,
the byte 0 once the input is used up. -/
def literalRun : Nat → List Nat → List Nat → Int → Except Fault (List Nat × List Nat × Int)
  | 0, text, buffer, pos => Except.ok (text, buffer, pos)
  | n + 1, text, buffer, pos =>
    match setAt buffer pos (ReadByte text).1 with
    | Except.error f => Except.error f
    | Except.ok buffer1 => literalRun n (ReadByte text).2.2 buffer1 (pos + 1)

/-- The loop of the case `0x80..0xbf` of `fromLZ77`; `i` counts up from `length - n`.
The left component of the answer is the early `return buffer[:pos]`. -/
def copyRun : Nat → Int → List Nat → Int → Except Fault (List Nat ⊕ (List Nat × Int))
  | 0, _, buffer, pos => Except.ok (Sum.inr (buffer, pos))
  | n + 1, from_, buffer, pos =>
    if from_ ≥ (buffer.length : Int) ∨ from_ < 0 then
      Except.ok (Sum.inl (buffer.take pos.toNat))
    else
      match setAt buffer pos (buffer.getD from_.toNat 0) with
      | Except.error f => Except.error f
      | Except.ok buffer1 => copyRun n (from_ + 1) buffer1 (pos + 1)

/-- The `for` loop of `fromLZ77`; every round but the last reads at least one byte, and
the first argument bounds the rounds. -/
def fromLZ77Loop : Nat → List Nat → List Nat → Int → Except Fault (List Nat)
  | 0, _, _, _ => Except.error Fault.fuel
  | fuel + 1, text, buffer, pos =>
    if pos = 4096 then Except.ok (buffer.take pos.toNat)
    else
      match text with
      | [] => Except.ok (buffer.take pos.toNat)
      | c :: rest =>
        if c = 0x00 ∨ (0x09 ≤ c ∧ c ≤ 0x7f) then
          match setAt buffer pos c with
          | Except.error f => Except.error f
          | Except.ok buffer1 => fromLZ77Loop fuel rest buffer1 (pos + 1)
        else if 0x01 ≤ c ∧ c ≤ 0x08 then
          match literalRun c rest buffer pos with
          | Except.error f => Except.error f
          | Except.ok (rest1, buffer1, pos1) => fromLZ77Loop fuel rest1 buffer1 pos1
        else if 0x80 ≤ c ∧ c ≤ 0xbf then
          let c2 := (ReadByte rest).1
          let distance : Nat := (((c &&& 0x3F) <<< 8) ||| c2) >>> 3
          let length : Nat := (c2 &&& 0x07) + 3
          let start : Int := pos - (distance : Int)
          match copyRun length start buffer pos with
          | Except.error f => Except.error f
          | Except.ok (Sum.inl out) => Except.ok out
          | Except.ok (Sum.inr (buffer1, pos1)) =>
            fromLZ77Loop fuel (ReadByte rest).2.2 buffer1 pos1
        else
          match setAt buffer pos 0x20 with
          | Except.error f => Except.error f
          | Except.ok buffer1 =>
            match setAt buffer1 (pos + 1) (c ^^^ 0x80) with
            | Except.error f => Except.error f
            | Except.ok buffer2 => fromLZ77Loop fuel rest buffer2 (pos + 1 + 1)

/-- Go: `func fromLZ77(text []byte) []byte`; the buffer is `var buffer [4096]byte`. -/
def fromLZ77 (text : List Nat) : Except Fault (List Nat) :=
  fromLZ77Loop (text.length + 1) text (List.replicate 4096 0) 0

/-! ## Further fixtures and specification-side definitions for `ole2` -/

/-- A directory entry with the name `Root` (4 code units, stored with `Bsize = 10`). -/
def rootEntry : File :=
  { File.zero with NameBts := [82, 111, 111, 116] ++ List.replicate 28 0, Bsize := 10 }

/-- The sectors that `readSSAT` reads from the source `src` in at most `n` rounds that
start at the id `sid`: a round at the end-of-chain id reads nothing and leaves the id as
it is, any other round reads the sector and goes on with the id in its last slot. -/
def ssatSectors (src : List Nat) : Nat → Int → List Int
  | 0, _ => []
  | n + 1, sid => if sid = EOFSecID then [] else sid :: ssatSectors src n (nextOf src sid)

/-- A source that declares two mini-FAT sectors from sector 1 on. Sector 0 is the FAT:
entry 0 is the FAT marker, `SecID[1] = 2` and `SecID[2]` is the end-of-chain id. Every
slot of sector 1 is the end-of-chain id, every slot of sector 2 is 0. -/
def ssatSource : List Nat :=
  headerImage 9 1 EOFSecID 1 2 EOFSecID 0 [0]
    ++ (put32 SATSecID ++ put32 2 ++ put32 EOFSecID ++ List.replicate 500 255)
    ++ (List.replicate 128 (put32 EOFSecID)).flatten
    ++ List.replicate 512 0

/-- The two bytes of the little-endian 16-bit encoding of `x`. -/
def put16 (x : Nat) : List Nat := [x % 256, x / 256 % 256]

/-- The re-encoding of a header that the round trip of the specification speaks of (the
package has no encoder): the fields little-endian in declaration order, the blank fields
as zero bytes. -/
def Header.encode (h : Header) : List Nat :=
  (h.Signature.map (fun (x : Nat) => put32 ((x : Nat) : Int))).flatten
    ++ (h.Clid.map (fun (x : Nat) => put32 ((x : Nat) : Int))).flatten
    ++ put16 h.RevisionNumber ++ put16 h.VersionNumber ++ put16 h.ByteOrder
    ++ put16 h.SizeOfSector ++ put16 h.SizeOfShortSector
    ++ List.replicate 2 0 ++ List.replicate 8 0
    ++ put32 (h.NumberOfSectorsSAT : Int) ++ put32 h.FirstSecIDDirectory
    ++ List.replicate 4 0
    ++ put32 (h.MinSizeOfStandardStream : Int) ++ put32 h.FirstSecIDSSAT
    ++ put32 (h.NumberOfSectorsSSAT : Int) ++ put32 h.FirstSecIDMSAT
    ++ put32 (h.NumberOfSectorsMSAT : Int)
    ++ (h.FirstPartOfMSAT.map put32).flatten

/-- The `n` bytes of `b` from offset `off` on. -/
def bytesAt (b : List Nat) (off n : Nat) : List Nat :=
  (List.range n).map (fun k => b.getD (off + k) 0)

/-- The 128 bytes of the source `src` at offset `512 + 512*d + 128*(i mod 4)`, where `d` is
the sector number `i div 4` of the chain `chain`. -/
def entryBytes (src : List Nat) (chain : List Int) (i : Nat) : List Nat :=
  (src.drop (512 + 512 * chain.getD (i / 4) 0 + ((128 * (i % 4) : Nat) : Int)).toNat).take 128

/-- A source of 2^31 + 512 bytes: a header of 512 bytes 255, a root directory record at
offset 512 (in sector 0), and zero bytes up to the end of sector 4194303, which starts at
offset 2^31. -/
def farDirSource : List Nat :=
  List.replicate 512 255 ++ recordOf ROOT ++ List.replicate 2147483520 0

/-- A container over `farDirSource`, standing at offset 512, whose table has 4194304
entries and whose directory starts at sector 4194303: the directory chain is that sector
alone, in range and ended by end-of-chain. -/
def farDirContainer : Ole BytesReader :=
  { header := { Header.zero with FirstSecIDDirectory := 4194303 }, Lsector := 512,
    Lssector := 64, SecID := List.replicate 4194304 EOFSecID, SSecID := [], Files := [],
    reader := BytesReader.mk farDirSource 512 }

/-! ## `odf/ods/read.go` -/

/-- The struct `Par`; a Go string is the list of its bytes. -/
structure Par where
  XML : List Nat
  deriving DecidableEq, Repr

/-- The struct `Cell`; `XMLNameLocal` is the field `XMLName.Local` (the name space of the
element is left out), and `int` is taken 64 bits wide. -/
structure Cell where
  XMLNameLocal : List Nat
  ValueType : List Nat
  Value : List Nat
  Formula : List Nat
  RepeatedCols : Int
  ColSpan : Int
  P : List Par
  deriving DecidableEq, Repr

/-- The struct `Row`. -/
structure Row where
  RepeatedRows : Int
  Cell : List Cell
  deriving DecidableEq, Repr

/-- The struct `Table`. -/
structure Table where
  Name : List Nat
  Column : List (List Nat)
  Row : List Row
  deriving DecidableEq, Repr

/-- The bytes of the string `covered-table-cell`. -/
def coveredTableCell : List Nat :=
  [99, 111, 118, 101, 114, 101, 100, 45, 116, 97, 98, 108, 101, 45, 99, 101, 108, 108]

/-- The method `(*Cell).IsEmpty`. -/
def Cell.IsEmpty (c : Cell) : Bool :=
  match c.P with
  | [] => true
  | [p] => decide (p.XML = [])
  | _ => false

/-- The method `(*Row).IsEmpty`. -/
def Row.IsEmpty (r : Row) : Bool := r.Cell.all (fun c => c.IsEmpty)

/-- The test of the loops `for i := range p.XML` of `PlainText` and `writePlainText`:
whether a byte of the string is `<` (60) or `&` (38). -/
def Par.hasMarkup (p : Par) : Bool := p.XML.any (fun c => decide (c = 60 ∨ c = 38))

/-- What the method `(*Par).writePlainText` writes to the buffer. The token loop over
`encoding/xml` (label `decode`) is not interpreted: `xmlText` stands for the text it
writes for a string with markup. -/
def Par.writePlainText (xmlText : List Nat → List Nat) (p : Par) : List Nat :=
  if p.hasMarkup then xmlText p.XML else p.XML

/-- The method `(*Par).PlainText`; the buffer is reset before it is written. -/
def Par.PlainText (xmlText : List Nat → List Nat) (p : Par) : List Nat :=
  if p.hasMarkup then p.writePlainText xmlText else p.XML

/-- The loop `for i := range c.P` of `(*Cell).PlainText`; the second argument is the
buffer, and a line feed (10) is written after every paragraph but the last. -/
def Cell.PlainTextLoop (xmlText : List Nat → List Nat) : List Par → List Nat → List Nat
  | [], b => b
  | [p], b => b ++ p.writePlainText xmlText
  | p :: q :: rest, b =>
    Cell.PlainTextLoop xmlText (q :: rest) (b ++ p.writePlainText xmlText ++ [10])

/-- The method `(*Cell).PlainText`. The buffer argument is left out: it is reset before
every use, so its contents at the call do not matter. -/
def Cell.PlainText (xmlText : List Nat → List Nat) (c : Cell) : List Nat :=
  match c.P with
  | [p] => p.PlainText xmlText
  | ps => Cell.PlainTextLoop xmlText ps []

/-- The loop `for i := n - 1; i >= 0; i--` that removes trailing empty elements in
`Row.Strings` and `Table.Strings`: the value of `n` after the loop. The last argument is
`i + 1`, which equals `n` before every round. -/
def trimLoop {α : Type} (isEmpty : α → Bool) (xs : List α) : Nat → Except Fault Nat
  | 0 => Except.ok 0
  | i + 1 =>
    match xs.get? i with
    | none => Except.error Fault.indexOutOfRange
    | some x => if isEmpty x then trimLoop isEmpty xs i else Except.ok (i + 1)

/-- The loop that calculates the real number of elements in `Row.Strings` and
`Table.Strings`: `n += repeated` when the repeat count is not 0, `n++` otherwise, in
64-bit arithmetic. -/
def countLoop {α : Type} (repeated : α → Int) : List α → Int → Int
  | [], n => n
  | x :: rest, n =>
    if repeated x ≠ 0 then countLoop repeated rest (i64 (n + repeated x))
    else countLoop repeated rest (i64 (n + 1))

/-- Go `make([]T, n)` with the zero value `zero` of `T`: a negative length, or one above
the largest length `maxLen` that can be allocated (it depends on `T`, the platform and
the memory at hand), ends in the panic `makeslice: len out of range` or in the fatal
error of the allocator. -/
def make {α : Type} (maxLen : Nat) (n : Int) (zero : α) : Except Fault (List α) :=
  if 0 ≤ n ∧ n ≤ (maxLen : Int) then Except.ok (List.replicate n.toNat zero)
  else Except.error Fault.makeslice

/-- The Go assignment `s[w] = v` on a slice. The index `w` of `Row.Strings` and
`Table.Strings` starts at 0 and is incremented after a store at `w` only, so it is never
negative and does not wrap. -/
def storeAt {α : Type} (s : List α) (w : Nat) (v : α) : Except Fault (List α) :=
  if w < s.length then Except.ok (s.set w v) else Except.error Fault.indexOutOfRange

/-- The loop `for j := 1; j < repeated; j++ { s[w] = v; w++ }`; the first argument is the
number of its rounds. -/
def repeatLoop {α : Type} : Nat → List α → Nat → α → Except Fault (List α × Nat)
  | 0, s, w, _ => Except.ok (s, w)
  | k + 1, s, w, v =>
    match storeAt s w v with
    | Except.error f => Except.error f
    | Except.ok s1 => repeatLoop k s1 (w + 1) v

/-- The second loop `for _, c := range r.Cell` of `Row.Strings`, which fills `row`. -/
def Row.fillLoop (xmlText : List Nat → List Nat) :
    List Ole2.Cell → List (List Nat) → Nat → Except Fault (List (List Nat))
  | [], row, _ => Except.ok row
  | c :: rest, row, w =>
    let cs := if c.XMLNameLocal ≠ coveredTableCell then c.PlainText xmlText else []
    match storeAt row w cs with
    | Except.error f => Except.error f
    | Except.ok row1 =>
      if c.RepeatedCols ≠ 0 then
        match repeatLoop (c.RepeatedCols - 1).toNat row1 (w + 1) cs with
        | Except.error f => Except.error f
        | Except.ok (row2, w2) => Row.fillLoop xmlText rest row2 w2
      else Row.fillLoop xmlText rest row1 (w + 1)

/-- The method `(*Row).Strings`: the row afterwards (its `Cell` slice is cut) and the
result, `none` being the `nil` slice. -/
def Row.Strings (maxLen : Nat) (xmlText : List Nat → List Nat) (r : Row) :
    Except Fault (Row × Option (List (List Nat))) :=
  if r.Cell.length = 0 then Except.ok (r, none)
  else
    match trimLoop Cell.IsEmpty r.Cell r.Cell.length with
    | Except.error f => Except.error f
    | Except.ok n =>
      match make maxLen (countLoop Cell.RepeatedCols (r.Cell.take n) 0) [] with
      | Except.error f => Except.error f
      | Except.ok row =>
        match Row.fillLoop xmlText (r.Cell.take n) row 0 with
        | Except.error f => Except.error f
        | Except.ok row1 => Except.ok ({ r with Cell := r.Cell.take n }, some row1)

/-- The second loop `for _, r := range t.Row` of `Table.Strings`, which fills `s`; the
loop variable is a copy, so the row of the table is not changed by `r.Strings`. -/
def Table.fillLoop (maxLen : Nat) (xmlText : List Nat → List Nat) :
    List Ole2.Row → List (Option (List (List Nat))) → Nat →
      Except Fault (List (Option (List (List Nat))))
  | [], s, _ => Except.ok s
  | r :: rest, s, w =>
    match r.Strings maxLen xmlText with
    | Except.error f => Except.error f
    | Except.ok (_, row) =>
      match storeAt s w row with
      | Except.error f => Except.error f
      | Except.ok s1 =>
        match repeatLoop (r.RepeatedRows - 1).toNat s1 (w + 1) row with
        | Except.error f => Except.error f
        | Except.ok (s2, w2) => Table.fillLoop maxLen xmlText rest s2 w2

/-- The method `(*Table).Strings`: the table afterwards (its `Row` slice is cut) and the
result, `none` being the `nil` slice; `maxRows` and `maxLen` are the largest lengths that
`make` can allocate for `[][]string` and for `[]string`. -/
def Table.Strings (maxRows maxLen : Nat) (xmlText : List Nat → List Nat) (t : Table) :
    Except Fault (Table × Option (List (Option (List (List Nat))))) :=
  if t.Row.length = 0 then Except.ok (t, none)
  else
    match trimLoop Row.IsEmpty t.Row t.Row.length with
    | Except.error f => Except.error f
    | Except.ok n =>
      match make maxRows (countLoop Row.RepeatedRows (t.Row.take n) 0) none with
      | Except.error f => Except.error f
      | Except.ok s =>
        match Table.fillLoop maxLen xmlText (t.Row.take n) s 0 with
        | Except.error f => Except.error f
        | Except.ok s1 => Except.ok ({ t with Row := t.Row.take n }, some s1)

/-- Specification side: the cells of a row that remain after dropping the trailing empty
cells. -/
def remainingCells (r : Row) : List Cell := r.Cell.rdropWhile Cell.IsEmpty

/-- Specification side: the text that a cell contributes, the empty string for a
`covered-table-cell`. -/
def cellText (xmlText : List Nat → List Nat) (c : Cell) : List Nat :=
  if c.XMLNameLocal = coveredTableCell then [] else c.PlainText xmlText

/-- Specification side: the texts of the remaining cells in order, each occurring
`max(1, RepeatedCols)` consecutive times. -/
def rowTexts (xmlText : List Nat → List Nat) (r : Row) : List (List Nat) :=
  ((remainingCells r).map
    (fun c => List.replicate (max 1 c.RepeatedCols).toNat (cellText xmlText c))).flatten

/-- Specification side: the sum of `max(1, RepeatedCols)` over the remaining cells. -/
def columnCount (r : Row) : Int :=
  ((remainingCells r).map (fun c => max 1 c.RepeatedCols)).sum

/-- Specification side: the rows of a table that remain after dropping the trailing empty
rows. -/
def remainingRows (t : Table) : List Row := t.Row.rdropWhile Row.IsEmpty

/-- Specification side: the slice of strings of a row, `nil` for a row without cells. -/
def rowValue (xmlText : List Nat → List Nat) (r : Row) : Option (List (List Nat)) :=
  if r.Cell = [] then none else some (rowTexts xmlText r)

/-- Specification side: one slice of strings per remaining row in order, each occurring
`max(1, RepeatedRows)` consecutive times. -/
def tableRows (xmlText : List Nat → List Nat) (t : Table) :
    List (Option (List (List Nat))) :=
  ((remainingRows t).map
    (fun r => List.replicate (max 1 r.RepeatedRows).toNat (rowValue xmlText r))).flatten

/-- Specification side: the sum of `max(1, RepeatedRows)` over the remaining rows. -/
def rowCount (t : Table) : Int :=
  ((remainingRows t).map (fun r => max 1 r.RepeatedRows)).sum

/-- The bytes of the string `table-cell`. -/
def tableCell : List Nat := [116, 97, 98, 108, 101, 45, 99, 101, 108, 108]

/-- A cell element of the name `name` with the repeat count `repeated` and the one
paragraph `xml`. -/
def cellOf (name : List Nat) (repeated : Int) (xml : List Nat) : Cell :=
  { XMLNameLocal := name, ValueType := [], Value := [], Formula := [],
    RepeatedCols := repeated, ColSpan := 0, P := [Par.mk xml] }

/-- A row, repeated three times, of the cells `A`, a covered cell, `B` repeated three
times, and 1020 repeated empty cells. -/
def sampleRow : Row :=
  { RepeatedRows := 3,
    Cell := [cellOf tableCell 0 [65], cellOf coveredTableCell 0 [88], cellOf tableCell 3 [66],
      cellOf tableCell 1020 []] }

/-- A row of two non-empty cells, each repeated 2^62 times. -/
def wideRow : Row :=
  { RepeatedRows := 0,
    Cell := [cellOf tableCell 4611686018427387904 [65],
      cellOf tableCell 4611686018427387904 [66]] }

/-- A table of `sampleRow`, a row without cells, a row of the one cell `C`, and 1000
repeated empty rows. -/
def sampleTable : Table :=
  { Name := [], Column := [],
    Row := [sampleRow, Row.mk 0 [], Row.mk 1 [cellOf tableCell 1 [67]],
      Row.mk 1000 [cellOf tableCell 0 []]] }

/-- A table of one row (not repeated) whose one cell `A` has the repeat count -1. -/
def negativeTable : Table :=
  { Name := [], Column := [], Row := [Row.mk 0 [cellOf tableCell (-1) [65]]] }

/-- A table of two non-empty rows, each repeated 2^62 times. -/
def tallTable : Table :=
  { Name := [], Column := [],
    Row := [Row.mk 4611686018427387904 [cellOf tableCell 0 [65]],
      Row.mk 4611686018427387904 [cellOf tableCell 0 [66]]] }

/-! ## Further fixtures, and callers of two readers over one source -/

/-- A source that ends inside sector 0: the 512-byte header and the first 100 bytes of
the sector (all of them 9). -/
def truncatedSource : List Nat := List.replicate 512 255 ++ List.replicate 100 9

/-- A call on a stream reader: `Read(p)` or `Seek(offset, whence)`. -/
inductive Call where
  | read (p : List Nat)
  | seek (offset whence : Int)

/-- What the caller sees of a call: the count, the error and the buffer after a `Read`;
the offset and the error after a `Seek`. -/
inductive Seen where
  | read (n : Int) (err : Option GoError) (p : List Nat)
  | seek (offset : Int) (err : Option GoError)
  deriving DecidableEq

/-- What the caller sees of a `Read`, next to the reader after the call. -/
def seenRead {ρ : Type} (x : Except Fault (ReadResult ρ)) : Except Fault (ρ × Seen) :=
  match x with
  | Except.error f => Except.error f
  | Except.ok res => Except.ok (res.reader, Seen.read res.n res.err res.p)

/-- What the caller sees of a `Seek`, next to the reader after the call. -/
def seenSeek {ρ : Type} (x : Except Fault (SeekResult ρ)) : Except Fault (ρ × Seen) :=
  match x with
  | Except.error f => Except.error f
  | Except.ok sk => Except.ok (sk.reader, Seen.seek sk.offsetResult sk.err)

/-- One call on a stream reader: the reader after the call and what the caller sees. -/
def Call.run {ρ : Type} [ReadSeeker ρ] (c : Call) (r : StreamReader ρ) :
    Except Fault (StreamReader ρ × Seen) :=
  match c with
  | Call.read p => seenRead (r.Read p)
  | Call.seek offset whence => seenSeek (r.Seek offset whence)

/-- Readers that sit on the in-memory source of a container. The source is shared by all
the readers of the container and its bytes never change, so that what one reader's calls
change for another is the read index of the source: `sourceIndex` reads it and `moved`
sets it. -/
class OverSource (ρ : Type) where
  sourceIndex : ρ → Int
  moved : ρ → Int → ρ

instance : OverSource BytesReader where
  sourceIndex r := r.i
  moved r i := { r with i := i }

instance {ρ : Type} [OverSource ρ] : OverSource (StreamReader ρ) where
  sourceIndex r := OverSource.sourceIndex r.reader
  moved r i := { r with reader := OverSource.moved r.reader i }

/-- A single thread issuing calls on two readers `a` and `b` that share their source: a
step `Sum.inl c` is the call `c` on `a`, a step `Sum.inr c` the call `c` on `b`. After each
call the other reader finds the source where the call left it. The answer lists what the
calls on `a` returned; a panic in any call ends the run. -/
def interleave {α β : Type} [ReadSeeker α] [ReadSeeker β] [OverSource α] [OverSource β] :
    StreamReader α → StreamReader β → List (Call ⊕ Call) → Except Fault (List Seen)
  | _, _, [] => Except.ok []
  | a, b, Sum.inl c :: rest =>
    match c.run a with
    | Except.error f => Except.error f
    | Except.ok (a1, seen) =>
      match interleave a1 (OverSource.moved b (OverSource.sourceIndex a1)) rest with
      | Except.error f => Except.error f
      | Except.ok outs => Except.ok (seen :: outs)
  | a, b, Sum.inr c :: rest =>
    match c.run b with
    | Except.error f => Except.error f
    | Except.ok (b1, _) => interleave (OverSource.moved a (OverSource.sourceIndex b1)) b1 rest

/-- The calls of a run that go to the first reader. -/
def callsOnFirst : List (Call ⊕ Call) → List Call
  | [] => []
  | Sum.inl c :: rest => c :: callsOnFirst rest
  | Sum.inr _ :: rest => callsOnFirst rest

/-- A single thread issuing calls on one reader: what the calls returned. -/
def alone {α : Type} [ReadSeeker α] : StreamReader α → List Call → Except Fault (List Seen)
  | _, [] => Except.ok []
  | a, c :: rest =>
    match c.run a with
    | Except.error f => Except.error f
    | Except.ok (a1, seen) =>
      match alone a1 rest with
      | Except.error f => Except.error f
      | Except.ok outs => Except.ok (seen :: outs)

/-- The cursor of a regular reader is at end-of-chain, or the `int32` position that `Read`
computes for it is not negative (the `Seek` of the source to it succeeds). -/
def StreamReader.settled {ρ : Type} (a : StreamReader ρ) : Bool :=
  decide (a.offsetOfSector = EOFSecID
    ∨ 0 ≤ i32 (a.sectorPos a.offsetOfSector a.sizeSector + i32 (a.offsetInSector : Int)))

/-- The cursor of a mini reader is at end-of-chain, or the reader of the root mini-stream,
once `Read` has moved it to the position of the cursor, is settled. -/
def StreamReader.miniSettled {ρ : Type} (a : StreamReader (StreamReader ρ)) : Bool :=
  decide (a.offsetOfSector = EOFSecID) ||
    match a.reader.Seek
      (i32 (a.sectorPos a.offsetOfSector a.sizeSector + i32 (a.offsetInSector : Int))) 0 with
    | Except.error _ => true
    | Except.ok sk => sk.reader.settled

/-- Every `Read` of the run of `calls` on `a` alone starts on a cursor that is `settled`. -/
def settledRun {α : Type} [ReadSeeker α] (settled : StreamReader α → Bool) :
    StreamReader α → List Call → Bool
  | _, [] => true
  | a, c :: rest =>
    (match c with
      | Call.read _ => settled a
      | Call.seek _ _ => true) &&
    (match c.run a with
      | Except.error _ => true
      | Except.ok (a1, _) => settledRun settled a1 rest)

/-- A container with a regular stream on the sectors 5 -> 6, the root mini-stream on the
sectors 2 -> 3 and a mini stream on mini-sector 0. -/
def mixedContainer : Ole BytesReader :=
  containerOf [-1, -1, 3, EOFSecID, -1, 6, EOFSecID] [EOFSecID] (numberedSource 7)

/-! ## Theorems -/

/-! ### Bytes handed to `parseHeader` by `Open` -/

theorem getD_lt_of_ne_zero (s : List Nat) (j : Nat) (h : s.getD j 0 ≠ 0) : j < s.length := by
  by_contra hc
  apply h
  simp [List.getD_eq_getElem?_getD, List.getElem?_eq_none (Nat.le_of_not_lt hc)]

theorem take_drop_two (s : List Nat) (j : Nat) (h : j + 2 ≤ s.length) :
    (s.drop j).take 2 = [s.getD j 0, s.getD (j + 1) 0] := by
  have h1 : j < s.length := by omega
  have h2 : j + 1 < s.length := by omega
  rw [List.drop_eq_getElem_cons h1, List.drop_eq_getElem_cons h2,
    List.getD_eq_getElem _ _ h1, List.getD_eq_getElem _ _ h2]
  rfl

theorem take_eight (s : List Nat) (h : 8 ≤ s.length) :
    s.take 8 = [s.getD 0 0, s.getD 1 0, s.getD 2 0, s.getD 3 0, s.getD 4 0, s.getD 5 0,
                s.getD 6 0, s.getD 7 0] := by
  match s, h with
  | a0 :: a1 :: a2 :: a3 :: a4 :: a5 :: a6 :: a7 :: t, _ => rfl

theorem getD_lt_256 (s : List Nat) (hb : ∀ x ∈ s, x < 256) (j : Nat) : s.getD j 0 < 256 := by
  by_cases hj : j < s.length
  · rw [List.getD_eq_getElem _ _ hj]; exact hb _ (List.getElem_mem _)
  · simp [List.getD_eq_getElem?_getD, List.getElem?_eq_none (Nat.le_of_not_lt hj)]

/-- The buffer that `Open` hands to `parseHeader` holds the first 512 bytes of an
in-memory source, zero-padded. -/
theorem headerBytes_getD (s : List Nat) (j : Nat) (hj : j < 512) :
    (List.take 512 s ++ List.drop (List.take 512 s).length (List.replicate 512 0)).getD j 0
      = s.getD j 0 := by
  simp only [List.getD_eq_getElem?_getD, List.length_take]
  by_cases h1 : j < min 512 s.length
  · rw [List.getElem?_append_left (by rw [List.length_take]; exact h1)]
    simp [hj, List.getElem?_take]
  · rw [List.getElem?_append_right (by rw [List.length_take]; omega)]
    simp only [List.drop_replicate, List.getElem?_replicate, List.length_take]
    have hl : s.length ≤ j := by omega
    rw [List.getElem?_eq_none hl]
    split_ifs <;> rfl

theorem headerBytes_length (s : List Nat) :
    (List.take 512 s ++ List.drop (List.take 512 s).length (List.replicate 512 0)).length
      = 512 := by
  simp only [List.length_append, List.length_take, List.length_drop, List.length_replicate]
  omega

theorem parseHeader_headerBytes (s : List Nat) (hb : ∀ x ∈ s, x < 256)
    (h : s.take 8 ≠ magicSignature ∨ (s.drop 28).take 2 ≠ byteOrderMarker) :
    parseHeader (List.take 512 s ++ List.drop (List.take 512 s).length (List.replicate 512 0))
      = (none, some GoError.other) := by
  have hlen := headerBytes_length s
  have g := headerBytes_getD s
  unfold parseHeader
  rw [if_pos]
  by_contra hc
  simp only [Header.decode, hlen, lt_irrefl, if_false, List.getD_cons_zero, List.getD_cons_succ,
    not_or, not_not, le32, le16, Nat.reduceAdd] at hc
  obtain ⟨hc1, hc2, hc3⟩ := hc
  rw [g 0 (by norm_num), g 1 (by norm_num), g 2 (by norm_num), g 3 (by norm_num)] at hc1
  rw [g 4 (by norm_num), g 5 (by norm_num), g 6 (by norm_num), g 7 (by norm_num)] at hc2
  rw [g 28 (by norm_num), g 29 (by norm_num)] at hc3
  have b0 := getD_lt_256 s hb 0
  have b1 := getD_lt_256 s hb 1
  have b2 := getD_lt_256 s hb 2
  have b3 := getD_lt_256 s hb 3
  have b4 := getD_lt_256 s hb 4
  have b5 := getD_lt_256 s hb 5
  have b6 := getD_lt_256 s hb 6
  have b7 := getD_lt_256 s hb 7
  have b28 := getD_lt_256 s hb 28
  have b29 := getD_lt_256 s hb 29
  have e0 : s.getD 0 0 = 0xD0 := by omega
  have e1 : s.getD 1 0 = 0xCF := by omega
  have e2 : s.getD 2 0 = 0x11 := by omega
  have e3 : s.getD 3 0 = 0xE0 := by omega
  have e4 : s.getD 4 0 = 0xA1 := by omega
  have e5 : s.getD 5 0 = 0xB1 := by omega
  have e6 : s.getD 6 0 = 0x1A := by omega
  have e7 : s.getD 7 0 = 0xE1 := by omega
  have e28 : s.getD 28 0 = 0xFE := by omega
  have e29 : s.getD 29 0 = 0xFF := by omega
  have hl : 29 < s.length := getD_lt_of_ne_zero s 29 (by omega)
  rcases h with h | h
  · apply h
    rw [take_eight s (by omega), e0, e1, e2, e3, e4, e5, e6, e7]
    rfl
  · apply h
    rw [take_drop_two s 28 (by omega), e28, e29]
    rfl

/-! ### C1 -/

/-- C1: for every in-memory source (a slice of bytes, read from its start) whose first
bytes are not the magic signature `D0 CF 11 E0 A1 B1 1A E1`, or whose bytes 28 and 29 are
not the byte-order marker `FE FF`, `Open` returns the `nil` container together with a
non-nil error. `Open` is a function of the source bytes, so every run on the same bytes
gives this same answer, and no container (with empty tables or otherwise) is returned. -/
theorem Open_rejects_malformed_header (s : List Nat) (hb : ∀ x ∈ s, x < 256)
    (h : s.take 8 ≠ magicSignature ∨ (s.drop 28).take 2 ≠ byteOrderMarker) :
    Open (BytesReader.mk s 0) = Except.ok (none, some GoError.other) := by
  have key := parseHeader_headerBytes s hb h
  unfold Open
  simp only [ReadSeeker.Read, BytesReader.Read]
  by_cases hs : (0 : Int) ≥ (s.length : Int)
  · have : s = [] := by
      have : s.length = 0 := by omega
      exact List.length_eq_zero.mp this
    subst this
    simp only [List.take_nil, List.length_nil, List.drop_zero, List.nil_append] at key
    simp only [hs, if_true, key]
  · simp only [hs, if_false, List.length_replicate, Int.toNat_zero, List.drop_zero, key]

/-- Witness for C1: a source that starts with the ZIP signature `50 4B 03 04`. -/
theorem Open_rejects_malformed_header_witness :
    (∀ x ∈ [0x50, 0x4B, 0x03, 0x04], x < 256) ∧
    Open (BytesReader.mk [0x50, 0x4B, 0x03, 0x04] 0) = Except.ok (none, some GoError.other) :=
  ⟨by decide, Open_rejects_malformed_header [0x50, 0x4B, 0x03, 0x04] (by decide)
    (Or.inl (by decide))⟩

/-! ### C4 -/

theorem sector_read_sameGeometry {ρ : Type} [ReadSeeker ρ] (o : Ole ρ) (sid : Int)
    (sr : SectorResult ρ) (h : o.sector_read sid = Except.ok sr) :
    o.sameGeometry sr.ole ∧ sr.ole.SecID = o.SecID ∧ sr.ole.SSecID = o.SSecID := by
  unfold Ole.sector_read Ole.sector_read_internal at h
  simp only at h
  split at h
  · cases h
  · split at h
    · split at h
      · cases h
      · cases h; exact ⟨⟨rfl, rfl, rfl⟩, rfl, rfl⟩
    · cases h; exact ⟨⟨rfl, rfl, rfl⟩, rfl, rfl⟩

theorem appendSectors_sameGeometry {ρ : Type} [ReadSeeker ρ] (sids : List Int) :
    ∀ (o : Ole ρ) (j : Nat) (o1 : Ole ρ) (j1 : Nat) (e : Option GoError),
      Ole.appendSectors sids o j = Except.ok (o1, j1, e) →
      o.sameGeometry o1 ∧ o1.SSecID = o.SSecID := by
  induction sids with
  | nil =>
    intro o j o1 j1 e h
    simp only [Ole.appendSectors] at h
    cases h; exact ⟨⟨rfl, rfl, rfl⟩, rfl⟩
  | cons sid rest ih =>
    intro o j o1 j1 e h
    simp only [Ole.appendSectors] at h
    split at h
    · cases h
    · rename_i sr hsr
      obtain ⟨⟨g1, g2, g3⟩, _, g5⟩ := sector_read_sameGeometry o _ sr hsr
      split at h
      · split at h
        · obtain ⟨⟨k1, k2, k3⟩, k4⟩ := ih _ _ _ _ _ h
          simp only at k1 k2 k3 k4
          exact ⟨⟨k1.trans g1, k2.trans g2, k3.trans g3⟩, k4.trans g5⟩
        · cases h; exact ⟨⟨g1, g2, g3⟩, g5⟩
      · cases h; exact ⟨⟨g1, g2, g3⟩, g5⟩

theorem readMSATChain_sameGeometry {ρ : Type} [ReadSeeker ρ] (fuel : Nat) :
    ∀ (o : Ole ρ) (sid : Int) (j : Nat) (o1 : Ole ρ) (e : Option GoError),
      Ole.readMSATChain fuel o sid j = Except.ok (o1, e) → o.sameGeometry o1 := by
  induction fuel with
  | zero => intro o sid j o1 e h; simp only [Ole.readMSATChain] at h; cases h
  | succ fuel ih =>
    intro o sid j o1 e h
    simp only [Ole.readMSATChain] at h
    split at h
    · split at h
      · cases h
      · rename_i sr hsr
        obtain ⟨⟨g1, g2, g3⟩, _, _⟩ := sector_read_sameGeometry o _ sr hsr
        split at h
        · split at h
          · split at h
            · cases h
            · rename_i o2 j2 e2 happ
              obtain ⟨⟨a1, a2, a3⟩, _⟩ := appendSectors_sameGeometry _ _ _ _ _ _ happ
              split at h
              · obtain ⟨k1, k2, k3⟩ := ih _ _ _ _ _ h
                exact ⟨k1.trans (a1.trans g1), k2.trans (a2.trans g2), k3.trans (a3.trans g3)⟩
              · cases h; exact ⟨a1.trans g1, a2.trans g2, a3.trans g3⟩
          · cases h; exact ⟨g1, g2, g3⟩
        · cases h; exact ⟨g1, g2, g3⟩
    · cases h; exact ⟨rfl, rfl, rfl⟩

theorem readMSAT_sameGeometry {ρ : Type} [ReadSeeker ρ] (o o1 : Ole ρ) (e : Option GoError)
    (h : o.readMSAT = Except.ok (o1, e)) : o.sameGeometry o1 := by
  unfold Ole.readMSAT at h
  simp only at h
  split at h
  · cases h
  · rename_i o2 j2 e2 happ
    obtain ⟨⟨a1, a2, a3⟩, _⟩ := appendSectors_sameGeometry _ _ _ _ _ _ happ
    split at h
    · cases h; exact ⟨a1, a2, a3⟩
    · split at h
      · obtain ⟨k1, k2, k3⟩ := readMSATChain_sameGeometry _ _ _ _ _ _ h
        exact ⟨k1.trans a1, k2.trans a2, k3.trans a3⟩
      · cases h; exact ⟨a1, a2, a3⟩

theorem readSSATLoop_sameGeometry {ρ : Type} [ReadSeeker ρ] (n : Nat) :
    ∀ (o : Ole ρ) (sid : Int) (o1 : Ole ρ) (e : Option GoError),
      Ole.readSSATLoop n o sid = Except.ok (o1, e) → o.sameGeometry o1 := by
  induction n with
  | zero => intro o sid o1 e h; simp only [Ole.readSSATLoop] at h; cases h; exact ⟨rfl, rfl, rfl⟩
  | succ n ih =>
    intro o sid o1 e h
    simp only [Ole.readSSATLoop] at h
    split at h
    · split at h
      · cases h
      · rename_i sr hsr
        obtain ⟨⟨g1, g2, g3⟩, _, _⟩ := sector_read_sameGeometry o _ sr hsr
        split at h
        · split at h
          · obtain ⟨k1, k2, k3⟩ := ih _ _ _ _ h
            simp only at k1 k2 k3
            exact ⟨k1.trans g1, k2.trans g2, k3.trans g3⟩
          · cases h; exact ⟨g1, g2, g3⟩
        · cases h; exact ⟨g1, g2, g3⟩
    · exact ih _ _ _ _ h

/-- Every container that `Open` returns has sector size 512 and mini-sector size 64. -/
theorem Open_geometry {ρ : Type} [ReadSeeker ρ] (reader : ρ) (o : Ole ρ) (e : Option GoError)
    (h : Open reader = Except.ok (some o, e)) : o.Lsector = 512 ∧ o.Lssector = 64 := by
  unfold Open at h
  split at h
  · cases h
  · split at h
    · simp only at h
      split at h
      · cases h
      · rename_i o1 e1 hm
        obtain ⟨a1, a2, _⟩ := readMSAT_sameGeometry _ _ _ hm
        split at h
        · cases h; exact ⟨a1, a2⟩
        · split at h
          · cases h
          · rename_i o2 e2 hs
            obtain ⟨b1, b2, _⟩ := readSSATLoop_sameGeometry _ _ _ _ _ hs
            split at h <;> (cases h; exact ⟨b1.trans a1, b2.trans a2⟩)
    · cases h


/-- C4: in every container returned by `Open`, `OpenFile(file, root)` returns a reader over
the mini-FAT (table `SSecID`, sector size `Lssector` = 64, start `file.Sstart`, positions
by `short_sector_pos`, backed by a reader over the FAT `SecID` with sector size `Lsector`
that is anchored at `root.Sstart` and reads the raw source) exactly when
`file.Size < header.MinSizeOfStandardStream` as unsigned numbers; otherwise, so also when
`file.Size` equals the threshold, it returns a reader over the FAT (table `SecID`, sector
size `Lsector`, start `file.Sstart`, positions by `sector_pos`) that reads the raw source.
In both cases the declared size of the reader is `file.Size`. -/
theorem OpenFile_threshold {ρ : Type} [ReadSeeker ρ] (reader : ρ) (o : Ole ρ)
    (e : Option GoError) (hopen : Open reader = Except.ok (some o, e)) (file root : File) :
    (file.Size < o.header.MinSizeOfStandardStream ↔
      ∃ r : StreamReader (StreamReader ρ), o.OpenFile file root = Sum.inl r
        ∧ r.sat = o.SSecID ∧ r.sizeSector = o.Lssector ∧ o.Lssector = 64
        ∧ r.start = file.Sstart ∧ r.offsetOfSector = file.Sstart ∧ r.offsetInSector = 0
        ∧ r.size = (file.Size : Int) ∧ r.sectorPos = short_sector_pos
        ∧ r.reader.sat = o.SecID ∧ r.reader.sizeSector = o.Lsector
        ∧ r.reader.start = root.Sstart ∧ r.reader.sectorPos = sector_pos
        ∧ r.reader.reader = o.reader)
    ∧ (o.header.MinSizeOfStandardStream ≤ file.Size ↔
      ∃ r : StreamReader ρ, o.OpenFile file root = Sum.inr r
        ∧ r.sat = o.SecID ∧ r.sizeSector = o.Lsector ∧ o.Lsector = 512
        ∧ r.start = file.Sstart ∧ r.offsetOfSector = file.Sstart ∧ r.offsetInSector = 0
        ∧ r.size = (file.Size : Int) ∧ r.sectorPos = sector_pos
        ∧ r.reader = o.reader) := by
  obtain ⟨g1, g2⟩ := Open_geometry reader o e hopen
  constructor
  · constructor
    · intro hlt
      refine ⟨o.short_stream_read file.Sstart file.Size root.Sstart, ?_, rfl, rfl, g2, rfl, rfl,
        rfl, rfl, rfl, rfl, rfl, rfl, rfl, rfl⟩
      simp only [Ole.OpenFile, hlt, if_true]
    · rintro ⟨r, hr, _⟩
      by_contra hlt
      simp only [Ole.OpenFile, hlt, if_false] at hr
      cases hr
  · constructor
    · intro hge
      have hlt : ¬ file.Size < o.header.MinSizeOfStandardStream := Nat.not_lt.mpr hge
      refine ⟨o.stream_read file.Sstart file.Size, ?_, rfl, rfl, g1, rfl, rfl, rfl, rfl, rfl, rfl⟩
      simp only [Ole.OpenFile, hlt, if_false]
    · rintro ⟨r, hr, _⟩
      by_contra hge
      have hlt : file.Size < o.header.MinSizeOfStandardStream := Nat.lt_of_not_le hge
      simp only [Ole.OpenFile, hlt, if_true] at hr
      cases hr

set_option maxRecDepth 100000 in
/-- Witness for C4: the container opened from `emptyContainerBytes`. -/
theorem OpenFile_threshold_witness :
    Open (BytesReader.mk emptyContainerBytes 0) = Except.ok (some emptyContainer, none)
    ∧ ∀ file root : File,
      (file.Size < emptyContainer.header.MinSizeOfStandardStream ↔
        ∃ r : StreamReader (StreamReader BytesReader), emptyContainer.OpenFile file root = Sum.inl r
          ∧ r.sat = emptyContainer.SSecID ∧ r.sizeSector = emptyContainer.Lssector
          ∧ emptyContainer.Lssector = 64
          ∧ r.start = file.Sstart ∧ r.offsetOfSector = file.Sstart ∧ r.offsetInSector = 0
          ∧ r.size = (file.Size : Int) ∧ r.sectorPos = short_sector_pos
          ∧ r.reader.sat = emptyContainer.SecID ∧ r.reader.sizeSector = emptyContainer.Lsector
          ∧ r.reader.start = root.Sstart ∧ r.reader.sectorPos = sector_pos
          ∧ r.reader.reader = emptyContainer.reader)
      ∧ (emptyContainer.header.MinSizeOfStandardStream ≤ file.Size ↔
        ∃ r : StreamReader BytesReader, emptyContainer.OpenFile file root = Sum.inr r
          ∧ r.sat = emptyContainer.SecID ∧ r.sizeSector = emptyContainer.Lsector
          ∧ emptyContainer.Lsector = 512
          ∧ r.start = file.Sstart ∧ r.offsetOfSector = file.Sstart ∧ r.offsetInSector = 0
          ∧ r.size = (file.Size : Int) ∧ r.sectorPos = sector_pos
          ∧ r.reader = emptyContainer.reader) :=
  have h : Open (BytesReader.mk emptyContainerBytes 0)
      = Except.ok (some emptyContainer, none) := by rfl
  ⟨h, fun file root =>
    OpenFile_threshold (BytesReader.mk emptyContainerBytes 0) emptyContainer none h file root⟩

/-! ### Reading along an in-range chain -/

theorem slice_eq_some (p : List Nat) (lo hi : Nat) (h1 : lo ≤ hi) (h2 : hi ≤ p.length) :
    slice p lo hi = some ((p.drop lo).take (hi - lo)) := by
  simp [slice, h1, h2]

theorem splice_length (p : List Nat) (lo : Nat) (q : List Nat) (h : lo + q.length ≤ p.length) :
    (splice p lo q).length = p.length := by
  simp only [splice, List.length_append, List.length_take, List.length_drop]
  omega

theorem splice_take (p : List Nat) (lo : Nat) (q : List Nat) (h : lo + q.length ≤ p.length) :
    (splice p lo q).take (lo + q.length) = p.take lo ++ q := by
  have h1 : (p.take lo ++ q).length = lo + q.length := by
    simp only [List.length_append, List.length_take]; omega
  unfold splice
  rw [← h1, List.take_left']
  rfl

/-- Reading along an in-range chain: the loop of `Read` delivers the sectors of the chain
one after the other, for any underlying reader that can be positioned at each sector and
then delivers the bytes `D s c` there. -/
theorem readLoop_chain {ρ : Type} [ReadSeeker ρ] (sat : List Int) (S : Nat)
    (posf : Int → Nat → Int) (good : Int → Prop) (Inv : ρ → Prop) (At : ρ → Int → Prop)
    (D : Int → Nat → List Nat)
    (hseek : ∀ rd s, Inv rd → good s →
      ∃ sk, ReadSeeker.Seek rd (i32 (posf s S + i32 0)) 0 = Except.ok sk ∧ At sk.reader s)
    (hread : ∀ rd s (b : List Nat), At rd s → good s → 1 ≤ b.length → b.length ≤ S →
      ∃ res, ReadSeeker.Read rd b = Except.ok res ∧ res.p = D s b.length
        ∧ res.n = (b.length : Int) ∧ res.err = none ∧ Inv res.reader)
    (hD : ∀ s c, good s → c ≤ S → (D s c).length = c)
    (hS0 : 0 < S) (hS1 : S < 2147483648) (hsat : sat.length < 2147483648) :
    ∀ (ss : List Int) (fuel : Nat) (r : StreamReader ρ) (p : List Nat) (readed : Nat),
      (∀ s ∈ ss, good s ∧ 0 ≤ s ∧ s < (sat.length : Int)) →
      List.Chain' (fun a b => index sat a = some b) ss →
      r.sat = sat → r.sizeSector = S → r.sectorPos = posf → r.offsetInSector = 0 →
      ss.head? = some r.offsetOfSector → At r.reader r.offsetOfSector →
      readed < p.length → p.length - readed ≤ S * ss.length → p.length - readed ≤ S * fuel →
      p.length < 4294967296 →
      ∃ res, StreamReader.readLoop fuel r p readed = Except.ok res ∧ res.n = (p.length : Int)
        ∧ res.err = none ∧ res.p = p.take readed ++ chainBytes D S ss (p.length - readed) := by
  intro ss
  induction ss with
  | nil => intro fuel r p readed _ _ _ _ _ _ hh; simp at hh
  | cons s rest ih =>
    intro fuel r p readed hgood hlink hr1 hr2 hr3 hr4 hhead hat hrd hR hfuel hp
    simp only [List.head?_cons, Option.some.injEq] at hhead
    subst hhead
    obtain ⟨hgs, hs0, hs1⟩ := hgood r.offsetOfSector (List.mem_cons_self _ _)
    have hfuel1 : 1 ≤ fuel := by
      rcases Nat.eq_zero_or_pos fuel with h0 | h0
      · subst h0; omega
      · exact h0
    obtain ⟨fuel, rfl⟩ : ∃ f, fuel = f + 1 := ⟨fuel - 1, by omega⟩
    have hrem : u32 ((u32 (p.length : Int) : Int) - (readed : Int)) = p.length - readed := by
      unfold u32; omega
    have hsz : u32 ((r.sizeSector : Int) - (r.offsetInSector : Int)) = S := by
      rw [hr2, hr4]; unfold u32; omega
    by_cases hbig : p.length - readed ≤ S
    · -- the read ends in this sector
      have hcond : ¬ (p.length - readed > S) := by omega
      have hsl := slice_eq_some p readed p.length (by omega) (le_refl _)
      have hchunk : ((p.drop readed).take (p.length - readed)).length = p.length - readed := by
        simp only [List.length_take, List.length_drop]; omega
      obtain ⟨res, hres, hp1, hn1, he1, _⟩ := hread r.reader r.offsetOfSector
        ((p.drop readed).take (p.length - readed)) hat hgs (by omega) (by omega)
      rw [hchunk] at hp1 hn1
      have hDl := hD r.offsetOfSector (p.length - readed) hgs hbig
      have heq : StreamReader.readLoop (fuel + 1) r p readed
          = Except.ok { reader := { r with reader := res.reader,
                                           offsetInSector := u32 ((r.offsetInSector : Int)
                                                                   + (u32 res.n : Int)) },
                        p := splice p readed res.p, n := (p.length : Int), err := none } := by
        simp only [StreamReader.readLoop, hrem, hsz, hcond, if_false, hsl, hres, he1, if_true]
      refine ⟨_, heq, rfl, rfl, ?_⟩
      simp only
      unfold splice
      rw [hp1, hDl]
      have : readed + (p.length - readed) = p.length := by omega
      rw [this, List.drop_length, List.append_nil]
      cases rest with
      | nil => simp only [chainBytes, hbig, if_true]
      | cons t rest => simp only [chainBytes, hbig, if_true]
    · -- a whole sector is read and the chain is followed
      have hcond : p.length - readed > S := by omega
      cases rest with
      | nil => simp only [List.length_singleton, Nat.mul_one] at hR; omega
      | cons t rest =>
        obtain ⟨hlk, hlink1⟩ := List.chain'_cons.mp hlink
        obtain ⟨hgt, ht0, ht1⟩ := hgood t (List.mem_cons_of_mem _ (List.mem_cons_self _ _))
        have hhi : u32 ((readed : Int) + (r.sizeSector : Int) - (r.offsetInSector : Int))
            = readed + S := by
          rw [hr2, hr4]; unfold u32; omega
        have hsl := slice_eq_some p readed (readed + S) (by omega) (by omega)
        have hchunk : ((p.drop readed).take (readed + S - readed)).length = S := by
          simp only [List.length_take, List.length_drop]; omega
        obtain ⟨res, hres, hp1, hn1, he1, hinv⟩ := hread r.reader r.offsetOfSector
          ((p.drop readed).take (readed + S - readed)) hat hgs (by omega) (by omega)
        rw [hchunk] at hp1 hn1
        have hDl := hD r.offsetOfSector S hgs (le_refl _)
        obtain ⟨sk, hsk, hat1⟩ := hseek res.reader t hinv hgt
        rw [← hr2, ← hr3] at hsk
        have hrd1 : u32 ((readed : Int) + (u32 res.n : Int)) = readed + S := by
          rw [hn1]; unfold u32; omega
        have hge : ¬ (r.offsetOfSector ≥ i32 (r.sat.length : Int)) := by
          rw [hr1]; unfold i32; omega
        have hidx : index r.sat r.offsetOfSector = some t := by
          rw [hr1]; exact hlk
        have hneof : ¬ (t = EOFSecID) := by unfold EOFSecID; omega
        have hpl : (splice p readed res.p).length = p.length := by
          apply splice_length; rw [hp1, hDl]; omega
        obtain ⟨res2, hres2, hn2, he2, hp2⟩ := ih fuel
          { r with reader := sk.reader, offsetInSector := 0, offsetOfSector := t }
          (splice p readed res.p) (readed + S)
          (fun x hx => hgood x (List.mem_cons_of_mem _ hx)) hlink1 hr1 hr2 hr3 rfl rfl hat1
          (by rw [hpl]; omega)
          (by rw [hpl]; simp only [List.length_cons] at hR ⊢; rw [Nat.mul_succ] at hR; omega)
          (by rw [hpl]; rw [Nat.mul_succ] at hfuel; omega)
          (by rw [hpl]; exact hp)
        refine ⟨res2, ?_, by rw [hn2, hpl], he2, ?_⟩
        · simp only [StreamReader.readLoop, hrem, hsz, hcond, if_true, hhi, hsl, hres, he1,
            ne_eq, not_true_eq_false, if_false, hrd1, hge, hidx, hneof,
            Nat.cast_zero, hsk]
          exact hres2
        · rw [hp2, hpl]
          have htk : (splice p readed res.p).take (readed + S)
              = p.take readed ++ D r.offsetOfSector S := by
            have := splice_take p readed res.p (by rw [hp1, hDl]; omega)
            rw [hp1, hDl] at this
            rw [hp1]; exact this
          rw [htk, List.append_assoc]
          have hnot : ¬ (p.length - readed ≤ S) := hbig
          have : p.length - (readed + S) = p.length - readed - S := by omega
          simp only [chainBytes, hnot, if_false, this]


/-- `Read` on a reader that stands at the start of an in-range chain. -/
theorem Read_chain {ρ : Type} [ReadSeeker ρ] (sat : List Int) (S : Nat)
    (posf : Int → Nat → Int) (good : Int → Prop) (Inv : ρ → Prop) (At : ρ → Int → Prop)
    (D : Int → Nat → List Nat)
    (hseek : ∀ rd s, Inv rd → good s →
      ∃ sk, ReadSeeker.Seek rd (i32 (posf s S + i32 0)) 0 = Except.ok sk ∧ At sk.reader s)
    (hread : ∀ rd s (b : List Nat), At rd s → good s → 1 ≤ b.length → b.length ≤ S →
      ∃ res, ReadSeeker.Read rd b = Except.ok res ∧ res.p = D s b.length
        ∧ res.n = (b.length : Int) ∧ res.err = none ∧ Inv res.reader)
    (hD : ∀ s c, good s → c ≤ S → (D s c).length = c)
    (hS0 : 0 < S) (hS1 : S < 2147483648) (hsat : sat.length < 2147483648)
    (ss : List Int) (r : StreamReader ρ) (p : List Nat)
    (hgood : ∀ s ∈ ss, good s ∧ 0 ≤ s ∧ s < (sat.length : Int))
    (hlink : List.Chain' (fun a b => index sat a = some b) ss)
    (hr1 : r.sat = sat) (hr2 : r.sizeSector = S) (hr3 : r.sectorPos = posf)
    (hr4 : r.offsetInSector = 0) (hhead : ss.head? = some r.offsetOfSector)
    (hinv : Inv r.reader) (hp0 : 1 ≤ p.length) (hp1 : p.length ≤ S * ss.length)
    (hp2 : p.length < 4294967296) :
    ∃ res, r.Read p = Except.ok res ∧ res.n = (p.length : Int) ∧ res.err = none
      ∧ res.p = chainBytes D S ss p.length := by
  have hmem : r.offsetOfSector ∈ ss := by
    cases ss with
    | nil => simp at hhead
    | cons a t =>
      simp only [List.head?_cons, Option.some.injEq] at hhead
      rw [hhead]; exact List.mem_cons_self _ _
  obtain ⟨hg, h0, _⟩ := hgood _ hmem
  obtain ⟨sk, hsk, hat⟩ := hseek r.reader r.offsetOfSector hinv hg
  rw [← hr2, ← hr3] at hsk
  have hne : ¬ (r.offsetOfSector = EOFSecID) := by unfold EOFSecID; omega
  obtain ⟨res, hres, hn, he, hp⟩ := readLoop_chain sat S posf good Inv At D hseek hread hD hS0 hS1
    hsat ss (p.length + 2) { r with reader := sk.reader } p 0 hgood hlink hr1 hr2 hr3 hr4 hhead hat
    (by omega) (by omega)
    (by
      have : p.length * 1 ≤ p.length * S := Nat.mul_le_mul_left _ hS0
      rw [Nat.mul_add, Nat.mul_comm S]; omega) hp2
  refine ⟨res, ?_, hn, he, ?_⟩
  · have hz : i32 ((r.offsetInSector : Nat) : Int) = i32 0 := by rw [hr4]; rfl
    unfold StreamReader.Read
    simp only [hne, if_false, hz, hsk]
    exact hres
  · rw [hp]; simp

/-- Along sectors that the source holds in full, `chainBytes` for an in-memory source is
the concatenation of the sector payloads, cut at the length read. -/
theorem chainBytes_sectorBytes (src : List Nat) :
    ∀ (ss : List Int) (R : Nat),
      (∀ s ∈ ss, 0 ≤ s ∧ 512 + 512 * s + 512 ≤ (src.length : Int)) →
      chainBytes (fun s c => (src.drop (512 + 512 * s).toNat).take c) 512 ss R
        = ((ss.map (sectorBytes src)).flatten).take R := by
  intro ss
  induction ss with
  | nil => intro R _; simp [chainBytes]
  | cons s rest ih =>
    intro R hs
    obtain ⟨h0, h1⟩ := hs s (List.mem_cons_self _ _)
    have hlen : (sectorBytes src s).length = 512 := by
      unfold sectorBytes
      simp only [List.length_take, List.length_drop]
      omega
    have hD : (src.drop (512 + 512 * s).toNat).take 512 = sectorBytes src s := rfl
    simp only [chainBytes, List.map_cons, List.flatten_cons]
    by_cases hR : R ≤ 512
    · simp only [hR, if_true]
      rw [List.take_append_of_le_length (by omega)]
      unfold sectorBytes
      rw [List.take_take, min_eq_left hR]
    · simp only [hR, if_false]
      rw [ih (R - 512) (fun x hx => hs x (List.mem_cons_of_mem _ hx)), hD]
      rw [List.take_append_eq_append_take, hlen]
      rw [List.take_of_length_le (l := sectorBytes src s) (by omega)]

/-! ### C2 -/

/-- C2 (amended): a regular stream reader freshly created by `stream_read(s0, size)` in a
container with 512-byte sectors, over a table in which the sectors `ss = s0, s1, ..., sk`
are all in range and linked (`SecID[si] = s(i+1)`) and over an in-memory source that holds
all of them, fills a buffer of length `L` with `1 <= L <= 512*(k+1)` in a single `Read`:
the call returns `(L, nil)` and the buffer holds the first `L` bytes of the concatenated
512-byte payloads of `s0, s1, ...` (sector `si` at source offset `512 + 512*si`). This
holds when the quantities fit the 32-bit types of the code: `L < 2^32`, fewer than `2^31`
table entries, and `512 + 512*si < 2^31` for every sector of the chain. -/
theorem stream_read_Read_chain (o : Ole BytesReader) (size : Nat) (s0 : Int) (ss : List Int)
    (p : List Nat) (hL : o.Lsector = 512) (hhead : ss.head? = some s0)
    (hrange : ∀ s ∈ ss, 0 ≤ s ∧ s < (o.SecID.length : Int))
    (hlink : List.Chain' (fun a b => index o.SecID a = some b) ss)
    (hsrc : ∀ s ∈ ss, 512 + 512 * s + 512 ≤ (o.reader.s.length : Int))
    (hp0 : 1 ≤ p.length) (hp1 : p.length ≤ 512 * ss.length)
    (hb1 : p.length < 4294967296) (hb2 : o.SecID.length < 2147483648)
    (hb3 : ∀ s ∈ ss, 512 + 512 * s < 2147483648) :
    ∃ res, (o.stream_read s0 size).Read p = Except.ok res ∧ res.n = (p.length : Int)
      ∧ res.err = none
      ∧ res.p = ((ss.map (sectorBytes o.reader.s)).flatten).take p.length := by
  have key := Read_chain o.SecID 512 sector_pos
    (fun s => 0 ≤ s ∧ 512 + 512 * s + 512 ≤ (o.reader.s.length : Int) ∧ 512 + 512 * s < 2147483648)
    (fun rd => rd.s = o.reader.s)
    (fun rd s => rd.s = o.reader.s ∧ rd.i = 512 + 512 * s)
    (fun s c => (o.reader.s.drop (512 + 512 * s).toNat).take c)
    (by
      intro rd s hinv ⟨h0, h1, h2⟩
      have hpos : i32 (sector_pos s 512 + i32 0) = 512 + 512 * s := by
        unfold sector_pos i32; omega
      rw [hpos]
      have hnn : ¬ (512 + 512 * s < 0) := by omega
      refine ⟨_, rfl, ?_⟩
      simp only [BytesReader.Seek, true_or, if_true, hnn, if_false, and_true]
      exact hinv)
    (by
      intro rd s b ⟨hs, hi⟩ ⟨h0, h1, h2⟩ hb0 hb1
      have hlt : ¬ (rd.i ≥ (rd.s.length : Int)) := by rw [hi, hs]; omega
      have hlen : ((rd.s.drop rd.i.toNat).take b.length).length = b.length := by
        simp only [List.length_take, List.length_drop]
        rw [hi, hs]; omega
      refine ⟨_, rfl, ?_, ?_, ?_, ?_⟩
      · simp only [BytesReader.Read, hlt, if_false, hlen, List.drop_length, List.append_nil]
        rw [hi, hs]
      · simp only [BytesReader.Read, hlt, if_false, hlen]
      · simp only [BytesReader.Read, hlt, if_false]
      · simp only [BytesReader.Read, hlt, if_false]
        exact hs)
    (by
      intro s c ⟨h0, h1, h2⟩ hc
      simp only [List.length_take, List.length_drop]
      omega)
    (by norm_num) (by norm_num) hb2 ss (o.stream_read s0 size) p
    (fun s hs => ⟨⟨(hrange s hs).1, hsrc s hs, hb3 s hs⟩, hrange s hs⟩)
    hlink rfl hL rfl rfl hhead rfl hp0 hp1 hb1
  obtain ⟨res, h1, h2, h3, h4⟩ := key
  refine ⟨res, h1, h2, h3, ?_⟩
  rw [h4]
  exact chainBytes_sectorBytes o.reader.s ss p.length
    (fun s hs => ⟨(hrange s hs).1, hsrc s hs⟩)

/-- Witness for C2: declared size 600, start sector 5, chain 5 -> 6 -> end-of-chain. -/
theorem stream_read_Read_chain_witness :
    ∃ res, ((containerOf [-1, -1, -1, -1, -1, 6, EOFSecID] [] (numberedSource 7)).stream_read
        5 600).Read (List.replicate 600 0) = Except.ok res
      ∧ res.n = ((List.replicate 600 0).length : Int) ∧ res.err = none
      ∧ res.p = (([5, 6].map (sectorBytes
          (containerOf [-1, -1, -1, -1, -1, 6, EOFSecID] [] (numberedSource 7)).reader.s)).flatten).take
            (List.replicate 600 0).length :=
  stream_read_Read_chain (containerOf [-1, -1, -1, -1, -1, 6, EOFSecID] []
    (numberedSource 7)) 600 5 [5, 6] (List.replicate 600 0) rfl rfl (by decide)
    (List.chain'_pair.mpr (by decide))
    (by decide!) (by decide!) (by decide!) (by decide!) (by decide) (by decide)


/-- The loop of `Read` when what is left of `p` fits the current sector: one read of the
rest of `p` from the underlying reader. -/
theorem readLoop_final {ρ : Type} [ReadSeeker ρ] (fuel : Nat) (r : StreamReader ρ)
    (p : List Nat) (readed : Nat)
    (hc : ¬ (u32 ((u32 p.length : Int) - (readed : Int))
              > u32 ((r.sizeSector : Int) - (r.offsetInSector : Int))))
    (hle : readed ≤ p.length) :
    StreamReader.readLoop (fuel + 1) r p readed =
      match ReadSeeker.Read r.reader (p.drop readed) with
      | Except.error f => Except.error f
      | Except.ok res =>
        if res.err = none then
          Except.ok { reader := { r with reader := res.reader,
                                         offsetInSector := u32 ((r.offsetInSector : Int)
                                                                 + (u32 res.n : Int)) },
                      p := splice p readed res.p, n := (p.length : Int), err := none }
        else
          Except.ok { reader := { r with reader := res.reader }, p := splice p readed res.p,
                      n := (readed : Int) + res.n, err := res.err } := by
  have hsl : slice p readed p.length = some (p.drop readed) := by
    rw [slice_eq_some p readed p.length hle (le_refl _)]
    rw [List.take_of_length_le (by simp)]
  rw [StreamReader.readLoop]
  simp only [hc, if_false, hsl]

/-- When the position of the current sector wraps to a negative `int32`, the underlying
`Seek` fails and a one-byte `Read` delivers the byte at the index where the in-memory
source happens to stand. -/
theorem Read_one_byte_at_wrapped_position (sat : List Int) (sid : Int) (size : Int)
    (a x : Nat) (rest : List Nat) (hneg : i32 (sector_pos sid 512 + i32 0) < 0)
    (hne : sid ≠ EOFSecID) :
    observe (StreamReader.Read
      { sat := sat, start := sid, reader := BytesReader.mk (a :: rest) 0, offsetOfSector := sid,
        offsetInSector := 0, sizeSector := 512, size := size, offset := 0,
        sectorPos := sector_pos } [x]) = Except.ok (1, none, [a]) := by
  have hseek : BytesReader.Seek (BytesReader.mk (a :: rest) 0)
      (i32 (sector_pos sid 512 + i32 ((0 : Nat) : Int))) 0
      = ⟨BytesReader.mk (a :: rest) 0, 0, some GoError.other⟩ := by
    simp only [BytesReader.Seek, true_or, if_true, Nat.cast_zero, hneg]
  have hread : BytesReader.Read (BytesReader.mk (a :: rest) 0) (List.drop 0 [x])
      = ⟨BytesReader.mk (a :: rest) 1, [a], 1, none⟩ := by
    have hlen : ¬ ((0 : Int) ≥ ((a :: rest).length : Int)) := by
      simp only [List.length_cons]; omega
    simp only [BytesReader.Read, hlen, if_false]
    rfl
  unfold StreamReader.Read
  rw [if_neg hne]
  simp only [ReadSeeker.Seek, hseek]
  rw [readLoop_final _ _ _ _ (by simp only [List.length_singleton]; unfold u32; omega)
    (Nat.zero_le _)]
  simp only [ReadSeeker.Read, hread, if_true]
  rfl

theorem sectorBytes_far (a : Nat) (n : Nat) (sid : Int) (h0 : 0 ≤ sid)
    (h1 : (512 + 512 * sid).toNat ≤ n) :
    (sectorBytes (a :: List.replicate n 0) sid).take 1 = [0] := by
  obtain ⟨k, hk⟩ : ∃ k, (512 + 512 * sid).toNat = k + 1 := ⟨(512 + 512 * sid).toNat - 1, by omega⟩
  unfold sectorBytes
  rw [hk, List.drop_succ_cons, List.drop_replicate, List.take_replicate, List.take_replicate]
  have : min 1 (min 512 (n - k)) = 1 := by omega
  rw [this]
  rfl

theorem farContainer_source : farContainer.reader.s = 1 :: List.replicate 2147484159 0 := rfl

theorem farContainer_source_length : farContainer.reader.s.length = 2147484159 + 1 := by
  rw [farContainer_source, List.length_cons, List.length_replicate]

theorem farContainer_SecID_length : farContainer.SecID.length = 4194304 := by
  have h : farContainer.SecID = List.replicate 4194304 EOFSecID := rfl
  rw [h, List.length_replicate]

/-- C2 (counterexample): sector 4194303 is in range of the table and held in full by the
source (at offsets 2^31 .. 2^31 + 512, all bytes 0), yet a fresh reader on the chain
made of that one sector fills a one-byte buffer with the byte 1 found at source offset 0:
`sector_pos` wraps to -2^31 and the `Seek` of the source fails. -/
theorem stream_read_Read_wraps_at_2GiB :
    (0 ≤ (4194303 : Int) ∧ (4194303 : Int) < (farContainer.SecID.length : Int))
    ∧ 512 + 512 * (4194303 : Int) + 512 ≤ (farContainer.reader.s.length : Int)
    ∧ observe ((farContainer.stream_read 4194303 1).Read [0]) = Except.ok (1, none, [1])
    ∧ (sectorBytes farContainer.reader.s 4194303).take 1 = [0] := by
  refine ⟨⟨by norm_num, ?_⟩, ?_, ?_, ?_⟩
  · rw [farContainer_SecID_length]; norm_num
  · rw [farContainer_source_length]; norm_num
  · exact Read_one_byte_at_wrapped_position _ 4194303 _ 1 0 _
      (by unfold sector_pos i32; norm_num) (by unfold EOFSecID; norm_num)
  · rw [farContainer_source]
    exact sectorBytes_far 1 2147484159 4194303 (by norm_num) (by norm_num)

/-! ### Seeking along a chain -/

/-- Walking a chain in `Seek`: when the offset falls into the `q`-th sector of a linked
chain that does not end before it, the loop stops on that sector and the last lines of
`Seek` either report end-of-stream (declared size reached) or set the in-sector offset. -/
theorem seekLoop_chain {ρ : Type} (sat : List Int) (S : Nat) (hS0 : 0 < S)
    (hS1 : S < 4294967296) :
    ∀ (ss : List Int) (fuel : Nat) (r : StreamReader ρ) (k : Nat),
      List.Chain' (fun a b => index sat a = some b) ss →
      (∀ s ∈ ss, s ≠ EOFSecID) →
      r.sat = sat → r.sizeSector = S → r.offsetInSector = 0 →
      ss.head? = some r.offsetOfSector →
      k / S < ss.length → k / S + 1 ≤ fuel → k < 9223372036854775808 →
      StreamReader.seekLoop fuel r (k : Int) =
        if r.size ≤ r.offset then
          Except.ok { reader := { r with offsetOfSector := ss.getD (k / S) 0,
                                         offsetInSector := 0, offset := r.size },
                      offsetResult := r.size, err := some GoError.EOF }
        else
          Except.ok { reader := { r with offsetOfSector := ss.getD (k / S) 0,
                                         offsetInSector := k % S },
                      offsetResult := r.offset, err := none } := by
  intro ss
  induction ss with
  | nil => intro fuel r k _ _ _ _ _ hh; simp at hh
  | cons s rest ih =>
    intro fuel r k hlink hne hr1 hr2 hr3 hhead hq hfuel hk
    simp only [List.head?_cons, Option.some.injEq] at hhead
    subst hhead
    obtain ⟨fuel, rfl⟩ : ∃ f, fuel = f + 1 :=
      ⟨fuel - 1, by have := Nat.zero_le (k / S); generalize k / S = q at *; omega⟩
    have hsz : (u32 ((r.sizeSector : Int) - (r.offsetInSector : Int)) : Int) = (S : Int) := by
      rw [hr2, hr3]; unfold u32; omega
    by_cases hlt : k < S
    · have hq0 : k / S = 0 := Nat.div_eq_of_lt hlt
      have hmod : k % S = k := Nat.mod_eq_of_lt hlt
      have hc : ¬ ((k : Int) ≥ (S : Int)) := by omega
      have hu : u32 ((r.offsetInSector : Int) + (u32 (k : Int) : Int)) = k := by
        rw [hr3]; unfold u32; omega
      rw [StreamReader.seekLoop]
      simp only [hsz, hc, if_false, hu, hq0, List.getD_cons_zero, hmod]
      simp only [hr3]
    · have hge : S ≤ k := Nat.le_of_not_lt hlt
      have hq1 : k / S = (k - S) / S + 1 := Nat.div_eq_sub_div hS0 hge
      have hm1 : k % S = (k - S) % S := Nat.mod_eq_sub_mod hge
      cases rest with
      | nil =>
        simp only [List.length_singleton] at hq
        have := Nat.zero_le ((k - S) / S)
        generalize (k - S) / S = q1 at *; generalize k / S = q at *; omega
      | cons t rest =>
        obtain ⟨hlk, hlink1⟩ := List.chain'_cons.mp hlink
        have hc : (k : Int) ≥ (S : Int) := by omega
        have hidx : index r.sat r.offsetOfSector = some t := by rw [hr1]; exact hlk
        have hnt : ¬ (t = EOFSecID) := hne t (List.mem_cons_of_mem _ (List.mem_cons_self _ _))
        have ho : i64 ((k : Int) - (S : Int)) = ((k - S : Nat) : Int) := by
          unfold i64; omega
        have hrec := ih fuel { r with offsetOfSector := t, offsetInSector := 0 } (k - S) hlink1
          (fun x hx => hne x (List.mem_cons_of_mem _ hx)) hr1 hr2 rfl rfl
          (by
            simp only [List.length_cons] at hq ⊢
            generalize (k - S) / S = q1 at *; generalize k / S = q at *; omega)
          (by generalize (k - S) / S = q1 at *; generalize k / S = q at *; omega)
          (by omega)
        rw [StreamReader.seekLoop]
        simp only [hsz, hc, if_true, hidx, hnt, if_false, ho]
        rw [hrec, hq1, hm1]
        simp only [List.getD_cons_succ]


/-- An absolute `Seek` to offset `k` on a reader whose chain from the start sector reaches
the sector that contains `k`. -/
theorem Seek_chain {ρ : Type} (r : StreamReader ρ) (ss : List Int) (k : Nat)
    (hS0 : 0 < r.sizeSector) (hS1 : r.sizeSector < 4294967296)
    (hlink : List.Chain' (fun a b => index r.sat a = some b) ss)
    (hne : ∀ s ∈ ss, s ≠ EOFSecID) (hhead : ss.head? = some r.start)
    (hq : k / r.sizeSector < ss.length) (hk : k < 9223372036854775808) :
    r.Seek (k : Int) 0 =
      if r.size ≤ (k : Int) then
        Except.ok { reader := { r with offsetOfSector := ss.getD (k / r.sizeSector) 0,
                                       offsetInSector := 0, offset := r.size },
                    offsetResult := r.size, err := some GoError.EOF }
      else
        Except.ok { reader := { r with offsetOfSector := ss.getD (k / r.sizeSector) 0,
                                       offsetInSector := k % r.sizeSector, offset := (k : Int) },
                    offsetResult := (k : Int), err := none } := by
  have hmem : r.start ∈ ss := by
    cases ss with
    | nil => simp at hhead
    | cons a t =>
      simp only [List.head?_cons, Option.some.injEq] at hhead
      rw [hhead]; exact List.mem_cons_self _ _
  have hstart : ¬ (r.start = EOFSecID) := hne _ hmem
  have hdiv : k / r.sizeSector ≤ k := Nat.div_le_self _ _
  have hloop := seekLoop_chain r.sat r.sizeSector hS0 hS1 ss ((k : Int).toNat + 2)
    { r with offsetOfSector := r.start, offsetInSector := 0, offset := (k : Int) } k hlink hne rfl
    rfl rfl hhead hq (by simp only [Int.toNat_ofNat]; omega) hk
  unfold StreamReader.Seek
  simp only [if_true, hstart, if_false]
  rw [hloop]

/-! ### C10 -/

/-- C10 (amended): for every stream reader with declared size `n` and every absolute
offset `k >= n` (an `int64`, so `k < 2^63`) whose sector is still reachable in the chain
(the chain `ss` from the start sector is linked, free of the end-of-chain id and has a
sector number `k div sizeSector`, the sector size being non-zero), `Seek(k, 0)` itself
reports end-of-stream: it returns the offset `n` together with `io.EOF`, records `n` as
the offset and leaves the cursor at the start of the sector that contains `k`. -/
theorem Seek_past_size_is_EOF {ρ : Type} (r : StreamReader ρ) (ss : List Int) (k : Nat)
    (hS0 : 0 < r.sizeSector) (hS1 : r.sizeSector < 4294967296)
    (hlink : List.Chain' (fun a b => index r.sat a = some b) ss)
    (hne : ∀ s ∈ ss, s ≠ EOFSecID) (hhead : ss.head? = some r.start)
    (hq : k / r.sizeSector < ss.length) (hk : k < 9223372036854775808)
    (hn : r.size ≤ (k : Int)) :
    ∃ sk, r.Seek (k : Int) 0 = Except.ok sk ∧ sk.offsetResult = r.size
      ∧ sk.err = some GoError.EOF ∧ sk.reader.offset = r.size
      ∧ sk.reader.offsetOfSector = ss.getD (k / r.sizeSector) 0
      ∧ sk.reader.offsetInSector = 0 := by
  have h := Seek_chain r ss k hS0 hS1 hlink hne hhead hq hk
  rw [if_pos hn] at h
  exact ⟨_, h, rfl, rfl, rfl, rfl, rfl⟩

theorem getD_mem_of_lt (l : List Int) (q : Nat) (h : q < l.length) : l.getD q 0 ∈ l := by
  rw [List.getD_eq_getElem _ _ h]; exact List.getElem_mem _

theorem getD_take_drop (l : List Nat) (a c t : Nat) (ht : t < c) :
    ((l.drop a).take c).getD t 0 = l.getD (a + t) 0 := by
  simp only [List.getD_eq_getElem?_getD, List.getElem?_take, ht, if_true, List.getElem?_drop]

theorem getD_take (l : List Nat) (c t : Nat) (ht : t < c) :
    (l.take c).getD t 0 = l.getD t 0 := by
  simp only [List.getD_eq_getElem?_getD, List.getElem?_take, ht, if_true]

theorem chainBytes_length (D : Int → Nat → List Nat) (S : Nat) (P : Int → Prop)
    (hlen : ∀ s c, P s → c ≤ S → (D s c).length = c) :
    ∀ (ss : List Int) (R : Nat), (∀ s ∈ ss, P s) → R ≤ S * ss.length →
      (chainBytes D S ss R).length = R := by
  intro ss
  induction ss with
  | nil => intro R _ hR; simp only [List.length_nil, Nat.mul_zero] at hR; simp [chainBytes]; omega
  | cons s rest ih =>
    intro R hP hR
    have hs := hP s (List.mem_cons_self _ _)
    simp only [chainBytes]
    by_cases h : R ≤ S
    · simp only [h, if_true]; exact hlen s R hs h
    · simp only [h, if_false, List.length_append]
      rw [hlen s S hs (le_refl _), ih (R - S) (fun x hx => hP x (List.mem_cons_of_mem _ hx))
        (by simp only [List.length_cons, Nat.mul_succ] at hR; omega)]
      omega

/-- Byte `j` of what a read along a chain delivers is byte `j mod S` of the sector
number `j div S` of the chain. -/
theorem chainBytes_getD (D : Int → Nat → List Nat) (S : Nat) (hS : 0 < S) (P : Int → Prop)
    (hlen : ∀ s c, P s → c ≤ S → (D s c).length = c)
    (hpre : ∀ s c, P s → c ≤ S → D s c = (D s S).take c) :
    ∀ (ss : List Int) (R j : Nat), (∀ s ∈ ss, P s) → R ≤ S * ss.length → j < R →
      (chainBytes D S ss R).getD j 0 = (D (ss.getD (j / S) 0) S).getD (j % S) 0 := by
  intro ss
  induction ss with
  | nil => intro R j _ hR hj; simp only [List.length_nil, Nat.mul_zero] at hR; omega
  | cons s rest ih =>
    intro R j hP hR hj
    have hs := hP s (List.mem_cons_self _ _)
    simp only [chainBytes]
    by_cases h : R ≤ S
    · have hjS : j < S := by omega
      simp only [h, if_true, Nat.div_eq_of_lt hjS, Nat.mod_eq_of_lt hjS, List.getD_cons_zero]
      rw [hpre s R hs h, getD_take _ _ _ hj]
    · simp only [h, if_false]
      by_cases hjS : j < S
      · simp only [Nat.div_eq_of_lt hjS, Nat.mod_eq_of_lt hjS, List.getD_cons_zero]
        rw [List.getD_append _ _ _ _ (by rw [hlen s S hs (le_refl _)]; exact hjS)]
      · have hge : S ≤ j := Nat.le_of_not_lt hjS
        rw [List.getD_append_right _ _ _ _ (by rw [hlen s S hs (le_refl _)]; exact hge)]
        rw [hlen s S hs (le_refl _)]
        rw [ih (R - S) (j - S) (fun x hx => hP x (List.mem_cons_of_mem _ hx))
          (by simp only [List.length_cons, Nat.mul_succ] at hR; omega) (by omega)]
        rw [Nat.div_eq_sub_div hS hge, Nat.mod_eq_sub_mod hge, List.getD_cons_succ]


/-! ### C3 -/

/-- C3 (amended): a mini stream reader freshly created by
`short_stream_read(m0, size, rootStart)` in a container with 512-byte sectors and 64-byte
mini-sectors, whose mini-FAT chain `ms = m0, m1, ...` is in range of `SSecID` and linked,
whose root mini-stream has an in-range linked chain `rs = rootStart, r1, ...` in `SecID`
that reaches every mini-sector of `ms` and whose sectors the in-memory source holds,
fills a buffer of length `L` with `1 <= L <= 64 * len(ms)` in a single `Read`: the call
returns `(L, nil)` and byte `j` of the buffer is the source byte at offset
`512 + 512*r_q + (o mod 512)` with `o = 64*m_(j div 64) + (j mod 64)` and `q = o div 512`.
This holds when the quantities fit the 32-bit types of the code: `L < 2^32`, a mini-FAT
that addresses less than `2^31` bytes (`64 * len(SSecID) < 2^31`), and
`512 + 512*r < 2^31` for every sector of the root chain. -/
theorem short_stream_read_Read_chain (o : Ole BytesReader) (size : Nat) (m0 rootStart : Int)
    (ms rs : List Int) (p : List Nat) (hL : o.Lsector = 512) (hLs : o.Lssector = 64)
    (hmhead : ms.head? = some m0)
    (hmrange : ∀ m ∈ ms, 0 ≤ m ∧ m < (o.SSecID.length : Int))
    (hmlink : List.Chain' (fun a b => index o.SSecID a = some b) ms)
    (hrhead : rs.head? = some rootStart)
    (hrrange : ∀ r ∈ rs, 0 ≤ r ∧ r < (o.SecID.length : Int))
    (hrlink : List.Chain' (fun a b => index o.SecID a = some b) rs)
    (hcover : ∀ m ∈ ms, (64 * m).toNat / 512 < rs.length)
    (hsrc : ∀ r ∈ rs, 512 + 512 * r + 512 ≤ (o.reader.s.length : Int))
    (hp0 : 1 ≤ p.length) (hp1 : p.length ≤ 64 * ms.length)
    (hb1 : p.length < 4294967296) (hb2 : 64 * o.SSecID.length < 2147483648)
    (hb3 : ∀ r ∈ rs, 512 + 512 * r < 2147483648) :
    ∃ res, (o.short_stream_read m0 size rootStart).Read p = Except.ok res
      ∧ res.n = (p.length : Int) ∧ res.err = none ∧ res.p.length = p.length
      ∧ ∀ j, j < p.length →
          res.p.getD j 0 = o.reader.s.getD
            (512 + 512 * rs.getD ((64 * ms.getD (j / 64) 0 + ((j % 64 : Nat) : Int)) / 512).toNat 0
              + (64 * ms.getD (j / 64) 0 + ((j % 64 : Nat) : Int)) % 512).toNat 0 := by
  -- the reader of the root mini-stream, as `short_stream_read` builds it
  let isz : Int := (u32 (((u32 (o.SSecID.length : Int) : Nat) : Int) * (o.Lssector : Int)) : Int)
  have hisz : isz = 64 * (o.SSecID.length : Int) := by
    show (u32 (((u32 (o.SSecID.length : Int) : Nat) : Int) * (o.Lssector : Int)) : Int) = _
    rw [hLs]; unfold u32; omega
  let good : Int → Prop := fun m =>
    0 ≤ m ∧ m < (o.SSecID.length : Int) ∧ (64 * m).toNat / 512 < rs.length
  let Inv : StreamReader BytesReader → Prop := fun rd =>
    rd.sat = o.SecID ∧ rd.start = rootStart ∧ rd.sizeSector = 512 ∧ rd.size = isz
      ∧ rd.sectorPos = sector_pos ∧ rd.reader.s = o.reader.s
  let At : StreamReader BytesReader → Int → Prop := fun rd m =>
    Inv rd ∧ rd.offsetOfSector = rs.getD ((64 * m).toNat / 512) 0
      ∧ rd.offsetInSector = (64 * m).toNat % 512
  let D : Int → Nat → List Nat := fun m c =>
    (o.reader.s.drop (512 + 512 * rs.getD ((64 * m).toNat / 512) 0
      + (((64 * m).toNat % 512 : Nat) : Int)).toNat).take c
  have hrne : ∀ s ∈ rs, s ≠ EOFSecID := by
    intro s hs; have := (hrrange s hs).1; unfold EOFSecID; omega
  have hseek : ∀ rd s, Inv rd → good s →
      ∃ sk, ReadSeeker.Seek rd (i32 (short_sector_pos s 64 + i32 0)) 0 = Except.ok sk
        ∧ At sk.reader s := by
    intro rd m ⟨i1, i2, i3, i4, i5, i6⟩ ⟨g0, g1, g2⟩
    have hpos : i32 (short_sector_pos m 64 + i32 0) = (((64 * m).toNat : Nat) : Int) := by
      unfold short_sector_pos i32; omega
    rw [hpos]
    have hsk := Seek_chain rd rs (64 * m).toNat (by rw [i3]; norm_num) (by rw [i3]; norm_num)
      (by rw [i1]; exact hrlink) hrne (by rw [i2]; exact hrhead) (by rw [i3]; exact g2) (by omega)
    have hnot : ¬ (rd.size ≤ (((64 * m).toNat : Nat) : Int)) := by rw [i4, hisz]; omega
    rw [if_neg hnot] at hsk
    refine ⟨_, hsk, ⟨i1, i2, i3, i4, i5, i6⟩, ?_, ?_⟩
    · show rs.getD ((64 * m).toNat / rd.sizeSector) 0 = _
      rw [i3]
    · show (64 * m).toNat % rd.sizeSector = _
      rw [i3]
  have hread : ∀ rd s (b : List Nat), At rd s → good s → 1 ≤ b.length → b.length ≤ 64 →
      ∃ res, ReadSeeker.Read rd b = Except.ok res ∧ res.p = D s b.length
        ∧ res.n = (b.length : Int) ∧ res.err = none ∧ Inv res.reader := by
    intro rd m b ⟨⟨i1, i2, i3, i4, i5, i6⟩, a1, a2⟩ ⟨g0, g1, g2⟩ hb0 hb64
    have hmem := getD_mem_of_lt rs _ g2
    obtain ⟨r0, _⟩ := hrrange _ hmem
    have hs := hsrc _ hmem
    have h3 := hb3 _ hmem
    have hne : ¬ (rd.offsetOfSector = EOFSecID) := by rw [a1]; unfold EOFSecID; omega
    have hpos : i32 (rd.sectorPos rd.offsetOfSector rd.sizeSector + i32 (rd.offsetInSector : Int))
        = 512 + 512 * rs.getD ((64 * m).toNat / 512) 0 + (((64 * m).toNat % 512 : Nat) : Int) := by
      rw [i5, i3, a1, a2]; unfold sector_pos i32; omega
    have hnn : ¬ (512 + 512 * rs.getD ((64 * m).toNat / 512) 0
        + (((64 * m).toNat % 512 : Nat) : Int) < 0) := by omega
    have hcond : ¬ (u32 ((u32 (b.length : Int) : Int) - ((0 : Nat) : Int))
        > u32 ((rd.sizeSector : Int) - (rd.offsetInSector : Int))) := by
      rw [i3, a2]; unfold u32; omega
    have hlt : ¬ (512 + 512 * rs.getD ((64 * m).toNat / 512) 0
        + (((64 * m).toNat % 512 : Nat) : Int) ≥ (rd.reader.s.length : Int)) := by
      rw [i6]; omega
    have hlen : ((rd.reader.s.drop (512 + 512 * rs.getD ((64 * m).toNat / 512) 0
        + (((64 * m).toNat % 512 : Nat) : Int)).toNat).take b.length).length = b.length := by
      simp only [List.length_take, List.length_drop]
      rw [i6]; omega
    have heq : StreamReader.Read rd b = Except.ok
        { reader := { rd with
            reader := { rd.reader with i := 512 + 512 * rs.getD ((64 * m).toNat / 512) 0
              + (((64 * m).toNat % 512 : Nat) : Int) + (b.length : Int) },
            offsetInSector := u32 ((rd.offsetInSector : Int) + (u32 (b.length : Int) : Int)) },
          p := D m b.length, n := (b.length : Int), err := none } := by
      unfold StreamReader.Read
      rw [if_neg hne]
      simp only [hpos, ReadSeeker.Seek, BytesReader.Seek, true_or, if_true, hnn, if_false]
      have key := fun (R : StreamReader BytesReader) (e1 : R.sizeSector = rd.sizeSector)
          (e2 : R.offsetInSector = rd.offsetInSector) =>
        readLoop_final (b.length + 1) R b 0 (by rw [e1, e2]; exact hcond) (Nat.zero_le _)
      refine (key _ ?_ ?_).trans ?_
      · rfl
      · rfl
      simp only [ReadSeeker.Read, BytesReader.Read, hlt, if_false, List.drop_zero, hlen,
        List.drop_length, List.append_nil, if_true, splice, List.take_zero, List.nil_append,
        Nat.zero_add]
      rw [i6]
    exact ⟨_, heq, rfl, rfl, rfl, i1, i2, i3, i4, i5, i6⟩
  have hD : ∀ s c, good s → c ≤ 64 → (D s c).length = c := by
    intro m c ⟨g0, g1, g2⟩ hc
    have hmem := getD_mem_of_lt rs _ g2
    obtain ⟨r0, _⟩ := hrrange _ hmem
    have hs := hsrc _ hmem
    show ((o.reader.s.drop _).take c).length = c
    simp only [List.length_take, List.length_drop]
    omega
  have hgood : ∀ s ∈ ms, good s ∧ 0 ≤ s ∧ s < (o.SSecID.length : Int) :=
    fun s hs => ⟨⟨(hmrange s hs).1, (hmrange s hs).2, hcover s hs⟩, hmrange s hs⟩
  obtain ⟨res, h1, h2, h3, h4⟩ := Read_chain o.SSecID 64 short_sector_pos good Inv At D hseek hread
    hD (by norm_num) (by norm_num) (by omega) ms (o.short_stream_read m0 size rootStart) p
    hgood hmlink rfl hLs rfl rfl hmhead ⟨rfl, rfl, hL, rfl, rfl, rfl⟩ hp0 hp1 hb1
  refine ⟨res, h1, h2, h3, ?_, ?_⟩
  · rw [h4]
    exact chainBytes_length D 64 good hD ms p.length (fun s hs => (hgood s hs).1) hp1
  · intro j hj
    rw [h4, chainBytes_getD D 64 (by norm_num) good hD
      (by intro s c _ hc; show List.take c _ = List.take c (List.take 64 _)
          rw [List.take_take, min_eq_left hc])
      ms p.length j (fun s hs => (hgood s hs).1) hp1 hj]
    have hjm : j / 64 < ms.length := by omega
    have hmem : ms.getD (j / 64) 0 ∈ ms := getD_mem_of_lt ms _ hjm
    obtain ⟨m0', m1'⟩ := hmrange _ hmem
    have hq : ((64 * ms.getD (j / 64) 0 + ((j % 64 : Nat) : Int)) / 512).toNat
        = (64 * ms.getD (j / 64) 0).toNat / 512 := by omega
    rw [hq]
    have hcv := hcover _ hmem
    obtain ⟨r0, _⟩ := hrrange _ (getD_mem_of_lt rs _ hcv)
    show ((o.reader.s.drop _).take 64).getD (j % 64) 0 = _
    rw [getD_take_drop _ _ _ _ (Nat.mod_lt _ (by norm_num))]
    congr 1
    omega

/-- Witness for C3: root mini-stream on sectors 2 -> 3, entry of size 50 at mini-sector 0,
mini-FAT chain 0 -> end-of-chain; the 50 bytes are those found at source offset 1536. -/
theorem short_stream_read_Read_chain_witness :
    (∃ res, ((containerOf [-1, -1, 3, EOFSecID] [EOFSecID] (numberedSource 4)).short_stream_read
          0 50 2).Read (List.replicate 50 0) = Except.ok res
      ∧ res.n = ((List.replicate 50 0).length : Int) ∧ res.err = none
      ∧ res.p.length = (List.replicate 50 0).length
      ∧ ∀ j, j < (List.replicate 50 0).length →
          res.p.getD j 0
            = (containerOf [-1, -1, 3, EOFSecID] [EOFSecID] (numberedSource 4)).reader.s.getD
              (512 + 512 * [2, 3].getD
                  ((64 * [0].getD (j / 64) 0 + ((j % 64 : Nat) : Int)) / 512).toNat 0
                + (64 * [0].getD (j / 64) 0 + ((j % 64 : Nat) : Int)) % 512).toNat 0)
    ∧ observe (((containerOf [-1, -1, 3, EOFSecID] [EOFSecID] (numberedSource 4)).short_stream_read
          0 50 2).Read (List.replicate 50 0))
        = Except.ok (50, none, ((numberedSource 4).drop 1536).take 50) :=
  ⟨short_stream_read_Read_chain (containerOf [-1, -1, 3, EOFSecID] [EOFSecID] (numberedSource 4))
    50 0 2 [0] [2, 3] (List.replicate 50 0) rfl rfl rfl (by decide)
    (List.chain'_singleton _) rfl (by decide) (List.chain'_pair.mpr (by decide)) (by decide)
    (by decide!) (by decide!) (by decide!) (by decide!) (by decide) (by decide),
   by decide!⟩

/-- A single-byte `Read` on a reader over a non-empty in-memory source that stands at index 0,
when the position of the current sector wraps to a negative `int32`: the `Seek` of the
source fails and the byte at index 0 is delivered. -/
theorem Read_one_byte_at_wrapped_position_result (r : StreamReader BytesReader) (a x : Nat)
    (rest : List Nat) (hrd : r.reader = BytesReader.mk (a :: rest) 0)
    (hS : r.sizeSector = 512) (hofs : r.offsetInSector = 0) (hpf : r.sectorPos = sector_pos)
    (hneg : i32 (sector_pos r.offsetOfSector 512 + i32 0) < 0)
    (hne : r.offsetOfSector ≠ EOFSecID) :
    ∃ res, r.Read [x] = Except.ok res ∧ res.n = 1 ∧ res.err = none ∧ res.p = [a] := by
  have hseek : BytesReader.Seek r.reader
      (i32 (r.sectorPos r.offsetOfSector r.sizeSector + i32 (r.offsetInSector : Int))) 0
      = ⟨BytesReader.mk (a :: rest) 0, 0, some GoError.other⟩ := by
    rw [hpf, hS, hofs, hrd]
    simp only [BytesReader.Seek, true_or, if_true, Nat.cast_zero, hneg]
  have hread : BytesReader.Read (BytesReader.mk (a :: rest) 0) (List.drop 0 [x])
      = ⟨BytesReader.mk (a :: rest) 1, [a], 1, none⟩ := by
    have hlen : ¬ ((0 : Int) ≥ ((a :: rest).length : Int)) := by
      simp only [List.length_cons]; omega
    simp only [BytesReader.Read, hlen, if_false]
    rfl
  have hcond : ¬ (u32 ((u32 (([x] : List Nat).length : Int) : Int) - ((0 : Nat) : Int))
      > u32 ((r.sizeSector : Int) - (r.offsetInSector : Int))) := by
    rw [hS, hofs]; simp only [List.length_singleton]; unfold u32; omega
  have key := fun (R : StreamReader BytesReader) (e1 : R.sizeSector = r.sizeSector)
      (e2 : R.offsetInSector = r.offsetInSector) =>
    readLoop_final (([x] : List Nat).length + 1) R [x] 0 (by rw [e1, e2]; exact hcond)
      (Nat.zero_le _)
  have heq : r.Read [x] = Except.ok
      { reader := { r with reader := BytesReader.mk (a :: rest) 1,
                           offsetInSector := u32 ((r.offsetInSector : Int) + (u32 1 : Int)) },
        p := splice [x] 0 [a], n := (([x] : List Nat).length : Int), err := none } := by
    unfold StreamReader.Read
    rw [if_neg hne]
    simp only [ReadSeeker.Seek, hseek]
    refine (key _ ?_ ?_).trans ?_
    · rfl
    · rfl
    simp only [ReadSeeker.Read, hread, if_true]
  exact ⟨_, heq, rfl, rfl, rfl⟩


/-- A single-byte `Read` on a mini stream reader at mini-sector 0 whose root sector position
wraps to a negative `int32`: the byte at index 0 of the source is delivered. -/
theorem mini_Read_one_byte_at_wrapped_position (r : StreamReader (StreamReader BytesReader))
    (a x : Nat) (rest : List Nat)
    (h1 : r.offsetOfSector = 0) (h2 : r.offsetInSector = 0) (h3 : r.sizeSector = 64)
    (h4 : r.sectorPos = short_sector_pos)
    (g1 : r.reader.reader = BytesReader.mk (a :: rest) 0) (g2 : r.reader.sizeSector = 512)
    (g3 : r.reader.sectorPos = sector_pos) (g4 : 0 < r.reader.size)
    (g5 : r.reader.start ≠ EOFSecID)
    (hneg : i32 (sector_pos r.reader.start 512 + i32 0) < 0) :
    observe (r.Read [x]) = Except.ok (1, none, [a]) := by
  have hsk := Seek_chain r.reader [r.reader.start] 0 (by rw [g2]; norm_num) (by rw [g2]; norm_num)
    (List.chain'_singleton _)
    (by intro s hs; rw [List.mem_singleton] at hs; rw [hs]; exact g5) rfl
    (by simp) (by norm_num)
  have hnot : ¬ (r.reader.size ≤ ((0 : Nat) : Int)) := by
    simp only [Nat.cast_zero]; omega
  rw [if_neg hnot] at hsk
  have hne : ¬ (r.offsetOfSector = EOFSecID) := by rw [h1]; unfold EOFSecID; omega
  have hpos : i32 (r.sectorPos r.offsetOfSector r.sizeSector + i32 (r.offsetInSector : Int))
      = ((0 : Nat) : Int) := by
    rw [h4, h1, h3, h2]; unfold short_sector_pos i32; simp
  have hcond : ¬ (u32 ((u32 (([x] : List Nat).length : Int) : Int) - ((0 : Nat) : Int))
      > u32 ((r.sizeSector : Int) - (r.offsetInSector : Int))) := by
    rw [h3, h2]; simp only [List.length_singleton]; unfold u32; omega
  have key := fun (R : StreamReader (StreamReader BytesReader))
      (e1 : R.sizeSector = r.sizeSector) (e2 : R.offsetInSector = r.offsetInSector) =>
    readLoop_final (([x] : List Nat).length + 1) R [x] 0 (by rw [e1, e2]; exact hcond)
      (Nat.zero_le _)
  obtain ⟨res, hres, hn, he, hp⟩ := Read_one_byte_at_wrapped_position_result
    { r.reader with offsetOfSector := [r.reader.start].getD (0 / r.reader.sizeSector) 0,
                    offsetInSector := 0 % r.reader.sizeSector, offset := ((0 : Nat) : Int) }
    a x rest g1 g2 (by simp) g3
    (by simpa using hneg)
    (by simpa using g5)
  unfold StreamReader.Read
  rw [if_neg hne]
  simp only [hpos, ReadSeeker.Seek, hsk]
  have hloop := key { r with reader :=
      { r.reader with offsetOfSector := [r.reader.start].getD (0 / r.reader.sizeSector) 0,
                      offsetInSector := 0 % r.reader.sizeSector, offset := ((0 : Nat) : Int) } }
    rfl rfl
  simp only [List.drop_zero, ReadSeeker.Read, hres, he, if_true] at hloop
  rw [show ([x] : List Nat).length + 2 = ([x] : List Nat).length + 1 + 1 from rfl, hloop]
  simp only [observe, hp, splice, List.take_zero, List.nil_append, List.length_singleton,
    List.drop_succ_cons, List.drop_nil, List.append_nil, Nat.zero_add, List.drop_zero]
  rfl

/-- C3 (counterexample): the mini-FAT chain 0 -> end-of-chain and the root chain made of
sector 4194303 are in range and the source holds that sector in full (offsets 2^31 ..
2^31 + 512, all bytes 0), yet a fresh mini stream reader fills a one-byte buffer with the
byte 1 found at source offset 0 instead of the byte at offset `512 + 512*4194303`:
`sector_pos` wraps to -2^31 and the `Seek` of the source fails. -/
theorem short_stream_read_Read_wraps_at_2GiB :
    (0 ≤ (0 : Int) ∧ (0 : Int) < (farContainer.SSecID.length : Int))
    ∧ (0 ≤ (4194303 : Int) ∧ (4194303 : Int) < (farContainer.SecID.length : Int))
    ∧ 512 + 512 * (4194303 : Int) + 512 ≤ (farContainer.reader.s.length : Int)
    ∧ observe ((farContainer.short_stream_read 0 1 4194303).Read [0])
        = Except.ok (1, none, [1])
    ∧ farContainer.reader.s.getD (512 + 512 * (4194303 : Int) + 0).toNat 0 = 0 := by
  refine ⟨⟨by norm_num, ?_⟩, ⟨by norm_num, ?_⟩, ?_, ?_, ?_⟩
  · have h : farContainer.SSecID = [EOFSecID] := rfl
    rw [h]; simp
  · rw [farContainer_SecID_length]; norm_num
  · rw [farContainer_source_length]; norm_num
  · exact mini_Read_one_byte_at_wrapped_position _ 1 0 _ rfl rfl rfl rfl rfl rfl rfl
      (by
        show (0 : Int) < (u32 (((u32 (farContainer.SSecID.length : Int) : Nat) : Int)
          * (farContainer.Lssector : Int)) : Int)
        have h : farContainer.SSecID = [EOFSecID] := rfl
        have h2 : farContainer.Lssector = 64 := rfl
        rw [h, h2]; simp only [List.length_singleton]; unfold u32; norm_num)
      (by show (4194303 : Int) ≠ EOFSecID; unfold EOFSecID; norm_num)
      (by show i32 (sector_pos 4194303 512 + i32 0) < 0; unfold sector_pos i32; norm_num)
  · rw [farContainer_source]
    have h : (512 + 512 * (4194303 : Int) + 0).toNat = 2147483647 + 1 := by
      have : (512 + 512 * (4194303 : Int) + 0) = ((2147483648 : Nat) : Int) := by norm_num
      rw [this, Int.toNat_ofNat]
    rw [h, List.getD_cons_succ, List.getD_eq_getElem?_getD, List.getElem?_replicate]
    norm_num

/-- Witness for C10: declared size 600, chain 5 -> 6 -> end-of-chain, `Seek(700, 0)`. -/
theorem Seek_past_size_is_EOF_witness :
    ∃ sk, ((containerOf [-1, -1, -1, -1, -1, 6, EOFSecID] [] (numberedSource 7)).stream_read
          5 600).Seek ((700 : Nat) : Int) 0 = Except.ok sk
      ∧ sk.offsetResult
          = ((containerOf [-1, -1, -1, -1, -1, 6, EOFSecID] [] (numberedSource 7)).stream_read
              5 600).size
      ∧ sk.err = some GoError.EOF
      ∧ sk.reader.offset
          = ((containerOf [-1, -1, -1, -1, -1, 6, EOFSecID] [] (numberedSource 7)).stream_read
              5 600).size
      ∧ sk.reader.offsetOfSector = [5, 6].getD
          (700 / ((containerOf [-1, -1, -1, -1, -1, 6, EOFSecID] [] (numberedSource 7)).stream_read
              5 600).sizeSector) 0
      ∧ sk.reader.offsetInSector = 0 :=
  Seek_past_size_is_EOF
    ((containerOf [-1, -1, -1, -1, -1, 6, EOFSecID] [] (numberedSource 7)).stream_read 5 600)
    [5, 6] 700 (by decide) (by decide) (List.chain'_pair.mpr (by decide)) (by decide) rfl
    (by decide) (by decide) (by decide)

/-- C10 (counterexample): on the stream of declared size 600 with chain 5 -> 6 ->
end-of-chain, `Seek(700, 0)` returns the error `io.EOF` (with offset 600), and the next
`Read` into a 3-byte buffer returns 3 bytes of sector 6 and no error. -/
theorem Seek_past_size_reports_EOF_then_Read_delivers :
    observeSeek (((containerOf [-1, -1, -1, -1, -1, 6, EOFSecID] [] (numberedSource 7)).stream_read
        5 600).Seek 700 0) = Except.ok (600, some GoError.EOF)
    ∧ seekThenRead ((containerOf [-1, -1, -1, -1, -1, 6, EOFSecID] []
        (numberedSource 7)).stream_read 5 600) 700 0 [0, 0, 0]
      = Except.ok (3, none, [6, 6, 6]) := by
  decide!

/-! ### C5 -/

/-- C5 (the code at the failing inputs): a chain whose table entry is the free id -1, read
with a 1025-byte buffer, and a stream whose start id is the FAT marker -3, read with a
513-byte buffer, both end `Read` in an index-out-of-range panic (`r.sat[-1]`, `r.sat[-3]`). -/
theorem Read_faults_on_negative_sector_id :
    observe (((containerOf [FreeSecID] [] (numberedSource 1)).stream_read 0 1024).Read
        (List.replicate 1025 0)) = Except.error Fault.indexOutOfRange
    ∧ observe (((containerOf [] [] (numberedSource 1)).stream_read SATSecID 1024).Read
        (List.replicate 513 0)) = Except.error Fault.indexOutOfRange := by
  decide!

/-! ### C6 -/

/-- C6 (the code at the failing input): with the table `[1]` the chain of start sector 0 is
in range and its entry names sector 1, outside the one-entry table; the source holds
sector 1. A `Read` from the start with a 1025-byte buffer returns 1024 bytes and `io.EOF`:
the 512 bytes of sector 0 followed by the 512 bytes found at the position of sector 1. -/
theorem Read_returns_bytes_of_out_of_range_sector :
    observe (((containerOf [1] [] (numberedSource 2)).stream_read 0 1024).Read
        (List.replicate 1025 7))
      = Except.ok (1024, some GoError.EOF, List.replicate 512 0 ++ List.replicate 512 1) := by
  decide!

/-! ### C8 -/

/-- C8 (the code at the failing input): chain 1 -> 0 -> end-of-chain over a source whose
physically last sector is sector 1. Two `Read` calls of 512 bytes return the 512 bytes of
sector 1 and then 0 bytes with `io.EOF`; one `Read` of 1024 bytes returns the bytes of
sector 1 followed by those of sector 0. -/
theorem Read_chunked_differs_at_last_sector :
    readMany ((containerOf [EOFSecID, 0] [] (numberedSource 2)).stream_read 1 1024)
        [List.replicate 512 7, List.replicate 512 7]
      = Except.ok [(512, none, List.replicate 512 1), (0, some GoError.EOF, [])]
    ∧ readMany ((containerOf [EOFSecID, 0] [] (numberedSource 2)).stream_read 1 1024)
        [List.replicate 1024 7]
      = Except.ok [(1024, none, List.replicate 512 1 ++ List.replicate 512 0)] := by
  decide!

/-! ### C7 -/

/-- C7 (evaluation of the code): a 1024-byte buffer on the stream of declared size 600
whose chain is 5 -> 6 -> end-of-chain gets 1024 bytes in one `Read`, more than the declared
600: `Read` never compares the position with the declared size. `Seek` does: on the same
reader `Seek(600, 0)` returns the offset 600 with `io.EOF`. -/
theorem Read_exceeds_declared_size :
    observe (((containerOf [-1, -1, -1, -1, -1, 6, EOFSecID] [] (numberedSource 7)).stream_read
        5 600).Read (List.replicate 1024 0))
      = Except.ok (1024, none, List.replicate 512 5 ++ List.replicate 512 6)
    ∧ ¬ ((1024 : Int) ≤ 600)
    ∧ observeSeek (((containerOf [-1, -1, -1, -1, -1, 6, EOFSecID] []
        (numberedSource 7)).stream_read 5 600).Seek 600 0)
      = Except.ok (600, some GoError.EOF) := by
  refine ⟨by decide!, by decide, by decide!⟩

theorem BytesReader_bounded : BoundedRead BytesReader := by
  intro rd b res h
  simp only [ReadSeeker.Read, Except.ok.injEq] at h
  subst h
  unfold BytesReader.Read
  split_ifs with hc
  · exact ⟨le_refl _, by simp, rfl⟩
  · simp only [List.length_take, List.length_drop, List.length_append]
    refine ⟨by omega, by omega, by omega⟩

theorem slice_some_iff (p : List Nat) (lo hi : Nat) (c : List Nat) (h : slice p lo hi = some c) :
    lo ≤ hi ∧ hi ≤ p.length ∧ c.length = hi - lo := by
  unfold slice at h
  split_ifs at h with hc
  simp only [Option.some.injEq] at h
  subst h
  simp only [List.length_take, List.length_drop]
  omega

/-- The loop of `Read` returns a count between 0 and `len(p)` and keeps the length of `p`. -/
theorem readLoop_bounded {ρ : Type} [ReadSeeker ρ] (hb : BoundedRead ρ) :
    ∀ (fuel : Nat) (r : StreamReader ρ) (p : List Nat) (readed : Nat)
      (res : ReadResult (StreamReader ρ)),
      readed ≤ p.length → StreamReader.readLoop fuel r p readed = Except.ok res →
      0 ≤ res.n ∧ res.n ≤ (p.length : Int) ∧ res.p.length = p.length := by
  intro fuel
  induction fuel with
  | zero => intro r p readed res _ h; simp only [StreamReader.readLoop] at h; cases h
  | succ fuel ih =>
    intro r p readed res hrd h
    rw [StreamReader.readLoop] at h
    simp only at h
    by_cases hc : u32 ((u32 (p.length : Int) : Int) - (readed : Int))
        > u32 ((r.sizeSector : Int) - (r.offsetInSector : Int))
    · -- a round of the loop
      rw [if_pos hc] at h
      split at h
      · cases h
      · rename_i chunk hsl
        obtain ⟨s1, s2, s3⟩ := slice_some_iff _ _ _ _ hsl
        split at h
        · cases h
        · rename_i ires hir
          obtain ⟨b1, b2, b3⟩ := hb _ _ _ hir
          have hlen : (splice p readed ires.p).length = p.length := by
            apply splice_length; omega
          have hr1 : (u32 ((readed : Int) + (u32 ires.n : Int)) : Int)
              = (readed : Int) + ires.n := by
            have : (u32 ((readed : Int) + (r.sizeSector : Int) - (r.offsetInSector : Int)) : Int)
                < 4294967296 := by unfold u32; omega
            unfold u32; omega
          by_cases he : ires.err ≠ none
          · rw [if_pos he] at h
            cases h
            refine ⟨?_, ?_, hlen⟩ <;> dsimp only <;> omega
          · rw [if_neg he] at h
            by_cases hge : r.offsetOfSector ≥ i32 (r.sat.length : Int)
            · rw [if_pos hge] at h
              cases h
              refine ⟨?_, ?_, hlen⟩ <;> dsimp only <;> omega
            · rw [if_neg hge] at h
              split at h
              · cases h
              · rename_i next hidx
                by_cases heof : next = EOFSecID
                · rw [if_pos heof] at h
                  cases h
                  refine ⟨?_, ?_, hlen⟩ <;> dsimp only <;> omega
                · rw [if_neg heof] at h
                  split at h
                  · cases h
                  · obtain ⟨k1, k2, k3⟩ := ih _ _ _ res
                      (by rw [hlen]; unfold u32 at hr1 ⊢; omega) h
                    rw [hlen] at k2 k3
                    exact ⟨k1, k2, k3⟩
    · -- the final read
      rw [if_neg hc] at h
      split at h
      · cases h
      · rename_i chunk hsl
        obtain ⟨s1, s2, s3⟩ := slice_some_iff _ _ _ _ hsl
        split at h
        · cases h
        · rename_i ires hir
          obtain ⟨b1, b2, b3⟩ := hb _ _ _ hir
          have hlen : (splice p readed ires.p).length = p.length := by
            apply splice_length; omega
          by_cases he : ires.err = none
          · rw [if_pos he] at h
            cases h
            refine ⟨?_, ?_, hlen⟩ <;> dsimp only <;> omega
          · rw [if_neg he] at h
            cases h
            refine ⟨?_, ?_, hlen⟩ <;> dsimp only <;> omega

/-- A stream reader over a bounded reader is bounded. -/
theorem StreamReader_bounded {ρ : Type} [ReadSeeker ρ] (hb : BoundedRead ρ) :
    BoundedRead (StreamReader ρ) := by
  intro r p res h
  simp only [ReadSeeker.Read] at h
  unfold StreamReader.Read at h
  split_ifs at h with he
  · cases h; exact ⟨le_refl _, by simp, rfl⟩
  · simp only at h
    split at h
    · cases h
    · exact readLoop_bounded hb _ _ _ _ _ (Nat.zero_le _) h


/-- The loop of `Read` never consults the declared size: changing it changes nothing but
the `size` field carried along. -/
theorem readLoop_size {ρ : Type} [ReadSeeker ρ] (z : Int) :
    ∀ (fuel : Nat) (r : StreamReader ρ) (p : List Nat) (readed : Nat),
      StreamReader.readLoop fuel { r with size := z } p readed =
        match StreamReader.readLoop fuel r p readed with
        | Except.error f => Except.error f
        | Except.ok res => Except.ok { res with reader := { res.reader with size := z } } := by
  intro fuel
  induction fuel with
  | zero => intro r p readed; simp only [StreamReader.readLoop]
  | succ fuel ih =>
    intro r p readed
    rw [StreamReader.readLoop, StreamReader.readLoop]
    dsimp only
    by_cases hc : u32 ((u32 (p.length : Int) : Int) - (readed : Int))
        > u32 ((r.sizeSector : Int) - (r.offsetInSector : Int))
    · simp only [if_pos hc]
      cases slice p readed (u32 ((readed : Int) + (r.sizeSector : Int) - (r.offsetInSector : Int))) with
      | none => rfl
      | some chunk =>
        dsimp only
        cases ReadSeeker.Read r.reader chunk with
        | error f => rfl
        | ok ires =>
          dsimp only
          by_cases he : ires.err ≠ none
          · simp only [if_pos he]
          · simp only [if_neg he]
            by_cases hge : r.offsetOfSector ≥ i32 (r.sat.length : Int)
            · simp only [if_pos hge]
            · simp only [if_neg hge]
              cases index r.sat r.offsetOfSector with
              | none => rfl
              | some next =>
                dsimp only
                by_cases heof : next = EOFSecID
                · simp only [if_pos heof]
                · simp only [if_neg heof]
                  cases ReadSeeker.Seek ires.reader
                      (i32 (r.sectorPos next r.sizeSector + i32 ((0 : Nat) : Int))) 0 with
                  | error f => rfl
                  | ok sk =>
                    dsimp only
                    exact ih { r with reader := sk.reader, offsetInSector := 0,
                                      offsetOfSector := next } _ _
    · simp only [if_neg hc]
      cases slice p readed p.length with
      | none => rfl
      | some chunk =>
        dsimp only
        cases ReadSeeker.Read r.reader chunk with
        | error f => rfl
        | ok ires =>
          dsimp only
          by_cases he : ires.err = none
          · simp only [if_pos he]
          · simp only [if_neg he]

/-- `Read` never consults the declared size. -/
theorem Read_size {ρ : Type} [ReadSeeker ρ] (z : Int) (r : StreamReader ρ) (p : List Nat) :
    StreamReader.Read { r with size := z } p =
      match StreamReader.Read r p with
      | Except.error f => Except.error f
      | Except.ok res => Except.ok { res with reader := { res.reader with size := z } } := by
  unfold StreamReader.Read
  dsimp only
  by_cases he : r.offsetOfSector = EOFSecID
  · simp only [if_pos he]
  · simp only [if_neg he]
    cases ReadSeeker.Seek r.reader
        (i32 (r.sectorPos r.offsetOfSector r.sizeSector + i32 (r.offsetInSector : Int))) 0 with
    | error f => rfl
    | ok sk =>
      dsimp only
      exact readLoop_size z _ { r with reader := sk.reader } _ _

/-- A sequence of `Read` calls returns the same counts, errors and bytes whatever the
declared size of the reader is. -/
theorem readMany_size {ρ : Type} [ReadSeeker ρ] (z : Int) :
    ∀ (ps : List (List Nat)) (r : StreamReader ρ),
      readMany { r with size := z } ps = readMany r ps := by
  intro ps
  induction ps with
  | nil => intro r; rfl
  | cons p ps ih =>
    intro r
    simp only [readMany]
    rw [Read_size z r p]
    cases StreamReader.Read r p with
    | error f => rfl
    | ok res =>
      dsimp only
      rw [ih res.reader]

/-- The counts returned by a sequence of `Read` calls on a stream reader over a bounded
reader are non-negative and add up to at most the total length of the buffers. -/
theorem readMany_bounded {ρ : Type} [ReadSeeker ρ] (hb : BoundedRead ρ) :
    ∀ (ps : List (List Nat)) (r : StreamReader ρ)
      (outs : List (Int × Option GoError × List Nat)),
      readMany r ps = Except.ok outs →
      (∀ o ∈ outs, 0 ≤ o.1) ∧ (outs.map (fun o => o.1)).sum ≤ ((ps.map List.length).sum : Int) := by
  intro ps
  induction ps with
  | nil =>
    intro r outs h
    simp only [readMany, Except.ok.injEq] at h
    subst h
    simp
  | cons p ps ih =>
    intro r outs h
    simp only [readMany] at h
    split at h
    · cases h
    · rename_i res hres
      split at h
      · cases h
      · rename_i outs1 houts
        cases h
        obtain ⟨b1, b2, _⟩ := StreamReader_bounded hb r p res hres
        obtain ⟨k1, k2⟩ := ih res.reader outs1 houts
        constructor
        · intro o ho
          rcases List.mem_cons.mp ho with h1 | h1
          · rw [h1]; exact b1
          · exact k1 o h1
        · simp only [List.map_cons, List.sum_cons, Nat.cast_add]
          omega

/-- What bounds the bytes returned: for every stream reader over a reader whose `Read`
returns a count between 0 and the buffer length (the in-memory source, by
`BytesReader_bounded`, and the regular stream reader behind a mini stream reader, by
`StreamReader_bounded`) and every sequence of `Read` calls, the counts returned are
non-negative and their total never exceeds the total length of the buffers; the declared
size has no part in it, since the same sequence returns the same results whatever the
declared size is. -/
theorem Read_total_within_buffers {ρ : Type} [ReadSeeker ρ] (hb : BoundedRead ρ)
    (r : StreamReader ρ) (ps : List (List Nat)) (outs : List (Int × Option GoError × List Nat))
    (h : readMany r ps = Except.ok outs) :
    (outs.map (fun o => o.1)).sum ≤ ((ps.map List.length).sum : Int)
    ∧ (∀ o ∈ outs, 0 ≤ o.1)
    ∧ ∀ z : Int, readMany { r with size := z } ps = Except.ok outs := by
  obtain ⟨k1, k2⟩ := readMany_bounded hb ps r outs h
  exact ⟨k2, k1, fun z => by rw [readMany_size z ps r, h]⟩

/-- An instance of `Read_total_within_buffers`: the stream of declared size 600 with chain
5 -> 6 -> end-of-chain and one 1024-byte buffer. -/
theorem Read_total_within_buffers_witness :
    (([(1024, none, List.replicate 512 5 ++ List.replicate 512 6)] :
        List (Int × Option GoError × List Nat)).map (fun o => o.1)).sum
      ≤ ((([List.replicate 1024 0] : List (List Nat)).map List.length).sum : Int)
    ∧ (∀ o ∈ ([(1024, none, List.replicate 512 5 ++ List.replicate 512 6)] :
        List (Int × Option GoError × List Nat)), 0 ≤ o.1)
    ∧ ∀ z : Int, readMany
        { (containerOf [-1, -1, -1, -1, -1, 6, EOFSecID] [] (numberedSource 7)).stream_read 5 600
            with size := z } [List.replicate 1024 0]
        = Except.ok [(1024, none, List.replicate 512 5 ++ List.replicate 512 6)] :=
  Read_total_within_buffers BytesReader_bounded
    ((containerOf [-1, -1, -1, -1, -1, 6, EOFSecID] [] (numberedSource 7)).stream_read 5 600)
    [List.replicate 1024 0] [(1024, none, List.replicate 512 5 ++ List.replicate 512 6)]
    (by decide!)

/-! ### Seeking back to the origin -/

/-- On a regular reader over an in-memory source: either the cursor is at end-of-chain
and `Read` returns `(0, io.EOF)` at once, or the position of the current sector does not
wrap below zero and `Read` is the same wherever the source stands. -/
theorem Read_source_index_cases (b : StreamReader BytesReader) (i1 : Int) (c : List Nat)
    (hpos : b.offsetOfSector = EOFSecID
      ∨ 0 ≤ i32 (b.sectorPos b.offsetOfSector b.sizeSector + i32 (b.offsetInSector : Int))) :
    (StreamReader.Read { b with reader := { b.reader with i := i1 } } c
        = Except.ok { reader := { b with reader := { b.reader with i := i1 } }, p := c, n := 0,
                      err := some GoError.EOF }
      ∧ b.Read c = Except.ok { reader := b, p := c, n := 0, err := some GoError.EOF })
    ∨ StreamReader.Read { b with reader := { b.reader with i := i1 } } c = b.Read c := by
  unfold StreamReader.Read
  dsimp only
  by_cases he : b.offsetOfSector = EOFSecID
  · left
    simp only [if_pos he, and_self]
  · right
    have h0 : ¬ (i32 (b.sectorPos b.offsetOfSector b.sizeSector + i32 (b.offsetInSector : Int))
        < 0) := by
      rcases hpos with h | h
      · exact absurd h he
      · omega
    simp only [if_neg he, ReadSeeker.Seek, BytesReader.Seek, true_or, if_true, if_neg h0]

/-- The loop of `Seek` changes nothing but the cursor (current sector, in-sector offset)
and the recorded offset. -/
theorem seekLoop_static {ρ : Type} :
    ∀ (fuel : Nat) (r : StreamReader ρ) (x : Int) (sk : SeekResult (StreamReader ρ)),
      StreamReader.seekLoop fuel r x = Except.ok sk →
      sk.reader.sat = r.sat ∧ sk.reader.start = r.start ∧ sk.reader.sizeSector = r.sizeSector
        ∧ sk.reader.size = r.size ∧ sk.reader.sectorPos = r.sectorPos
        ∧ sk.reader.reader = r.reader := by
  intro fuel
  induction fuel with
  | zero => intro r x sk h; simp only [StreamReader.seekLoop] at h; cases h
  | succ fuel ih =>
    intro r x sk h
    rw [StreamReader.seekLoop] at h
    dsimp only at h
    by_cases hc : x ≥ (u32 ((r.sizeSector : Int) - (r.offsetInSector : Int)) : Int)
    · rw [if_pos hc] at h
      split at h
      · cases h
      · rename_i next hidx
        by_cases heof : next = EOFSecID
        · rw [if_pos heof] at h
          cases h
          exact ⟨rfl, rfl, rfl, rfl, rfl, rfl⟩
        · rw [if_neg heof] at h
          exact ih { r with offsetOfSector := next, offsetInSector := 0 } _ sk h
    · rw [if_neg hc] at h
      by_cases hz : r.size ≤ r.offset
      · rw [if_pos hz] at h
        cases h
        exact ⟨rfl, rfl, rfl, rfl, rfl, rfl⟩
      · rw [if_neg hz] at h
        cases h
        exact ⟨rfl, rfl, rfl, rfl, rfl, rfl⟩

/-- `Seek` changes nothing but the cursor and the recorded offset. -/
theorem Seek_static {ρ : Type} (r : StreamReader ρ) (x w : Int)
    (sk : SeekResult (StreamReader ρ)) (h : r.Seek x w = Except.ok sk) :
    sk.reader.sat = r.sat ∧ sk.reader.start = r.start ∧ sk.reader.sizeSector = r.sizeSector
      ∧ sk.reader.size = r.size ∧ sk.reader.sectorPos = r.sectorPos
      ∧ sk.reader.reader = r.reader := by
  unfold StreamReader.Seek at h
  dsimp only at h
  split_ifs at h with hw he he
  · cases h; exact ⟨rfl, rfl, rfl, rfl, rfl, rfl⟩
  · have hs := seekLoop_static _ _ _ sk h
    exact hs
  · cases h; exact ⟨rfl, rfl, rfl, rfl, rfl, rfl⟩
  · have hs := seekLoop_static _ _ _ sk h
    exact hs

/-- C11 (the code at the failing inputs): `Seek` indexes the table with the chain id as it
is. With the table `[1]` (sector 0 names sector 1, outside the table) `Seek(1024, 0)` from
start sector 0 ends in an index-out-of-range panic (`r.sat[1]`); with the table `[-1]`
(sector 0 names the free id) it ends in the same panic (`r.sat[-1]`); with an empty table
`Seek(512, 0)` does (`r.sat[0]`). -/
theorem Seek_faults_on_out_of_range_sector_id :
    observeSeek (((containerOf [1] [] (numberedSource 2)).stream_read 0 2048).Seek 1024 0)
      = Except.error Fault.indexOutOfRange
    ∧ observeSeek (((containerOf [FreeSecID] [] (numberedSource 2)).stream_read 0 2048).Seek
        1024 0) = Except.error Fault.indexOutOfRange
    ∧ observeSeek (((containerOf [] [] (numberedSource 2)).stream_read 0 2048).Seek 512 0)
      = Except.error Fault.indexOutOfRange := by
  decide!

/-! ### C14 -/

theorem take_eight_eq_magic (b : List Nat) (h : 8 ≤ b.length) :
    b.take 8 = magicSignature ↔
      b.getD 0 0 = 0xD0 ∧ b.getD 1 0 = 0xCF ∧ b.getD 2 0 = 0x11 ∧ b.getD 3 0 = 0xE0
      ∧ b.getD 4 0 = 0xA1 ∧ b.getD 5 0 = 0xB1 ∧ b.getD 6 0 = 0x1A ∧ b.getD 7 0 = 0xE1 := by
  rw [take_eight b h]
  simp [magicSignature]

theorem take_two_eq_marker (b : List Nat) (h : 30 ≤ b.length) :
    (b.drop 28).take 2 = byteOrderMarker ↔ b.getD 28 0 = 0xFE ∧ b.getD 29 0 = 0xFF := by
  rw [take_drop_two b 28 h]
  simp [byteOrderMarker]

/-- The header decoded from a buffer of at least 512 bytes. -/
theorem decode_of_length (b : List Nat) (hl : ¬ b.length < 512) :
    Header.decode b =
    { Signature := [le32 b 0, le32 b 4]
      Clid := [le32 b 8, le32 b 12, le32 b 16, le32 b 20]
      RevisionNumber := le16 b 24
      VersionNumber := le16 b 26
      ByteOrder := le16 b 28
      SizeOfSector := le16 b 30
      SizeOfShortSector := le16 b 32
      NumberOfSectorsSAT := le32 b 44
      FirstSecIDDirectory := le32s b 48
      MinSizeOfStandardStream := le32 b 56
      FirstSecIDSSAT := le32s b 60
      NumberOfSectorsSSAT := le32 b 64
      FirstSecIDMSAT := le32s b 68
      NumberOfSectorsMSAT := le32 b 72
      FirstPartOfMSAT := (List.range 109).map (fun i => le32s b (76 + 4 * i)) } := by
  unfold Header.decode
  exact if_neg hl

/-- C14: for every byte slice `b`, `parseHeader(b)` returns the decoded header and a nil
error when `b` has at least 512 bytes, starts with `D0 CF 11 E0 A1 B1 1A E1` and has
`FE FF` at offsets 28 and 29; in every other case it returns the nil header and a non-nil
error. Acceptance is decided by the length and these ten bytes alone. -/
theorem parseHeader_accepts_iff (b : List Nat) (hb : ∀ x ∈ b, x < 256) :
    ((512 ≤ b.length ∧ b.take 8 = magicSignature ∧ (b.drop 28).take 2 = byteOrderMarker) →
      parseHeader b = (some (Header.decode b), none))
    ∧ (¬ (512 ≤ b.length ∧ b.take 8 = magicSignature ∧ (b.drop 28).take 2 = byteOrderMarker) →
      parseHeader b = (none, some GoError.other)) := by
  have b0 := getD_lt_256 b hb 0
  have b1 := getD_lt_256 b hb 1
  have b2 := getD_lt_256 b hb 2
  have b3 := getD_lt_256 b hb 3
  have b4 := getD_lt_256 b hb 4
  have b5 := getD_lt_256 b hb 5
  have b6 := getD_lt_256 b hb 6
  have b7 := getD_lt_256 b hb 7
  have b28 := getD_lt_256 b hb 28
  have b29 := getD_lt_256 b hb 29
  constructor
  · rintro ⟨hlen, hm, ho⟩
    rw [take_eight_eq_magic b (by omega)] at hm
    rw [take_two_eq_marker b (by omega)] at ho
    obtain ⟨e0, e1, e2, e3, e4, e5, e6, e7⟩ := hm
    obtain ⟨e28, e29⟩ := ho
    have hl : ¬ b.length < 512 := by omega
    have hc : ¬ ((Header.decode b).Signature.getD 0 0 ≠ 0xE011CFD0
        ∨ (Header.decode b).Signature.getD 1 0 ≠ 0xE11AB1A1
        ∨ (Header.decode b).ByteOrder ≠ 0xFFFE) := by
      rw [decode_of_length b hl]
      simp only [List.getD_cons_zero, List.getD_cons_succ, le32, le16, Nat.reduceAdd, e0, e1,
        e2, e3, e4, e5, e6, e7, e28, e29]
      omega
    unfold parseHeader
    exact if_neg hc
  · intro hn
    unfold parseHeader
    rw [if_pos]
    by_cases hl : b.length < 512
    · simp only [Header.decode, hl, if_true, Header.zero, List.getD_cons_zero]
      left; norm_num
    · by_contra hc
      rw [decode_of_length b hl] at hc
      simp only [List.getD_cons_zero, List.getD_cons_succ, not_or, not_not, le32, le16,
        Nat.reduceAdd] at hc
      obtain ⟨hc1, hc2, hc3⟩ := hc
      apply hn
      refine ⟨by omega, ?_, ?_⟩
      · rw [take_eight_eq_magic b (by omega)]
        refine ⟨?_, ?_, ?_, ?_, ?_, ?_, ?_, ?_⟩ <;> omega
      · rw [take_two_eq_marker b (by omega)]
        constructor <;> omega

/-- Witness for C14: the header `emptyContainerBytes` is accepted. -/
theorem parseHeader_accepts_iff_witness :
    (∀ x ∈ emptyContainerBytes, x < 256)
    ∧ parseHeader emptyContainerBytes = (some (Header.decode emptyContainerBytes), none) :=
  ⟨by decide!, (parseHeader_accepts_iff emptyContainerBytes (by decide!)).1
    ⟨by decide!, by decide!, by decide!⟩⟩

/-! ### C15 -/

theorem int32s_eq (n : Nat) : ∀ d : decoder,
    decoder.int32s n d
      = ((List.range n).map (fun i => le32s d.buf (d.offset + 4 * i)),
         { d with offset := d.offset + 4 * n }) := by
  induction n with
  | zero => intro d; rfl
  | succ n ih =>
    intro d
    simp only [decoder.int32s, decoder.int32, ih, List.range_succ_eq_map, List.map_cons,
      List.map_map, Nat.mul_zero, Nat.add_zero]
    have e1 : d.offset + 4 + 4 * n = d.offset + 4 * (n + 1) := by omega
    have e2 : ∀ i : Nat, d.offset + 4 + 4 * i = d.offset + 4 * (i + 1) := by intro i; omega
    simp only [e1, e2]
    rfl

theorem uint32s_eq (n : Nat) : ∀ d : decoder,
    decoder.uint32s n d
      = ((List.range n).map (fun i => le32 d.buf (d.offset + 4 * i)),
         { d with offset := d.offset + 4 * n }) := by
  induction n with
  | zero => intro d; rfl
  | succ n ih =>
    intro d
    simp only [decoder.uint32s, decoder.uint32, ih, List.range_succ_eq_map, List.map_cons,
      List.map_map, Nat.mul_zero, Nat.add_zero]
    have e1 : d.offset + 4 + 4 * n = d.offset + 4 * (n + 1) := by omega
    have e2 : ∀ i : Nat, d.offset + 4 + 4 * i = d.offset + 4 * (i + 1) := by intro i; omega
    simp only [e1, e2]
    rfl

/-- Decoding the struct field by field, in declaration order, gives the fields at the
offsets of `Header.decode` and ends at offset 512. -/
theorem Header_value_eq (b : List Nat) (hl : ¬ b.length < 512) :
    Header.value (decoder.mk b 0) = (Header.decode b, decoder.mk b 512) := by
  rw [decode_of_length b hl]
  simp only [Header.value, uint32s_eq, int32s_eq, decoder.uint16,
    decoder.uint32, decoder.int32, decoder.skip, Nat.reduceAdd, Nat.reduceMul, Nat.zero_add]
  rfl

theorem parseHeader_some (b : List Nat) (h : Header) (hacc : parseHeader b = (some h, none)) :
    ¬ b.length < 512 ∧ h = Header.decode b := by
  unfold parseHeader at hacc
  simp only at hacc
  split at hacc
  · cases hacc
  · rename_i hc
    simp only [Prod.mk.injEq, Option.some.injEq, and_true] at hacc
    refine ⟨?_, hacc.symm⟩
    intro hl
    apply hc
    left
    simp only [Header.decode, hl, if_true, Header.zero, List.getD_cons_zero]
    norm_num

theorem range_map_getD (f : Nat → Int) (n i : Nat) (hi : i < n) :
    ((List.range n).map f).getD i 0 = f i := by
  rw [List.getD_eq_getElem?_getD, List.getElem?_map, List.getElem?_range hi]
  rfl

/-- C15: for every header `b` that `parseHeader` accepts, the parsed `Header` is what
decoding the struct field by field in declaration order yields, that decoding ends at
offset 512, and each field is the little-endian value at its fixed offset: `SizeOfSector`
= u16 at 30, `SizeOfShortSector` = u16 at 32, `NumberOfSectorsSAT` = u32 at 44,
`FirstSecIDDirectory` = i32 at 48, `MinSizeOfStandardStream` = u32 at 56, `FirstSecIDSSAT`
= i32 at 60, `NumberOfSectorsSSAT` = u32 at 64, `FirstSecIDMSAT` = i32 at 68,
`NumberOfSectorsMSAT` = u32 at 72, and `FirstPartOfMSAT` has 109 entries, entry `i` being
the i32 at `76 + 4*i`. -/
theorem parseHeader_field_offsets (b : List Nat) (h : Header)
    (hacc : parseHeader b = (some h, none)) :
    Header.value (decoder.mk b 0) = (h, decoder.mk b 512)
    ∧ h.SizeOfSector = le16 b 30 ∧ h.SizeOfShortSector = le16 b 32
    ∧ h.NumberOfSectorsSAT = le32 b 44 ∧ h.FirstSecIDDirectory = le32s b 48
    ∧ h.MinSizeOfStandardStream = le32 b 56 ∧ h.FirstSecIDSSAT = le32s b 60
    ∧ h.NumberOfSectorsSSAT = le32 b 64 ∧ h.FirstSecIDMSAT = le32s b 68
    ∧ h.NumberOfSectorsMSAT = le32 b 72 ∧ h.FirstPartOfMSAT.length = 109
    ∧ ∀ i, i < 109 → h.FirstPartOfMSAT.getD i 0 = le32s b (76 + 4 * i) := by
  obtain ⟨hl, hh⟩ := parseHeader_some b h hacc
  have hv := Header_value_eq b hl
  rw [← hh] at hv
  rw [decode_of_length b hl] at hh
  subst hh
  refine ⟨hv, rfl, rfl, rfl, rfl, rfl, rfl, rfl, rfl, rfl, ?_, ?_⟩
  · simp only [List.length_map, List.length_range]
  · intro i hi
    exact range_map_getD (fun i => le32s b (76 + 4 * i)) 109 i hi

set_option maxRecDepth 100000 in
/-- Witness for C15: the header image with sector exponent 9, one FAT sector, directory at
sector 1 and bootstrap id 0. -/
theorem parseHeader_field_offsets_witness :
    parseHeader (headerImage 9 1 1 EOFSecID 0 EOFSecID 0 [0])
      = (some (Header.decode (headerImage 9 1 1 EOFSecID 0 EOFSecID 0 [0])), none)
    ∧ (Header.decode (headerImage 9 1 1 EOFSecID 0 EOFSecID 0 [0])).SizeOfSector
        = le16 (headerImage 9 1 1 EOFSecID 0 EOFSecID 0 [0]) 30
    ∧ (Header.decode (headerImage 9 1 1 EOFSecID 0 EOFSecID 0 [0])).SizeOfSector = 9
    ∧ (Header.decode (headerImage 9 1 1 EOFSecID 0 EOFSecID 0 [0])).FirstSecIDDirectory = 1 :=
  have hacc : parseHeader (headerImage 9 1 1 EOFSecID 0 EOFSecID 0 [0])
      = (some (Header.decode (headerImage 9 1 1 EOFSecID 0 EOFSecID 0 [0])), none) := by rfl
  ⟨hacc, (parseHeader_field_offsets (headerImage 9 1 1 EOFSecID 0 EOFSecID 0 [0])
    (Header.decode (headerImage 9 1 1 EOFSecID 0 EOFSecID 0 [0])) hacc).2.1,
    by decide!, by decide!⟩

/-! ### C16 -/

/-- C16 (the code at the failing input): a header that declares the sector-size exponent
12 (4096-byte sectors) and the mini-sector exponent 6 is accepted by `Open`, and the
container has `Lsector = 512`, not `2^12`: the sizes are the constants 512 and 64 of
`Open`, the exponent fields of the header are not read. -/
theorem Open_ignores_sector_size_exponent :
    (Open (BytesReader.mk (headerImage 12 0 0 EOFSecID 0 EOFSecID 0 []) 0)).map
        (fun x => (x.1.map (fun o => (o.header.SizeOfSector, o.header.SizeOfShortSector,
          o.Lsector, o.Lssector)), x.2))
      = Except.ok (some (12, 6, 512, 64), none)
    ∧ (2 : Nat) ^ 12 ≠ 512 := by
  decide!

/-! ### Decoding a run of slots in one pass -/

theorem le32sRun_succ (s : List Nat) (n : Nat) :
    le32sRun s (n + 1) = le32s s 0 :: le32sRun (s.drop 4) n := by
  match s with
  | [] => rfl
  | [_] => rfl
  | [_, _] => rfl
  | [_, _, _] => rfl
  | _ :: _ :: _ :: _ :: _ => rfl

theorem le32sRun_zero (s : List Nat) : le32sRun s 0 = [] := by
  match s with
  | [] => rfl
  | [_] => rfl
  | [_, _] => rfl
  | [_, _, _] => rfl
  | _ :: _ :: _ :: _ :: _ => rfl

theorem le32s_drop (s : List Nat) (off k : Nat) :
    le32s (s.drop off) k = le32s s (off + k) := by
  simp only [le32s, le32, le16, List.getD_eq_getElem?_getD, List.getElem?_drop, Nat.add_assoc]

theorem range_succ_map {α : Type} (f : Nat → α) (n : Nat) :
    (List.range (n + 1)).map f = f 0 :: (List.range n).map (fun k => f (k + 1)) := by
  rw [List.range_succ_eq_map, List.map_cons, List.map_map]
  rfl

/-- Decoding `n` consecutive slots from offset `off` is one pass over the bytes from `off`
on. -/
theorem range_map_le32s (n : Nat) : ∀ (s : List Nat) (off : Nat),
    (List.range n).map (fun k => le32s s (off + 4 * k)) = le32sRun (s.drop off) n := by
  induction n with
  | zero => intro s off; rw [le32sRun_zero]; rfl
  | succ n ih =>
    intro s off
    have hfun : (fun k => le32s s (off + 4 * (k + 1))) = (fun k => le32s s (off + 4 + 4 * k)) :=
      funext (fun k => congrArg (le32s s) (by omega))
    rewrite [range_succ_map (fun k => le32s s (off + 4 * k)) n, hfun, ih s (off + 4),
      le32sRun_succ, List.drop_drop, le32s_drop s off 0]
    exact Eq.refl _

theorem range_map_le32s_zero (n : Nat) (s : List Nat) :
    (List.range n).map (fun k => le32s s (4 * k)) = le32sRun s n := by
  have h := range_map_le32s n s 0
  simp only [Nat.zero_add, List.drop_zero] at h
  exact h

theorem AllValues_run (s : List Nat) : Sector.AllValues s 512 = le32sRun s 128 :=
  range_map_le32s_zero 128 s

theorem MsatValues_run (s : List Nat) : Sector.MsatValues s 512 = le32sRun s 127 :=
  range_map_le32s_zero 127 s

theorem opened_FirstPartOfMSAT (src : List Nat) (h : ¬ (src.take 512).length < 512) :
    (opened src).header.FirstPartOfMSAT = le32sRun ((src.take 512).drop 76) 109 := by
  show (Header.decode (src.take 512)).FirstPartOfMSAT = _
  rw [decode_of_length _ h]
  exact range_map_le32s 109 _ 76

theorem getD_replicate_same {α : Type} (n i : Nat) (a : α) :
    (List.replicate n a).getD i a = a := by
  simp only [List.getD_eq_getElem?_getD, List.getElem?_replicate]
  split <;> rfl

/-! ### C19 -/

/-- C19 (counterexample): the header is accepted, declares one FAT sector and names it by
the id -2, whose position 512 - 1024 is negative; `readMSAT` fails on the seek and `Open`
returns a non-nil container together with the error. -/
theorem Open_returns_container_with_error :
    (Open (BytesReader.mk (headerImage 9 1 1 EOFSecID 0 EOFSecID 0 [EOFSecID]) 0)).map
        (fun x => (x.1.isSome, x.2))
      = Except.ok (true, some GoError.other) := by
  decide!

theorem parseHeader_cases (b : List Nat) :
    parseHeader b = (none, some GoError.other) ∨ ∃ h, parseHeader b = (some h, none) := by
  unfold parseHeader
  simp only
  split
  · exact Or.inl rfl
  · exact Or.inr ⟨_, rfl⟩

/-- C19 (amended): for every source on which `Open` returns a non-nil error, the container
returned alongside is nil exactly when the error is the header mismatch reported by
`parseHeader` on the 512 bytes read; when the header is accepted and the error comes from
`readMSAT` or from `readSSAT`, the container built so far (with the parsed header and the
sizes 512 and 64) is returned together with the error. -/
theorem Open_error_container {ρ : Type} [ReadSeeker ρ] (reader : ρ) (c : Option (Ole ρ))
    (e : GoError) (h : Open reader = Except.ok (c, some e)) :
    ∃ res, ReadSeeker.Read reader (List.replicate 512 0) = Except.ok res
      ∧ ((c = none ∧ parseHeader res.p = (none, some e))
        ∨ (∃ hd o, parseHeader res.p = (some hd, none) ∧ c = some o ∧ o.header = hd
            ∧ o.Lsector = 512 ∧ o.Lssector = 64
            ∧ (Ole.readMSAT
                  { header := hd, Lsector := 512, Lssector := 64, SecID := [], SSecID := [],
                    Files := [], reader := res.reader } = Except.ok (o, some e)
              ∨ ∃ o1, Ole.readMSAT
                  { header := hd, Lsector := 512, Lssector := 64, SecID := [], SSecID := [],
                    Files := [], reader := res.reader } = Except.ok (o1, none)
                ∧ o1.readSSAT = Except.ok (o, some e)))) := by
  unfold Open at h
  split at h
  · cases h
  · rename_i res hres
    refine ⟨res, hres, ?_⟩
    rcases parseHeader_cases res.p with hp | ⟨hd, hp⟩
    · left
      rw [hp] at h
      simp only [Except.ok.injEq, Prod.mk.injEq] at h
      rw [hp, ← h.1, h.2]
      exact ⟨rfl, rfl⟩
    · right
      have hp0 := hp
      rw [hp] at h
      simp only at h
      split at h
      · cases h
      · rename_i ole1 err1 hm
        have g1 := readMSAT_sameGeometry _ _ _ hm
        split at h
        · rename_i he1
          simp only [Except.ok.injEq, Prod.mk.injEq] at h
          obtain ⟨h1, h2⟩ := h
          subst h1
          exact ⟨hd, ole1, hp, rfl, g1.2.2, g1.1, g1.2.1, Or.inl (by rw [hm, h2])⟩
        · rename_i he1
          have he1n : err1 = none := by simpa using he1
          subst he1n
          split at h
          · cases h
          · rename_i ole2 err2 hs
            have g2 := readSSATLoop_sameGeometry _ _ _ _ _ hs
            split at h
            · simp only [Except.ok.injEq, Prod.mk.injEq] at h
              obtain ⟨h1, h2⟩ := h
              subst h1
              refine ⟨hd, ole2, hp, rfl, ?_, ?_, ?_, Or.inr ⟨ole1, hm, ?_⟩⟩
              · rw [g2.2.2, g1.2.2]
              · rw [g2.1, g1.1]
              · rw [g2.2.1, g1.2.1]
              · rw [← h2]; exact hs
            · simp only [Except.ok.injEq, Prod.mk.injEq] at h
              exact absurd h.2 (by simp)

set_option maxRecDepth 100000 in
/-- Witness for C19: the header mismatch of a source that starts with the ZIP signature,
where the container is nil. -/
theorem Open_error_container_witness :
    Open (BytesReader.mk [0x50, 0x4B, 0x03, 0x04] 0) = Except.ok (none, some GoError.other)
    ∧ ∃ res, ReadSeeker.Read (BytesReader.mk [0x50, 0x4B, 0x03, 0x04] 0) (List.replicate 512 0)
        = Except.ok res
      ∧ (((none : Option (Ole BytesReader)) = none
          ∧ parseHeader res.p = (none, some GoError.other))
        ∨ (∃ hd o, parseHeader res.p = (some hd, none) ∧ (none : Option (Ole BytesReader)) = some o
            ∧ o.header = hd ∧ o.Lsector = 512 ∧ o.Lssector = 64
            ∧ (Ole.readMSAT
                  { header := hd, Lsector := 512, Lssector := 64, SecID := [], SSecID := [],
                    Files := [], reader := res.reader } = Except.ok (o, some GoError.other)
              ∨ ∃ o1, Ole.readMSAT
                  { header := hd, Lsector := 512, Lssector := 64, SecID := [], SSecID := [],
                    Files := [], reader := res.reader } = Except.ok (o1, none)
                ∧ o1.readSSAT = Except.ok (o, some GoError.other)))) :=
  have h : Open (BytesReader.mk [0x50, 0x4B, 0x03, 0x04] 0)
      = Except.ok (none, some GoError.other) := by rfl
  ⟨h, Open_error_container (BytesReader.mk [0x50, 0x4B, 0x03, 0x04] 0) none GoError.other h⟩

/-! ### Reading sectors of an in-memory source -/

theorem BytesReader_Read_image (src : List Nat) (pos : Int) (size : Nat) (h : 0 ≤ pos) :
    (BytesReader.Read (BytesReader.mk src pos) (List.replicate size 0)).p
        = sectorImage src pos size
    ∧ (BytesReader.Read (BytesReader.mk src pos) (List.replicate size 0)).reader.s = src := by
  unfold BytesReader.Read sectorImage
  by_cases hge : pos ≥ (src.length : Int)
  · have hd : src.drop pos.toNat = [] := by
      apply List.drop_eq_nil_of_le
      omega
    simp only [hge, if_true, hd, List.take_nil, List.length_nil, Nat.sub_zero, List.nil_append,
      and_self]
  · simp only [hge, if_false, List.length_replicate, List.drop_replicate, and_true]

/-- A sector read on an in-memory source: the seek fails exactly for a negative position,
and otherwise the sector is the image of the source at that position. -/
theorem sector_read_image (o : Ole BytesReader) (sid : Int) :
    (sector_pos sid o.Lsector < 0 →
      o.sector_read sid = Except.ok { ole := o, sector := none, err := some GoError.other })
    ∧ (0 ≤ sector_pos sid o.Lsector →
      ∃ i, o.sector_read sid = Except.ok
        { ole := { o with reader := BytesReader.mk o.reader.s i },
          sector := some (sectorImage o.reader.s (sector_pos sid o.Lsector) o.Lsector),
          err := none }) := by
  constructor
  · intro hneg
    simp only [Ole.sector_read, Ole.sector_read_internal, ReadSeeker.Seek, BytesReader.Seek,
      true_or, if_true, hneg]
    rfl
  · intro hpos
    have hnn : ¬ sector_pos sid o.Lsector < 0 := by omega
    obtain ⟨hp, hs⟩ :=
      BytesReader_Read_image o.reader.s (sector_pos sid o.Lsector) o.Lsector hpos
    refine ⟨(BytesReader.Read (BytesReader.mk o.reader.s (sector_pos sid o.Lsector))
      (List.replicate o.Lsector 0)).reader.i, ?_⟩
    simp only [Ole.sector_read, Ole.sector_read_internal, ReadSeeker.Seek, BytesReader.Seek,
      true_or, if_true, hnn, if_false, ReadSeeker.Read]
    generalize BytesReader.Read (BytesReader.mk o.reader.s (sector_pos sid o.Lsector))
      (List.replicate o.Lsector 0) = R at hp hs
    rcases R with ⟨⟨s, i⟩, p, n, e⟩
    simp only at hp hs
    subst hp hs
    rfl

theorem u32_succ (j : Nat) : u32 ((j : Int) + 1) = (j + 1) % 4294967296 := by
  unfold u32
  omega

/-- Reading the FAT sectors named by `sids` from an in-memory source, all at non-negative
positions: their entries are appended to `SecID` in order, the counter advances by their
number, and nothing else changes but the index of the source. -/
theorem appendSectors_image (sids : List Int) :
    ∀ (o : Ole BytesReader) (j : Nat), j < 4294967296 →
      (∀ sid ∈ sids, 0 ≤ sector_pos (i32 sid) o.Lsector) →
      ∃ i, Ole.appendSectors sids o j = Except.ok
        ({ o with
            SecID := o.SecID ++ (sids.map (fun sid => Sector.AllValues
              (sectorImage o.reader.s (sector_pos (i32 sid) o.Lsector) o.Lsector)
              o.Lsector)).flatten,
            reader := BytesReader.mk o.reader.s i },
         (j + sids.length) % 4294967296, none) := by
  induction sids with
  | nil =>
    intro o j hj _
    refine ⟨o.reader.i, ?_⟩
    simp only [Ole.appendSectors, List.map_nil, List.flatten_nil, List.append_nil,
      List.length_nil, Nat.add_zero, Nat.mod_eq_of_lt hj]
  | cons sid rest ih =>
    intro o j hj hpos
    obtain ⟨i0, h0⟩ := (sector_read_image o (i32 sid)).2 (hpos sid (List.mem_cons_self _ _))
    have hj1 : (j + 1) % 4294967296 < 4294967296 := Nat.mod_lt _ (by norm_num)
    obtain ⟨i1, h1⟩ := ih
      { o with
          SecID := o.SecID ++ Sector.AllValues
            (sectorImage o.reader.s (sector_pos (i32 sid) o.Lsector) o.Lsector) o.Lsector,
          reader := BytesReader.mk o.reader.s i0 }
      ((j + 1) % 4294967296) hj1
      (fun s hs => hpos s (List.mem_cons_of_mem _ hs))
    refine ⟨i1, ?_⟩
    simp only [Ole.appendSectors, h0, if_true, u32_succ, h1, List.map_cons, List.flatten_cons,
      List.append_assoc, List.length_cons]
    congr 3
    omega

/-- A FAT sector id at a negative position stops `appendSectors` with the error of the
seek. -/
theorem appendSectors_negative (sid : Int) (rest : List Int) (o : Ole BytesReader) (j : Nat)
    (h : sector_pos (i32 sid) o.Lsector < 0) :
    Ole.appendSectors (sid :: rest) o j
      = Except.ok (o, u32 ((j : Int) + 1), some GoError.other) := by
  simp only [Ole.appendSectors, (sector_read_image o (i32 sid)).1 h]

theorem sectorImage_contained (src : List Nat) (sid : Int) (h0 : 0 ≤ sid)
    (h1 : 512 + 512 * sid + 512 ≤ (src.length : Int)) (h2 : 512 + 512 * sid < 2147483648) :
    sector_pos (i32 sid) 512 = 512 + 512 * sid
    ∧ sectorImage src (sector_pos (i32 sid) 512) 512 = sectorBytes src sid := by
  have hp : sector_pos (i32 sid) 512 = 512 + 512 * sid := by
    unfold sector_pos i32; omega
  refine ⟨hp, ?_⟩
  rw [hp]
  unfold sectorImage sectorBytes
  have hl : ((src.drop (512 + 512 * sid).toNat).take 512).length = 512 := by
    simp only [List.length_take, List.length_drop]
    omega
  rw [hl]
  simp

/-! ### C17 -/

/-- The first loop of `readMSAT` alone decides the table when at most 109 FAT sectors are
declared, or when the DIFAT guard fails. -/
theorem readMSAT_without_DIFAT (o : Ole BytesReader)
    (hpos : ∀ i, i < min 109 o.header.NumberOfSectorsSAT →
      0 ≤ sector_pos (i32 (o.header.FirstPartOfMSAT.getD i 0)) o.Lsector)
    (hg : ¬ (o.header.NumberOfSectorsSAT > 109 ∧ o.header.NumberOfSectorsMSAT ≠ 0
      ∧ o.header.FirstSecIDMSAT ≥ 0)) :
    ∃ i, o.readMSAT = Except.ok
      ({ o with
          SecID := o.SecID ++ ((List.range (min 109 o.header.NumberOfSectorsSAT)).map
            (fun k => Sector.AllValues (sectorImage o.reader.s
              (sector_pos (i32 (o.header.FirstPartOfMSAT.getD k 0)) o.Lsector) o.Lsector)
              o.Lsector)).flatten,
          reader := BytesReader.mk o.reader.s i }, none) := by
  obtain ⟨i, hi⟩ := appendSectors_image
    ((List.range (min 109 o.header.NumberOfSectorsSAT)).map
      (fun k => o.header.FirstPartOfMSAT.getD k 0)) o 0 (by norm_num)
    (by
      intro sid hsid
      simp only [List.mem_map, List.mem_range] at hsid
      obtain ⟨k, hk, rfl⟩ := hsid
      exact hpos k hk)
  refine ⟨i, ?_⟩
  unfold Ole.readMSAT
  simp only [hi, ne_eq, not_true_eq_false, if_false, hg, List.map_map]
  rfl

/-- C17 (amended): in a container with 512-byte sectors over an in-memory source, with
`N = NumberOfSectorsSAT <= 109` and every sector named by `FirstPartOfMSAT[0..N)` held by
the source below offset 2^31 (`id >= 0`, `512 + 512*id + 512 <= len`, `512 + 512*id <
2^31`), `readMSAT` returns a nil error and has appended to `SecID`, for `i = 0..N-1` in
order, the 128 little-endian 32-bit entries of the sector at source offset
`512 + 512*FirstPartOfMSAT[i]`; nothing else of the container changes but the index of the
source, and the bootstrap slots from `N` on and the DIFAT fields do not enter the result. -/
theorem readMSAT_bootstrap (o : Ole BytesReader) (hL : o.Lsector = 512)
    (hN : o.header.NumberOfSectorsSAT ≤ 109)
    (hsrc : ∀ i, i < o.header.NumberOfSectorsSAT →
      0 ≤ o.header.FirstPartOfMSAT.getD i 0
      ∧ 512 + 512 * o.header.FirstPartOfMSAT.getD i 0 + 512 ≤ (o.reader.s.length : Int)
      ∧ 512 + 512 * o.header.FirstPartOfMSAT.getD i 0 < 2147483648) :
    ∃ i, o.readMSAT = Except.ok
      ({ o with
          SecID := o.SecID ++ ((List.range o.header.NumberOfSectorsSAT).map
            (fun k => Sector.AllValues
              (sectorBytes o.reader.s (o.header.FirstPartOfMSAT.getD k 0)) 512)).flatten,
          reader := BytesReader.mk o.reader.s i }, none) := by
  have hmin : min 109 o.header.NumberOfSectorsSAT = o.header.NumberOfSectorsSAT :=
    Nat.min_eq_right hN
  obtain ⟨i, hi⟩ := readMSAT_without_DIFAT o
    (by
      intro k hk
      rw [hmin] at hk
      obtain ⟨h0, h1, h2⟩ := hsrc k hk
      rw [hL, (sectorImage_contained o.reader.s _ h0 h1 h2).1]
      omega)
    (by omega)
  refine ⟨i, ?_⟩
  rw [hi, hmin, hL]
  have hmap : (List.range o.header.NumberOfSectorsSAT).map
      (fun k => Sector.AllValues (sectorImage o.reader.s
        (sector_pos (i32 (o.header.FirstPartOfMSAT.getD k 0)) 512) 512) 512)
      = (List.range o.header.NumberOfSectorsSAT).map
      (fun k => Sector.AllValues
        (sectorBytes o.reader.s (o.header.FirstPartOfMSAT.getD k 0)) 512) := by
    apply List.map_congr_left
    intro k hk
    obtain ⟨h0, h1, h2⟩ := hsrc k (List.mem_range.mp hk)
    rw [(sectorImage_contained o.reader.s _ h0 h1 h2).2]
  rw [hmap]

set_option maxRecDepth 100000 in
/-- Witness for C17: one FAT sector declared, bootstrap id 0, the source made of the header
and that sector. -/
theorem readMSAT_bootstrap_witness :
    ∃ i, (opened (headerImage 9 1 1 EOFSecID 0 EOFSecID 0 [0] ++ fatSectorImage)).readMSAT
      = Except.ok
      ({ opened (headerImage 9 1 1 EOFSecID 0 EOFSecID 0 [0] ++ fatSectorImage) with
          SecID := (opened (headerImage 9 1 1 EOFSecID 0 EOFSecID 0 [0]
              ++ fatSectorImage)).SecID
            ++ ((List.range (opened (headerImage 9 1 1 EOFSecID 0 EOFSecID 0 [0]
              ++ fatSectorImage)).header.NumberOfSectorsSAT).map
            (fun k => Sector.AllValues
              (sectorBytes (opened (headerImage 9 1 1 EOFSecID 0 EOFSecID 0 [0]
                  ++ fatSectorImage)).reader.s
                ((opened (headerImage 9 1 1 EOFSecID 0 EOFSecID 0 [0]
                  ++ fatSectorImage)).header.FirstPartOfMSAT.getD k 0)) 512)).flatten,
          reader := BytesReader.mk (opened (headerImage 9 1 1 EOFSecID 0 EOFSecID 0 [0]
            ++ fatSectorImage)).reader.s i }, none) :=
  readMSAT_bootstrap (opened (headerImage 9 1 1 EOFSecID 0 EOFSecID 0 [0] ++ fatSectorImage))
    rfl (by decide!) (by decide!)

theorem BytesReader_Read_header (hdr rest : List Nat) (hlen : hdr.length = 512) :
    ReadSeeker.Read (BytesReader.mk (hdr ++ rest) 0) (List.replicate 512 0)
      = Except.ok { reader := BytesReader.mk (hdr ++ rest) 512, p := hdr, n := 512,
                    err := none } := by
  have hlt : ¬ ((0 : Int) ≥ ((hdr ++ rest).length : Int)) := by
    rw [List.length_append, hlen]; omega
  have htake : ((hdr ++ rest).drop (0 : Int).toNat).take (List.replicate 512 0).length = hdr := by
    rw [List.length_replicate, Int.toNat_zero, List.drop_zero, ← hlen, List.take_left']
    rfl
  simp only [ReadSeeker.Read, BytesReader.Read, hlt, if_false, htake, hlen,
    List.drop_replicate, Nat.sub_self, List.replicate_zero, List.append_nil]
  rfl

/-- A first bootstrap id at a negative `int32` position makes `readMSAT` return the error
of the seek and leave the container as it was. -/
theorem readMSAT_first_negative (o : Ole BytesReader) (hN : 0 < o.header.NumberOfSectorsSAT)
    (hneg : sector_pos (i32 (o.header.FirstPartOfMSAT.getD 0 0)) o.Lsector < 0) :
    o.readMSAT = Except.ok (o, some GoError.other) := by
  obtain ⟨m, hm⟩ : ∃ m, min 109 o.header.NumberOfSectorsSAT = m + 1 :=
    ⟨min 109 o.header.NumberOfSectorsSAT - 1, by omega⟩
  unfold Ole.readMSAT
  simp only [hm, List.range_succ_eq_map, List.map_cons]
  rw [appendSectors_negative (o.header.FirstPartOfMSAT.getD 0 0) _ o 0 hneg]
  simp

/-- `Open` on an in-memory source whose header is accepted and whose first FAT sector lies
at a negative `int32` position returns the error of the seek. -/
theorem Open_first_negative (hdr rest : List Nat) (hlen : hdr.length = 512) (h : Header)
    (hacc : parseHeader hdr = (some h, none)) (hN : 0 < h.NumberOfSectorsSAT)
    (hneg : sector_pos (i32 (h.FirstPartOfMSAT.getD 0 0)) 512 < 0) :
    Open (BytesReader.mk (hdr ++ rest) 0)
      = Except.ok
          (some
            { header := h, Lsector := 512, Lssector := 64, SecID := [], SSecID := [],
              Files := [], reader := BytesReader.mk (hdr ++ rest) 512 },
           some GoError.other) := by
  have hm := readMSAT_first_negative
    { header := h, Lsector := 512, Lssector := 64, SecID := [], SSecID := [],
      Files := [], reader := BytesReader.mk (hdr ++ rest) 512 } hN hneg
  unfold Open
  rw [BytesReader_Read_header hdr rest hlen]
  simp only [hacc, hm]
  simp

set_option maxRecDepth 100000 in
/-- C17 (counterexample): one FAT sector is declared and named by the bootstrap id
4194303; the source (the header followed by 2^31 bytes) holds that sector at offset 2^31.
The `int32` position of the sector is -2^31, the seek fails and `Open` returns the error of
`readMSAT`, with an empty table. -/
theorem readMSAT_fails_beyond_2GiB :
    (512 + 512 * 4194303 + 512
      ≤ ((headerImage 9 1 1 EOFSecID 0 EOFSecID 0 [4194303]
          ++ List.replicate 2147483648 0).length : Int))
    ∧ (Header.decode (headerImage 9 1 1 EOFSecID 0 EOFSecID 0 [4194303])).NumberOfSectorsSAT = 1
    ∧ (Header.decode (headerImage 9 1 1 EOFSecID 0 EOFSecID 0
        [4194303])).FirstPartOfMSAT.getD 0 0 = 4194303
    ∧ ∃ o, Open (BytesReader.mk (headerImage 9 1 1 EOFSecID 0 EOFSecID 0 [4194303]
          ++ List.replicate 2147483648 0) 0) = Except.ok (some o, some GoError.other)
        ∧ o.SecID = [] := by
  have hlen : (headerImage 9 1 1 EOFSecID 0 EOFSecID 0 [4194303]).length = 512 := by decide!
  have hacc : parseHeader (headerImage 9 1 1 EOFSecID 0 EOFSecID 0 [4194303])
      = (some (Header.decode (headerImage 9 1 1 EOFSecID 0 EOFSecID 0 [4194303])), none) := by
    rfl
  have hN : (Header.decode (headerImage 9 1 1 EOFSecID 0 EOFSecID 0
      [4194303])).NumberOfSectorsSAT = 1 := by decide!
  have hid : (Header.decode (headerImage 9 1 1 EOFSecID 0 EOFSecID 0
      [4194303])).FirstPartOfMSAT.getD 0 0 = 4194303 := by decide!
  refine ⟨?_, hN, hid, _, Open_first_negative _ (List.replicate 2147483648 0) hlen _ hacc
    (by rw [hN]; norm_num) (by rw [hid]; decide), rfl⟩
  rw [List.length_append, List.length_replicate, hlen]
  norm_num

/-! ### C18 -/

/-- `Open` on an in-memory source whose header is accepted, whose bootstrap sectors can all
be positioned at, and which declares neither a DIFAT walk nor a mini-FAT sector: the table
is that of the bootstrap sectors. -/
theorem Open_bootstrap_table (hdr rest : List Nat) (hlen : hdr.length = 512) (h : Header)
    (hacc : parseHeader hdr = (some h, none))
    (hpos : ∀ i, i < min 109 h.NumberOfSectorsSAT →
      0 ≤ sector_pos (i32 (h.FirstPartOfMSAT.getD i 0)) 512)
    (hg : ¬ (h.NumberOfSectorsSAT > 109 ∧ h.NumberOfSectorsMSAT ≠ 0 ∧ h.FirstSecIDMSAT ≥ 0))
    (hS : h.NumberOfSectorsSSAT = 0) :
    (Open (BytesReader.mk (hdr ++ rest) 0)).map (fun x => (x.1.map (fun o => o.SecID), x.2))
      = Except.ok (some (((List.range (min 109 h.NumberOfSectorsSAT)).map
          (fun k => Sector.AllValues (sectorImage (hdr ++ rest)
            (sector_pos (i32 (h.FirstPartOfMSAT.getD k 0)) 512) 512) 512)).flatten), none) := by
  obtain ⟨i, hi⟩ := readMSAT_without_DIFAT
    { header := h, Lsector := 512, Lssector := 64, SecID := [], SSecID := [],
      Files := [], reader := BytesReader.mk (hdr ++ rest) 512 } hpos hg
  unfold Open
  rw [BytesReader_Read_header hdr rest hlen]
  simp only [hacc, hi, Ole.readSSAT, hS, Ole.readSSATLoop]
  rfl

set_option maxRecDepth 100000 in
/-- C18 (the code at the failing input): the source is a 512-byte header alone, with one
FAT sector declared and bootstrap id 0, so that sector 0 (bytes 512..1024) lies beyond the
end of the source. `Open` returns a container and a nil error, and the table holds the
128 zero entries of the buffer that the failed read left untouched. -/
theorem Open_builds_table_from_unread_bytes :
    (headerImage 9 1 1 EOFSecID 0 EOFSecID 0 [0]).length = 512
    ∧ (Open (BytesReader.mk (headerImage 9 1 1 EOFSecID 0 EOFSecID 0 [0]) 0)).map
        (fun x => (x.1.map (fun o => o.SecID), x.2))
      = Except.ok (some (List.replicate 128 0), none) := by
  have hlen : (headerImage 9 1 1 EOFSecID 0 EOFSecID 0 [0]).length = 512 := by decide!
  have hacc : parseHeader (headerImage 9 1 1 EOFSecID 0 EOFSecID 0 [0])
      = (some (Header.decode (headerImage 9 1 1 EOFSecID 0 EOFSecID 0 [0])), none) :=
    (parseHeader_accepts_iff _ (by decide!)).1 (by decide!)
  have hN : (Header.decode (headerImage 9 1 1 EOFSecID 0 EOFSecID 0 [0])).NumberOfSectorsSAT
      = 1 := by decide!
  have h0 : (Header.decode (headerImage 9 1 1 EOFSecID 0 EOFSecID 0 [0])).FirstPartOfMSAT.getD
      0 0 = 0 := by decide!
  have hrun : le32sRun (sectorImage (headerImage 9 1 1 EOFSecID 0 EOFSecID 0 [0])
      (sector_pos (i32 0) 512) 512) 128 = List.replicate 128 0 := by decide!
  have hopen := Open_bootstrap_table (headerImage 9 1 1 EOFSecID 0 EOFSecID 0 [0]) [] hlen _ hacc
    (by
      rw [hN]
      intro i hi
      have hi0 : i = 0 := by
        have : i < 1 := hi
        omega
      rw [hi0, h0]
      decide)
    (by rw [hN]; simp)
    (by decide!)
  have hmin : min 109 1 = 1 := rfl
  have hr1 : List.range 1 = [0] := rfl
  rw [List.append_nil, hN, hmin, hr1, List.map_cons, List.map_nil, List.flatten_cons,
    List.flatten_nil, List.append_nil, h0, AllValues_run, hrun] at hopen
  exact ⟨hlen, hopen⟩

/-! ### C20 -/

theorem msatIds_length (src : List Nat) (d : Int) : (msatIds src d).length = 127 := by
  simp only [msatIds, Sector.MsatValues, List.length_map, List.length_range]

theorem fatOf_length (src : List Nat) (sid : Int) : (fatOf src sid).length = 128 := by
  simp only [fatOf, Sector.AllValues, List.length_map, List.length_range]

theorem flatten_length_const {α : Type} (c : Nat) (l : List (List α))
    (h : ∀ x ∈ l, x.length = c) : l.flatten.length = c * l.length := by
  induction l with
  | nil => simp
  | cons a t ih =>
    rw [List.flatten_cons, List.length_append, h a (List.mem_cons_self _ _),
      ih (fun x hx => h x (List.mem_cons_of_mem _ hx)), List.length_cons]
    ring

theorem DifatWalk_length (src : List Nat) (n : Nat) (ds : List Int) :
    ∀ (sid : Int) (j : Nat), DifatWalk src n sid j ds → ds.length ≤ n - j := by
  induction ds with
  | nil => intro sid j _; simp
  | cons d rest ih =>
    intro sid j h
    obtain ⟨_, _, hj, _, _, hrest⟩ := h
    have := ih _ _ hrest
    rw [List.length_cons]
    omega

/-- One round of the second loop of `readMSAT`, the results of its calls given. -/
theorem readMSATChain_step {ρ : Type} [ReadSeeker ρ] (f : Nat) (o : Ole ρ) (sid : Int)
    (j : Nat) (sr : SectorResult ρ) (sector : Sector) (o1 : Ole ρ) (j1 : Nat)
    (hc : sid ≠ EOFSecID ∧ j < o.header.NumberOfSectorsSAT)
    (h0 : o.sector_read sid = Except.ok sr) (hsec : sr.sector = some sector)
    (herr : sr.err = none)
    (h1 : Ole.appendSectors (Sector.MsatValues sector sr.ole.Lsector) sr.ole j
      = Except.ok (o1, j1, none)) :
    Ole.readMSATChain (f + 1) o sid j
      = Ole.readMSATChain f o1 (Sector.NextSid sector o1.Lsector) j1 := by
  simp only [Ole.readMSATChain, if_pos hc, h0, hsec, herr, h1, if_true]

/-- The walk along the DIFAT chain: for the DIFAT sectors `ds` that `DifatWalk` describes,
the second loop of `readMSAT` appends `difatTable src ds` to `SecID`. -/
theorem readMSATChain_walk (src : List Nat) (n : Nat) (hn : n + 127 ≤ 4294967296)
    (ds : List Int) :
    ∀ (fuel : Nat) (o : Ole BytesReader) (sid : Int) (j : Nat),
      o.reader.s = src → o.Lsector = 512 → o.header.NumberOfSectorsSAT = n →
      ds.length < fuel → DifatWalk src n sid j ds →
      ∃ i, Ole.readMSATChain fuel o sid j = Except.ok
        ({ o with SecID := o.SecID ++ difatTable src ds, reader := BytesReader.mk src i },
         none) := by
  induction ds with
  | nil =>
    intro fuel o sid j hs hL hN hfuel hw
    obtain ⟨f, rfl⟩ : ∃ f, fuel = f + 1 := ⟨fuel - 1, by simp at hfuel; omega⟩
    have hc : ¬ (sid ≠ EOFSecID ∧ j < o.header.NumberOfSectorsSAT) := by
      rw [hN]
      rcases hw with h | h
      · exact fun hh => hh.1 h
      · exact fun hh => absurd hh.2 (by omega)
    refine ⟨o.reader.i, ?_⟩
    simp only [Ole.readMSATChain, hc, if_false, difatTable, List.map_nil, List.flatten_nil,
      List.append_nil, ← hs]
  | cons d rest ih =>
    intro fuel o sid j hs hL hN hfuel hw
    obtain ⟨f, rfl⟩ : ∃ f, fuel = f + 1 := ⟨fuel - 1, by simp at hfuel; omega⟩
    obtain ⟨rfl, hne, hj, hpos, hids, hrest⟩ := hw
    have hc : sid ≠ EOFSecID ∧ j < o.header.NumberOfSectorsSAT := ⟨hne, by rw [hN]; exact hj⟩
    rcases o with ⟨hd, L, Ls, S, SS, F, ⟨s, i⟩⟩
    simp only at hs hL hN hc
    subst hs hL
    obtain ⟨i0, h0⟩ := (sector_read_image
      { header := hd, Lsector := 512, Lssector := Ls, SecID := S, SSecID := SS, Files := F,
        reader := BytesReader.mk s i } sid).2 hpos
    obtain ⟨i1, h1⟩ := appendSectors_image (msatIds s sid)
      { header := hd, Lsector := 512, Lssector := Ls, SecID := S, SSecID := SS, Files := F,
        reader := BytesReader.mk s i0 } j (by omega) hids
    have hj1 : (j + (msatIds s sid).length) % 4294967296 = j + 127 := by
      rw [msatIds_length]
      exact Nat.mod_eq_of_lt (by omega)
    rw [hj1] at h1
    obtain ⟨i2, h2⟩ := ih f
      { header := hd, Lsector := 512, Lssector := Ls,
        SecID := S ++ ((msatIds s sid).map (fatOf s)).flatten, SSecID := SS, Files := F,
        reader := BytesReader.mk s i1 }
      (nextOf s sid) (j + 127) rfl rfl hN (by simp at hfuel; omega) hrest
    refine ⟨i2, ?_⟩
    rw [readMSATChain_step f _ sid j _ _ _ _ hc h0 rfl rfl h1]
    refine h2.trans ?_
    simp only [difatTable, List.map_cons, List.flatten_cons, List.append_assoc]

/-- With more than 109 FAT sectors declared and the DIFAT guard passed, `readMSAT` appends
the entries of the 109 bootstrap sectors and then those found along the DIFAT chain. -/
theorem readMSAT_with_DIFAT (o : Ole BytesReader) (ds : List Int) (hL : o.Lsector = 512)
    (hN : 109 < o.header.NumberOfSectorsSAT)
    (hN32 : o.header.NumberOfSectorsSAT + 127 ≤ 4294967296)
    (hboot : ∀ i, i < 109 → 0 ≤ sector_pos (i32 (o.header.FirstPartOfMSAT.getD i 0)) 512)
    (hM : o.header.NumberOfSectorsMSAT ≠ 0) (hF : 0 ≤ o.header.FirstSecIDMSAT)
    (hw : DifatWalk o.reader.s o.header.NumberOfSectorsSAT o.header.FirstSecIDMSAT 109 ds) :
    ∃ i, o.readMSAT = Except.ok
      ({ o with
          SecID := o.SecID ++ ((List.range 109).map
            (fun k => fatOf o.reader.s (o.header.FirstPartOfMSAT.getD k 0))).flatten
            ++ difatTable o.reader.s ds,
          reader := BytesReader.mk o.reader.s i }, none) := by
  have hmin : min 109 o.header.NumberOfSectorsSAT = 109 := Nat.min_eq_left (by omega)
  rcases o with ⟨hd, L, Ls, S, SS, F, ⟨s, i⟩⟩
  simp only at hL hN hN32 hboot hM hF hw hmin
  subst hL
  obtain ⟨i1, h1⟩ := appendSectors_image
    ((List.range 109).map (fun k => hd.FirstPartOfMSAT.getD k 0))
    { header := hd, Lsector := 512, Lssector := Ls, SecID := S, SSecID := SS, Files := F,
      reader := BytesReader.mk s i } 0 (by norm_num)
    (by
      intro sid hsid
      simp only [List.mem_map, List.mem_range] at hsid
      obtain ⟨k, hk, rfl⟩ := hsid
      exact hboot k hk)
  have hlen := DifatWalk_length s hd.NumberOfSectorsSAT ds _ _ hw
  obtain ⟨i2, h2⟩ := readMSATChain_walk s hd.NumberOfSectorsSAT hN32 ds
    (hd.NumberOfSectorsSAT + 1)
    { header := hd, Lsector := 512, Lssector := Ls,
      SecID := S ++ ((List.range 109).map
        (fun k => fatOf s (hd.FirstPartOfMSAT.getD k 0))).flatten,
      SSecID := SS, Files := F, reader := BytesReader.mk s i1 }
    hd.FirstSecIDMSAT 109 rfl rfl rfl (by omega) hw
  refine ⟨i2, ?_⟩
  have hg : hd.NumberOfSectorsSAT > 109 ∧ hd.NumberOfSectorsMSAT ≠ 0
      ∧ hd.FirstSecIDMSAT ≥ 0 := ⟨hN, hM, hF⟩
  simp only [List.map_map, List.length_map, List.length_range, Nat.zero_add] at h1
  unfold Ole.readMSAT
  simp only [hmin, h1, ne_eq, not_true_eq_false, if_false, hg, and_self, if_true]
  exact h2

/-- C20 (amended): in a container with 512-byte sectors over an in-memory source, with
`N = NumberOfSectorsSAT > 109` (and `N + 127 <= 2^32`) and the 109 bootstrap sectors at
non-negative positions, `readMSAT` first appends the entries of the 109 bootstrap sectors.
If `NumberOfSectorsMSAT != 0` and `FirstSecIDMSAT >= 0`, it then follows the DIFAT chain
from `FirstSecIDMSAT`: for each DIFAT sector visited (`ds`, as `DifatWalk` describes: the
next one is the id in the last slot, the walk ends at the end-of-chain id or once the
count of FAT sectors read has reached `N`), every slot but the last is taken as a FAT
sector id whose entries are appended to `SecID` in slot order. If `NumberOfSectorsMSAT = 0`
or `FirstSecIDMSAT < 0`, the chain is not followed and `SecID` ends with the bootstrap
entries. -/
theorem readMSAT_follows_DIFAT (o : Ole BytesReader) (ds : List Int) (hL : o.Lsector = 512)
    (hN : 109 < o.header.NumberOfSectorsSAT)
    (hN32 : o.header.NumberOfSectorsSAT + 127 ≤ 4294967296)
    (hboot : ∀ i, i < 109 → 0 ≤ sector_pos (i32 (o.header.FirstPartOfMSAT.getD i 0)) 512) :
    (o.header.NumberOfSectorsMSAT ≠ 0 → 0 ≤ o.header.FirstSecIDMSAT →
      DifatWalk o.reader.s o.header.NumberOfSectorsSAT o.header.FirstSecIDMSAT 109 ds →
      ∃ i, o.readMSAT = Except.ok
        ({ o with
            SecID := o.SecID ++ ((List.range 109).map
              (fun k => fatOf o.reader.s (o.header.FirstPartOfMSAT.getD k 0))).flatten
              ++ difatTable o.reader.s ds,
            reader := BytesReader.mk o.reader.s i }, none))
    ∧ (o.header.NumberOfSectorsMSAT = 0 ∨ o.header.FirstSecIDMSAT < 0 →
      ∃ i, o.readMSAT = Except.ok
        ({ o with
            SecID := o.SecID ++ ((List.range 109).map
              (fun k => fatOf o.reader.s (o.header.FirstPartOfMSAT.getD k 0))).flatten,
            reader := BytesReader.mk o.reader.s i }, none)) := by
  constructor
  · intro hM hF hw
    exact readMSAT_with_DIFAT o ds hL hN hN32 hboot hM hF hw
  · intro hg
    have hmin : min 109 o.header.NumberOfSectorsSAT = 109 := Nat.min_eq_left (by omega)
    obtain ⟨i, hi⟩ := readMSAT_without_DIFAT o
      (by
        intro k hk
        rw [hmin] at hk
        rw [hL]
        exact hboot k hk)
      (by
        rintro ⟨_, h1, h2⟩
        rcases hg with h | h
        · exact h1 h
        · omega)
    refine ⟨i, ?_⟩
    rw [hi, hmin, hL]
    rfl

theorem difatTable_one_length (src : List Nat) (d : Int) :
    (difatTable src [d]).length = 16256 := by
  simp only [difatTable, List.map_cons, List.map_nil, List.flatten_cons, List.flatten_nil,
    List.append_nil]
  rw [flatten_length_const 128 _ (by
    intro x hx
    obtain ⟨id, _, rfl⟩ := List.mem_map.mp hx
    exact fatOf_length src id), List.length_map, msatIds_length]

set_option maxRecDepth 100000 in
/-- Witness for C20: 110 FAT sectors declared, one DIFAT sector declared, the DIFAT chain
made of sector 2 alone. -/
theorem readMSAT_follows_DIFAT_witness :
    DifatWalk (opened (difatSource 1)).reader.s (opened (difatSource 1)).header.NumberOfSectorsSAT
      (opened (difatSource 1)).header.FirstSecIDMSAT 109 [2]
    ∧ ∃ o1, (opened (difatSource 1)).readMSAT = Except.ok (o1, none)
      ∧ o1.SecID = (opened (difatSource 1)).SecID ++ ((List.range 109).map
          (fun k => fatOf (opened (difatSource 1)).reader.s
            ((opened (difatSource 1)).header.FirstPartOfMSAT.getD k 0))).flatten
          ++ difatTable (opened (difatSource 1)).reader.s [2] :=
  have hN : (opened (difatSource 1)).header.NumberOfSectorsSAT = 110 := by decide!
  have hF : (opened (difatSource 1)).header.FirstSecIDMSAT = 2 := by decide!
  have hw : DifatWalk (opened (difatSource 1)).reader.s
      (opened (difatSource 1)).header.NumberOfSectorsSAT
      (opened (difatSource 1)).header.FirstSecIDMSAT 109 [2] := by
    rw [hN, hF]
    refine ⟨rfl, by decide, by decide, by decide, ?_, Or.inr (by decide)⟩
    rw [msatIds, MsatValues_run]
    have hids : le32sRun (sectorImage (opened (difatSource 1)).reader.s (sector_pos 2 512) 512)
        127 = 0 :: List.replicate 126 (-1) := by decide!
    rw [hids]
    decide!
  ⟨hw, (((readMSAT_follows_DIFAT (opened (difatSource 1)) [2] rfl (by decide!) (by decide!)
      (by
        intro i _
        have hrun : le32sRun (((difatSource 1).take 512).drop 76) 109 = List.replicate 109 0 := by
          decide!
        rw [opened_FirstPartOfMSAT _ (by decide!), hrun, getD_replicate_same]
        decide)).1 (by decide!) (by decide!) hw).elim
    (fun _ h => ⟨_, h, rfl⟩))⟩

set_option maxRecDepth 100000 in
/-- C20 (counterexample): 110 FAT sectors are declared, the DIFAT chain starts at sector 2,
a DIFAT sector whose 127 slots would contribute 16256 table entries, and the header
declares 0 DIFAT sectors. `readMSAT` returns a nil error with a table of the 13952 entries
of the 109 bootstrap sectors: the chain is not followed. -/
theorem readMSAT_skips_DIFAT_when_count_is_zero :
    (opened (difatSource 0)).header.NumberOfSectorsSAT = 110
    ∧ (opened (difatSource 0)).header.FirstSecIDMSAT = 2
    ∧ (opened (difatSource 0)).header.NumberOfSectorsMSAT = 0
    ∧ DifatWalk (difatSource 0) 110 2 109 [2]
    ∧ (difatTable (difatSource 0) [2]).length = 16256
    ∧ ∃ o1, (opened (difatSource 0)).readMSAT = Except.ok (o1, none)
      ∧ o1.SecID.length = 13952 := by
  have hN : (opened (difatSource 0)).header.NumberOfSectorsSAT = 110 := by decide!
  have hM : (opened (difatSource 0)).header.NumberOfSectorsMSAT = 0 := by decide!
  have hmin : min 109 (opened (difatSource 0)).header.NumberOfSectorsSAT = 109 := by
    rw [hN]; rfl
  have hrun : le32sRun (((difatSource 0).take 512).drop 76) 109 = List.replicate 109 0 := by
    decide!
  have hids : le32sRun (sectorImage (difatSource 0) (sector_pos 2 512) 512) 127
      = 0 :: List.replicate 126 (-1) := by decide!
  have hw : DifatWalk (difatSource 0) 110 2 109 [2] := by
    refine ⟨rfl, by decide, by decide, by decide, ?_, Or.inr (by decide)⟩
    rw [msatIds, MsatValues_run, hids]
    decide!
  obtain ⟨i, hi⟩ := readMSAT_without_DIFAT (opened (difatSource 0))
    (by
      intro i _
      rw [opened_FirstPartOfMSAT _ (by decide!), hrun, getD_replicate_same]
      decide)
    (by rw [hM]; simp)
  refine ⟨hN, by decide!, hM, hw, difatTable_one_length _ _, _, hi, ?_⟩
  show ((opened (difatSource 0)).SecID ++ _).length = 13952
  rw [List.length_append, hmin, flatten_length_const 128 _ (by
    intro x hx
    obtain ⟨k, _, rfl⟩ := List.mem_map.mp hx
    simp only [Sector.AllValues, List.length_map, List.length_range]
    rfl), List.length_map, List.length_range]
  rfl

/-! ### Reading directory records -/

/-- A `Read` of 128 bytes that stays inside the current sector. -/
theorem Read_record (sat : List Int) (src : List Nat) (r : StreamReader BytesReader) (s : Int)
    (a : Nat) (p : List Nat) (hc : DirCursor sat src r s a) (h0 : 0 ≤ s)
    (h1 : 512 + 512 * s + 512 ≤ (src.length : Int)) (h2 : 512 + 512 * s + 512 < 2147483648)
    (hp : p.length = 128) (hap : a + 128 ≤ 512) :
    ∃ res, r.Read p = Except.ok res ∧ res.n = 128 ∧ res.err = none
      ∧ res.p = (src.drop (512 + 512 * s + (a : Int)).toNat).take 128
      ∧ DirCursor sat src res.reader s (a + 128) := by
  obtain ⟨c1, c2, c3, c4, c5, c6⟩ := hc
  rcases r with ⟨sat0, start, ⟨s0, i0⟩, oos, ois, S, size, offset, pf⟩
  simp only at c1 c2 c3 c4 c5 c6
  subst c1 c2 c3 c4 c5 c6
  have hne : ¬ (oos = EOFSecID) := by unfold EOFSecID; omega
  have hpos : i32 (sector_pos oos 512 + i32 (ois : Int)) = 512 + 512 * oos + (ois : Int) := by
    unfold sector_pos i32; omega
  have hnn : ¬ (512 + 512 * oos + (ois : Int) < 0) := by omega
  have hcond : ¬ (u32 ((u32 (p.length : Int) : Int) - ((0 : Nat) : Int))
      > u32 (((512 : Nat) : Int) - (ois : Int))) := by
    rw [hp]; unfold u32; omega
  have hlt : ¬ (512 + 512 * oos + (ois : Int) ≥ (s0.length : Int)) := by omega
  have hlen : ((s0.drop (512 + 512 * oos + (ois : Int)).toNat).take 128).length = 128 := by
    simp only [List.length_take, List.length_drop]
    omega
  have hu : u32 ((ois : Int) + (u32 (128 : Int) : Int)) = ois + 128 := by
    unfold u32; omega
  unfold StreamReader.Read
  rw [if_neg hne]
  simp only [ReadSeeker.Seek, BytesReader.Seek, true_or, if_true, hpos, hnn, if_false]
  rw [hp, readLoop_final 129 _ p 0 hcond (Nat.zero_le _)]
  simp only [ReadSeeker.Read, BytesReader.Read, hlt, if_false, List.drop_zero, hp, hlen,
    List.drop_of_length_le (le_of_eq hp), List.append_nil, if_true, splice, List.take_zero,
    List.nil_append, Nat.zero_add, Nat.cast_ofNat, hu]
  exact ⟨_, rfl, rfl, rfl, rfl, ⟨rfl, rfl, rfl, rfl, rfl, rfl⟩⟩

theorem index_lt (sat : List Int) (s t : Int) (h : index sat s = some t) :
    0 ≤ s ∧ s < (sat.length : Int) := by
  unfold index at h
  by_contra hc
  rw [if_neg hc] at h
  cases h

/-- A round of the loop of `Read` whose read of the source returns an error. -/
theorem readLoop_round_err {ρ : Type} [ReadSeeker ρ] (f : Nat) (r : StreamReader ρ)
    (p : List Nat) (readed : Nat) (chunk : List Nat) (res : ReadResult ρ)
    (hcond : u32 ((u32 (p.length : Int) : Int) - (readed : Int))
      > u32 ((r.sizeSector : Int) - (r.offsetInSector : Int)))
    (hsl : slice p readed (u32 ((readed : Int) + (r.sizeSector : Int)
      - (r.offsetInSector : Int))) = some chunk)
    (hread : ReadSeeker.Read r.reader chunk = Except.ok res) (herr : res.err ≠ none) :
    StreamReader.readLoop (f + 1) r p readed
      = Except.ok { reader := { r with reader := res.reader }, p := splice p readed res.p,
                    n := (readed : Int) + res.n, err := res.err } := by
  rw [StreamReader.readLoop]
  simp only [hcond, if_true, hsl, hread, herr, ne_eq, not_false_eq_true]

/-- A round of the loop of `Read` that ends on the end-of-chain id. -/
theorem readLoop_round_end {ρ : Type} [ReadSeeker ρ] (f : Nat) (r : StreamReader ρ)
    (p : List Nat) (readed : Nat) (chunk : List Nat) (res : ReadResult ρ)
    (hcond : u32 ((u32 (p.length : Int) : Int) - (readed : Int))
      > u32 ((r.sizeSector : Int) - (r.offsetInSector : Int)))
    (hsl : slice p readed (u32 ((readed : Int) + (r.sizeSector : Int)
      - (r.offsetInSector : Int))) = some chunk)
    (hread : ReadSeeker.Read r.reader chunk = Except.ok res) (herr : res.err = none)
    (hguard : ¬ (r.offsetOfSector ≥ i32 (r.sat.length : Int)))
    (hidx : index r.sat r.offsetOfSector = some EOFSecID) :
    StreamReader.readLoop (f + 1) r p readed
      = Except.ok { reader := { r with reader := res.reader, offsetInSector := 0,
                                       offsetOfSector := EOFSecID },
                    p := splice p readed res.p,
                    n := (u32 ((readed : Int) + (u32 res.n : Int)) : Int),
                    err := some GoError.EOF } := by
  rw [StreamReader.readLoop]
  simp only [hcond, if_true, hsl, hread, herr, ne_eq, not_true_eq_false, if_false, hguard,
    hidx]

/-- A round of the loop of `Read` that moves on to the next sector of the chain. -/
theorem readLoop_round_next {ρ : Type} [ReadSeeker ρ] (f : Nat) (r : StreamReader ρ)
    (p : List Nat) (readed : Nat) (chunk : List Nat) (res : ReadResult ρ) (next : Int)
    (sk : SeekResult ρ)
    (hcond : u32 ((u32 (p.length : Int) : Int) - (readed : Int))
      > u32 ((r.sizeSector : Int) - (r.offsetInSector : Int)))
    (hsl : slice p readed (u32 ((readed : Int) + (r.sizeSector : Int)
      - (r.offsetInSector : Int))) = some chunk)
    (hread : ReadSeeker.Read r.reader chunk = Except.ok res) (herr : res.err = none)
    (hguard : ¬ (r.offsetOfSector ≥ i32 (r.sat.length : Int)))
    (hidx : index r.sat r.offsetOfSector = some next) (hne : next ≠ EOFSecID)
    (hseek : ReadSeeker.Seek res.reader
      (i32 (r.sectorPos next r.sizeSector + i32 ((0 : Nat) : Int))) 0 = Except.ok sk) :
    StreamReader.readLoop (f + 1) r p readed
      = StreamReader.readLoop f
          { r with reader := sk.reader, offsetInSector := 0, offsetOfSector := next }
          (splice p readed res.p) (u32 ((readed : Int) + (u32 res.n : Int))) := by
  rw [StreamReader.readLoop]
  simp only [hcond, if_true, hsl, hread, herr, ne_eq, not_true_eq_false, if_false, hguard,
    hidx, hne, hseek]

/-- The loop of `Read` for 128 bytes with the cursor at the end of sector `s` and the
source positioned there, when the sector ends the source or has the end-of-chain id as its
table entry: no byte and `io.EOF`. -/
theorem readLoop_record_EOF (f : Nat) (sat : List Int) (src : List Nat)
    (r : StreamReader BytesReader) (s : Int) (p : List Nat) (hc : DirCursor sat src r s 512)
    (hi : r.reader.i = 512 + 512 * s + 512) (hp : p.length = 128)
    (hsat : sat.length < 2147483648)
    (hend : 512 + 512 * s + 512 ≥ (src.length : Int) ∨ index sat s = some EOFSecID) :
    ∃ res, StreamReader.readLoop (f + 1) r p 0 = Except.ok res ∧ res.n = 0
      ∧ res.err = some GoError.EOF := by
  obtain ⟨c1, c2, c3, c4, c5, c6⟩ := hc
  have hcond : u32 ((u32 (p.length : Int) : Int) - ((0 : Nat) : Int))
      > u32 ((r.sizeSector : Int) - (r.offsetInSector : Int)) := by
    rw [c2, c6, hp]; unfold u32; omega
  have hsl : slice p 0 (u32 (((0 : Nat) : Int) + (r.sizeSector : Int)
      - (r.offsetInSector : Int))) = some [] := by
    have hu : u32 (((0 : Nat) : Int) + (r.sizeSector : Int) - (r.offsetInSector : Int)) = 0 := by
      rw [c2, c6]; unfold u32; omega
    rw [hu, slice_eq_some p 0 0 (le_refl _) (Nat.zero_le _)]; rfl
  by_cases hge : r.reader.i ≥ (r.reader.s.length : Int)
  · have herr : (BytesReader.Read r.reader []).err = some GoError.EOF := by
      simp only [BytesReader.Read, hge, if_true]
    have hn : (BytesReader.Read r.reader []).n = 0 := by
      simp only [BytesReader.Read, hge, if_true]
    rw [readLoop_round_err f r p 0 [] (BytesReader.Read r.reader []) hcond hsl rfl
      (by rw [herr]; simp)]
    exact ⟨_, rfl, by simp only [hn]; rfl, herr⟩
  · have herr : (BytesReader.Read r.reader []).err = none := by
      simp only [BytesReader.Read, hge, if_false]
    have hn : (BytesReader.Read r.reader []).n = 0 := by
      simp only [BytesReader.Read, hge, if_false, List.length_nil, List.take_zero,
        Nat.cast_zero]
    have hidx : index r.sat r.offsetOfSector = some EOFSecID := by
      rw [c1, c5]
      rcases hend with h | h
      · rw [hi, c4] at hge; omega
      · exact h
    have hr := index_lt _ _ _ hidx
    have hguard : ¬ (r.offsetOfSector ≥ i32 (r.sat.length : Int)) := by
      rw [c1] at hr ⊢; unfold i32; omega
    rw [readLoop_round_end f r p 0 [] (BytesReader.Read r.reader []) hcond hsl rfl herr
      hguard hidx]
    refine ⟨_, rfl, ?_, rfl⟩
    simp only [hn]
    unfold u32
    rfl

/-- The loop of `Read` for 128 bytes with the cursor at the end of sector `s` and the
source positioned there, when the sector does not end the source and its table entry is
the sector `s1`, held by the source: the first 128 bytes of `s1`. -/
theorem readLoop_record_next (f : Nat) (sat : List Int) (src : List Nat)
    (r : StreamReader BytesReader) (s s1 : Int) (p : List Nat)
    (hc : DirCursor sat src r s 512) (hi : r.reader.i = 512 + 512 * s + 512)
    (h1 : 512 + 512 * s + 512 < (src.length : Int))
    (hp : p.length = 128) (hsat : sat.length < 2147483648)
    (hidx : index sat s = some s1) (g0 : 0 ≤ s1)
    (g1 : 512 + 512 * s1 + 512 ≤ (src.length : Int))
    (g2 : 512 + 512 * s1 + 512 < 2147483648) :
    ∃ res, StreamReader.readLoop (f + 1 + 1) r p 0 = Except.ok res ∧ res.n = 128
      ∧ res.err = none
      ∧ res.p = (src.drop (512 + 512 * s1 + ((0 : Nat) : Int)).toNat).take 128
      ∧ DirCursor sat src res.reader s1 (0 + 128) := by
  obtain ⟨c1, c2, c3, c4, c5, c6⟩ := hc
  have hcond : u32 ((u32 (p.length : Int) : Int) - ((0 : Nat) : Int))
      > u32 ((r.sizeSector : Int) - (r.offsetInSector : Int)) := by
    rw [c2, c6, hp]; unfold u32; omega
  have hsl : slice p 0 (u32 (((0 : Nat) : Int) + (r.sizeSector : Int)
      - (r.offsetInSector : Int))) = some [] := by
    have hu : u32 (((0 : Nat) : Int) + (r.sizeSector : Int) - (r.offsetInSector : Int)) = 0 := by
      rw [c2, c6]; unfold u32; omega
    rw [hu, slice_eq_some p 0 0 (le_refl _) (Nat.zero_le _)]; rfl
  have hge : ¬ (r.reader.i ≥ (r.reader.s.length : Int)) := by rw [hi, c4]; omega
  have hread : BytesReader.Read r.reader []
      = { reader := r.reader, p := [], n := 0, err := none } := by
    simp only [BytesReader.Read, hge, if_false, List.length_nil, List.take_zero,
      List.drop_nil, List.append_nil, Nat.cast_zero, Int.add_zero]
  have hidx0 : index r.sat r.offsetOfSector = some s1 := by rw [c1, c5]; exact hidx
  have hr := index_lt _ _ _ hidx
  have hguard : ¬ (r.offsetOfSector ≥ i32 (r.sat.length : Int)) := by
    rw [c1, c5]; unfold i32; omega
  have hne1 : s1 ≠ EOFSecID := by unfold EOFSecID; omega
  have hpos : i32 (r.sectorPos s1 r.sizeSector + i32 ((0 : Nat) : Int)) = 512 + 512 * s1 := by
    rw [c2, c3]; unfold sector_pos i32; omega
  have hnn : ¬ (512 + 512 * s1 < 0) := by omega
  have hseek : ReadSeeker.Seek r.reader
      (i32 (r.sectorPos s1 r.sizeSector + i32 ((0 : Nat) : Int))) 0
      = Except.ok { reader := BytesReader.mk src (512 + 512 * s1),
                    offsetResult := 512 + 512 * s1, err := none } := by
    rw [hpos]
    simp only [ReadSeeker.Seek, BytesReader.Seek, true_or, if_true, hnn, if_false, c4]
  rw [readLoop_round_next (f + 1) r p 0 [] { reader := r.reader, p := [], n := 0, err := none } s1
    { reader := BytesReader.mk src (512 + 512 * s1), offsetResult := 512 + 512 * s1,
      err := none } hcond hsl
    (show ReadSeeker.Read r.reader [] = Except.ok _ by rw [← hread]; rfl) rfl hguard hidx0
    hne1 hseek]
  have hsp : splice p 0 ([] : List Nat) = p := by
    simp only [splice, List.take_zero, List.nil_append, List.length_nil, Nat.add_zero,
      List.drop_zero]
  have hrd : u32 ((((0 : Nat) : Int)) + ((u32 (0 : Int) : Nat) : Int)) = 0 := by
    unfold u32; omega
  simp only [hsp, hrd]
  have hcond2 : ¬ (u32 ((u32 (p.length : Int) : Int) - ((0 : Nat) : Int))
      > u32 ((r.sizeSector : Int) - ((0 : Nat) : Int))) := by
    rw [hp, c2]; unfold u32; omega
  rw [readLoop_final f _ p 0 hcond2 (Nat.zero_le _)]
  have hlt : ¬ (512 + 512 * s1 ≥ (src.length : Int)) := by omega
  have hlen : ((src.drop (512 + 512 * s1).toNat).take 128).length = 128 := by
    simp only [List.length_take, List.length_drop]
    omega
  have hu : u32 ((((0 : Nat) : Int)) + (u32 (128 : Int) : Int)) = 0 + 128 := by
    unfold u32; omega
  simp only [ReadSeeker.Read, BytesReader.Read, hlt, if_false, List.drop_zero, hp, hlen,
    List.drop_of_length_le (le_of_eq hp), List.append_nil, if_true, splice, List.take_zero,
    List.nil_append, Nat.zero_add, Nat.cast_ofNat, hu, Nat.cast_zero, Int.add_zero]
  exact ⟨_, rfl, rfl, rfl, rfl, ⟨c1, c2, c3, rfl, rfl, rfl⟩⟩

/-- `Read` with the cursor at the end of sector `s`: the source is positioned at the end of
the sector and the loop starts. -/
theorem Read_at_sector_end (sat : List Int) (src : List Nat) (r : StreamReader BytesReader)
    (s : Int) (p : List Nat) (hc : DirCursor sat src r s 512) (h0 : 0 ≤ s)
    (h2 : 512 + 512 * s + 512 < 2147483648) :
    r.Read p = StreamReader.readLoop (p.length + 1 + 1)
        { r with reader := BytesReader.mk src (512 + 512 * s + 512) } p 0 := by
  obtain ⟨c1, c2, c3, c4, c5, c6⟩ := hc
  have hne : ¬ (r.offsetOfSector = EOFSecID) := by rw [c5]; unfold EOFSecID; omega
  have hpos : i32 (r.sectorPos r.offsetOfSector r.sizeSector + i32 (r.offsetInSector : Int))
      = 512 + 512 * s + 512 := by
    rw [c2, c3, c5, c6]; unfold sector_pos i32; omega
  have hnn : ¬ (512 + 512 * s + 512 < 0) := by omega
  unfold StreamReader.Read
  rw [if_neg hne, hpos]
  simp only [ReadSeeker.Seek, BytesReader.Seek, true_or, if_true, hnn, if_false, c4]

/-! ### `binary.Read` of one directory record -/

theorem splice_all (buf q : List Nat) (h : q.length = buf.length) : splice buf 0 q = q := by
  simp only [splice, List.take_zero, List.nil_append, Nat.zero_add, h, List.drop_length,
    List.append_nil]

/-- The loop of `io.ReadAtLeast` when the first `Read` fills the buffer. -/
theorem ReadAtLeastLoop_full {ρ : Type} [ReadSeeker ρ] (f : Nat) (r : ρ) (buf : List Nat)
    (res : ReadResult ρ) (hb : 0 < buf.length) (hb2 : (buf.length : Int) < 9223372036854775808)
    (hread : ReadSeeker.Read r buf = Except.ok res) (hn : res.n = (buf.length : Int))
    (herr : res.err = none) (hlen : res.p.length = buf.length) :
    ReadAtLeastLoop (f + 1 + 1) r buf (buf.length : Int) 0
      = Except.ok { reader := res.reader, p := res.p, n := (buf.length : Int), err := none } := by
  have h1 : (0 : Int) < (buf.length : Int) := by omega
  have h2 : ¬ ((0 : Int) < 0) := by omega
  have hsl : slice buf 0 buf.length = some buf := by
    rw [slice_eq_some buf 0 buf.length (Nat.zero_le _) (le_refl _)]
    simp
  have hi : i64 (0 + res.n) = (buf.length : Int) := by
    rw [hn]; unfold i64; omega
  have h3 : ¬ ((buf.length : Int) < (buf.length : Int)) := by omega
  rw [ReadAtLeastLoop]
  simp only [h1, if_true, h2, if_false, hsl, hread, herr, hi, Int.toNat_zero,
    splice_all buf res.p hlen]
  rw [ReadAtLeastLoop]
  simp only [h3, if_false, ReadAtLeastResult, ge_iff_le, le_refl, if_true]

/-- The loop of `io.ReadAtLeast` when the first `Read` returns no byte and `io.EOF`. -/
theorem ReadAtLeastLoop_EOF {ρ : Type} [ReadSeeker ρ] (f : Nat) (r : ρ) (buf : List Nat)
    (res : ReadResult ρ) (hb : 0 < buf.length)
    (hread : ReadSeeker.Read r buf = Except.ok res) (hn : res.n = 0)
    (herr : res.err = some GoError.EOF) :
    ∃ q, ReadAtLeastLoop (f + 1) r buf (buf.length : Int) 0
      = Except.ok { reader := res.reader, p := q, n := 0, err := some GoError.EOF } := by
  have h1 : (0 : Int) < (buf.length : Int) := by omega
  have h2 : ¬ ((0 : Int) < 0) := by omega
  have hsl : slice buf 0 buf.length = some buf := by
    rw [slice_eq_some buf 0 buf.length (Nat.zero_le _) (le_refl _)]
    simp
  have hi : i64 (0 + res.n) = 0 := by
    rw [hn]; unfold i64; omega
  have h3 : ¬ ((0 : Int) ≥ (buf.length : Int)) := by omega
  rw [ReadAtLeastLoop]
  simp only [h1, if_true, h2, if_false, hsl, hread, herr, hi, Int.toNat_zero,
    ReadAtLeastResult, h3, lt_self_iff_false, false_and, reduceCtorEq]
  exact ⟨_, rfl⟩

/-- The call `binary.Read(sector, binary.LittleEndian, d)` when the `Read` of 128 bytes
succeeds: `d` is decoded from the bytes read. -/
theorem binaryReadFile_record {ρ : Type} [ReadSeeker ρ] (r : ρ) (res : ReadResult ρ)
    (hread : ReadSeeker.Read r (List.replicate 128 0) = Except.ok res) (hn : res.n = 128)
    (herr : res.err = none) (hlen : res.p.length = 128) :
    binaryReadFile r = Except.ok (res.reader, File.decode res.p, none) := by
  have hl : (List.replicate 128 0 : List Nat).length = 128 := List.length_replicate _ _
  have key := ReadAtLeastLoop_full 127 r (List.replicate 128 0) res (by rw [hl]; norm_num)
    (by rw [hl]; norm_num) hread (by rw [hl]; exact hn) herr (by rw [hl]; exact hlen)
  rw [hl] at key
  unfold binaryReadFile ReadFull ReadAtLeast
  rw [hl]
  have hlt : ¬ (((128 : Nat) : Int) < ((128 : Nat) : Int)) := by omega
  rw [if_neg hlt]
  have hf : (((128 : Nat) : Int)).toNat + 1 = 127 + 1 + 1 := rfl
  rw [hf, key]
  simp

/-- The call `binary.Read(sector, binary.LittleEndian, d)` when the `Read` of 128 bytes
returns no byte and `io.EOF`: the error is `io.EOF` and `d` keeps its zero value. -/
theorem binaryReadFile_EOF {ρ : Type} [ReadSeeker ρ] (r : ρ) (res : ReadResult ρ)
    (hread : ReadSeeker.Read r (List.replicate 128 0) = Except.ok res) (hn : res.n = 0)
    (herr : res.err = some GoError.EOF) :
    binaryReadFile r = Except.ok (res.reader, File.zero, some GoError.EOF) := by
  have hl : (List.replicate 128 0 : List Nat).length = 128 := List.length_replicate _ _
  obtain ⟨q, key⟩ := ReadAtLeastLoop_EOF 128 r (List.replicate 128 0) res
    (by rw [hl]; norm_num) hread hn herr
  rw [hl] at key
  unfold binaryReadFile ReadFull ReadAtLeast
  rw [hl]
  have hlt : ¬ (((128 : Nat) : Int) < ((128 : Nat) : Int)) := by omega
  rw [if_neg hlt]
  have hf : (((128 : Nat) : Int)).toNat + 1 = 128 + 1 := rfl
  rw [hf, key]
  simp

/-! ### `ListDir` along a directory chain -/

theorem ListDirLoop_step_record {ρ : Type} [ReadSeeker ρ] (f : Nat) (r r1 : StreamReader ρ)
    (dir : List File) (d : File) (h : binaryReadFile r = Except.ok (r1, d, none))
    (ht : d.Type_ ≠ EMPTY) :
    ListDirLoop (f + 1) r dir = ListDirLoop f r1 (dir ++ [d]) := by
  rw [ListDirLoop]
  simp only [h, ht, ne_eq, not_false_eq_true, and_self, if_true]

theorem ListDirLoop_step_stop {ρ : Type} [ReadSeeker ρ] (f : Nat) (r r1 : StreamReader ρ)
    (dir : List File) (d : File) (e : Option GoError)
    (h : binaryReadFile r = Except.ok (r1, d, e)) (ht : ¬ (e = none ∧ d.Type_ ≠ EMPTY)) :
    ListDirLoop (f + 1) r dir = Except.ok (dir, e) := by
  rw [ListDirLoop]
  simp only [h, ht, if_false]

theorem DirChain_good (sat : List Int) (src : List Nat) (s : Int) (rest : List Int)
    (h : DirChain sat src s rest) :
    0 ≤ s ∧ 512 + 512 * s + 512 ≤ (src.length : Int) ∧ 512 + 512 * s + 512 < 2147483648 := by
  cases rest with
  | nil => exact ⟨h.1, h.2.1, h.2.2.1⟩
  | cons s1 rest => exact ⟨h.1, le_of_lt h.2.1, h.2.2.1⟩

theorem recordsOf_eq (src : List Nat) (s : Int) :
    recordsOf src s
      = [File.decode ((src.drop (512 + 512 * s + ((128 * 0 : Nat) : Int)).toNat).take 128),
         File.decode ((src.drop (512 + 512 * s + ((128 * 1 : Nat) : Int)).toNat).take 128),
         File.decode ((src.drop (512 + 512 * s + ((128 * 2 : Nat) : Int)).toNat).take 128),
         File.decode ((src.drop (512 + 512 * s + ((128 * 3 : Nat) : Int)).toNat).take 128)] := by
  have h : List.range 4 = [0, 1, 2, 3] := by decide
  simp only [recordsOf, h, List.map_cons, List.map_nil]

theorem dirRecords_cons (src : List Nat) (s : Int) (rest : List Int) :
    dirRecords src (s :: rest) = recordsOf src s ++ dirRecords src rest := by
  simp only [dirRecords, List.map_cons, List.flatten_cons]

/-- One record read inside a sector: if `ListDir` behaves as stated from the next record
on, it does from this one. -/
theorem ListDirLoop_descend (sat : List Int) (src : List Nat) (X : List File) (s : Int)
    (N k : Nat) (hk : k < 4) (hN : 5 ≤ N) (h0 : 0 ≤ s)
    (h1 : 512 + 512 * s + 512 ≤ (src.length : Int)) (h2 : 512 + 512 * s + 512 < 2147483648)
    (hX : X.drop k
      = File.decode ((src.drop (512 + 512 * s + ((128 * k : Nat) : Int)).toNat).take 128)
        :: X.drop (k + 1))
    (hnext : ∀ (fuel : Nat) (r : StreamReader BytesReader) (dir : List File),
      DirCursor sat src r s (128 * (k + 1)) → N ≤ fuel + (k + 1) →
      ∃ e, (e = none ∨ e = some GoError.EOF) ∧ ListDirLoop fuel r dir
        = Except.ok (dir ++ (X.drop (k + 1)).takeWhile (fun d => decide (d.Type_ ≠ EMPTY)),
            e)) :
    ∀ (fuel : Nat) (r : StreamReader BytesReader) (dir : List File),
      DirCursor sat src r s (128 * k) → N ≤ fuel + k →
      ∃ e, (e = none ∨ e = some GoError.EOF) ∧ ListDirLoop fuel r dir
        = Except.ok (dir ++ (X.drop k).takeWhile (fun d => decide (d.Type_ ≠ EMPTY)), e) := by
  intro fuel r dir hc hf
  obtain ⟨f, rfl⟩ : ∃ f, fuel = f + 1 := ⟨fuel - 1, by omega⟩
  obtain ⟨res, hr, hn, herr, hp, hc1⟩ := Read_record sat src r s (128 * k)
    (List.replicate 128 0) hc h0 h1 h2 (List.length_replicate _ _) (by omega)
  have hlen : res.p.length = 128 := by
    rw [hp]
    simp only [List.length_take, List.length_drop]
    omega
  have hb := binaryReadFile_record r res hr hn herr hlen
  rw [hX]
  by_cases ht : (File.decode res.p).Type_ ≠ EMPTY
  · rw [ListDirLoop_step_record f r res.reader dir _ hb ht]
    obtain ⟨e, he, hl⟩ := hnext f res.reader (dir ++ [File.decode res.p])
      (by rw [Nat.mul_add, Nat.mul_one]; exact hc1) (by omega)
    refine ⟨e, he, ?_⟩
    rw [hl, ← hp, List.takeWhile_cons_of_pos (by simpa using ht), List.append_assoc]
    rfl
  · rw [ListDirLoop_step_stop f r res.reader dir _ none hb (fun h => ht h.2)]
    refine ⟨none, Or.inl rfl, ?_⟩
    rw [← hp, List.takeWhile_cons_of_neg (by simpa using ht), List.append_nil]

theorem recordsOf_length (src : List Nat) (s : Int) : (recordsOf src s).length = 4 := by
  simp only [recordsOf, List.length_map, List.length_range]

/-- A record read at the end of the last sector of the chain: `ListDir` stops there. -/
theorem ListDirLoop_last (sat : List Int) (src : List Nat) (hsat : sat.length < 2147483648)
    (s : Int) (hch : DirChain sat src s []) :
    ∀ (fuel : Nat) (r : StreamReader BytesReader) (dir : List File),
      DirCursor sat src r s (128 * 4) → 5 ≤ fuel + 4 →
      ∃ e, (e = none ∨ e = some GoError.EOF) ∧ ListDirLoop fuel r dir
        = Except.ok (dir ++ ((dirRecords src [s]).drop 4).takeWhile
            (fun d => decide (d.Type_ ≠ EMPTY)), e) := by
  intro fuel r dir hc hf
  obtain ⟨f, rfl⟩ : ∃ f, fuel = f + 1 := ⟨fuel - 1, by omega⟩
  obtain ⟨h0, h1, h2, hidx⟩ := hch
  have hrd := Read_at_sector_end sat src r s (List.replicate 128 0) hc h0 h2
  obtain ⟨res, hr, hn, herr⟩ := readLoop_record_EOF ((List.replicate 128 0).length + 1) sat src
    { r with reader := BytesReader.mk src (512 + 512 * s + 512) } s (List.replicate 128 0)
    ⟨hc.1, hc.2.1, hc.2.2.1, rfl, hc.2.2.2.2.1, hc.2.2.2.2.2⟩ rfl (List.length_replicate _ _)
    hsat (Or.inr hidx)
  rw [← hrd] at hr
  have hb := binaryReadFile_EOF r res hr hn herr
  rw [ListDirLoop_step_stop f r res.reader dir _ _ hb (by simp)]
  refine ⟨_, Or.inr rfl, ?_⟩
  have hd : (dirRecords src [s]).drop 4 = [] := by
    apply List.drop_eq_nil_of_le
    simp only [dirRecords, List.map_cons, List.map_nil, List.flatten_cons, List.flatten_nil,
      List.append_nil, recordsOf_length, le_refl]
  rw [hd, List.takeWhile_nil, List.append_nil]

/-- `ListDir` along a directory chain, from any record boundary of its first sector:
the loop returns the records up to the first one of unused type. -/
theorem ListDirLoop_chain (sat : List Int) (src : List Nat) (hsat : sat.length < 2147483648)
    (rest : List Int) :
    ∀ (s : Int), DirChain sat src s rest → ∀ (k : Nat), k ≤ 4 →
      ∀ (fuel : Nat) (r : StreamReader BytesReader) (dir : List File),
        DirCursor sat src r s (128 * k) → 4 * (rest.length + 1) + 1 ≤ fuel + k →
        ∃ e, (e = none ∨ e = some GoError.EOF) ∧ ListDirLoop fuel r dir
          = Except.ok (dir ++ ((dirRecords src (s :: rest)).drop k).takeWhile
              (fun d => decide (d.Type_ ≠ EMPTY)), e) := by
  induction rest with
  | nil =>
    intro s hch
    obtain ⟨h0, h1, h2⟩ := DirChain_good sat src s [] hch
    have hX : dirRecords src [s] = recordsOf src s := by
      simp only [dirRecords, List.map_cons, List.map_nil, List.flatten_cons, List.flatten_nil,
        List.append_nil]
    have q4 := ListDirLoop_last sat src hsat s hch
    have q3 := ListDirLoop_descend sat src (dirRecords src [s]) s 5 3 (by norm_num)
      (le_refl _) h0 h1 h2 (by rw [hX, recordsOf_eq]; rfl) q4
    have q2 := ListDirLoop_descend sat src (dirRecords src [s]) s 5 2 (by norm_num)
      (le_refl _) h0 h1 h2 (by rw [hX, recordsOf_eq]; rfl) q3
    have q1 := ListDirLoop_descend sat src (dirRecords src [s]) s 5 1 (by norm_num)
      (le_refl _) h0 h1 h2 (by rw [hX, recordsOf_eq]; rfl) q2
    have q0 := ListDirLoop_descend sat src (dirRecords src [s]) s 5 0 (by norm_num)
      (le_refl _) h0 h1 h2 (by rw [hX, recordsOf_eq]; rfl) q1
    intro k hk
    interval_cases k
    · exact q0
    · exact q1
    · exact q2
    · exact q3
    · exact q4
  | cons s1 rest ih =>
    intro s hch
    obtain ⟨h0, h1, h2⟩ := DirChain_good sat src s (s1 :: rest) hch
    obtain ⟨_, h1s, _, hidx, hch1⟩ := hch
    obtain ⟨g0, g1, g2⟩ := DirChain_good sat src s1 rest hch1
    have hX : dirRecords src (s :: s1 :: rest)
        = recordsOf src s ++ dirRecords src (s1 :: rest) := dirRecords_cons src s (s1 :: rest)
    have hX1 : dirRecords src (s1 :: rest)
        = File.decode ((src.drop (512 + 512 * s1 + ((0 : Nat) : Int)).toNat).take 128)
          :: (dirRecords src (s1 :: rest)).drop 1 := by
      rw [dirRecords_cons, recordsOf_eq]; rfl
    have q4 : ∀ (fuel : Nat) (r : StreamReader BytesReader) (dir : List File),
        DirCursor sat src r s (128 * 4) → 4 * ((s1 :: rest).length + 1) + 1 ≤ fuel + 4 →
        ∃ e, (e = none ∨ e = some GoError.EOF) ∧ ListDirLoop fuel r dir
          = Except.ok (dir ++ ((dirRecords src (s :: s1 :: rest)).drop 4).takeWhile
              (fun d => decide (d.Type_ ≠ EMPTY)), e) := by
      intro fuel r dir hc hf
      rw [List.length_cons] at hf
      obtain ⟨f, rfl⟩ : ∃ f, fuel = f + 1 := ⟨fuel - 1, by omega⟩
      have hrd := Read_at_sector_end sat src r s (List.replicate 128 0) hc h0 h2
      obtain ⟨res, hr, hn, herr, hp, hc1⟩ := readLoop_record_next
        (List.replicate 128 0).length sat src
        { r with reader := BytesReader.mk src (512 + 512 * s + 512) } s s1
        (List.replicate 128 0)
        ⟨hc.1, hc.2.1, hc.2.2.1, rfl, hc.2.2.2.2.1, hc.2.2.2.2.2⟩ rfl h1s
        (List.length_replicate _ _) hsat hidx g0 g1 g2
      rw [← hrd] at hr
      have hlen : res.p.length = 128 := by
        rw [hp]
        simp only [List.length_take, List.length_drop]
        omega
      have hb := binaryReadFile_record r res hr hn herr hlen
      have hd : (dirRecords src (s :: s1 :: rest)).drop 4 = dirRecords src (s1 :: rest) := by
        rw [hX, ← recordsOf_length src s, List.drop_left]
      rw [hd, hX1]
      by_cases ht : (File.decode res.p).Type_ ≠ EMPTY
      · rw [ListDirLoop_step_record f r res.reader dir _ hb ht]
        obtain ⟨e, he, hl⟩ := ih s1 hch1 1 (by norm_num) f res.reader
          (dir ++ [File.decode res.p]) hc1 (by omega)
        refine ⟨e, he, ?_⟩
        rw [hl, ← hp, List.takeWhile_cons_of_pos (by simpa using ht), List.append_assoc]
        rfl
      · rw [ListDirLoop_step_stop f r res.reader dir _ none hb (fun h => ht h.2)]
        refine ⟨none, Or.inl rfl, ?_⟩
        rw [← hp, List.takeWhile_cons_of_neg (by simpa using ht), List.append_nil]
    have hN : 5 ≤ 4 * ((s1 :: rest).length + 1) + 1 := by omega
    have q3 := ListDirLoop_descend sat src (dirRecords src (s :: s1 :: rest)) s _ 3
      (by norm_num) hN h0 h1 h2 (by rw [hX, recordsOf_eq]; rfl) q4
    have q2 := ListDirLoop_descend sat src (dirRecords src (s :: s1 :: rest)) s _ 2
      (by norm_num) hN h0 h1 h2 (by rw [hX, recordsOf_eq]; rfl) q3
    have q1 := ListDirLoop_descend sat src (dirRecords src (s :: s1 :: rest)) s _ 1
      (by norm_num) hN h0 h1 h2 (by rw [hX, recordsOf_eq]; rfl) q2
    have q0 := ListDirLoop_descend sat src (dirRecords src (s :: s1 :: rest)) s _ 0
      (by norm_num) hN h0 h1 h2 (by rw [hX, recordsOf_eq]; rfl) q1
    intro k hk
    interval_cases k
    · exact q0
    · exact q1
    · exact q2
    · exact q3
    · exact q4


/-! ### C13 -/

/-- C13 (amended): in a container with 512-byte sectors over an in-memory source, whose
table has fewer than 2^31 entries and whose directory chain (from `FirstSecIDDirectory`
through the sectors `rest`, as `DirChain` describes: in range, linked, held by the source
below offset 2^31, no sector with a successor ending the source, end-of-chain after the
last) has `k` sectors, `ListDir`
(given at least `4*k + 1` rounds) returns, in on-disk order, the 128-byte records of the
directory stream that come before the first record of the unused type (`EMPTY = 0`), or
all records of the chain if none is unused; the returned error is nil. -/
theorem ListDir_chain (o : Ole BytesReader) (rest : List Int) (fuel : Nat)
    (hL : o.Lsector = 512) (hsat : o.SecID.length < 2147483648)
    (hch : DirChain o.SecID o.reader.s o.header.FirstSecIDDirectory rest)
    (hfuel : 4 * (rest.length + 1) + 1 ≤ fuel) :
    o.ListDir fuel = Except.ok
      ((dirRecords o.reader.s (o.header.FirstSecIDDirectory :: rest)).takeWhile
        (fun d => decide (d.Type_ ≠ EMPTY)), none) := by
  obtain ⟨e, he, hl⟩ := ListDirLoop_chain o.SecID o.reader.s hsat rest
    o.header.FirstSecIDDirectory hch 0 (Nat.zero_le _) fuel
    (o.stream_read o.header.FirstSecIDDirectory 0) []
    ⟨rfl, hL, rfl, rfl, rfl, rfl⟩ (by omega)
  unfold Ole.ListDir
  rw [hl, List.drop_zero, List.nil_append]
  rcases he with rfl | rfl
  · simp
  · simp

/-- Witness for C13: the directory chain 0 -> 1 -> end-of-chain over `twoSectorDirSource`;
the six records before the first unused one are returned. -/
theorem ListDir_chain_witness :
    DirChain (containerOf [1, EOFSecID] [] twoSectorDirSource).SecID
      (containerOf [1, EOFSecID] [] twoSectorDirSource).reader.s
      (containerOf [1, EOFSecID] [] twoSectorDirSource).header.FirstSecIDDirectory [1]
    ∧ (containerOf [1, EOFSecID] [] twoSectorDirSource).ListDir 9 = Except.ok
      ((dirRecords (containerOf [1, EOFSecID] [] twoSectorDirSource).reader.s
        ((containerOf [1, EOFSecID] [] twoSectorDirSource).header.FirstSecIDDirectory
          :: [1])).takeWhile (fun d => decide (d.Type_ ≠ EMPTY)), none)
    ∧ ((dirRecords twoSectorDirSource [0, 1]).takeWhile
        (fun d => decide (d.Type_ ≠ EMPTY))).map (fun d => d.Type_) = [5, 2, 2, 1, 2, 2] :=
  have hch : DirChain (containerOf [1, EOFSecID] [] twoSectorDirSource).SecID
      (containerOf [1, EOFSecID] [] twoSectorDirSource).reader.s
      (containerOf [1, EOFSecID] [] twoSectorDirSource).header.FirstSecIDDirectory [1] := by
    decide!
  ⟨hch, ListDir_chain (containerOf [1, EOFSecID] [] twoSectorDirSource) [1] 9 rfl
    (by decide) hch (by decide), by decide!⟩

/-- C13 (counterexample): the directory chain is the sector 0 alone, in range and ended by
end-of-chain; its records have the types root, stream, unused, stream. `ListDir` returns
the first two records and a nil error: the stream record that follows the unused record is
not part of the result. -/
theorem ListDir_stops_at_first_unused_record :
    index (containerOf [EOFSecID] [] gapDirSource).SecID
        (containerOf [EOFSecID] [] gapDirSource).header.FirstSecIDDirectory = some EOFSecID
    ∧ (dirRecords gapDirSource [0]).map (fun d => d.Type_) = [5, 2, 0, 2]
    ∧ ((containerOf [EOFSecID] [] gapDirSource).ListDir 9).map
        (fun x => (x.1.map (fun d => d.Type_), x.2)) = Except.ok ([5, 2], none) := by
  decide!

/-! ### C12 -/

/-- On a directory sector that the table links to itself, that does not end the source and
whose four records are of used types, the loop of `ListDir` uses up every bound on its
rounds. -/
theorem ListDirLoop_cycle (sat : List Int) (src : List Nat) (hsat : sat.length < 2147483648)
    (s : Int) (h0 : 0 ≤ s) (h1 : 512 + 512 * s + 512 < (src.length : Int))
    (h2 : 512 + 512 * s + 512 < 2147483648) (hidx : index sat s = some s)
    (hrec : ∀ k, k < 4 → (File.decode ((src.drop
      (512 + 512 * s + ((128 * k : Nat) : Int)).toNat).take 128)).Type_ ≠ EMPTY) :
    ∀ (fuel k : Nat) (r : StreamReader BytesReader) (dir : List File), k ≤ 4 →
      DirCursor sat src r s (128 * k) → ListDirLoop fuel r dir = Except.error Fault.fuel := by
  intro fuel
  induction fuel with
  | zero => intro k r dir _ _; rfl
  | succ f ih =>
    intro k r dir hk hc
    by_cases hk4 : k < 4
    · obtain ⟨res, hr, hn, herr, hp, hc1⟩ := Read_record sat src r s (128 * k)
        (List.replicate 128 0) hc h0 (le_of_lt h1) h2 (List.length_replicate _ _) (by omega)
      have hlen : res.p.length = 128 := by
        rw [hp]
        simp only [List.length_take, List.length_drop]
        omega
      have hb := binaryReadFile_record r res hr hn herr hlen
      rw [ListDirLoop_step_record f r res.reader dir _ hb (by rw [hp]; exact hrec k hk4)]
      exact ih (k + 1) res.reader _ (by omega) (by rw [Nat.mul_add, Nat.mul_one]; exact hc1)
    · have hk' : k = 4 := by omega
      subst hk'
      have hrd := Read_at_sector_end sat src r s (List.replicate 128 0) hc h0 h2
      obtain ⟨res, hr, hn, herr, hp, hc1⟩ := readLoop_record_next
        (List.replicate 128 0).length sat src
        { r with reader := BytesReader.mk src (512 + 512 * s + 512) } s s
        (List.replicate 128 0)
        ⟨hc.1, hc.2.1, hc.2.2.1, rfl, hc.2.2.2.2.1, hc.2.2.2.2.2⟩ rfl h1
        (List.length_replicate _ _) hsat hidx h0 (le_of_lt h1) h2
      rw [← hrd] at hr
      have hlen : res.p.length = 128 := by
        rw [hp]
        simp only [List.length_take, List.length_drop]
        omega
      have hb := binaryReadFile_record r res hr hn herr hlen
      rw [ListDirLoop_step_record f r res.reader dir _ hb (by rw [hp]; exact hrec 0 (by norm_num))]
      exact ih 1 res.reader _ (by norm_num) hc1

/-- C12 (counterexample): the table links the directory start sector 0 to itself, the
sector holds four records of used types and the source goes on after it. `ListDir` does
not return, whatever number of rounds its loop is given. -/
theorem ListDir_loops_on_cyclic_chain :
    index (containerOf [0] [] cyclicDirSource).SecID
        (containerOf [0] [] cyclicDirSource).header.FirstSecIDDirectory = some 0
    ∧ (recordsOf cyclicDirSource 0).map (fun d => d.Type_) = [5, 1, 2, 2]
    ∧ ¬ ∃ fuel res, (containerOf [0] [] cyclicDirSource).ListDir fuel = Except.ok res := by
  refine ⟨by decide!, by decide!, ?_⟩
  rintro ⟨fuel, res, h⟩
  have hl := ListDirLoop_cycle [0] cyclicDirSource (by decide) 0 (le_refl _) (by decide!)
    (by norm_num) (by decide!) (by decide!) fuel 0
    ((containerOf [0] [] cyclicDirSource).stream_read 0 0) [] (Nat.zero_le _)
    ⟨rfl, rfl, rfl, rfl, rfl, rfl⟩
  have hh : (containerOf [0] [] cyclicDirSource).ListDir fuel = Except.error Fault.fuel := by
    unfold Ole.ListDir
    have e0 : (containerOf [0] [] cyclicDirSource).header.FirstSecIDDirectory = 0 := rfl
    rw [e0, hl]
  rw [hh] at h
  cases h

/-- A round of the loop of `Read` in which the range guard fires. -/
theorem readLoop_round_guard {ρ : Type} [ReadSeeker ρ] (f : Nat) (r : StreamReader ρ)
    (p : List Nat) (readed : Nat) (chunk : List Nat) (res : ReadResult ρ)
    (hcond : u32 ((u32 (p.length : Int) : Int) - (readed : Int))
      > u32 ((r.sizeSector : Int) - (r.offsetInSector : Int)))
    (hsl : slice p readed (u32 ((readed : Int) + (r.sizeSector : Int)
      - (r.offsetInSector : Int))) = some chunk)
    (hread : ReadSeeker.Read r.reader chunk = Except.ok res) (herr : res.err = none)
    (hguard : r.offsetOfSector ≥ i32 (r.sat.length : Int)) :
    StreamReader.readLoop (f + 1) r p readed
      = Except.ok { reader := { r with reader := res.reader, offsetInSector := 0 },
                    p := splice p readed res.p,
                    n := (u32 ((readed : Int) + (u32 res.n : Int)) : Int),
                    err := some GoError.EOF } := by
  rw [StreamReader.readLoop]
  simp only [hcond, if_true, hsl, hread, herr, ne_eq, not_true_eq_false, if_false, hguard]

/-- `Read` of 128 bytes with the cursor at the end of sector `s`, when the sector ends the
source, or the range guard fires, or the table entry of the sector is the end-of-chain id:
no byte and `io.EOF`. -/
theorem Read_at_end_EOF (sat : List Int) (src : List Nat) (r : StreamReader BytesReader)
    (s : Int) (p : List Nat) (hc : DirCursor sat src r s 512) (h0 : 0 ≤ s)
    (h2 : 512 + 512 * s + 512 < 2147483648) (hp : p.length = 128)
    (hend : 512 + 512 * s + 512 ≥ (src.length : Int) ∨ s ≥ i32 (sat.length : Int)
      ∨ index sat s = some EOFSecID) :
    ∃ res, r.Read p = Except.ok res ∧ res.n = 0 ∧ res.err = some GoError.EOF := by
  rw [Read_at_sector_end sat src r s p hc h0 h2]
  obtain ⟨c1, c2, c3, c4, c5, c6⟩ := hc
  have hcond : u32 ((u32 (p.length : Int) : Int) - ((0 : Nat) : Int))
      > u32 ((r.sizeSector : Int) - (r.offsetInSector : Int)) := by
    rw [c2, c6, hp]; unfold u32; omega
  have hsl : slice p 0 (u32 (((0 : Nat) : Int) + (r.sizeSector : Int)
      - (r.offsetInSector : Int))) = some [] := by
    have hu : u32 (((0 : Nat) : Int) + (r.sizeSector : Int) - (r.offsetInSector : Int)) = 0 := by
      rw [c2, c6]; unfold u32; omega
    rw [hu, slice_eq_some p 0 0 (le_refl _) (Nat.zero_le _)]; rfl
  by_cases hge : 512 + 512 * s + 512 ≥ (src.length : Int)
  · have hge1 : (BytesReader.mk src (512 + 512 * s + 512)).i
        ≥ ((BytesReader.mk src (512 + 512 * s + 512)).s.length : Int) := hge
    have herr : (BytesReader.Read (BytesReader.mk src (512 + 512 * s + 512)) []).err
        = some GoError.EOF := by
      simp only [BytesReader.Read, hge1, if_true]
    have hn : (BytesReader.Read (BytesReader.mk src (512 + 512 * s + 512)) []).n = 0 := by
      simp only [BytesReader.Read, hge1, if_true]
    rw [readLoop_round_err (p.length + 1)
      { r with reader := BytesReader.mk src (512 + 512 * s + 512) } p 0 []
      (BytesReader.Read (BytesReader.mk src (512 + 512 * s + 512)) []) hcond hsl rfl
      (by rw [herr]; simp)]
    exact ⟨_, rfl, by simp only [hn]; rfl, herr⟩
  · have hge1 : ¬ ((BytesReader.mk src (512 + 512 * s + 512)).i
        ≥ ((BytesReader.mk src (512 + 512 * s + 512)).s.length : Int)) := hge
    have herr : (BytesReader.Read (BytesReader.mk src (512 + 512 * s + 512)) []).err
        = none := by
      simp only [BytesReader.Read, hge1, if_false]
    have hn : (BytesReader.Read (BytesReader.mk src (512 + 512 * s + 512)) []).n = 0 := by
      simp only [BytesReader.Read, hge1, if_false, List.length_nil, List.take_zero,
        Nat.cast_zero]
    by_cases hG : s ≥ i32 (sat.length : Int)
    · rw [readLoop_round_guard (p.length + 1)
        { r with reader := BytesReader.mk src (512 + 512 * s + 512) } p 0 []
        (BytesReader.Read (BytesReader.mk src (512 + 512 * s + 512)) []) hcond hsl rfl herr
        (by show r.offsetOfSector ≥ i32 (r.sat.length : Int); rw [c1, c5]; exact hG)]
      refine ⟨_, rfl, ?_, rfl⟩
      simp only [hn]
      unfold u32
      rfl
    · have hidx : index sat s = some EOFSecID := by
        rcases hend with h | h | h
        · exact absurd h hge
        · exact absurd h hG
        · exact h
      rw [readLoop_round_end (p.length + 1)
        { r with reader := BytesReader.mk src (512 + 512 * s + 512) } p 0 []
        (BytesReader.Read (BytesReader.mk src (512 + 512 * s + 512)) []) hcond hsl rfl herr
        (by show ¬ (r.offsetOfSector ≥ i32 (r.sat.length : Int)); rw [c1, c5]; exact hG)
        (by show index r.sat r.offsetOfSector = some EOFSecID; rw [c1, c5]; exact hidx)]
      refine ⟨_, rfl, ?_, rfl⟩
      simp only [hn]
      unfold u32
      rfl

/-- The loop of `Read` for 128 bytes with the cursor at the end of sector `s` and the
source positioned there, when the sector does not end the source, the range guard does not
fire and the table entry of the sector is the sector `s1`, held by the source: the first
128 bytes of `s1`. -/
theorem readLoop_record_next_guarded (f : Nat) (sat : List Int) (src : List Nat)
    (r : StreamReader BytesReader) (s s1 : Int) (p : List Nat)
    (hc : DirCursor sat src r s 512) (hi : r.reader.i = 512 + 512 * s + 512)
    (h1 : 512 + 512 * s + 512 < (src.length : Int))
    (hp : p.length = 128) (hG : ¬ (s ≥ i32 (sat.length : Int)))
    (hidx : index sat s = some s1) (g0 : 0 ≤ s1)
    (g1 : 512 + 512 * s1 + 512 ≤ (src.length : Int))
    (g2 : 512 + 512 * s1 + 512 < 2147483648) :
    ∃ res, StreamReader.readLoop (f + 1 + 1) r p 0 = Except.ok res ∧ res.n = 128
      ∧ res.err = none
      ∧ res.p = (src.drop (512 + 512 * s1 + ((0 : Nat) : Int)).toNat).take 128
      ∧ DirCursor sat src res.reader s1 (0 + 128) := by
  obtain ⟨c1, c2, c3, c4, c5, c6⟩ := hc
  have hcond : u32 ((u32 (p.length : Int) : Int) - ((0 : Nat) : Int))
      > u32 ((r.sizeSector : Int) - (r.offsetInSector : Int)) := by
    rw [c2, c6, hp]; unfold u32; omega
  have hsl : slice p 0 (u32 (((0 : Nat) : Int) + (r.sizeSector : Int)
      - (r.offsetInSector : Int))) = some [] := by
    have hu : u32 (((0 : Nat) : Int) + (r.sizeSector : Int) - (r.offsetInSector : Int)) = 0 := by
      rw [c2, c6]; unfold u32; omega
    rw [hu, slice_eq_some p 0 0 (le_refl _) (Nat.zero_le _)]; rfl
  have hge : ¬ (r.reader.i ≥ (r.reader.s.length : Int)) := by rw [hi, c4]; omega
  have hread : BytesReader.Read r.reader []
      = { reader := r.reader, p := [], n := 0, err := none } := by
    simp only [BytesReader.Read, hge, if_false, List.length_nil, List.take_zero,
      List.drop_nil, List.append_nil, Nat.cast_zero, Int.add_zero]
  have hidx0 : index r.sat r.offsetOfSector = some s1 := by rw [c1, c5]; exact hidx
  have hguard : ¬ (r.offsetOfSector ≥ i32 (r.sat.length : Int)) := by
    rw [c1, c5]; exact hG
  have hne1 : s1 ≠ EOFSecID := by unfold EOFSecID; omega
  have hpos : i32 (r.sectorPos s1 r.sizeSector + i32 ((0 : Nat) : Int)) = 512 + 512 * s1 := by
    rw [c2, c3]; unfold sector_pos i32; omega
  have hnn : ¬ (512 + 512 * s1 < 0) := by omega
  have hseek : ReadSeeker.Seek r.reader
      (i32 (r.sectorPos s1 r.sizeSector + i32 ((0 : Nat) : Int))) 0
      = Except.ok { reader := BytesReader.mk src (512 + 512 * s1),
                    offsetResult := 512 + 512 * s1, err := none } := by
    rw [hpos]
    simp only [ReadSeeker.Seek, BytesReader.Seek, true_or, if_true, hnn, if_false, c4]
  rw [readLoop_round_next (f + 1) r p 0 [] { reader := r.reader, p := [], n := 0, err := none } s1
    { reader := BytesReader.mk src (512 + 512 * s1), offsetResult := 512 + 512 * s1,
      err := none } hcond hsl
    (show ReadSeeker.Read r.reader [] = Except.ok _ by rw [← hread]; rfl) rfl hguard hidx0
    hne1 hseek]
  have hsp : splice p 0 ([] : List Nat) = p := by
    simp only [splice, List.take_zero, List.nil_append, List.length_nil, Nat.add_zero,
      List.drop_zero]
  have hrd : u32 ((((0 : Nat) : Int)) + ((u32 (0 : Int) : Nat) : Int)) = 0 := by
    unfold u32; omega
  simp only [hsp, hrd]
  have hcond2 : ¬ (u32 ((u32 (p.length : Int) : Int) - ((0 : Nat) : Int))
      > u32 ((r.sizeSector : Int) - ((0 : Nat) : Int))) := by
    rw [hp, c2]; unfold u32; omega
  rw [readLoop_final f _ p 0 hcond2 (Nat.zero_le _)]
  have hlt : ¬ (512 + 512 * s1 ≥ (src.length : Int)) := by omega
  have hlen : ((src.drop (512 + 512 * s1).toNat).take 128).length = 128 := by
    simp only [List.length_take, List.length_drop]
    omega
  have hu : u32 ((((0 : Nat) : Int)) + (u32 (128 : Int) : Int)) = 0 + 128 := by
    unfold u32; omega
  simp only [ReadSeeker.Read, BytesReader.Read, hlt, if_false, List.drop_zero, hp, hlen,
    List.drop_of_length_le (le_of_eq hp), List.append_nil, if_true, splice, List.take_zero,
    List.nil_append, Nat.zero_add, Nat.cast_ofNat, hu, Nat.cast_zero, Int.add_zero]
  exact ⟨_, rfl, rfl, rfl, rfl, ⟨c1, c2, c3, rfl, rfl, rfl⟩⟩


/-- The loop of `ListDir` returns the same with one more round at its disposal. -/
theorem ListDirLoop_more_fuel {ρ : Type} [ReadSeeker ρ] :
    ∀ (f : Nat) (r : StreamReader ρ) (dir : List File) (x : List File × Option GoError),
      ListDirLoop f r dir = Except.ok x → ListDirLoop (f + 1) r dir = Except.ok x := by
  intro f
  induction f with
  | zero => intro r dir x h; simp only [ListDirLoop] at h; cases h
  | succ f ih =>
    intro r dir x h
    rw [ListDirLoop] at h
    rw [ListDirLoop]
    cases hb : binaryReadFile r with
    | error e => rw [hb] at h; cases h
    | ok t =>
      obtain ⟨r1, d, err⟩ := t
      rw [hb] at h
      simp only at h ⊢
      by_cases hc : err = none ∧ d.Type_ ≠ EMPTY
      · rw [if_pos hc] at h ⊢
        exact ih r1 _ x h
      · rw [if_neg hc] at h ⊢
        exact h

/-- The loop of `ListDir` returns the same with any larger number of rounds. -/
theorem ListDirLoop_fuel_le {ρ : Type} [ReadSeeker ρ] (f g : Nat) (hfg : f ≤ g)
    (r : StreamReader ρ) (dir : List File) (x : List File × Option GoError)
    (h : ListDirLoop f r dir = Except.ok x) : ListDirLoop g r dir = Except.ok x := by
  induction g, hfg using Nat.le_induction with
  | base => exact h
  | succ g _ ih => exact ListDirLoop_more_fuel g r dir x ih

/-- One record read inside a sector: if the loop of `ListDir` returns from the next record
on, it does from this one. -/
theorem ListDirLoop_returns_descend (sat : List Int) (src : List Nat) (s : Int)
    (N k : Nat) (hk : k < 4) (hN : 5 ≤ N) (h0 : 0 ≤ s)
    (h1 : 512 + 512 * s + 512 ≤ (src.length : Int)) (h2 : 512 + 512 * s + 512 < 2147483648)
    (hnext : ∀ (fuel : Nat) (r : StreamReader BytesReader) (dir : List File),
      DirCursor sat src r s (128 * (k + 1)) → N ≤ fuel + (k + 1) →
      ∃ out e, (e = none ∨ e = some GoError.EOF)
        ∧ ListDirLoop fuel r dir = Except.ok (out, e)) :
    ∀ (fuel : Nat) (r : StreamReader BytesReader) (dir : List File),
      DirCursor sat src r s (128 * k) → N ≤ fuel + k →
      ∃ out e, (e = none ∨ e = some GoError.EOF)
        ∧ ListDirLoop fuel r dir = Except.ok (out, e) := by
  intro fuel r dir hc hf
  obtain ⟨f, rfl⟩ : ∃ f, fuel = f + 1 := ⟨fuel - 1, by omega⟩
  obtain ⟨res, hr, hn, herr, hp, hc1⟩ := Read_record sat src r s (128 * k)
    (List.replicate 128 0) hc h0 h1 h2 (List.length_replicate _ _) (by omega)
  have hlen : res.p.length = 128 := by
    rw [hp]
    simp only [List.length_take, List.length_drop]
    omega
  have hb := binaryReadFile_record r res hr hn herr hlen
  by_cases ht : (File.decode res.p).Type_ ≠ EMPTY
  · rw [ListDirLoop_step_record f r res.reader dir _ hb ht]
    exact hnext f res.reader (dir ++ [File.decode res.p])
      (by rw [Nat.mul_add, Nat.mul_one]; exact hc1) (by omega)
  · rw [ListDirLoop_step_stop f r res.reader dir _ none hb (fun h => ht h.2)]
    exact ⟨dir, none, Or.inl rfl, rfl⟩

/-- `ListDir` along a directory chain, whatever the length of the table: from any record
boundary of the first sector the loop returns, with a nil error or `io.EOF`, within four
rounds for each sector of the chain and one more. -/
theorem ListDirLoop_returns (sat : List Int) (src : List Nat) (rest : List Int) :
    ∀ (s : Int), DirChain sat src s rest → ∀ (k : Nat), k ≤ 4 →
      ∀ (fuel : Nat) (r : StreamReader BytesReader) (dir : List File),
        DirCursor sat src r s (128 * k) → 4 * (rest.length + 1) + 1 ≤ fuel + k →
        ∃ out e, (e = none ∨ e = some GoError.EOF)
          ∧ ListDirLoop fuel r dir = Except.ok (out, e) := by
  induction rest with
  | nil =>
    intro s hch
    obtain ⟨h0, h1, h2, hidx⟩ := hch
    have q4 : ∀ (fuel : Nat) (r : StreamReader BytesReader) (dir : List File),
        DirCursor sat src r s (128 * 4) → 5 ≤ fuel + 4 →
        ∃ out e, (e = none ∨ e = some GoError.EOF)
          ∧ ListDirLoop fuel r dir = Except.ok (out, e) := by
      intro fuel r dir hc hf
      obtain ⟨f, rfl⟩ : ∃ f, fuel = f + 1 := ⟨fuel - 1, by omega⟩
      obtain ⟨res, hr, hn, herr⟩ := Read_at_end_EOF sat src r s (List.replicate 128 0) hc h0
        h2 (List.length_replicate _ _) (Or.inr (Or.inr hidx))
      have hb := binaryReadFile_EOF r res hr hn herr
      rw [ListDirLoop_step_stop f r res.reader dir _ _ hb (by simp)]
      exact ⟨dir, _, Or.inr rfl, rfl⟩
    have q3 := ListDirLoop_returns_descend sat src s 5 3 (by norm_num) (le_refl _) h0 h1 h2 q4
    have q2 := ListDirLoop_returns_descend sat src s 5 2 (by norm_num) (le_refl _) h0 h1 h2 q3
    have q1 := ListDirLoop_returns_descend sat src s 5 1 (by norm_num) (le_refl _) h0 h1 h2 q2
    have q0 := ListDirLoop_returns_descend sat src s 5 0 (by norm_num) (le_refl _) h0 h1 h2 q1
    intro k hk
    interval_cases k
    · exact q0
    · exact q1
    · exact q2
    · exact q3
    · exact q4
  | cons s1 rest ih =>
    intro s hch
    obtain ⟨h0, h1, h2⟩ := DirChain_good sat src s (s1 :: rest) hch
    obtain ⟨_, h1s, _, hidx, hch1⟩ := hch
    obtain ⟨g0, g1, g2⟩ := DirChain_good sat src s1 rest hch1
    have q4 : ∀ (fuel : Nat) (r : StreamReader BytesReader) (dir : List File),
        DirCursor sat src r s (128 * 4) → 4 * ((s1 :: rest).length + 1) + 1 ≤ fuel + 4 →
        ∃ out e, (e = none ∨ e = some GoError.EOF)
          ∧ ListDirLoop fuel r dir = Except.ok (out, e) := by
      intro fuel r dir hc hf
      rw [List.length_cons] at hf
      obtain ⟨f, rfl⟩ : ∃ f, fuel = f + 1 := ⟨fuel - 1, by omega⟩
      by_cases hG : s ≥ i32 (sat.length : Int)
      · obtain ⟨res, hr, hn, herr⟩ := Read_at_end_EOF sat src r s (List.replicate 128 0) hc
          h0 h2 (List.length_replicate _ _) (Or.inr (Or.inl hG))
        have hb := binaryReadFile_EOF r res hr hn herr
        rw [ListDirLoop_step_stop f r res.reader dir _ _ hb (by simp)]
        exact ⟨dir, _, Or.inr rfl, rfl⟩
      · have hrd := Read_at_sector_end sat src r s (List.replicate 128 0) hc h0 h2
        obtain ⟨res, hr, hn, herr, hp, hc1⟩ := readLoop_record_next_guarded
          (List.replicate 128 0).length sat src
          { r with reader := BytesReader.mk src (512 + 512 * s + 512) } s s1
          (List.replicate 128 0)
          ⟨hc.1, hc.2.1, hc.2.2.1, rfl, hc.2.2.2.2.1, hc.2.2.2.2.2⟩ rfl h1s
          (List.length_replicate _ _) hG hidx g0 g1 g2
        rw [← hrd] at hr
        have hlen : res.p.length = 128 := by
          rw [hp]
          simp only [List.length_take, List.length_drop]
          omega
        have hb := binaryReadFile_record r res hr hn herr hlen
        by_cases ht : (File.decode res.p).Type_ ≠ EMPTY
        · rw [ListDirLoop_step_record f r res.reader dir _ hb ht]
          exact ih s1 hch1 1 (by norm_num) f res.reader (dir ++ [File.decode res.p]) hc1
            (by omega)
        · rw [ListDirLoop_step_stop f r res.reader dir _ none hb (fun h => ht h.2)]
          exact ⟨dir, none, Or.inl rfl, rfl⟩
    have hN : 5 ≤ 4 * ((s1 :: rest).length + 1) + 1 := by omega
    have q3 := ListDirLoop_returns_descend sat src s _ 3 (by norm_num) hN h0 h1 h2 q4
    have q2 := ListDirLoop_returns_descend sat src s _ 2 (by norm_num) hN h0 h1 h2 q3
    have q1 := ListDirLoop_returns_descend sat src s _ 1 (by norm_num) hN h0 h1 h2 q2
    have q0 := ListDirLoop_returns_descend sat src s _ 0 (by norm_num) hN h0 h1 h2 q1
    intro k hk
    interval_cases k
    · exact q0
    · exact q1
    · exact q2
    · exact q3
    · exact q4

/-- C12 (amended): `ListDir` terminates on every container with 512-byte sectors over an
in-memory source whose directory chain (as `DirChain` describes: in range, linked, held by
the source below offset 2^31, no sector with a successor ending the source) reaches the
end-of-chain id after `k` sectors, whatever the length of the table: its loop returns
within `4*k + 1` rounds, with a nil error, and the result is the same for every larger
bound on the rounds. The code keeps no count of chain steps, and on a chain that cycles
the loop need not end. -/
theorem ListDir_terminates (o : Ole BytesReader) (rest : List Int) (hL : o.Lsector = 512)
    (hch : DirChain o.SecID o.reader.s o.header.FirstSecIDDirectory rest) :
    ∃ dir, ∀ fuel, 4 * (rest.length + 1) + 1 ≤ fuel → o.ListDir fuel = Except.ok (dir, none) := by
  obtain ⟨out, e, he, hl⟩ := ListDirLoop_returns o.SecID o.reader.s rest
    o.header.FirstSecIDDirectory hch 0 (Nat.zero_le _) (4 * (rest.length + 1) + 1)
    (o.stream_read o.header.FirstSecIDDirectory 0) []
    ⟨rfl, hL, rfl, rfl, rfl, rfl⟩ (by omega)
  refine ⟨out, ?_⟩
  intro fuel hfuel
  have hl2 := ListDirLoop_fuel_le _ fuel hfuel _ _ _ hl
  unfold Ole.ListDir
  rw [hl2]
  rcases he with rfl | rfl
  · simp
  · simp

set_option maxRecDepth 100000 in
/-- Witness for C12: the directory chain 0 -> 1 -> end-of-chain over `fullDirSource`; all
eight records are of used types, so the enumeration runs to the end of the chain and
stops on the end-of-chain id, in the ninth round. -/
theorem ListDir_terminates_witness :
    DirChain (containerOf [1, EOFSecID] [] fullDirSource).SecID
      (containerOf [1, EOFSecID] [] fullDirSource).reader.s
      (containerOf [1, EOFSecID] [] fullDirSource).header.FirstSecIDDirectory [1]
    ∧ (∃ dir, ∀ fuel, 4 * (([1] : List Int).length + 1) + 1 ≤ fuel →
      (containerOf [1, EOFSecID] [] fullDirSource).ListDir fuel = Except.ok (dir, none))
    ∧ ((containerOf [1, EOFSecID] [] fullDirSource).ListDir 9).map
        (fun x => (x.1.map (fun d => d.Type_), x.2))
      = Except.ok ([5, 1, 2, 2, 2, 2, 2, 2], none) :=
  have hch : DirChain (containerOf [1, EOFSecID] [] fullDirSource).SecID
      (containerOf [1, EOFSecID] [] fullDirSource).reader.s
      (containerOf [1, EOFSecID] [] fullDirSource).header.FirstSecIDDirectory [1] := by decide!
  ⟨hch, ListDir_terminates (containerOf [1, EOFSecID] [] fullDirSource) [1] rfl hch,
    by decide!⟩

/-! ### C22 -/

/-- C22 (counterexample): for the sector id 4194303 and the sector size 512 the position
`512 + 4194303*512 = 2^31` does not fit `int32`: `sector_pos` returns `-2^31`, which is
neither `512 + sid*s` nor at least 512; and `short_sector_pos(4194304, 512)` returns
`-2^31`, not `2^31`. -/
theorem sector_pos_wraps :
    sector_pos 4194303 512 = -2147483648
    ∧ sector_pos 4194303 512 ≠ 512 + 4194303 * 512
    ∧ ¬ (512 ≤ sector_pos 4194303 512)
    ∧ short_sector_pos 4194304 512 = -2147483648
    ∧ short_sector_pos 4194304 512 ≠ 4194304 * 512 := by
  decide

/-- C22 (amended): for every non-negative sector id `sid` and every sector size `s` with
`512 + sid*s < 2^31`, `sector_pos(sid, s)` equals `512 + sid*s` as a mathematical integer
(so it is at least the header size 512) and `short_sector_pos(sid, s)` equals `sid*s`;
both are computed in 32-bit signed arithmetic and wrap beyond that bound. -/
theorem sector_pos_exact (sid : Int) (s : Nat) (h0 : 0 ≤ sid)
    (h1 : 512 + sid * (s : Int) < 2147483648) :
    sector_pos sid s = 512 + sid * (s : Int) ∧ 512 ≤ sector_pos sid s
    ∧ short_sector_pos sid s = sid * (s : Int) := by
  have hs0 : (0 : Int) ≤ (s : Int) := Int.ofNat_nonneg s
  have hm0 : 0 ≤ sid * (s : Int) := Int.mul_nonneg h0 hs0
  rcases eq_or_lt_of_le h0 with hz | hpos
  · subst hz
    simp only [sector_pos, short_sector_pos, Int.zero_mul]
    unfold i32
    omega
  · have hle : (s : Int) ≤ sid * (s : Int) := by
      have h1' : (1 : Int) ≤ sid := hpos
      calc (s : Int) = 1 * (s : Int) := (Int.one_mul _).symm
        _ ≤ sid * (s : Int) := Int.mul_le_mul_of_nonneg_right h1' hs0
    have hsi : i32 (s : Int) = (s : Int) := by unfold i32; omega
    simp only [sector_pos, short_sector_pos, hsi]
    generalize sid * (s : Int) = m at *
    unfold i32
    omega

/-- Witness for C22: sector 5 with 512-byte sectors lies at offset 3072. -/
theorem sector_pos_exact_witness :
    sector_pos 5 512 = 512 + 5 * ((512 : Nat) : Int) ∧ 512 ≤ sector_pos 5 512
    ∧ short_sector_pos 5 512 = 5 * ((512 : Nat) : Int) :=
  sector_pos_exact 5 512 (by decide) (by decide)

/-! ### C23 -/

/-- C23: for every directory entry (`NameBts` has its 32 code units),
with `n = Bsize/2 - 1`, `Name` returns the empty string when `n < 0` or `n > 32`, and
otherwise the UTF-16 decoding of the first `n` code units of `NameBts`; it never ends in a
slice-bounds panic. In particular a name of `n <= 31` characters stored with
`Bsize = 2*(n+1)` is returned without what follows its `n` code units. -/
theorem Name_decodes_units (d : File) (h32 : d.NameBts.length = 32) :
    (((d.Bsize : Int) / 2 - 1 < 0 ∨ (d.Bsize : Int) / 2 - 1 > 32) → d.Name = Except.ok [])
    ∧ ((0 ≤ (d.Bsize : Int) / 2 - 1 ∧ (d.Bsize : Int) / 2 - 1 ≤ 32) →
        d.Name = Except.ok (utf16Decode (d.NameBts.take (d.Bsize / 2 - 1))))
    ∧ (∀ n : Nat, n ≤ 31 → d.Bsize = 2 * (n + 1) →
        d.Name = Except.ok (utf16Decode (d.NameBts.take n))) := by
  have key : (0 ≤ (d.Bsize : Int) / 2 - 1 ∧ (d.Bsize : Int) / 2 - 1 ≤ 32) →
      d.Name = Except.ok (utf16Decode (d.NameBts.take (d.Bsize / 2 - 1))) := by
    rintro ⟨h0, h1⟩
    have hc : ¬ ((d.Bsize : Int) / 2 - 1 > (d.NameBts.length : Int)
        ∨ (d.Bsize : Int) / 2 - 1 < 0) := by
      rw [h32]; omega
    have hu : u16 (((d.Bsize / 2 : Nat) : Int) - 1) = d.Bsize / 2 - 1 := by
      unfold u16; omega
    have hsl : slice d.NameBts 0 (d.Bsize / 2 - 1)
        = some (d.NameBts.take (d.Bsize / 2 - 1)) := by
      rw [slice_eq_some d.NameBts 0 _ (Nat.zero_le _) (by rw [h32]; omega)]
      rfl
    unfold File.Name
    rw [if_neg hc, hu, hsl]
  refine ⟨?_, key, ?_⟩
  · intro h
    have hc : (d.Bsize : Int) / 2 - 1 > (d.NameBts.length : Int)
        ∨ (d.Bsize : Int) / 2 - 1 < 0 := by
      rw [h32]; omega
    unfold File.Name
    rw [if_pos hc]
  · intro n hn hb
    have h := key (by omega)
    have e : d.Bsize / 2 - 1 = n := by omega
    rw [e] at h
    exact h

/-- Witness for C23: the entry named `Root` (4 code units, `Bsize = 10`). -/
theorem Name_decodes_units_witness :
    rootEntry.Name = Except.ok (utf16Decode (rootEntry.NameBts.take 4))
    ∧ utf16Decode (rootEntry.NameBts.take 4) = [82, 111, 111, 116] :=
  ⟨(Name_decodes_units rootEntry (by decide)).2.2 4 (by decide) (by decide), by decide⟩

/-! ### C25 -/

theorem ListDirLoop_used {ρ : Type} [ReadSeeker ρ] (fuel : Nat) :
    ∀ (sector : StreamReader ρ) (dir0 dir : List File) (err : Option GoError),
      ListDirLoop fuel sector dir0 = Except.ok (dir, err) →
      (∀ d ∈ dir0, d.Type_ ≠ EMPTY) → ∀ d ∈ dir, d.Type_ ≠ EMPTY := by
  induction fuel with
  | zero => intro sector dir0 dir err h; rw [ListDirLoop] at h; cases h
  | succ f ih =>
    intro sector dir0 dir err h h0
    rw [ListDirLoop] at h
    split at h
    · cases h
    · rename_i sector1 d e hb
      split at h
      · rename_i hc
        refine ih sector1 (dir0 ++ [d]) dir err h ?_
        intro x hx
        rcases List.mem_append.mp hx with hx | hx
        · exact h0 x hx
        · rw [List.mem_singleton.mp hx]; exact hc.2
      · simp only [Except.ok.injEq, Prod.mk.injEq] at h
        rw [← h.1]
        exact h0

/-- C25 (amended): for every container, every entry returned by `ListDir` has a type
different from the unused type (`EMPTY = 0`). The name length is not examined. -/
theorem ListDir_entries_used {ρ : Type} [ReadSeeker ρ] (o : Ole ρ) (fuel : Nat)
    (dir : List File) (err : Option GoError) (h : o.ListDir fuel = Except.ok (dir, err)) :
    ∀ d ∈ dir, d.Type_ ≠ EMPTY := by
  unfold Ole.ListDir at h
  split at h
  · cases h
  · rename_i dir1 err1 hl
    have hu := ListDirLoop_used fuel _ [] dir1 err1 hl (by simp)
    split at h
    · simp only [Except.ok.injEq, Prod.mk.injEq] at h
      rw [← h.1]; exact hu
    · simp only [Except.ok.injEq, Prod.mk.injEq] at h
      rw [← h.1]; exact hu

/-- Witness for C25: the directory of `gapDirSource`, whose first two records are returned. -/
theorem ListDir_entries_used_witness :
    (containerOf [EOFSecID] [] gapDirSource).ListDir 9
      = Except.ok ((dirRecords gapDirSource [0]).take 2, none)
    ∧ ∀ d ∈ (dirRecords gapDirSource [0]).take 2, d.Type_ ≠ EMPTY :=
  have h : (containerOf [EOFSecID] [] gapDirSource).ListDir 9
      = Except.ok ((dirRecords gapDirSource [0]).take 2, none) := by decide!
  ⟨h, ListDir_entries_used (containerOf [EOFSecID] [] gapDirSource) 9 _ none h⟩

/-- C25 (counterexample): the two entries that `ListDir` returns for the directory of
`gapDirSource` have the types root and stream and `Bsize = 0`, a name length of
`0/2 - 1 = -1`, below 1. -/
theorem ListDir_returns_entries_without_name :
    ((containerOf [EOFSecID] [] gapDirSource).ListDir 9).map
        (fun x => (x.1.map (fun d => (d.Type_, (d.Bsize : Int) / 2 - 1)), x.2))
      = Except.ok ([(5, -1), (2, -1)], none)
    ∧ ¬ ((1 : Int) ≤ -1) := by
  decide!

/-! ### C27 -/

/-- One call of `writeOutput` under a non-negative limit: the writer is offered the first
`min(len(output), size)` bytes of `output` and the limit goes down by that number. -/
theorem writeOutput_call {ω : Type} [Writer ω] (st : OutputState ω) (output : List Nat)
    (h0 : 0 ≤ st.size) (h1 : st.size < 9223372036854775808) :
    writeOutput st output = Except.ok
      ({ writer := (Writer.Write st.writer
            (output.take (min output.length st.size.toNat))).writer,
         alreadyWritten := i64 (st.alreadyWritten + i64 (Writer.Write st.writer
            (output.take (min output.length st.size.toNat))).n),
         size := st.size - (min output.length st.size.toNat : Nat) },
       (Writer.Write st.writer (output.take (min output.length st.size.toNat))).err) := by
  unfold writeOutput
  by_cases hgt : (output.length : Int) > st.size
  · have hneg : ¬ st.size < 0 := by omega
    have hmin : min output.length st.size.toNat = st.size.toNat := by
      apply Nat.min_eq_right; omega
    have hsl : slice output 0 st.size.toNat = some (output.take st.size.toNat) := by
      rw [slice_eq_some output 0 _ (Nat.zero_le _) (by omega)]
      rfl
    have hlen : (output.take st.size.toNat).length = st.size.toNat := by
      rw [List.length_take]; apply Nat.min_eq_left; omega
    have hsz : i64 (st.size - ((st.size.toNat : Nat) : Int)) = st.size - (st.size.toNat : Nat) := by
      unfold i64; omega
    simp only [hgt, if_true, hneg, if_false, hsl, hmin, hlen, hsz]
  · have hmin : min output.length st.size.toNat = output.length := by
      apply Nat.min_eq_left; omega
    have htk : output.take output.length = output := List.take_length _
    have hsz : i64 (st.size - (output.length : Int)) = st.size - (output.length : Int) := by
      unfold i64; omega
    simp only [hgt, if_false, hmin, htk, hsz]

/-- The numbers of bytes that `offers` hands out add up to at most the limit. -/
theorem offers_total (outs : List (List Nat)) :
    ∀ size : Int, 0 ≤ size →
      (((offers size outs).map List.length).sum : Int) ≤ size
      ∧ (offers size outs).length = outs.length := by
  induction outs with
  | nil => intro size h; simp [offers, h]
  | cons o rest ih =>
    intro size h
    have hm : ((min o.length size.toNat : Nat) : Int) ≤ size := by omega
    obtain ⟨h1, h2⟩ := ih (size - (min o.length size.toNat : Nat)) (by omega)
    have hl : (o.take (min o.length size.toNat)).length = min o.length size.toNat := by
      rw [List.length_take]; omega
    simp only [offers, List.map_cons, List.sum_cons, List.length_cons, hl, h2, Nat.cast_add,
      and_true]
    omega

/-- C27: for every non-negative initial limit `size` (an `int64`) and every sequence of
`writeOutput` calls that share the writer and the counters, no call panics, the calls hand
the writer, in order, exactly the byte slices `offers size outs` (of each output its first
`min(len(output), size)` bytes, `size` going down by that number), the limit ends at the
initial limit less the number of bytes offered and is never negative, and the number of
bytes offered is at most the initial limit. -/
theorem writeOutputs_within_limit {ω : Type} [Writer ω] (outs : List (List Nat)) :
    ∀ (st : OutputState ω), 0 ≤ st.size → st.size < 9223372036854775808 →
      writeOutputs st outs = Except.ok
        ({ writer := (feed st.writer st.alreadyWritten (offers st.size outs)).1,
           alreadyWritten := (feed st.writer st.alreadyWritten (offers st.size outs)).2.1,
           size := st.size - (((offers st.size outs).map List.length).sum : Int) },
         (feed st.writer st.alreadyWritten (offers st.size outs)).2.2)
      ∧ 0 ≤ st.size - (((offers st.size outs).map List.length).sum : Int)
      ∧ (((offers st.size outs).map List.length).sum : Int) ≤ st.size
      ∧ (offers st.size outs).length = outs.length := by
  induction outs with
  | nil =>
    intro st h0 h1
    refine ⟨?_, ?_, ?_, rfl⟩
    · simp only [writeOutputs, offers, feed, List.map_nil, List.sum_nil, Nat.cast_zero,
        Int.sub_zero]
    · simp only [offers, List.map_nil, List.sum_nil, Nat.cast_zero, Int.sub_zero]; exact h0
    · simp only [offers, List.map_nil, List.sum_nil, Nat.cast_zero]; exact h0
  | cons o rest ih =>
    intro st h0 h1
    have hm : ((min o.length st.size.toNat : Nat) : Int) ≤ st.size := by omega
    have hcall := writeOutput_call st o h0 h1
    obtain ⟨e1, e2, e3, e4⟩ := ih
      { writer := (Writer.Write st.writer (o.take (min o.length st.size.toNat))).writer,
        alreadyWritten := i64 (st.alreadyWritten + i64 (Writer.Write st.writer
          (o.take (min o.length st.size.toNat))).n),
        size := st.size - (min o.length st.size.toNat : Nat) }
      (by show 0 ≤ st.size - (min o.length st.size.toNat : Nat); omega)
      (by show st.size - (min o.length st.size.toNat : Nat) < 9223372036854775808; omega)
    simp only at e1 e2 e3 e4
    have hl : (o.take (min o.length st.size.toNat)).length = min o.length st.size.toNat := by
      rw [List.length_take]; omega
    have hsum : (((offers st.size (o :: rest)).map List.length).sum : Int)
        = (min o.length st.size.toNat : Nat)
          + (((offers (st.size - (min o.length st.size.toNat : Nat)) rest).map
              List.length).sum : Int) := by
      simp only [offers, List.map_cons, List.sum_cons, hl, Nat.cast_add]
    refine ⟨?_, ?_, ?_, ?_⟩
    · have hsz : st.size - ((min o.length st.size.toNat : Nat) : Int)
          - (((offers (st.size - (min o.length st.size.toNat : Nat)) rest).map
              List.length).sum : Int)
          = st.size - (((min o.length st.size.toNat : Nat) : Int)
            + (((offers (st.size - (min o.length st.size.toNat : Nat)) rest).map
              List.length).sum : Int)) := by omega
      rw [writeOutputs, hcall]
      simp only [e1, hsz, offers, feed, List.map_cons, List.sum_cons, hl, Nat.cast_add]
    · rw [hsum]; omega
    · rw [hsum]; omega
    · simp only [offers, List.length_cons, e4]

/-- Witness for C27: the limit 5 and the outputs of 3, 3 and 1 bytes, written to a writer
that records what it is offered. -/
theorem writeOutputs_within_limit_witness :
    (writeOutputs (OutputState.mk (Recorder.mk []) 0 5) [[1, 2, 3], [4, 5, 6], [7]]).map
        (fun x => (x.1.writer.log, x.1.alreadyWritten, x.1.size))
      = Except.ok ([[1, 2, 3], [4, 5], []], 5, 0)
    ∧ offers 5 [[1, 2, 3], [4, 5, 6], [7]] = [[1, 2, 3], [4, 5], []]
    ∧ (((offers (OutputState.mk (Recorder.mk []) 0 5).size
          [[1, 2, 3], [4, 5, 6], [7]]).map List.length).sum : Int)
        ≤ (OutputState.mk (Recorder.mk []) 0 5).size :=
  ⟨by decide, by decide,
    (writeOutputs_within_limit [[1, 2, 3], [4, 5, 6], [7]]
      (OutputState.mk (Recorder.mk []) 0 5) (by decide) (by decide)).2.2.1⟩

/-! ### C28 -/

/-- A store inside the buffer succeeds and keeps the buffer's length. -/
theorem setAt_inside (buffer : List Nat) (pos : Nat) (v : Nat) (h : pos < buffer.length) :
    setAt buffer (pos : Int) v = Except.ok (buffer.set pos v)
    ∧ (buffer.set pos v).length = buffer.length := by
  have hc : 0 ≤ (pos : Int) ∧ (pos : Int) < (buffer.length : Int) := by omega
  unfold setAt
  rw [if_pos hc]
  exact ⟨rfl, List.length_set _ _ _⟩

/-- A store at the index `len(buffer)` is Go's index-out-of-range panic. -/
theorem setAt_end (buffer : List Nat) (pos : Nat) (v : Nat) (h : pos = buffer.length) :
    setAt buffer (pos : Int) v = Except.error Fault.indexOutOfRange := by
  have hc : ¬ (0 ≤ (pos : Int) ∧ (pos : Int) < (buffer.length : Int)) := by omega
  unfold setAt
  rw [if_neg hc]

/-- One round of `fromLZ77` on the literal `a` (0x61). -/
theorem fromLZ77Loop_literal (fuel : Nat) (rest buffer : List Nat) (pos : Nat)
    (hl : buffer.length = 4096) (hp : pos < 4096) :
    fromLZ77Loop (fuel + 1) (0x61 :: rest) buffer (pos : Int)
      = fromLZ77Loop fuel rest (buffer.set pos 0x61) ((pos + 1 : Nat) : Int) := by
  have h1 : ¬ ((pos : Int) = 4096) := by omega
  have h2 : (0x61 : Nat) = 0x00 ∨ (0x09 ≤ (0x61 : Nat) ∧ (0x61 : Nat) ≤ 0x7f) := by decide
  rw [fromLZ77Loop, if_neg h1]
  simp only []
  rw [if_pos h2, (setAt_inside buffer pos 0x61 (by omega)).1]
  simp only [Nat.cast_add, Nat.cast_one]

/-- The rounds of `fromLZ77` on `k` literals `a`: the position advances by `k` and the
buffer keeps its 4096 bytes. -/
theorem fromLZ77Loop_literals (k : Nat) :
    ∀ (fuel : Nat) (rest buffer : List Nat) (pos : Nat), buffer.length = 4096 →
      pos + k ≤ 4096 →
      ∃ buffer1 : List Nat, buffer1.length = 4096 ∧
        fromLZ77Loop (fuel + k) (List.replicate k 0x61 ++ rest) buffer (pos : Int)
          = fromLZ77Loop fuel rest buffer1 ((pos + k : Nat) : Int) := by
  induction k with
  | zero =>
    intro fuel rest buffer pos hl _
    exact ⟨buffer, hl, rfl⟩
  | succ k ih =>
    intro fuel rest buffer pos hl hp
    obtain ⟨b1, hb1, e⟩ := ih fuel rest (buffer.set pos 0x61) (pos + 1)
      (by rw [List.length_set]; exact hl) (by omega)
    refine ⟨b1, hb1, ?_⟩
    have hf : fuel + (k + 1) = (fuel + k) + 1 := by omega
    have hpk : pos + (k + 1) = pos + 1 + k := by omega
    rw [hf, hpk, List.replicate_succ, List.cons_append,
      fromLZ77Loop_literal (fuel + k) _ buffer pos hl (by omega)]
    exact e

/-- The byte-pair code at position 4095: the second store is out of range. -/
theorem fromLZ77Loop_pair_at_end (fuel : Nat) (rest buffer : List Nat)
    (hl : buffer.length = 4096) :
    fromLZ77Loop (fuel + 1) (0xC1 :: rest) buffer ((4095 : Nat) : Int)
      = Except.error Fault.indexOutOfRange := by
  have h1 : ¬ (((4095 : Nat) : Int) = 4096) := by omega
  have h2 : ¬ ((0xC1 : Nat) = 0x00 ∨ (0x09 ≤ (0xC1 : Nat) ∧ (0xC1 : Nat) ≤ 0x7f)) := by decide
  have h3 : ¬ (0x01 ≤ (0xC1 : Nat) ∧ (0xC1 : Nat) ≤ 0x08) := by decide
  have h4 : ¬ (0x80 ≤ (0xC1 : Nat) ∧ (0xC1 : Nat) ≤ 0xbf) := by decide
  have hs := setAt_inside buffer 4095 0x20 (by omega)
  have he := setAt_end (buffer.set 4095 0x20) 4096 (0xC1 ^^^ 0x80) (by rw [hs.2, hl])
  have e4096 : ((4095 : Nat) : Int) + 1 = ((4096 : Nat) : Int) := by omega
  rw [fromLZ77Loop, if_neg h1]
  simp only []
  rw [if_neg h2, if_neg h3, if_neg h4, hs.1]
  simp only []
  rw [e4096, he]

/-- A literal run of two bytes at position 4095: the second store is out of range. -/
theorem fromLZ77Loop_run_at_end (fuel : Nat) (a b : Nat) (rest buffer : List Nat)
    (hl : buffer.length = 4096) :
    fromLZ77Loop (fuel + 1) (0x02 :: a :: b :: rest) buffer ((4095 : Nat) : Int)
      = Except.error Fault.indexOutOfRange := by
  have h1 : ¬ (((4095 : Nat) : Int) = 4096) := by omega
  have h2 : ¬ ((0x02 : Nat) = 0x00 ∨ (0x09 ≤ (0x02 : Nat) ∧ (0x02 : Nat) ≤ 0x7f)) := by decide
  have h3 : 0x01 ≤ (0x02 : Nat) ∧ (0x02 : Nat) ≤ 0x08 := by decide
  have hs := setAt_inside buffer 4095 a (by omega)
  have he := setAt_end (buffer.set 4095 a) 4096 b (by rw [hs.2, hl])
  have e4096 : ((4095 : Nat) : Int) + 1 = ((4096 : Nat) : Int) := by omega
  have hr : literalRun 2 (a :: b :: rest) buffer ((4095 : Nat) : Int)
      = Except.error Fault.indexOutOfRange := by
    rw [literalRun]
    simp only [ReadByte]
    rw [hs.1]
    simp only []
    rw [literalRun]
    simp only [ReadByte]
    rw [e4096, he]
  rw [fromLZ77Loop, if_neg h1]
  simp only []
  rw [if_neg h2, if_pos h3, hr]

/-- A length-distance pair (distance 1, length 3) at position 4095: the source index
`start + i` is checked, the destination index is not, and the second store is out of
range. -/
theorem fromLZ77Loop_copy_at_end (fuel : Nat) (rest buffer : List Nat)
    (hl : buffer.length = 4096) :
    fromLZ77Loop (fuel + 1) (0x80 :: 0x08 :: rest) buffer ((4095 : Nat) : Int)
      = Except.error Fault.indexOutOfRange := by
  have h1 : ¬ (((4095 : Nat) : Int) = 4096) := by omega
  have h2 : ¬ ((0x80 : Nat) = 0x00 ∨ (0x09 ≤ (0x80 : Nat) ∧ (0x80 : Nat) ≤ 0x7f)) := by decide
  have h3 : ¬ (0x01 ≤ (0x80 : Nat) ∧ (0x80 : Nat) ≤ 0x08) := by decide
  have h4 : 0x80 ≤ (0x80 : Nat) ∧ (0x80 : Nat) ≤ 0xbf := by decide
  have hd : ((((0x80 : Nat) &&& 0x3F) <<< 8) ||| 0x08) >>> 3 = 1 := by decide
  have hn : ((0x08 : Nat) &&& 0x07) + 3 = 3 := by decide
  have hs := setAt_inside buffer 4095 (buffer.getD 4094 0) (by omega)
  have he := setAt_end (buffer.set 4095 (buffer.getD 4094 0)) 4096
    ((buffer.set 4095 (buffer.getD 4094 0)).getD 4095 0) (by rw [hs.2, hl])
  have e4096 : ((4095 : Nat) : Int) + 1 = ((4096 : Nat) : Int) := by omega
  have e4094 : ((4095 : Nat) : Int) - ((1 : Nat) : Int) = ((4094 : Nat) : Int) := by omega
  have e4095 : ((4094 : Nat) : Int) + 1 = ((4095 : Nat) : Int) := by omega
  have c1 : ¬ (((4094 : Nat) : Int) ≥ (buffer.length : Int) ∨ ((4094 : Nat) : Int) < 0) := by
    omega
  have c2 : ¬ (((4095 : Nat) : Int) ≥ ((buffer.set 4095 (buffer.getD 4094 0)).length : Int)
      ∨ ((4095 : Nat) : Int) < 0) := by
    rw [hs.2]; omega
  have hr : copyRun 3 ((4094 : Nat) : Int) buffer ((4095 : Nat) : Int)
      = Except.error Fault.indexOutOfRange := by
    rw [copyRun, if_neg c1, Int.toNat_ofNat, hs.1]
    simp only []
    rw [e4095, e4096, copyRun, if_neg c2, Int.toNat_ofNat, he]
  rw [fromLZ77Loop, if_neg h1]
  simp only []
  rw [if_neg h2, if_neg h3, if_pos h4]
  simp only [ReadByte]
  rw [hd, hn, e4094, hr]

/-- C28 (evaluation of the code): on 4095 literals `a` followed by a byte-pair code, by a
literal run of two bytes, or by a length-distance pair, `fromLZ77` stores at index 4096 of
its 4096-byte buffer, which is Go's index-out-of-range panic; followed by nothing, the 4095
literals are decoded without a fault. -/
theorem fromLZ77_index_out_of_range :
    fromLZ77 (List.replicate 4095 0x61 ++ [0xC1]) = Except.error Fault.indexOutOfRange
    ∧ fromLZ77 (List.replicate 4095 0x61 ++ [0x02, 0x61, 0x61])
        = Except.error Fault.indexOutOfRange
    ∧ fromLZ77 (List.replicate 4095 0x61 ++ [0x80, 0x08])
        = Except.error Fault.indexOutOfRange
    ∧ ∃ out : List Nat, fromLZ77 (List.replicate 4095 0x61) = Except.ok out := by
  have hz : (List.replicate 4096 (0 : Nat)).length = 4096 := List.length_replicate _ _
  refine ⟨?_, ?_, ?_, ?_⟩
  · obtain ⟨b, hb, e⟩ := fromLZ77Loop_literals 4095 2 [0xC1] (List.replicate 4096 0) 0 hz
      (by omega)
    have hlen : (List.replicate 4095 0x61 ++ [0xC1]).length + 1 = 2 + 4095 := by
      rw [List.length_append, List.length_replicate]; rfl
    unfold fromLZ77
    rw [hlen]
    exact e.trans (fromLZ77Loop_pair_at_end 1 [] b hb)
  · obtain ⟨b, hb, e⟩ := fromLZ77Loop_literals 4095 4 [0x02, 0x61, 0x61]
      (List.replicate 4096 0) 0 hz (by omega)
    have hlen : (List.replicate 4095 0x61 ++ [0x02, 0x61, 0x61]).length + 1 = 4 + 4095 := by
      rw [List.length_append, List.length_replicate]; rfl
    unfold fromLZ77
    rw [hlen]
    exact e.trans (fromLZ77Loop_run_at_end 3 0x61 0x61 [] b hb)
  · obtain ⟨b, hb, e⟩ := fromLZ77Loop_literals 4095 3 [0x80, 0x08]
      (List.replicate 4096 0) 0 hz (by omega)
    have hlen : (List.replicate 4095 0x61 ++ [0x80, 0x08]).length + 1 = 3 + 4095 := by
      rw [List.length_append, List.length_replicate]; rfl
    unfold fromLZ77
    rw [hlen]
    exact e.trans (fromLZ77Loop_copy_at_end 2 [] b hb)
  · obtain ⟨b, _, e⟩ := fromLZ77Loop_literals 4095 1 [] (List.replicate 4096 0) 0 hz
      (by omega)
    have hlen : (List.replicate 4095 0x61).length + 1 = 1 + 4095 := by
      rw [List.length_replicate]
    refine ⟨b.take 4095, ?_⟩
    unfold fromLZ77
    rw [hlen]
    rw [List.append_nil] at e
    refine e.trans ?_
    have h1 : ¬ (((0 + 4095 : Nat) : Int) = 4096) := by omega
    rw [fromLZ77Loop, if_neg h1]
    rfl

/-! ### C21 -/

/-- The rounds of `readSSAT` over an in-memory source: the sectors of `ssatSectors` are
read, and for each of them, in order, its slots but the last are appended to `SSecID`. -/
theorem readSSATLoop_walk (src : List Nat) (n : Nat) :
    ∀ (o : Ole BytesReader) (sid : Int), o.reader.s = src → o.Lsector = 512 →
      (∀ s ∈ ssatSectors src n sid, 0 ≤ sector_pos s 512) →
      ∃ i, Ole.readSSATLoop n o sid = Except.ok
        ({ o with
            SSecID := o.SSecID ++ ((ssatSectors src n sid).map (msatIds src)).flatten,
            reader := BytesReader.mk src i }, none) := by
  induction n with
  | zero =>
    intro o sid hs _ _
    refine ⟨o.reader.i, ?_⟩
    simp only [Ole.readSSATLoop, ssatSectors, List.map_nil, List.flatten_nil, List.append_nil,
      ← hs]
  | succ n ih =>
    intro o sid hs hL hpos
    by_cases he : sid = EOFSecID
    · have hne : ¬ (sid ≠ EOFSecID) := fun h => h he
      have hnil : ssatSectors src (n + 1) sid = [] := by
        rw [ssatSectors, if_pos he]
      have hnil2 : ssatSectors src n sid = [] := by
        cases n with
        | zero => rfl
        | succ m => rw [ssatSectors, if_pos he]
      obtain ⟨i, hi⟩ := ih o sid hs hL (by rw [hnil2]; intro s h; cases h)
      refine ⟨i, ?_⟩
      rw [Ole.readSSATLoop, if_neg hne, hi, hnil, hnil2]
    · have hcons : ssatSectors src (n + 1) sid = sid :: ssatSectors src n (nextOf src sid) := by
        rw [ssatSectors, if_neg he]
      rw [hcons] at hpos
      rcases o with ⟨hd, L, Ls, S, SS, F, ⟨s, i⟩⟩
      simp only at hs hL
      subst hs hL
      obtain ⟨i0, h0⟩ := (sector_read_image
        { header := hd, Lsector := 512, Lssector := Ls, SecID := S, SSecID := SS, Files := F,
          reader := BytesReader.mk s i } sid).2 (hpos sid (List.mem_cons_self _ _))
      obtain ⟨i1, h1⟩ := ih
        { header := hd, Lsector := 512, Lssector := Ls, SecID := S,
          SSecID := SS ++ msatIds s sid, Files := F, reader := BytesReader.mk s i0 }
        (nextOf s sid) rfl rfl (fun x hx => hpos x (List.mem_cons_of_mem _ hx))
      refine ⟨i1, ?_⟩
      rw [Ole.readSSATLoop, if_pos he, h0]
      simp only [if_true]
      refine h1.trans ?_
      rw [hcons]
      simp only [List.map_cons, List.flatten_cons, List.append_assoc]

/-- What `readSSAT` does: for every container with 512-byte sectors over an in-memory
source, the sectors that `readSSAT` reads are those of the chain that starts at
`header.FirstSecIDSSAT` and is cut after `NumberOfSectorsSSAT` sectors (`ssatSectors`),
where the successor of a sector is the id in that sector's own last 32-bit slot and the
chain ends at the end-of-chain id; when those sectors lie at non-negative positions,
`readSSAT` returns a nil error and `SSecID` is extended by the in-order concatenation of
the 32-bit slots but the last (127 of the 128) of each of those sectors. -/
theorem readSSAT_chain (o : Ole BytesReader) (hL : o.Lsector = 512)
    (hpos : ∀ s ∈ ssatSectors o.reader.s o.header.NumberOfSectorsSSAT
      o.header.FirstSecIDSSAT, 0 ≤ sector_pos s 512) :
    (∃ i, o.readSSAT = Except.ok
      ({ o with
          SSecID := o.SSecID ++ ((ssatSectors o.reader.s o.header.NumberOfSectorsSSAT
            o.header.FirstSecIDSSAT).map (msatIds o.reader.s)).flatten,
          reader := BytesReader.mk o.reader.s i }, none))
    ∧ (((ssatSectors o.reader.s o.header.NumberOfSectorsSSAT
          o.header.FirstSecIDSSAT).map (msatIds o.reader.s)).flatten).length
        = 127 * (ssatSectors o.reader.s o.header.NumberOfSectorsSSAT
          o.header.FirstSecIDSSAT).length := by
  constructor
  · exact readSSATLoop_walk o.reader.s o.header.NumberOfSectorsSSAT o
      o.header.FirstSecIDSSAT rfl hL hpos
  · rw [flatten_length_const 127 _ (by
      intro x hx
      simp only [List.mem_map] at hx
      obtain ⟨d, _, rfl⟩ := hx
      exact msatIds_length _ d), List.length_map]

/-- An instance of `readSSAT_chain`: the container set up over `ssatSource`, which declares
two mini-FAT sectors from sector 1 on; sector 1 alone is read. -/
theorem readSSAT_chain_witness :
    ssatSectors ssatSource 2 1 = [1]
    ∧ ((∃ i, (opened ssatSource).readSSAT = Except.ok
        ({ opened ssatSource with
            SSecID := (opened ssatSource).SSecID
              ++ ((ssatSectors (opened ssatSource).reader.s
                (opened ssatSource).header.NumberOfSectorsSSAT
                (opened ssatSource).header.FirstSecIDSSAT).map
                  (msatIds (opened ssatSource).reader.s)).flatten,
            reader := BytesReader.mk (opened ssatSource).reader.s i }, none))
      ∧ (((ssatSectors (opened ssatSource).reader.s
            (opened ssatSource).header.NumberOfSectorsSSAT
            (opened ssatSource).header.FirstSecIDSSAT).map
              (msatIds (opened ssatSource).reader.s)).flatten).length
          = 127 * (ssatSectors (opened ssatSource).reader.s
            (opened ssatSource).header.NumberOfSectorsSSAT
            (opened ssatSource).header.FirstSecIDSSAT).length) :=
  ⟨by decide!, readSSAT_chain (opened ssatSource) rfl (by decide!)⟩

/-- C21 (evaluation of the code): `Open` accepts `ssatSource`, whose header declares two
mini-FAT sectors from sector 1 on and whose allocation table has `SecID[1] = 2`. The chain
of the allocation table is 1, 2, and those two sectors have 256 slots; `SSecID` has 127
entries: the last slot of sector 1, the end-of-chain id, is taken as the next sector id,
not as an entry, and sector 2 is not read. -/
theorem readSSAT_follows_last_slot :
    (Open (BytesReader.mk ssatSource 0)).map
        (fun x => (x.1.map (fun o => (o.SecID.take 3, o.SSecID.length)), x.2))
      = Except.ok (some ([SATSecID, 2, EOFSecID], 127), none)
    ∧ (Header.decode (ssatSource.take 512)).NumberOfSectorsSSAT = 2
    ∧ (Header.decode (ssatSource.take 512)).FirstSecIDSSAT = 1
    ∧ nextOf ssatSource 1 = EOFSecID
    ∧ (fatOf ssatSource 1 ++ fatOf ssatSource 2).length = 256 :=
  ⟨by decide!, by decide!, by decide!, by decide!,
    by rw [List.length_append, fatOf_length, fatOf_length]⟩

/-! ### C26 -/

theorem bytesAt_length (b : List Nat) (off n : Nat) : (bytesAt b off n).length = n := by
  simp only [bytesAt, List.length_map, List.length_range]

theorem bytesAt_getD (b : List Nat) (off n k : Nat) (hk : k < n) :
    (bytesAt b off n).getD k 0 = b.getD (off + k) 0 := by
  unfold bytesAt
  rw [List.getD_eq_getElem?_getD, List.getElem?_map, List.getElem?_range hk]
  rfl

theorem bytesAt_append (b : List Nat) (off n m : Nat) :
    bytesAt b off n ++ bytesAt b (off + n) m = bytesAt b off (n + m) := by
  induction m with
  | zero => simp only [bytesAt, List.range_zero, List.map_nil, List.append_nil, Nat.add_zero]
  | succ m ih =>
    have e : bytesAt b (off + n) (m + 1)
        = bytesAt b (off + n) m ++ [b.getD (off + n + m) 0] := by
      simp only [bytesAt, List.range_succ, List.map_append, List.map_cons, List.map_nil]
    have e2 : bytesAt b off (n + (m + 1))
        = bytesAt b off (n + m) ++ [b.getD (off + (n + m)) 0] := by
      have : n + (m + 1) = (n + m) + 1 := by omega
      rw [this]
      simp only [bytesAt, List.range_succ, List.map_append, List.map_cons, List.map_nil]
    rw [e, e2, ← List.append_assoc, ih, Nat.add_assoc]

theorem put16_le16 (b : List Nat) (hb : ∀ x ∈ b, x < 256) (off : Nat) :
    put16 (le16 b off) = bytesAt b off 2 := by
  have h0 := getD_lt_256 b hb off
  have h1 := getD_lt_256 b hb (off + 1)
  have e : bytesAt b off 2 = [b.getD off 0, b.getD (off + 1) 0] := rfl
  rw [e]
  unfold put16 le16
  generalize b.getD off 0 = x0 at *
  generalize b.getD (off + 1) 0 = x1 at *
  congr 1
  · omega
  · congr 1
    omega

theorem le32_bytes (b : List Nat) (hb : ∀ x ∈ b, x < 256) (off : Nat) :
    le32 b off < 4294967296
    ∧ [le32 b off % 256, le32 b off / 256 % 256, le32 b off / 65536 % 256,
        le32 b off / 16777216 % 256] = bytesAt b off 4 := by
  have h0 := getD_lt_256 b hb off
  have h1 := getD_lt_256 b hb (off + 1)
  have h2 := getD_lt_256 b hb (off + 2)
  have h3 := getD_lt_256 b hb (off + 2 + 1)
  have e : bytesAt b off 4
      = [b.getD off 0, b.getD (off + 1) 0, b.getD (off + 2) 0, b.getD (off + 2 + 1) 0] := rfl
  rw [e]
  unfold le32 le16
  generalize b.getD off 0 = x0 at *
  generalize b.getD (off + 1) 0 = x1 at *
  generalize b.getD (off + 2) 0 = x2 at *
  generalize b.getD (off + 2 + 1) 0 = x3 at *
  refine ⟨by omega, ?_⟩
  congr 1
  · omega
  · congr 1
    · omega
    · congr 1
      · omega
      · congr 1
        omega

theorem put32_le32 (b : List Nat) (hb : ∀ x ∈ b, x < 256) (off : Nat) :
    put32 ((le32 b off : Nat) : Int) = bytesAt b off 4 := by
  obtain ⟨hlt, hbytes⟩ := le32_bytes b hb off
  have hu : u32 ((le32 b off : Nat) : Int) = le32 b off := by
    unfold u32; omega
  unfold put32
  rw [hu]
  exact hbytes

theorem put32_le32s (b : List Nat) (hb : ∀ x ∈ b, x < 256) (off : Nat) :
    put32 (le32s b off) = bytesAt b off 4 := by
  obtain ⟨hlt, hbytes⟩ := le32_bytes b hb off
  have hu : u32 (le32s b off) = le32 b off := by
    unfold u32 le32s i32; omega
  unfold put32
  rw [hu]
  exact hbytes

theorem flatten_put32_le32s (b : List Nat) (hb : ∀ x ∈ b, x < 256) (off n : Nat) :
    (((List.range n).map (fun i => le32s b (off + 4 * i))).map put32).flatten
      = bytesAt b off (4 * n) := by
  induction n with
  | zero => rfl
  | succ n ih =>
    have e : 4 * (n + 1) = 4 * n + 4 := by omega
    rw [List.range_succ, List.map_append, List.map_append, List.flatten_append, ih, e,
      ← bytesAt_append]
    simp only [List.map_cons, List.map_nil, List.flatten_cons, List.flatten_nil,
      List.append_nil, put32_le32s b hb]

/-- The re-encoding of a decoded header: the bytes of the input outside the blank fields,
and zero bytes in the blank fields. -/
theorem encode_decode (b : List Nat) (hb : ∀ x ∈ b, x < 256) (hl : ¬ b.length < 512) :
    Header.encode (Header.decode b)
      = bytesAt b 0 34 ++ List.replicate 10 0 ++ bytesAt b 44 8 ++ List.replicate 4 0
        ++ bytesAt b 56 456 := by
  rw [decode_of_length b hl]
  unfold Header.encode
  simp only [List.map_cons, List.map_nil, List.flatten_cons, List.flatten_nil,
    List.append_nil, put32_le32 b hb, put32_le32s b hb, put16_le16 b hb,
    flatten_put32_le32s b hb, List.append_assoc]
  have r : List.replicate 2 (0 : Nat) ++ (List.replicate 8 0 ++ (bytesAt b 44 4
      ++ (bytesAt b 48 4 ++ (List.replicate 4 0 ++ (bytesAt b 56 4 ++ (bytesAt b 60 4
      ++ (bytesAt b 64 4 ++ (bytesAt b 68 4 ++ (bytesAt b 72 4 ++ bytesAt b 76 (4 * 109))))))))))
      = List.replicate 10 0 ++ (bytesAt b 44 8 ++ (List.replicate 4 0 ++ bytesAt b 56 456)) := by
    have a1 := bytesAt_append b 44 4 4
    have a2 := bytesAt_append b 56 4 4
    have a3 := bytesAt_append b 56 8 4
    have a4 := bytesAt_append b 56 12 4
    have a5 := bytesAt_append b 56 16 4
    have a6 := bytesAt_append b 56 20 436
    simp only [Nat.reduceAdd] at a1 a2 a3 a4 a5 a6
    rw [← a1, ← a6, ← a5, ← a4, ← a3, ← a2]
    simp only [List.append_assoc, Nat.reduceMul]
    rfl
  have l : bytesAt b 0 4 ++ (bytesAt b 4 4 ++ (bytesAt b 8 4 ++ (bytesAt b 12 4
      ++ (bytesAt b 16 4 ++ (bytesAt b 20 4 ++ (bytesAt b 24 2 ++ (bytesAt b 26 2
      ++ (bytesAt b 28 2 ++ (bytesAt b 30 2 ++ bytesAt b 32 2)))))))))
      = bytesAt b 0 34 := by
    have a1 := bytesAt_append b 0 4 4
    have a2 := bytesAt_append b 0 8 4
    have a3 := bytesAt_append b 0 12 4
    have a4 := bytesAt_append b 0 16 4
    have a5 := bytesAt_append b 0 20 4
    have a6 := bytesAt_append b 0 24 2
    have a7 := bytesAt_append b 0 26 2
    have a8 := bytesAt_append b 0 28 2
    have a9 := bytesAt_append b 0 30 2
    have a10 := bytesAt_append b 0 32 2
    simp only [Nat.reduceAdd, Nat.zero_add] at a1 a2 a3 a4 a5 a6 a7 a8 a9 a10
    rw [← a10, ← a9, ← a8, ← a7, ← a6, ← a5, ← a4, ← a3, ← a2, ← a1]
    simp only [List.append_assoc]
  rw [← l]
  simp only [List.append_assoc]
  rw [r]

/-- C26: header round trip. For every 512-byte input `b` accepted by `parseHeader`,
re-encoding the parsed header's fields little-endian in declaration order gives 512 bytes
that agree with `b` on the sector-size and mini-sector-size exponent fields (offsets
30..34) and on the bootstrap pointers: the FAT sector count at 44 and the directory start
at 48 (offsets 44..52), the mini-FAT start and count (60..68), the DIFAT start and count
(68..76) and the 109 inline ids (76..512). -/
theorem header_round_trip (b : List Nat) (h : Header) (hlen : b.length = 512)
    (hb : ∀ x ∈ b, x < 256) (hacc : parseHeader b = (some h, none)) :
    (Header.encode h).length = 512
    ∧ ∀ i : Nat, (30 ≤ i ∧ i < 34) ∨ (44 ≤ i ∧ i < 52) ∨ (60 ≤ i ∧ i < 512) →
        (Header.encode h).getD i 0 = b.getD i 0 := by
  obtain ⟨_, rfl⟩ := parseHeader_some b h hacc
  have hl : ¬ b.length < 512 := by omega
  rw [encode_decode b hb hl]
  constructor
  · simp only [List.length_append, bytesAt_length, List.length_replicate]
  · intro i hi
    simp only [List.getD_eq_getElem?_getD]
    rcases hi with hi | hi | hi
    · rw [List.append_assoc, List.append_assoc, List.append_assoc,
        List.getElem?_append_left (by rw [bytesAt_length]; omega)]
      have := bytesAt_getD b 0 34 i (by omega)
      simp only [List.getD_eq_getElem?_getD, Nat.zero_add] at this
      exact this
    · rw [List.append_assoc, List.append_assoc,
        List.getElem?_append_right (by
          simp only [List.length_append, bytesAt_length, List.length_replicate]; omega),
        List.getElem?_append_left (by
          simp only [List.length_append, bytesAt_length, List.length_replicate]; omega)]
      have := bytesAt_getD b 44 8 (i - 44) (by omega)
      simp only [List.getD_eq_getElem?_getD] at this
      simp only [List.length_append, bytesAt_length, List.length_replicate]
      rw [this]
      congr 2
      omega
    · rw [List.getElem?_append_right (by
          simp only [List.length_append, bytesAt_length, List.length_replicate]; omega)]
      have := bytesAt_getD b 56 456 (i - 56) (by omega)
      simp only [List.getD_eq_getElem?_getD] at this
      simp only [List.length_append, bytesAt_length, List.length_replicate]
      rw [this]
      congr 2
      omega

set_option maxRecDepth 100000 in
/-- Witness for C26: the header image with sector exponent 9, one FAT sector, the directory
at sector 1, one mini-FAT sector at sector 2 and the bootstrap id 0. -/
theorem header_round_trip_witness :
    (Header.encode (Header.decode (headerImage 9 1 1 2 1 EOFSecID 0 [0]))).length = 512
    ∧ ∀ i : Nat, (30 ≤ i ∧ i < 34) ∨ (44 ≤ i ∧ i < 52) ∨ (60 ≤ i ∧ i < 512) →
        (Header.encode (Header.decode (headerImage 9 1 1 2 1 EOFSecID 0 [0]))).getD i 0
          = (headerImage 9 1 1 2 1 EOFSecID 0 [0]).getD i 0 :=
  header_round_trip (headerImage 9 1 1 2 1 EOFSecID 0 [0])
    (Header.decode (headerImage 9 1 1 2 1 EOFSecID 0 [0])) (by decide!) (by decide!) (by rfl)

/-! ### C24 -/

theorem dirRecords_length (src : List Nat) (chain : List Int) :
    (dirRecords src chain).length = 4 * chain.length := by
  induction chain with
  | nil => rfl
  | cons s rest ih =>
    rw [dirRecords_cons, List.length_append, recordsOf_length, ih, List.length_cons]
    omega

/-- Record `i` of a directory chain is decoded from the 128 bytes at offset
`512 + 512*d + 128*(i mod 4)` for the sector `d` number `i div 4` of the chain. -/
theorem dirRecords_getD (src : List Nat) (chain : List Int) :
    ∀ i : Nat, i < 4 * chain.length →
      (dirRecords src chain).getD i File.zero = File.decode (entryBytes src chain i) := by
  induction chain with
  | nil => intro i hi; simp at hi
  | cons s rest ih =>
    intro i hi
    rw [dirRecords_cons]
    by_cases h4 : i < 4
    · have hq : i / 4 = 0 := by omega
      have hm : i % 4 = i := by omega
      rw [List.getD_eq_getElem?_getD,
        List.getElem?_append_left (by rw [recordsOf_length]; exact h4), recordsOf_eq]
      unfold entryBytes
      rw [hq, hm, List.getD_cons_zero]
      interval_cases i <;> rfl
    · have hq : i / 4 = (i - 4) / 4 + 1 := by omega
      have hm : i % 4 = (i - 4) % 4 := by omega
      have hi2 : i - 4 < 4 * rest.length := by
        rw [List.length_cons] at hi; omega
      rw [List.getD_eq_getElem?_getD,
        List.getElem?_append_right (by rw [recordsOf_length]; omega), recordsOf_length,
        ← List.getD_eq_getElem?_getD, ih (i - 4) hi2]
      unfold entryBytes
      rw [hq, hm, List.getD_cons_succ]

theorem takeWhile_getD {α : Type} (p : α → Bool) (d : α) (l : List α) :
    ∀ i : Nat, i < (l.takeWhile p).length →
      (l.takeWhile p).getD i d = l.getD i d ∧ i < l.length := by
  induction l with
  | nil => intro i hi; simp at hi
  | cons x rest ih =>
    intro i hi
    by_cases hx : p x = true
    · rw [List.takeWhile_cons_of_pos hx] at hi ⊢
      cases i with
      | zero => exact ⟨rfl, by simp⟩
      | succ j =>
        rw [List.length_cons] at hi
        obtain ⟨e, hl⟩ := ih j (by omega)
        rw [List.getD_cons_succ, List.getD_cons_succ, List.length_cons]
        exact ⟨e, by omega⟩
    · rw [List.takeWhile_cons_of_neg hx] at hi
      simp at hi

/-- C24 (amended): in a container with 512-byte sectors over an in-memory source, whose
directory chain `d0 -> d1 -> ...` (from `FirstSecIDDirectory` through the sectors `rest`,
as `DirChain` describes: in range, linked, held by the source below offset 2^31, no sector
with a successor ending the source, end-of-chain after the last) is given, the `i`-th entry
returned by `ListDir` is decoded from exactly the 128 bytes at source offset
`512 + 512*d_(i div 4) + 128*(i mod 4)`, with little-endian fields at fixed offsets: the
name code units at 0..64, `Bsize` = u16 at 64, `Type` = the byte at 66, `Sstart` = i32 at
116 and `Size` = u32 at 120. -/
theorem ListDir_entry_offsets (o : Ole BytesReader) (rest : List Int) (fuel : Nat)
    (hL : o.Lsector = 512) (hsat : o.SecID.length < 2147483648)
    (hch : DirChain o.SecID o.reader.s o.header.FirstSecIDDirectory rest)
    (hfuel : 4 * (rest.length + 1) + 1 ≤ fuel) :
    ∃ dir, o.ListDir fuel = Except.ok (dir, none) ∧ ∀ i : Nat, i < dir.length →
      dir.getD i File.zero = File.decode
          (entryBytes o.reader.s (o.header.FirstSecIDDirectory :: rest) i)
      ∧ (dir.getD i File.zero).NameBts = (List.range 32).map (fun k =>
          le16 (entryBytes o.reader.s (o.header.FirstSecIDDirectory :: rest) i) (2 * k))
      ∧ (dir.getD i File.zero).Bsize
          = le16 (entryBytes o.reader.s (o.header.FirstSecIDDirectory :: rest) i) 64
      ∧ (dir.getD i File.zero).Type_
          = (entryBytes o.reader.s (o.header.FirstSecIDDirectory :: rest) i).getD 66 0 % 256
      ∧ (dir.getD i File.zero).Sstart
          = le32s (entryBytes o.reader.s (o.header.FirstSecIDDirectory :: rest) i) 116
      ∧ (dir.getD i File.zero).Size
          = le32 (entryBytes o.reader.s (o.header.FirstSecIDDirectory :: rest) i) 120 := by
  obtain ⟨e, he, hl⟩ := ListDirLoop_chain o.SecID o.reader.s hsat rest
    o.header.FirstSecIDDirectory hch 0 (Nat.zero_le _) fuel
    (o.stream_read o.header.FirstSecIDDirectory 0) []
    ⟨rfl, hL, rfl, rfl, rfl, rfl⟩ (by omega)
  rw [List.drop_zero, List.nil_append] at hl
  refine ⟨(dirRecords o.reader.s (o.header.FirstSecIDDirectory :: rest)).takeWhile
    (fun d => decide (d.Type_ ≠ EMPTY)), ?_, ?_⟩
  · unfold Ole.ListDir
    rw [hl]
    rcases he with rfl | rfl
    · simp
    · simp
  · intro i hi
    obtain ⟨e1, hlt⟩ := takeWhile_getD (fun d => decide (d.Type_ ≠ EMPTY)) File.zero
      (dirRecords o.reader.s (o.header.FirstSecIDDirectory :: rest)) i hi
    rw [dirRecords_length] at hlt
    have e2 := dirRecords_getD o.reader.s (o.header.FirstSecIDDirectory :: rest) i hlt
    rw [e1, e2]
    exact ⟨rfl, rfl, rfl, rfl, rfl, rfl⟩

/-- Witness for C24: the directory chain 0 -> 1 -> end-of-chain over `twoSectorDirSource`;
every entry returned is decoded from the bytes at its offset, entry 5 from those at
`512 + 512*1 + 128*1`. -/
theorem ListDir_entry_offsets_witness :
    ∃ dir, (containerOf [1, EOFSecID] [] twoSectorDirSource).ListDir 9 = Except.ok (dir, none)
      ∧ ∀ i : Nat, i < dir.length →
        dir.getD i File.zero = File.decode (entryBytes twoSectorDirSource [0, 1] i) :=
  (ListDir_entry_offsets (containerOf [1, EOFSecID] [] twoSectorDirSource) [1] 9 rfl
    (by decide) (by decide!) (by decide)).elim
    (fun dir h => ⟨dir, h.1, fun i hi => (h.2 i hi).1⟩)

/-- A `Read` of 128 bytes on a reader over an in-memory source that stands at index `i`,
when the position of the cursor wraps to a negative `int32`: the `Seek` of the source
fails, its error is dropped, and the 128 bytes from index `i` on are delivered. -/
theorem Read_record_wrapped (r : StreamReader BytesReader) (s : List Nat) (i a : Nat)
    (p : List Nat) (hrd : r.reader = BytesReader.mk s (i : Int)) (hi : i + 128 ≤ s.length)
    (hS : r.sizeSector = 512) (hofs : r.offsetInSector = a) (hpf : r.sectorPos = sector_pos)
    (hneg : i32 (sector_pos r.offsetOfSector 512 + i32 (a : Int)) < 0)
    (hne : r.offsetOfSector ≠ EOFSecID) (hp : p.length = 128) (hap : a + 128 ≤ 512) :
    r.Read p = Except.ok
      { reader := { r with reader := BytesReader.mk s ((i : Int) + 128),
                           offsetInSector := a + 128 },
        p := (s.drop i).take 128, n := 128, err := none } := by
  rcases r with ⟨sat0, start, ⟨s0, i0⟩, oos, ois, S, size, offset, pf⟩
  simp only [BytesReader.mk.injEq] at hrd hS hofs hpf hneg hne
  obtain ⟨rfl, rfl⟩ := hrd
  subst hS hofs hpf
  have hcond : ¬ (u32 ((u32 (p.length : Int) : Int) - ((0 : Nat) : Int))
      > u32 (((512 : Nat) : Int) - (ois : Int))) := by
    rw [hp]; unfold u32; omega
  have hlt : ¬ ((i : Int) ≥ (s0.length : Int)) := by omega
  have hlen : ((s0.drop i).take 128).length = 128 := by
    simp only [List.length_take, List.length_drop]
    omega
  have hu : u32 ((ois : Int) + (u32 (128 : Int) : Int)) = ois + 128 := by
    unfold u32; omega
  unfold StreamReader.Read
  rw [if_neg hne]
  simp only [ReadSeeker.Seek, BytesReader.Seek, true_or, if_true, hneg]
  rw [hp, readLoop_final 129 _ p 0 hcond (Nat.zero_le _)]
  simp only [ReadSeeker.Read, BytesReader.Read, hlt, if_false, List.drop_zero, hp, hlen,
    List.drop_of_length_le (le_of_eq hp), List.append_nil, if_true, splice, List.take_zero,
    List.nil_append, Nat.zero_add, Nat.cast_ofNat, hu, Int.toNat_ofNat]

theorem drop_left_of_length (l1 l2 : List Nat) (n : Nat) (h : l1.length = n) :
    (l1 ++ l2).drop n = l2 := by
  subst h
  exact List.drop_left _ _

theorem take_left_of_length (l1 l2 : List Nat) (n : Nat) (h : l1.length = n) :
    (l1 ++ l2).take n = l1 := by
  subst h
  exact List.take_left _ _

set_option maxRecDepth 100000 in
/-- When the position of the directory start sector wraps to a negative `int32`, `ListDir`
on an in-memory source that stands at offset 512 decodes its first entry from the 128
bytes at offset 512; here the 128 bytes that follow are zero, and the enumeration ends. -/
theorem ListDir_wrapped (o : Ole BytesReader) (hdr rec1 tail : List Nat) (f : Nat)
    (hL : o.Lsector = 512) (hd : o.header.FirstSecIDDirectory = 4194303)
    (hr : o.reader = BytesReader.mk (hdr ++ rec1 ++ (List.replicate 128 0 ++ tail))
      ((512 : Nat) : Int))
    (hh : hdr.length = 512) (h1 : rec1.length = 128) (ht : (File.decode rec1).Type_ ≠ EMPTY) :
    o.ListDir (f + 2) = Except.ok ([File.decode rec1], none) := by
  have hlenS : (hdr ++ rec1 ++ (List.replicate 128 0 ++ tail)).length
      = 768 + tail.length := by
    simp only [List.length_append, List.length_replicate, hh, h1]
    omega
  have hz : (List.replicate 128 (0 : Nat)).length = 128 := List.length_replicate _ _
  have hneg0 : i32 (sector_pos 4194303 512 + i32 ((0 : Nat) : Int)) < 0 := by decide
  have hneg1 : i32 (sector_pos 4194303 512 + i32 ((128 : Nat) : Int)) < 0 := by decide
  have hne : (4194303 : Int) ≠ EOFSecID := by decide
  have hp0 : ((hdr ++ rec1 ++ (List.replicate 128 0 ++ tail)).drop 512).take 128 = rec1 := by
    rw [List.append_assoc, ← hh, List.drop_left, ← h1, List.take_left]
  have hp1 : ((hdr ++ rec1 ++ (List.replicate 128 0 ++ tail)).drop 640).take 128
      = List.replicate 128 0 := by
    have e : (hdr ++ rec1).length = 640 := by rw [List.length_append, hh, h1]
    rw [← e, List.drop_left]
    nth_rewrite 1 [← hz]
    rw [List.take_left]
  have r0 := Read_record_wrapped (o.stream_read 4194303 0)
    (hdr ++ rec1 ++ (List.replicate 128 0 ++ tail)) 512 0 (List.replicate 128 0) hr
    (by rw [hlenS]; omega) hL rfl rfl hneg0 hne hz (by omega)
  rw [hp0] at r0
  have b0 := binaryReadFile_record (o.stream_read 4194303 0) _ r0 rfl rfl h1
  have r1 := Read_record_wrapped
    { o.stream_read 4194303 0 with
        reader := BytesReader.mk (hdr ++ rec1 ++ (List.replicate 128 0 ++ tail))
          (((512 : Nat) : Int) + 128),
        offsetInSector := 0 + 128 }
    (hdr ++ rec1 ++ (List.replicate 128 0 ++ tail)) 640 128 (List.replicate 128 0) rfl
    (by rw [hlenS]; omega) hL rfl rfl hneg1 hne hz (by omega)
  rw [hp1] at r1
  have b1 := binaryReadFile_record
    { o.stream_read 4194303 0 with
        reader := BytesReader.mk (hdr ++ rec1 ++ (List.replicate 128 0 ++ tail))
          (((512 : Nat) : Int) + 128),
        offsetInSector := 0 + 128 } _ r1 rfl rfl hz
  have hstop : ¬ ((none : Option GoError) = none
      ∧ (File.decode (List.replicate 128 0)).Type_ ≠ EMPTY) := by decide!
  unfold Ole.ListDir
  rw [hd, ListDirLoop_step_record (f + 1) _ _ [] _ b0 ht,
    ListDirLoop_step_stop f _ _ _ _ none b1 hstop]
  rfl

/-- C24 (counterexample): the directory chain of `farDirContainer` is the sector 4194303
alone, in range of the table and held by the source in full; `512 + 512*4194303` is 2^31.
`ListDir` returns one entry, of the root type 5, decoded from the 128 bytes at source
offset 512; the 128 bytes at offset 2^31 are zero and decode to an entry of type 0. -/
theorem ListDir_entry_from_wrapped_position :
    farDirContainer.ListDir 2 = Except.ok ([File.decode (recordOf ROOT)], none)
    ∧ (File.decode (recordOf ROOT)).Type_ = 5
    ∧ (farDirSource.drop 512).take 128 = recordOf ROOT
    ∧ index farDirContainer.SecID farDirContainer.header.FirstSecIDDirectory = some EOFSecID
    ∧ (512 + 512 * farDirContainer.header.FirstSecIDDirectory + 512 : Int)
        = (farDirSource.length : Int)
    ∧ (512 + 512 * farDirContainer.header.FirstSecIDDirectory : Int) = 2147483648
    ∧ entryBytes farDirSource [farDirContainer.header.FirstSecIDDirectory] 0
        = List.replicate 128 0
    ∧ (File.decode (List.replicate 128 0)).Type_ = 0 := by
  have hsplit : List.replicate 2147483520 (0 : Nat)
      = List.replicate 128 0 ++ List.replicate 2147483392 0 := by
    rw [← List.replicate_add]
  have h512 : (List.replicate 512 (255 : Nat)).length = 512 := List.length_replicate _ _
  have h128 : (recordOf ROOT).length = 128 := by decide!
  have hlen640 : (List.replicate 512 255 ++ recordOf ROOT).length = 640 := by
    rw [List.length_append, h512, h128]
  have hlen : farDirSource.length = 2147484160 := by
    unfold farDirSource
    rw [List.length_append, hlen640, List.length_replicate]
  have hroot : (File.decode (recordOf ROOT)).Type_ = 5 := by decide!
  refine ⟨?_, hroot, ?_, ?_, ?_, by decide, ?_, by decide!⟩
  · exact ListDir_wrapped farDirContainer (List.replicate 512 255) (recordOf ROOT)
      (List.replicate 2147483392 0) 0 rfl rfl
      (by
        show BytesReader.mk farDirSource 512 = _
        unfold farDirSource
        rw [hsplit]
        rfl)
      h512 h128 (by rw [hroot]; decide)
  · unfold farDirSource
    rw [List.append_assoc, drop_left_of_length _ _ 512 h512, take_left_of_length _ _ 128 h128]
  · have hi : (4194303 : Int).toNat = 4194303 := rfl
    have hc : 0 ≤ (4194303 : Int)
        ∧ (4194303 : Int) < ((List.replicate 4194304 EOFSecID).length : Int) := by
      rw [List.length_replicate]; decide
    show index (List.replicate 4194304 EOFSecID) 4194303 = some EOFSecID
    unfold index
    rw [if_pos hc, hi, List.get?_eq_getElem?, List.getElem?_replicate]
    rfl
  · rw [hlen]
    rfl
  · show ((farDirSource.drop (512 + 512 * (4194303 : Int)
      + ((128 * (0 % 4) : Nat) : Int)).toNat).take 128) = List.replicate 128 0
    have hn : (512 + 512 * (4194303 : Int) + ((128 * (0 % 4) : Nat) : Int)).toNat
        = 640 + 2147483008 := by decide
    rw [hn]
    unfold farDirSource
    rw [← hlen640, List.drop_append, List.drop_replicate, List.take_replicate]
    rfl

/-! ### Rows and tables of a spreadsheet -/

/-- The trimming loop run on the first `l.length` elements of a slice leaves the length of
`l` without its trailing empty elements. -/
theorem trimLoop_append {α : Type} (p : α → Bool) (l : List α) :
    ∀ extra : List α,
      trimLoop p (l ++ extra) l.length = Except.ok (l.rdropWhile p).length := by
  induction l using List.reverseRecOn with
  | nil => intro extra; rfl
  | append_singleton l x ih =>
    intro extra
    have hget : (l ++ [x] ++ extra).get? l.length = some x := by
      rw [List.append_assoc, List.get?_eq_getElem?, List.getElem?_append_right (le_refl _)]
      simp
    rw [List.length_append, List.length_singleton, trimLoop, hget]
    by_cases hx : p x = true
    · simp only [hx, if_true]
      rw [List.append_assoc, ih, List.rdropWhile_concat_pos _ _ _ hx]
    · simp only [hx, if_false, Bool.false_eq_true]
      rw [List.rdropWhile_concat_neg _ _ _ hx, List.length_append, List.length_singleton]

theorem trimLoop_eq {α : Type} (p : α → Bool) (l : List α) :
    trimLoop p l l.length = Except.ok (l.rdropWhile p).length
    ∧ l.take (l.rdropWhile p).length = l.rdropWhile p := by
  constructor
  · have h := trimLoop_append p l []
    rw [List.append_nil] at h
    exact h
  · exact (List.prefix_iff_eq_take.mp ( List.rdropWhile_prefix p l)).symm

theorem sum_max_nonneg {α : Type} (f : α → Int) (l : List α) :
    0 ≤ (l.map (fun x => max 1 (f x))).sum := by
  induction l with
  | nil => simp
  | cons x rest ih =>
    rw [List.map_cons, List.sum_cons]
    have : 1 ≤ max 1 (f x) := le_max_left _ _
    omega

/-- The counting loop without overflow: `n` grows by the sum of `max(1, repeated)`. -/
theorem countLoop_eq {α : Type} (f : α → Int) (l : List α) :
    ∀ n : Int, 0 ≤ n → (∀ x ∈ l, 0 ≤ f x) →
      n + (l.map (fun x => max 1 (f x))).sum < 9223372036854775808 →
      countLoop f l n = n + (l.map (fun x => max 1 (f x))).sum := by
  induction l with
  | nil => intro n _ _ _; simp [countLoop]
  | cons x rest ih =>
    intro n hn hpos hlt
    have hx := hpos x (List.mem_cons_self _ _)
    have hrest := sum_max_nonneg f rest
    rw [List.map_cons, List.sum_cons] at hlt ⊢
    by_cases h0 : f x ≠ 0
    · have hm : max 1 (f x) = f x := max_eq_right (by omega)
      rw [hm] at hlt ⊢
      have hi : i64 (n + f x) = n + f x := by unfold i64; omega
      rw [countLoop, if_pos h0, hi,
        ih (n + f x) (by omega) (fun y hy => hpos y (List.mem_cons_of_mem _ hy)) (by omega)]
      omega
    · have hz : f x = 0 := by
        by_contra h; exact h0 h
      have hm : max 1 (f x) = 1 := by rw [hz]; rfl
      rw [hm] at hlt ⊢
      have hi : i64 (n + 1) = n + 1 := by unfold i64; omega
      rw [countLoop, if_neg h0, hi,
        ih (n + 1) (by omega) (fun y hy => hpos y (List.mem_cons_of_mem _ hy)) (by omega)]
      omega

theorem sum_toNat_max {α : Type} (f : α → Int) (l : List α) :
    (((l.map (fun x => (max 1 (f x)).toNat)).sum : Nat) : Int)
      = (l.map (fun x => max 1 (f x))).sum := by
  induction l with
  | nil => simp
  | cons x rest ih =>
    rw [List.map_cons, List.sum_cons, List.map_cons, List.sum_cons, Nat.cast_add, ih]
    have : 1 ≤ max 1 (f x) := le_max_left _ _
    omega

theorem flatten_replicate_length {α β : Type} (f : α → Nat) (g : α → β) (l : List α) :
    ((l.map (fun x => List.replicate (f x) (g x))).flatten).length = (l.map f).sum := by
  induction l with
  | nil => rfl
  | cons x rest ih =>
    rw [List.map_cons, List.flatten_cons, List.length_append, List.length_replicate, ih,
      List.map_cons, List.sum_cons]

/-- A store at the end of the filled part of a slice. -/
theorem storeAt_append {α : Type} (done : List α) (p : α) (pad : List α) (v : α) :
    storeAt (done ++ p :: pad) done.length v = Except.ok ((done ++ [v]) ++ pad) := by
  have hlt : done.length < (done ++ p :: pad).length := by
    rw [List.length_append, List.length_cons]; omega
  unfold storeAt
  rw [if_pos hlt]
  congr 1
  simp

/-- The repeat loop on a slice with enough room: `k` more copies are stored. -/
theorem repeatLoop_append {α : Type} (v : α) (k : Nat) :
    ∀ (done pad : List α), k ≤ pad.length →
      repeatLoop k (done ++ pad) done.length v
        = Except.ok (done ++ List.replicate k v ++ pad.drop k, done.length + k) := by
  induction k with
  | zero => intro done pad _; simp [repeatLoop]
  | succ k ih =>
    intro done pad hk
    cases pad with
    | nil => simp at hk
    | cons p pad =>
      rw [List.length_cons] at hk
      have h := ih (done ++ [v]) pad (by omega)
      rw [List.length_append, List.length_singleton] at h
      rw [repeatLoop, storeAt_append]
      simp only []
      rw [h]
      simp only [List.replicate_succ, List.append_assoc, List.singleton_append,
        List.drop_succ_cons, Nat.add_assoc, Nat.add_comm 1 k]

/-- One element of a fill loop on a slice with enough room: the store and the `m - 1`
repeats leave `m` copies. -/
theorem store_repeat {α : Type} (v : α) (m : Nat) (hm : 1 ≤ m) (done pad : List α)
    (hpad : m ≤ pad.length) :
    ∃ s1, storeAt (done ++ pad) done.length v = Except.ok s1
      ∧ repeatLoop (m - 1) s1 (done.length + 1) v
        = Except.ok (done ++ List.replicate m v ++ pad.drop m, done.length + m) := by
  cases pad with
  | nil => simp at hpad; omega
  | cons p pad =>
    rw [List.length_cons] at hpad
    refine ⟨(done ++ [v]) ++ pad, storeAt_append done p pad v, ?_⟩
    have h := repeatLoop_append v (m - 1) (done ++ [v]) pad (by omega)
    rw [List.length_append, List.length_singleton] at h
    rw [h]
    obtain ⟨j, rfl⟩ : ∃ j, m = j + 1 := ⟨m - 1, by omega⟩
    simp only [Nat.add_sub_cancel, List.replicate_succ, List.append_assoc,
      List.singleton_append, List.drop_succ_cons, Nat.add_assoc, Nat.add_comm 1 j]

/-- The fill loop of `Row.Strings` on a slice with enough room. -/
theorem Row_fillLoop_eq (xmlText : List Nat → List Nat) (cells : List Cell) :
    ∀ (done pad : List (List Nat)), (∀ c ∈ cells, 0 ≤ c.RepeatedCols) →
      (cells.map (fun c => (max 1 c.RepeatedCols).toNat)).sum ≤ pad.length →
      Row.fillLoop xmlText cells (done ++ pad) done.length
        = Except.ok (done ++ (cells.map (fun c =>
            List.replicate (max 1 c.RepeatedCols).toNat (cellText xmlText c))).flatten
            ++ pad.drop (cells.map (fun c => (max 1 c.RepeatedCols).toNat)).sum) := by
  induction cells with
  | nil => intro done pad _ _; simp [Row.fillLoop]
  | cons c rest ih =>
    intro done pad hpos hsum
    have hc := hpos c (List.mem_cons_self _ _)
    rw [List.map_cons, List.sum_cons] at hsum
    have hm1 : 1 ≤ (max 1 c.RepeatedCols).toNat := by
      have : 1 ≤ max 1 c.RepeatedCols := le_max_left _ _
      omega
    have hcs : (if c.XMLNameLocal ≠ coveredTableCell then c.PlainText xmlText else [])
        = cellText xmlText c := by
      unfold cellText
      by_cases h : c.XMLNameLocal = coveredTableCell
      · simp [h]
      · simp [h]
    obtain ⟨s1, hs1, hrep⟩ := store_repeat (cellText xmlText c)
      (max 1 c.RepeatedCols).toNat hm1 done pad (by omega)
    have hnext := ih (done ++ List.replicate (max 1 c.RepeatedCols).toNat (cellText xmlText c))
      (pad.drop (max 1 c.RepeatedCols).toNat)
      (fun y hy => hpos y (List.mem_cons_of_mem _ hy))
      (by rw [List.length_drop]; omega)
    rw [List.length_append, List.length_replicate] at hnext
    rw [Row.fillLoop]
    simp only [hcs]
    rw [hs1]
    simp only []
    by_cases h0 : c.RepeatedCols ≠ 0
    · have hk : (c.RepeatedCols - 1).toNat = (max 1 c.RepeatedCols).toNat - 1 := by
        have : max 1 c.RepeatedCols = c.RepeatedCols := max_eq_right (by omega)
        rw [this]; omega
      rw [if_pos h0, hk, hrep]
      simp only []
      rw [hnext]
      simp only [List.map_cons, List.flatten_cons, List.sum_cons, List.append_assoc,
        List.drop_drop]
    · have hz : c.RepeatedCols = 0 := by
        by_contra h; exact h0 h
      have hone : (max 1 c.RepeatedCols).toNat = 1 := by rw [hz]; rfl
      rw [hone] at hrep hnext
      simp only [Nat.sub_self, repeatLoop, Except.ok.injEq, Prod.mk.injEq] at hrep
      rw [if_neg h0, hrep.1, hnext]
      simp only [List.map_cons, List.flatten_cons, List.sum_cons, List.append_assoc,
        List.drop_drop, hone]

/-- The method `Row.Strings` on a row whose repeat counts are not negative and whose width
can be allocated. -/
theorem Row_Strings_eq (maxLen : Nat) (xmlText : List Nat → List Nat) (r : Row)
    (hrep : ∀ c ∈ remainingCells r, 0 ≤ c.RepeatedCols)
    (hmax : (maxLen : Int) < 9223372036854775808) (hsum : columnCount r ≤ (maxLen : Int)) :
    r.Strings maxLen xmlText
      = Except.ok ({ r with Cell := remainingCells r }, rowValue xmlText r) := by
  unfold Row.Strings rowValue
  by_cases h0 : r.Cell.length = 0
  · have hnil : r.Cell = [] := List.length_eq_zero.mp h0
    have hrem : remainingCells r = [] := by
      unfold remainingCells; rw [hnil]; rfl
    rw [if_pos h0, if_pos hnil, hrem, ← hnil]
  · have hne : ¬ (r.Cell = []) := fun h => h0 (by rw [h]; rfl)
    obtain ⟨ht, htake⟩ := trimLoop_eq Cell.IsEmpty r.Cell
    have hcount := countLoop_eq Cell.RepeatedCols (remainingCells r) 0 (le_refl _) hrep
      (by
        have : ((remainingCells r).map (fun c => max 1 c.RepeatedCols)).sum
            = columnCount r := rfl
        rw [this]; omega)
    rw [Int.zero_add] at hcount
    have hN := sum_toNat_max Cell.RepeatedCols (remainingCells r)
    have hnn := sum_max_nonneg Cell.RepeatedCols (remainingCells r)
    have hmk : make maxLen ((remainingCells r).map (fun c => max 1 c.RepeatedCols)).sum
        ([] : List Nat)
        = Except.ok (List.replicate
            ((remainingCells r).map (fun c => (max 1 c.RepeatedCols).toNat)).sum []) := by
      unfold make
      rw [if_pos ⟨hnn, hsum⟩, ← hN, Int.toNat_ofNat]
    have hfill := Row_fillLoop_eq xmlText (remainingCells r) []
      (List.replicate ((remainingCells r).map (fun c => (max 1 c.RepeatedCols).toNat)).sum [])
      hrep (by rw [List.length_replicate])
    rw [List.nil_append, List.nil_append, List.length_nil, List.drop_replicate, Nat.sub_self,
      List.replicate_zero, List.append_nil] at hfill
    rw [if_neg h0, if_neg hne, ht]
    simp only []
    have htake2 : r.Cell.take (List.rdropWhile Cell.IsEmpty r.Cell).length
        = remainingCells r := htake
    rw [htake2, hcount, hmk]
    simp only []
    rw [hfill]
    rfl

/-- The fill loop of `Table.Strings` on a slice with enough room, over rows on which
`Row.Strings` returns. -/
theorem Table_fillLoop_eq (maxLen : Nat) (xmlText : List Nat → List Nat) (rows : List Row)
    (hmax : (maxLen : Int) < 9223372036854775808) :
    ∀ (done pad : List (Option (List (List Nat)))),
      (∀ r ∈ rows, (∀ c ∈ remainingCells r, 0 ≤ c.RepeatedCols)
        ∧ columnCount r ≤ (maxLen : Int)) →
      (rows.map (fun r => (max 1 r.RepeatedRows).toNat)).sum ≤ pad.length →
      Table.fillLoop maxLen xmlText rows (done ++ pad) done.length
        = Except.ok (done ++ (rows.map (fun r =>
            List.replicate (max 1 r.RepeatedRows).toNat (rowValue xmlText r))).flatten
            ++ pad.drop (rows.map (fun r => (max 1 r.RepeatedRows).toNat)).sum) := by
  induction rows with
  | nil => intro done pad _ _; simp [Table.fillLoop]
  | cons r rest ih =>
    intro done pad hrows hsum
    obtain ⟨hr1, hr2⟩ := hrows r (List.mem_cons_self _ _)
    rw [List.map_cons, List.sum_cons] at hsum
    have hm1 : 1 ≤ (max 1 r.RepeatedRows).toNat := by
      have : 1 ≤ max 1 r.RepeatedRows := le_max_left _ _
      omega
    have hk : (r.RepeatedRows - 1).toNat = (max 1 r.RepeatedRows).toNat - 1 := by
      rcases le_total 1 r.RepeatedRows with h | h
      · rw [max_eq_right h]; omega
      · rw [max_eq_left h]; omega
    obtain ⟨s1, hs1, hrep⟩ := store_repeat (rowValue xmlText r)
      (max 1 r.RepeatedRows).toNat hm1 done pad (by omega)
    have hnext := ih (done ++ List.replicate (max 1 r.RepeatedRows).toNat (rowValue xmlText r))
      (pad.drop (max 1 r.RepeatedRows).toNat)
      (fun y hy => hrows y (List.mem_cons_of_mem _ hy))
      (by rw [List.length_drop]; omega)
    rw [List.length_append, List.length_replicate] at hnext
    rw [Table.fillLoop, Row_Strings_eq maxLen xmlText r hr1 hmax hr2]
    simp only []
    rw [hs1]
    simp only []
    rw [hk, hrep]
    simp only []
    rw [hnext]
    simp only [List.map_cons, List.flatten_cons, List.sum_cons, List.append_assoc,
      List.drop_drop]

/-- The method `Table.Strings` on a table whose repeat counts are not negative, whose
height can be allocated and on whose remaining rows `Row.Strings` returns. -/
theorem Table_Strings_eq (maxRows maxLen : Nat) (xmlText : List Nat → List Nat) (t : Table)
    (hrep : ∀ r ∈ remainingRows t, 0 ≤ r.RepeatedRows)
    (hcells : ∀ r ∈ remainingRows t, (∀ c ∈ remainingCells r, 0 ≤ c.RepeatedCols)
      ∧ columnCount r ≤ (maxLen : Int))
    (hmaxLen : (maxLen : Int) < 9223372036854775808)
    (hmaxRows : (maxRows : Int) < 9223372036854775808)
    (hsum : rowCount t ≤ (maxRows : Int)) :
    t.Strings maxRows maxLen xmlText
      = Except.ok ({ t with Row := remainingRows t },
          if t.Row = [] then none else some (tableRows xmlText t)) := by
  unfold Table.Strings
  by_cases h0 : t.Row.length = 0
  · have hnil : t.Row = [] := List.length_eq_zero.mp h0
    have hrem : remainingRows t = [] := by
      unfold remainingRows; rw [hnil]; rfl
    rw [if_pos h0, if_pos hnil, hrem, ← hnil]
  · have hne : ¬ (t.Row = []) := fun h => h0 (by rw [h]; rfl)
    obtain ⟨ht, htake⟩ := trimLoop_eq Row.IsEmpty t.Row
    have hcount := countLoop_eq Row.RepeatedRows (remainingRows t) 0 (le_refl _) hrep
      (by
        have : ((remainingRows t).map (fun r => max 1 r.RepeatedRows)).sum
            = rowCount t := rfl
        rw [this]; omega)
    rw [Int.zero_add] at hcount
    have hN := sum_toNat_max Row.RepeatedRows (remainingRows t)
    have hnn := sum_max_nonneg Row.RepeatedRows (remainingRows t)
    have hmk : make maxRows ((remainingRows t).map (fun r => max 1 r.RepeatedRows)).sum
        (none : Option (List (List Nat)))
        = Except.ok (List.replicate
            ((remainingRows t).map (fun r => (max 1 r.RepeatedRows).toNat)).sum none) := by
      unfold make
      rw [if_pos ⟨hnn, hsum⟩, ← hN, Int.toNat_ofNat]
    have hfill := Table_fillLoop_eq maxLen xmlText (remainingRows t) hmaxLen []
      (List.replicate ((remainingRows t).map (fun r => (max 1 r.RepeatedRows).toNat)).sum
        none)
      hcells (by rw [List.length_replicate])
    rw [List.nil_append, List.nil_append, List.length_nil, List.drop_replicate, Nat.sub_self,
      List.replicate_zero, List.append_nil] at hfill
    rw [if_neg h0, if_neg hne, ht]
    simp only []
    have htake2 : t.Row.take (List.rdropWhile Row.IsEmpty t.Row).length
        = remainingRows t := htake
    rw [htake2, hcount, hmk]
    simp only []
    rw [hfill]
    rfl

theorem rdropWhile_mem {α : Type} (p : α → Bool) (l : List α) (x : α)
    (h : x ∈ l.rdropWhile p) : x ∈ l :=
  List.Subset.trans (List.IsPrefix.subset ( List.rdropWhile_prefix p l)) (List.Subset.refl l) h

theorem rdropWhile_all {α : Type} (p : α → Bool) (l : List α) (h : l.all p = true) :
    l.rdropWhile p = [] := by
  rw [List.rdropWhile_eq_nil_iff]
  intro x hx
  exact List.all_eq_true.mp h x hx

/-! ### C29 -/

/-- C29 (amended): for every ODS row whose cells all have `RepeatedCols >= 0` and for
which the sum of `max(1, RepeatedCols)` over the cells that remain after dropping the
trailing empty cells is at most the largest length `maxLen` (below 2^63) that `make` can
allocate, `Row.Strings` returns the texts of the remaining cells in order, each cell's
text occurring `max(1, RepeatedCols)` consecutive times, with a `covered-table-cell`
contributing the empty string (`rowTexts`; `nil` for a row without cells); the result has
length equal to that sum, and a row with no non-empty cell yields a slice of length 0. -/
theorem Row_Strings_texts (maxLen : Nat) (xmlText : List Nat → List Nat) (r : Row)
    (hrep : ∀ c ∈ r.Cell, 0 ≤ c.RepeatedCols)
    (hmax : (maxLen : Int) < 9223372036854775808) (hsum : columnCount r ≤ (maxLen : Int)) :
    r.Strings maxLen xmlText = Except.ok
        ({ r with Cell := remainingCells r },
         if r.Cell = [] then none else some (rowTexts xmlText r))
    ∧ ((rowTexts xmlText r).length : Int) = columnCount r
    ∧ (r.IsEmpty = true → rowTexts xmlText r = []) := by
  refine ⟨?_, ?_, ?_⟩
  · exact Row_Strings_eq maxLen xmlText r
      (fun c hc => hrep c (rdropWhile_mem Cell.IsEmpty r.Cell c hc)) hmax hsum
  · unfold rowTexts columnCount
    rw [flatten_replicate_length (fun c => (max 1 c.RepeatedCols).toNat) (cellText xmlText),
      sum_toNat_max Cell.RepeatedCols]
  · intro he
    have hnil : remainingCells r = [] := rdropWhile_all Cell.IsEmpty r.Cell he
    unfold rowTexts
    rw [hnil]
    rfl

/-- Witness for C29: `sampleRow` with a largest length of 2^20; the result is `A`, the
empty string of the covered cell, and `B` three times. -/
theorem Row_Strings_texts_witness :
    sampleRow.Strings 1048576 (fun x => x) = Except.ok
        ({ sampleRow with Cell := remainingCells sampleRow },
         if sampleRow.Cell = [] then none else some (rowTexts (fun x => x) sampleRow))
    ∧ rowTexts (fun x => x) sampleRow = [[65], [], [66], [66], [66]]
    ∧ columnCount sampleRow = 5 :=
  ⟨(Row_Strings_texts 1048576 (fun x => x) sampleRow (by decide) (by decide)
    (by decide!)).1, by decide!, by decide!⟩

/-- C29 (counterexample): the two cells of `wideRow` are not empty and have the repeat
count 2^62, so the sum of `max(1, RepeatedCols)` is 2^63; the count `n` of `Row.Strings`
wraps to -2^63 and `make([]string, n)` panics (whatever length can be allocated, here
2^44). -/
theorem Row_Strings_count_wraps :
    (∀ c ∈ wideRow.Cell, 0 ≤ c.RepeatedCols)
    ∧ columnCount wideRow = 9223372036854775808
    ∧ countLoop Cell.RepeatedCols wideRow.Cell 0 = -9223372036854775808
    ∧ (wideRow.Strings 17592186044416 (fun x => x)).map (fun _ => ())
        = Except.error Fault.makeslice := by
  decide!

/-! ### C30 -/

/-- C30 (amended): for every ODS table whose rows all have `RepeatedRows >= 0`, whose
remaining rows (after dropping the trailing empty rows) have cells with
`RepeatedCols >= 0` and a width (sum of `max(1, RepeatedCols)` over the remaining cells)
of at most the largest length `maxLen` that `make` can allocate, and for which the sum of
`max(1, RepeatedRows)` over the remaining rows is at most the largest length `maxRows`
(both below 2^63), `Table.Strings` returns one row of strings per remaining table row in
order (what `Row.Strings` returns for it), each occurring `max(1, RepeatedRows)`
consecutive times; the result has length equal to that sum, and a table with no row
yields nil. -/
theorem Table_Strings_rows (maxRows maxLen : Nat) (xmlText : List Nat → List Nat)
    (t : Table) (hrep : ∀ r ∈ t.Row, 0 ≤ r.RepeatedRows)
    (hcells : ∀ r ∈ remainingRows t, (∀ c ∈ r.Cell, 0 ≤ c.RepeatedCols)
      ∧ columnCount r ≤ (maxLen : Int))
    (hmaxLen : (maxLen : Int) < 9223372036854775808)
    (hmaxRows : (maxRows : Int) < 9223372036854775808)
    (hsum : rowCount t ≤ (maxRows : Int)) :
    t.Strings maxRows maxLen xmlText = Except.ok
        ({ t with Row := remainingRows t },
         if t.Row = [] then none else some (tableRows xmlText t))
    ∧ ((tableRows xmlText t).length : Int) = rowCount t
    ∧ (∀ r ∈ remainingRows t, r.Strings maxLen xmlText
        = Except.ok ({ r with Cell := remainingCells r }, rowValue xmlText r))
    ∧ (t.Row = [] → t.Strings maxRows maxLen xmlText = Except.ok (t, none)) := by
  have hcells2 : ∀ r ∈ remainingRows t, (∀ c ∈ remainingCells r, 0 ≤ c.RepeatedCols)
      ∧ columnCount r ≤ (maxLen : Int) := fun r hr =>
    ⟨fun c hc => (hcells r hr).1 c (rdropWhile_mem Cell.IsEmpty r.Cell c hc), (hcells r hr).2⟩
  refine ⟨?_, ?_, ?_, ?_⟩
  · exact Table_Strings_eq maxRows maxLen xmlText t
      (fun r hr => hrep r (rdropWhile_mem Row.IsEmpty t.Row r hr)) hcells2 hmaxLen hmaxRows hsum
  · unfold tableRows rowCount
    rw [flatten_replicate_length (fun r => (max 1 r.RepeatedRows).toNat) (rowValue xmlText),
      sum_toNat_max Row.RepeatedRows]
  · intro r hr
    exact Row_Strings_eq maxLen xmlText r (hcells2 r hr).1 hmaxLen (hcells2 r hr).2
  · intro hnil
    unfold Table.Strings
    rw [if_pos (by rw [hnil]; rfl)]

/-- Witness for C30: `sampleTable` with largest lengths of 2^20; the row repeated three
times occurs three times, the row without cells is nil, and the trailing empty rows are
dropped. -/
theorem Table_Strings_rows_witness :
    sampleTable.Strings 1048576 1048576 (fun x => x) = Except.ok
        ({ sampleTable with Row := remainingRows sampleTable },
         if sampleTable.Row = [] then none else some (tableRows (fun x => x) sampleTable))
    ∧ tableRows (fun x => x) sampleTable
      = [some [[65], [], [66], [66], [66]], some [[65], [], [66], [66], [66]],
         some [[65], [], [66], [66], [66]], none, some [[67]]]
    ∧ rowCount sampleTable = 5 :=
  ⟨(Table_Strings_rows 1048576 1048576 (fun x => x) sampleTable (by decide) (by decide!)
    (by decide) (by decide) (by decide!)).1, by decide!, by decide!⟩

/-- C30 (counterexample): the one row of `negativeTable` is not repeated
(`RepeatedRows = 0`) and its one cell, not empty, has the repeat count -1: `Row.Strings`
counts -1 cells and `make([]string, -1)` panics inside `Table.Strings`. The two rows of
`tallTable` are not empty and have the repeat count 2^62: the count of `Table.Strings`
wraps to -2^63 and `make([][]string, n)` panics. -/
theorem Table_Strings_panics :
    (∀ r ∈ negativeTable.Row, 0 ≤ r.RepeatedRows)
    ∧ (negativeTable.Strings 17592186044416 17592186044416 (fun x => x)).map (fun _ => ())
        = Except.error Fault.makeslice
    ∧ (∀ r ∈ tallTable.Row, 0 ≤ r.RepeatedRows)
    ∧ (∀ r ∈ tallTable.Row, ∀ c ∈ r.Cell, 0 ≤ c.RepeatedCols)
    ∧ rowCount tallTable = 9223372036854775808
    ∧ (tallTable.Strings 17592186044416 17592186044416 (fun x => x)).map (fun _ => ())
        = Except.error Fault.makeslice := by
  decide!

/-! ### Relative seeks -/

/-- From the start of a sector the loop of `Seek` gives the same result for every number
of rounds that covers the sectors to walk. -/
theorem seekLoop_fuel {ρ : Type} (S : Nat) (hS0 : 0 < S) (hS1 : S < 4294967296) :
    ∀ (f1 f2 : Nat) (r : StreamReader ρ) (y : Nat), r.sizeSector = S →
      r.offsetInSector = 0 → y / S + 1 ≤ f1 → y / S + 1 ≤ f2 → y < 9223372036854775808 →
      StreamReader.seekLoop f1 r (y : Int) = StreamReader.seekLoop f2 r (y : Int) := by
  intro f1
  induction f1 with
  | zero => intro f2 r y _ _ h; exact absurd h (Nat.not_succ_le_zero _)
  | succ f ih =>
    intro f2 r y hr2 hr3 h1 h2 hy
    obtain ⟨g, rfl⟩ : ∃ g, f2 = g + 1 :=
      ⟨f2 - 1, by have := Nat.zero_le (y / S); generalize y / S = q at *; omega⟩
    have hsz : (u32 ((r.sizeSector : Int) - (r.offsetInSector : Int)) : Int) = (S : Int) := by
      rw [hr2, hr3]; unfold u32; omega
    rw [StreamReader.seekLoop, StreamReader.seekLoop]
    simp only [hsz]
    by_cases hc : (y : Int) ≥ (S : Int)
    · have hge : S ≤ y := by omega
      have hq : y / S = (y - S) / S + 1 := Nat.div_eq_sub_div hS0 hge
      have ho : i64 ((y : Int) - (S : Int)) = ((y - S : Nat) : Int) := by
        unfold i64; omega
      simp only [if_pos hc, ho]
      cases index r.sat r.offsetOfSector with
      | none => rfl
      | some next =>
        simp only []
        by_cases he : next = EOFSecID
        · simp only [if_pos he]
        · simp only [if_neg he]
          exact ih g { r with offsetOfSector := next, offsetInSector := 0 } (y - S) hr2 rfl
            (by rw [hq] at h1; omega) (by rw [hq] at h2; omega) (by omega)
    · simp only [if_neg hc]

/-- A walk of `b` bytes from `a` bytes into a sector is the walk of `a + b` bytes from the
start of that sector. -/
theorem seekLoop_merge {ρ : Type} (S : Nat) (hS0 : 0 < S) (hS1 : S < 4294967296)
    (f g : Nat) (r : StreamReader ρ) (a b : Nat) (hr2 : r.sizeSector = S)
    (hr3 : r.offsetInSector = a) (ha : a < S) (hf : (a + b) / S + 1 ≤ f)
    (hg : (a + b) / S + 1 ≤ g) (hb : a + b < 9223372036854775808)
    (hlt : r.offset < r.size) :
    StreamReader.seekLoop f r (b : Int)
      = StreamReader.seekLoop g { r with offsetInSector := 0 } ((a + b : Nat) : Int) := by
  obtain ⟨f, rfl⟩ : ∃ f0, f = f0 + 1 :=
    ⟨f - 1, by have := Nat.zero_le ((a + b) / S); generalize (a + b) / S = q at *; omega⟩
  obtain ⟨g, rfl⟩ : ∃ g0, g = g0 + 1 :=
    ⟨g - 1, by have := Nat.zero_le ((a + b) / S); generalize (a + b) / S = q at *; omega⟩
  have hsize : ¬ (r.size ≤ r.offset) := by omega
  have hszL : (u32 ((r.sizeSector : Int) - (r.offsetInSector : Int)) : Int)
      = (S : Int) - (a : Int) := by
    rw [hr2, hr3]; unfold u32; omega
  have hszR : (u32 ((r.sizeSector : Int) - ((0 : Nat) : Int)) : Int) = (S : Int) := by
    rw [hr2]; unfold u32; omega
  rw [StreamReader.seekLoop, StreamReader.seekLoop]
  simp only [hszL, hszR]
  by_cases hc : a + b < S
  · have hcL : ¬ ((b : Int) ≥ (S : Int) - (a : Int)) := by omega
    have hcR : ¬ (((a + b : Nat) : Int) ≥ (S : Int)) := by omega
    have huL : u32 ((r.offsetInSector : Int) + (u32 (b : Int) : Int)) = a + b := by
      rw [hr3]; unfold u32; omega
    have huR : u32 (((0 : Nat) : Int) + (u32 ((a + b : Nat) : Int) : Int)) = a + b := by
      unfold u32; omega
    simp only [if_neg hcL, if_neg hcR, huL, huR, if_neg hsize]
  · have hge : S ≤ a + b := by omega
    have hcL : (b : Int) ≥ (S : Int) - (a : Int) := by omega
    have hcR : ((a + b : Nat) : Int) ≥ (S : Int) := by omega
    have hoL : i64 ((b : Int) - ((S : Int) - (a : Int))) = ((a + b - S : Nat) : Int) := by
      unfold i64; omega
    have hoR : i64 (((a + b : Nat) : Int) - (S : Int)) = ((a + b - S : Nat) : Int) := by
      unfold i64; omega
    have hq : (a + b) / S = (a + b - S) / S + 1 := Nat.div_eq_sub_div hS0 hge
    simp only [if_pos hcL, if_pos hcR, hoL, hoR]
    cases index r.sat r.offsetOfSector with
    | none => rfl
    | some next =>
      simp only []
      by_cases he : next = EOFSecID
      · simp only [if_pos he]
      · simp only [if_neg he]
        exact seekLoop_fuel S hS0 hS1 f g
          { r with offsetOfSector := next, offsetInSector := 0 } (a + b - S) hr2 rfl
          (by rw [hq] at hf; omega) (by rw [hq] at hg; omega) (by omega)

/-- A `Seek` of the first `a` bytes and then a relative `Seek` of `b` bytes walk the chain
as one `Seek` of `a + b` bytes does; `A` is the offset recorded by the first. -/
theorem seekLoop_compose {ρ : Type} (S : Nat) (hS0 : 0 < S) (hS1 : S < 4294967296) :
    ∀ (f1 f3 : Nat) (r : StreamReader ρ) (a b A : Nat), r.sizeSector = S →
      r.offsetInSector = 0 → r.offsetOfSector ≠ EOFSecID → a / S + 1 ≤ f1 →
      (a + b) / S + 1 ≤ f3 → a ≤ A → ((A + b : Nat) : Int) < r.size →
      r.size < 9223372036854775808 →
      (match StreamReader.seekLoop f1 { r with offset := (A : Int) } (a : Int) with
        | Except.error f => Except.error f
        | Except.ok sk => sk.reader.Seek (b : Int) 1)
        = StreamReader.seekLoop f3 { r with offset := ((A + b : Nat) : Int) }
            ((a + b : Nat) : Int) := by
  intro f1
  induction f1 with
  | zero => intro f3 r a b A _ _ _ h; exact absurd h (Nat.not_succ_le_zero _)
  | succ f ih =>
    intro f3 r a b A hr2 hr3 hne h1 h3 haA hn h63
    rcases r with ⟨sat, start, rd, oos, ois, sz, size, offset, pf⟩
    simp only at hr2 hr3 hne hn h63
    subst hr2 hr3
    have hsz : (u32 ((sz : Int) - ((0 : Nat) : Int)) : Int) = (sz : Int) := by
      unfold u32; omega
    by_cases hc : (a : Int) ≥ (sz : Int)
    · obtain ⟨g, rfl⟩ : ∃ g, f3 = g + 1 :=
        ⟨f3 - 1, by have := Nat.zero_le ((a + b) / sz); generalize (a + b) / sz = q at *; omega⟩
      have hge : sz ≤ a := by omega
      have hcR : ((a + b : Nat) : Int) ≥ (sz : Int) := by omega
      have hq : a / sz = (a - sz) / sz + 1 := Nat.div_eq_sub_div hS0 hge
      have hqR : (a + b) / sz = (a - sz + b) / sz + 1 := by
        rw [Nat.div_eq_sub_div hS0 (by omega)]
        congr 2
        omega
      have ho : i64 ((a : Int) - (sz : Int)) = ((a - sz : Nat) : Int) := by
        unfold i64; omega
      have hoR : i64 (((a + b : Nat) : Int) - (sz : Int)) = ((a - sz + b : Nat) : Int) := by
        unfold i64; omega
      have hi : i64 ((A : Int) + (b : Int)) = ((A + b : Nat) : Int) := by
        unfold i64; omega
      rw [StreamReader.seekLoop, StreamReader.seekLoop]
      simp only [hsz, if_pos hc, if_pos hcR, ho, hoR]
      cases index sat oos with
      | none => rfl
      | some next =>
        simp only []
        by_cases he : next = EOFSecID
        · simp only [if_pos he, StreamReader.Seek, one_ne_zero, if_false, if_true, hi]
        · simp only [if_neg he]
          exact ih g
            { sat := sat, start := start, reader := rd, offsetOfSector := next,
              offsetInSector := 0, sizeSector := sz, size := size, offset := offset,
              sectorPos := pf }
            (a - sz) b A rfl rfl he (by rw [hq] at h1; exact Nat.le_of_succ_le_succ h1)
            (by rw [hqR] at h3; exact Nat.le_of_succ_le_succ h3)
            (Nat.le_trans (Nat.sub_le a sz) haA) hn h63
    · have hlt : a < sz := by omega
      have hb63 : a + b < 9223372036854775808 := by omega
      have hu : u32 (((0 : Nat) : Int) + (u32 (a : Int) : Int)) = a := by
        unfold u32; omega
      have hsize : ¬ (size ≤ (A : Int)) := by omega
      have hi : i64 ((A : Int) + (b : Int)) = ((A + b : Nat) : Int) := by
        unfold i64; omega
      have hfuel : (a + b) / sz + 1 ≤ (b : Int).toNat + 2 := by
        have hx : a + b < sz * (b + 2) := by
          have : b ≤ sz * b := Nat.le_mul_of_pos_left b hS0
          rw [Nat.mul_add]; omega
        have := Nat.div_lt_of_lt_mul hx
        rw [Int.toNat_ofNat]; exact this
      have hm := seekLoop_merge sz hS0 hS1 ((b : Int).toNat + 2) f3
        { sat := sat, start := start, reader := rd, offsetOfSector := oos,
          offsetInSector := a, sizeSector := sz, size := size,
          offset := ((A + b : Nat) : Int), sectorPos := pf }
        a b rfl rfl hlt hfuel h3 hb63 hn
      rw [StreamReader.seekLoop]
      simp only [hsz, if_neg hc, if_neg hsize, hu, StreamReader.Seek, one_ne_zero, if_false,
        if_neg hne, hi]
      exact hm

/-- When the recorded offset is below the declared size, the loop of `Seek` returns the
recorded offset. -/
theorem seekLoop_result {ρ : Type} :
    ∀ (fuel : Nat) (r : StreamReader ρ) (x : Int) (sk : SeekResult (StreamReader ρ)),
      r.offset < r.size → StreamReader.seekLoop fuel r x = Except.ok sk →
      sk.offsetResult = r.offset := by
  intro fuel
  induction fuel with
  | zero => intro r x sk _ h; simp only [StreamReader.seekLoop] at h; cases h
  | succ fuel ih =>
    intro r x sk hlt h
    rw [StreamReader.seekLoop] at h
    dsimp only at h
    by_cases hc : x ≥ (u32 ((r.sizeSector : Int) - (r.offsetInSector : Int)) : Int)
    · rw [if_pos hc] at h
      split at h
      · cases h
      · rename_i next hidx
        by_cases heof : next = EOFSecID
        · rw [if_pos heof] at h
          cases h
          rfl
        · rw [if_neg heof] at h
          exact ih { r with offsetOfSector := next, offsetInSector := 0 } _ sk hlt h
    · rw [if_neg hc] at h
      have hz : ¬ (r.size ≤ r.offset) := by omega
      rw [if_neg hz] at h
      cases h
      rfl

/-! ### C32 -/

/-- C32: relative seek accumulates. For every stream reader with a non-zero sector size
and declared size `n` (an `int64`), and all `a, b >= 0` with `a + b < n`, `Seek(a, 0)`
followed by `Seek(b, 1)` gives what the single `Seek(a + b, 0)` gives: the same returned
offset and error and the same reader state (current sector, in-sector offset, recorded
offset), or the same index panic when the chain leaves the table. When it returns, the
offset returned is `a + b`; and it returns, with a nil error and the cursor `(a + b) mod S`
bytes into sector number `(a + b) div S` of the chain, whenever the chain `ss` from the
start sector is linked and reaches that sector. -/
theorem Seek_relative_accumulates {ρ : Type} (r : StreamReader ρ) (a b : Nat)
    (hS0 : 0 < r.sizeSector) (hS1 : r.sizeSector < 4294967296)
    (hn : ((a + b : Nat) : Int) < r.size) (h63 : r.size < 9223372036854775808) :
    (match r.Seek (a : Int) 0 with
      | Except.error f => Except.error f
      | Except.ok sk => sk.reader.Seek (b : Int) 1) = r.Seek ((a + b : Nat) : Int) 0
    ∧ (∀ sk, r.Seek ((a + b : Nat) : Int) 0 = Except.ok sk →
        sk.offsetResult = ((a + b : Nat) : Int))
    ∧ (∀ ss : List Int, List.Chain' (fun x y => index r.sat x = some y) ss →
        (∀ s ∈ ss, s ≠ EOFSecID) → ss.head? = some r.start →
        (a + b) / r.sizeSector < ss.length →
        r.Seek ((a + b : Nat) : Int) 0 = Except.ok
          { reader := { r with offsetOfSector := ss.getD ((a + b) / r.sizeSector) 0,
                               offsetInSector := (a + b) % r.sizeSector,
                               offset := ((a + b : Nat) : Int) },
            offsetResult := ((a + b : Nat) : Int), err := none }) := by
  have hi : i64 ((a : Int) + (b : Int)) = ((a + b : Nat) : Int) := by
    unfold i64; omega
  refine ⟨?_, ?_, ?_⟩
  · by_cases hst : r.start = EOFSecID
    · simp only [StreamReader.Seek, if_true, if_pos hst, one_ne_zero, if_false, hi]
    · have hdiv : a / r.sizeSector ≤ a := Nat.div_le_self _ _
      have hdiv2 : (a + b) / r.sizeSector ≤ a + b := Nat.div_le_self _ _
      have key := seekLoop_compose r.sizeSector hS0 hS1 ((a : Int).toNat + 2)
        (((a + b : Nat) : Int).toNat + 2)
        { r with offsetOfSector := r.start, offsetInSector := 0 } a b a rfl rfl hst
        (by rw [Int.toNat_ofNat]; exact Nat.add_le_add hdiv (by decide))
        (by rw [Int.toNat_ofNat]; exact Nat.add_le_add hdiv2 (by decide)) (le_refl _) hn h63
      simp only [StreamReader.Seek, if_true, if_neg hst]
      exact key
  · intro sk h
    unfold StreamReader.Seek at h
    simp only [if_true] at h
    by_cases hst : r.start = EOFSecID
    · rw [if_pos hst] at h
      cases h
      rfl
    · rw [if_neg hst] at h
      exact seekLoop_result _ _ _ sk hn h
  · intro ss hlink hne hhead hq
    have h := Seek_chain r ss (a + b) hS0 hS1 hlink hne hhead hq (by omega)
    have hz : ¬ (r.size ≤ ((a + b : Nat) : Int)) := by omega
    rw [if_neg hz] at h
    exact h

/-- Witness for C32: declared size 600, chain 5 -> 6 -> end-of-chain; `Seek(500, 0)` and
`Seek(20, 1)` leave the cursor 8 bytes into sector 6, as `Seek(520, 0)` does. -/
theorem Seek_relative_accumulates_witness :
    (match ((containerOf [-1, -1, -1, -1, -1, 6, EOFSecID] [] (numberedSource 7)).stream_read
        5 600).Seek ((500 : Nat) : Int) 0 with
      | Except.error f => Except.error f
      | Except.ok sk => sk.reader.Seek ((20 : Nat) : Int) 1)
      = ((containerOf [-1, -1, -1, -1, -1, 6, EOFSecID] [] (numberedSource 7)).stream_read
        5 600).Seek ((500 + 20 : Nat) : Int) 0
    ∧ ((containerOf [-1, -1, -1, -1, -1, 6, EOFSecID] [] (numberedSource 7)).stream_read
        5 600).Seek ((500 + 20 : Nat) : Int) 0 = Except.ok
          { reader :=
              { (containerOf [-1, -1, -1, -1, -1, 6, EOFSecID] []
                  (numberedSource 7)).stream_read 5 600 with
                offsetOfSector := 6, offsetInSector := 8, offset := 520 },
            offsetResult := 520, err := none } :=
  have h := Seek_relative_accumulates
    ((containerOf [-1, -1, -1, -1, -1, 6, EOFSecID] [] (numberedSource 7)).stream_read 5 600)
    500 20 (by decide) (by decide) (by decide) (by decide)
  ⟨h.1, h.2.2 [5, 6] (List.chain'_pair.mpr (by decide)) (by decide) rfl (by decide)⟩

/-! ### Seeking, then reading -/

/-- `Read` on a reader whose cursor stands `off` bytes into the first sector of an
in-range chain: the rest of that sector, then the sectors that follow. -/
theorem Read_mid_chain {ρ : Type} [ReadSeeker ρ] (sat : List Int) (S : Nat)
    (posf : Int → Nat → Int) (good : Int → Prop) (Inv : ρ → Prop)
    (At : ρ → Int → Nat → Prop) (D : Int → Nat → Nat → List Nat)
    (hseek : ∀ rd s off, Inv rd → good s → off < S →
      ∃ sk, ReadSeeker.Seek rd (i32 (posf s S + i32 ((off : Nat) : Int))) 0 = Except.ok sk
        ∧ At sk.reader s off)
    (hread : ∀ rd s off (b : List Nat), At rd s off → good s → off < S →
      off + b.length ≤ S →
      ∃ res, ReadSeeker.Read rd b = Except.ok res ∧ res.p = D s off b.length
        ∧ res.n = (b.length : Int) ∧ res.err = none ∧ Inv res.reader)
    (hD : ∀ s off c, good s → off + c ≤ S → (D s off c).length = c)
    (hS0 : 0 < S) (hS1 : S < 2147483648) (hsat : sat.length < 2147483648)
    (s : Int) (rest : List Int) (r : StreamReader ρ) (p : List Nat) (off : Nat)
    (hgood : ∀ x ∈ s :: rest, good x ∧ 0 ≤ x ∧ x < (sat.length : Int))
    (hlink : List.Chain' (fun a b => index sat a = some b) (s :: rest))
    (hr1 : r.sat = sat) (hr2 : r.sizeSector = S) (hr3 : r.sectorPos = posf)
    (hr4 : r.offsetInSector = off) (hr5 : r.offsetOfSector = s) (hoff : off < S)
    (hinv : Inv r.reader)
    (hp1 : off + p.length ≤ S * (rest.length + 1)) (hp2 : p.length < 4294967296) :
    ∃ res, r.Read p = Except.ok res ∧ res.n = (p.length : Int) ∧ res.err = none
      ∧ res.p = if off + p.length ≤ S then D s off p.length
          else D s off (S - off)
            ++ chainBytes (fun x c => D x 0 c) S rest (p.length - (S - off)) := by
  obtain ⟨hg, h0, hlt⟩ := hgood s (List.mem_cons_self _ _)
  obtain ⟨sk, hsk, hat⟩ := hseek r.reader s off hinv hg hoff
  have hsk1 : ReadSeeker.Seek r.reader (i32 (r.sectorPos r.offsetOfSector r.sizeSector
      + i32 ((r.offsetInSector : Nat) : Int))) 0 = Except.ok sk := by
    rw [hr2, hr3, hr4, hr5]; exact hsk
  have hne : ¬ (r.offsetOfSector = EOFSecID) := by rw [hr5]; unfold EOFSecID; omega
  have hRead : r.Read p = StreamReader.readLoop (p.length + 2) { r with reader := sk.reader } p 0 := by
    unfold StreamReader.Read
    simp only [hne, if_false, hsk1]
  rw [hRead]
  by_cases hfit : off + p.length ≤ S
  · rw [if_pos hfit]
    obtain ⟨res, hres, hp, hn, he, _⟩ := hread sk.reader s off p hat hg hoff hfit
    have hc : ¬ (u32 ((u32 (p.length : Int) : Int) - ((0 : Nat) : Int))
        > u32 ((S : Int) - (off : Int))) := by
      unfold u32; omega
    have key := readLoop_final (p.length + 1) { r with reader := sk.reader } p 0
      (by show ¬ (u32 ((u32 (p.length : Int) : Int) - ((0 : Nat) : Int))
            > u32 ((r.sizeSector : Int) - (r.offsetInSector : Int)))
          rw [hr2, hr4]; exact hc) (Nat.zero_le _)
    rw [key]
    simp only [List.drop_zero, hres, he, if_true]
    refine ⟨_, rfl, rfl, rfl, ?_⟩
    have hl : res.p.length = p.length := by rw [hp]; exact hD s off _ hg hfit
    show splice p 0 res.p = _
    unfold splice
    rw [hl, Nat.zero_add, List.drop_length, List.take_zero, List.nil_append, List.append_nil, hp]
  · rw [if_neg hfit]
    cases rest with
    | nil =>
      simp only [List.length_nil, Nat.zero_add, Nat.mul_one] at hp1
      exact absurd hp1 hfit
    | cons t rest =>
      obtain ⟨hlk, hlink1⟩ := List.chain'_cons.mp hlink
      obtain ⟨hgt, ht0, htlt⟩ := hgood t (List.mem_cons_of_mem _ (List.mem_cons_self _ _))
      have hcond : u32 ((u32 (p.length : Int) : Int) - ((0 : Nat) : Int))
          > u32 ((S : Int) - (off : Int)) := by
        unfold u32; omega
      have hu : u32 (((0 : Nat) : Int) + (S : Int) - (off : Int)) = S - off := by
        unfold u32; omega
      have hchunk : ((p.drop 0).take (S - off - 0)).length = S - off := by
        simp only [List.drop_zero, Nat.sub_zero, List.length_take]; omega
      obtain ⟨res, hres, hp, hn, he, hinv1⟩ := hread sk.reader s off
        ((p.drop 0).take (S - off - 0)) hat hg hoff (by rw [hchunk]; omega)
      rw [hchunk] at hp hn
      obtain ⟨sk2, hsk2, hat2⟩ := hseek res.reader t 0 hinv1 hgt hS0
      have hl : res.p.length = S - off := by rw [hp]; exact hD s off _ hg (by omega)
      have hun : u32 (((0 : Nat) : Int) + (u32 res.n : Int)) = S - off := by
        rw [hn]; unfold u32; omega
      have hstep := readLoop_round_next (p.length + 1) { r with reader := sk.reader } p 0
        ((p.drop 0).take (S - off - 0)) res t sk2
        (by show u32 ((u32 (p.length : Int) : Int) - ((0 : Nat) : Int))
              > u32 ((r.sizeSector : Int) - (r.offsetInSector : Int))
            rw [hr2, hr4]; exact hcond)
        (by show slice p 0 (u32 (((0 : Nat) : Int) + (r.sizeSector : Int)
              - (r.offsetInSector : Int))) = _
            rw [hr2, hr4, hu]
            exact slice_eq_some p 0 (S - off) (Nat.zero_le _) (by omega))
        hres he
        (by show ¬ (r.offsetOfSector ≥ i32 (r.sat.length : Int))
            rw [hr1, hr5]; unfold i32; omega)
        (by show index r.sat r.offsetOfSector = some t
            rw [hr1, hr5]; exact hlk)
        (by unfold EOFSecID; omega)
        (by show ReadSeeker.Seek res.reader
              (i32 (r.sectorPos t r.sizeSector + i32 ((0 : Nat) : Int))) 0 = _
            rw [hr2, hr3]; exact hsk2)
      rw [hstep, hun]
      have hpl : (splice p 0 res.p).length = p.length :=
        splice_length p 0 res.p (by rw [hl]; omega)
      obtain ⟨res2, hres2, hn2, he2, hp2'⟩ := readLoop_chain sat S posf good Inv
        (fun rd x => At rd x 0) (fun x c => D x 0 c)
        (fun rd x hi hgx => hseek rd x 0 hi hgx hS0)
        (fun rd x b ha hgx hb0 hb1 => hread rd x 0 b ha hgx hS0 (by omega))
        (fun x c hgx hc => hD x 0 c hgx (by omega))
        hS0 hS1 hsat (t :: rest) (p.length + 1)
        { r with reader := sk2.reader, offsetInSector := 0, offsetOfSector := t }
        (splice p 0 res.p) (S - off)
        (fun x hx => hgood x (List.mem_cons_of_mem _ hx)) hlink1 hr1 hr2 hr3 rfl rfl hat2
        (by rw [hpl]; omega)
        (by rw [hpl]; simp only [List.length_cons] at hp1 ⊢
            rw [Nat.mul_add, Nat.mul_one] at hp1; omega)
        (by rw [hpl]
            have : p.length * 1 ≤ S * p.length := by
              rw [Nat.mul_comm S]; exact Nat.mul_le_mul_left _ hS0
            rw [Nat.mul_add]; omega)
        (by rw [hpl]; exact hp2)
      refine ⟨res2, hres2, ?_, he2, ?_⟩
      · rw [hn2, hpl]
      · rw [hp2', hpl]
        have htk : (splice p 0 res.p).take (S - off) = res.p := by
          have := splice_take p 0 res.p (by rw [hl]; omega)
          rw [hl, Nat.zero_add, List.take_zero, List.nil_append] at this
          exact this
        rw [htk, hp]

/-- Byte `j` of what a read from `off` bytes into the first sector of a chain delivers is
byte `(off + j) mod S` of the sector number `(off + j) div S` of the chain. -/
theorem midBytes_getD (D : Int → Nat → Nat → List Nat) (S : Nat) (hS : 0 < S) (P : Int → Prop)
    (hlen : ∀ s off c, P s → off + c ≤ S → (D s off c).length = c)
    (hpre : ∀ s off c, P s → off + c ≤ S → D s off c = ((D s 0 S).drop off).take c)
    (s : Int) (rest : List Int) (off m j : Nat) (hP : ∀ x ∈ s :: rest, P x) (hoff : off < S)
    (hm : off + m ≤ S * (rest.length + 1)) (hj : j < m) :
    (if off + m ≤ S then D s off m
      else D s off (S - off)
        ++ chainBytes (fun x c => D x 0 c) S rest (m - (S - off))).getD j 0
      = (D ((s :: rest).getD ((off + j) / S) 0) 0 S).getD ((off + j) % S) 0 := by
  have hs := hP s (List.mem_cons_self _ _)
  by_cases hfit : off + m ≤ S
  · have hlt : off + j < S := by omega
    rw [if_pos hfit, hpre s off m hs hfit, getD_take_drop _ _ _ _ hj,
      Nat.div_eq_of_lt hlt, Nat.mod_eq_of_lt hlt, List.getD_cons_zero]
  · rw [if_neg hfit]
    have hl1 : (D s off (S - off)).length = S - off := hlen s off _ hs (by omega)
    by_cases hj1 : j < S - off
    · have hlt : off + j < S := by omega
      rw [List.getD_append _ _ _ _ (by rw [hl1]; exact hj1),
        hpre s off (S - off) hs (by omega), getD_take_drop _ _ _ _ hj1,
        Nat.div_eq_of_lt hlt, Nat.mod_eq_of_lt hlt, List.getD_cons_zero]
    · have hge : S ≤ off + j := by omega
      have hsub : off + j - S = j - (S - off) := by omega
      have hR : m - (S - off) ≤ S * rest.length := by
        rw [Nat.mul_add, Nat.mul_one] at hm; omega
      rw [List.getD_append_right _ _ _ _ (by rw [hl1]; omega), hl1,
        chainBytes_getD (fun x c => D x 0 c) S hS P
          (fun x c hx hc => hlen x 0 c hx (by omega))
          (fun x c hx hc => by
            have := hpre x 0 c hx (by omega)
            rw [List.drop_zero] at this
            exact this)
          rest (m - (S - off)) (j - (S - off))
          (fun x hx => hP x (List.mem_cons_of_mem _ hx)) hR (by omega),
        Nat.div_eq_sub_div hS hge, Nat.mod_eq_sub_mod hge, hsub, List.getD_cons_succ]

/-- An absolute `Seek` to offset `k` followed by a `Read`, on a reader whose in-range chain
from the start sector holds the bytes `k .. k + len(p)`: the cursor lands on sector number
`k div S` of the chain, `k mod S` bytes in, and byte `j` of the result is byte
`(k + j) mod S` of sector number `(k + j) div S` of the chain. -/
theorem Seek_then_Read_chain {ρ : Type} [ReadSeeker ρ] (sat : List Int) (S : Nat)
    (posf : Int → Nat → Int) (good : Int → Prop) (Inv : ρ → Prop)
    (At : ρ → Int → Nat → Prop) (D : Int → Nat → Nat → List Nat)
    (hseek : ∀ rd s off, Inv rd → good s → off < S →
      ∃ sk, ReadSeeker.Seek rd (i32 (posf s S + i32 ((off : Nat) : Int))) 0 = Except.ok sk
        ∧ At sk.reader s off)
    (hread : ∀ rd s off (b : List Nat), At rd s off → good s → off < S →
      off + b.length ≤ S →
      ∃ res, ReadSeeker.Read rd b = Except.ok res ∧ res.p = D s off b.length
        ∧ res.n = (b.length : Int) ∧ res.err = none ∧ Inv res.reader)
    (hD : ∀ s off c, good s → off + c ≤ S → (D s off c).length = c)
    (hpre : ∀ s off c, good s → off + c ≤ S → D s off c = ((D s 0 S).drop off).take c)
    (hS0 : 0 < S) (hS1 : S < 2147483648) (hsat : sat.length < 2147483648)
    (ss : List Int) (r : StreamReader ρ) (k : Nat) (p : List Nat)
    (hgood : ∀ s ∈ ss, good s ∧ 0 ≤ s ∧ s < (sat.length : Int))
    (hlink : List.Chain' (fun a b => index sat a = some b) ss)
    (hr1 : r.sat = sat) (hr2 : r.sizeSector = S) (hr3 : r.sectorPos = posf)
    (hhead : ss.head? = some r.start) (hinv : Inv r.reader)
    (hk : (k : Int) < r.size) (hk63 : k < 9223372036854775808) (hq : k / S < ss.length)
    (hp1 : k + p.length ≤ S * ss.length) (hp2 : p.length < 4294967296) :
    ∃ sk res, r.Seek (k : Int) 0 = Except.ok sk ∧ sk.offsetResult = (k : Int) ∧ sk.err = none
      ∧ sk.reader.offsetOfSector = ss.getD (k / S) 0 ∧ sk.reader.offsetInSector = k % S
      ∧ sk.reader.Read p = Except.ok res ∧ res.n = (p.length : Int) ∧ res.err = none
      ∧ res.p.length = p.length
      ∧ ∀ j, j < p.length →
          res.p.getD j 0 = (D (ss.getD ((k + j) / S) 0) 0 S).getD ((k + j) % S) 0 := by
  subst hr2
  have hne : ∀ s ∈ ss, s ≠ EOFSecID := by
    intro s hs; have := (hgood s hs).2.1; unfold EOFSecID; omega
  have hsk := Seek_chain r ss k hS0 (by omega)
    (by rw [hr1]; exact hlink) hne hhead hq hk63
  rw [if_neg (by omega)] at hsk
  have hdrop : ss.drop (k / r.sizeSector) = ss.getD (k / r.sizeSector) 0 :: ss.drop (k / r.sizeSector + 1) := by
    rw [List.drop_eq_getElem_cons hq, List.getD_eq_getElem _ _ hq]
  have hmemd : ∀ x ∈ ss.getD (k / r.sizeSector) 0 :: ss.drop (k / r.sizeSector + 1), x ∈ ss := by
    intro x hx; rw [← hdrop] at hx; exact List.mem_of_mem_drop hx
  have hlinkd : List.Chain' (fun a b => index sat a = some b)
      (ss.getD (k / r.sizeSector) 0 :: ss.drop (k / r.sizeSector + 1)) := by
    rw [← hdrop]; exact hlink.suffix (List.drop_suffix _ _)
  have hmod : k % r.sizeSector < r.sizeSector := Nat.mod_lt _ hS0
  have hkk : r.sizeSector * (k / r.sizeSector) + k % r.sizeSector = k := Nat.div_add_mod k r.sizeSector
  have hp1d : k % r.sizeSector + p.length ≤ r.sizeSector * ((ss.drop (k / r.sizeSector + 1)).length + 1) := by
    obtain ⟨d, hd⟩ : ∃ d, ss.length = k / r.sizeSector + (d + 1) := ⟨ss.length - k / r.sizeSector - 1, by omega⟩
    have hl : (ss.drop (k / r.sizeSector + 1)).length + 1 = d + 1 := by
      rw [List.length_drop, hd]; omega
    rw [hl]
    rw [hd, Nat.mul_add] at hp1
    generalize r.sizeSector * (k / r.sizeSector) = x at *
    generalize r.sizeSector * (d + 1) = y at *
    omega
  obtain ⟨res, hres, hn, he, hp⟩ := Read_mid_chain sat r.sizeSector posf good Inv At D hseek hread hD hS0
    hS1 hsat (ss.getD (k / r.sizeSector) 0) (ss.drop (k / r.sizeSector + 1))
    { r with offsetOfSector := ss.getD (k / r.sizeSector) 0, offsetInSector := k % r.sizeSector,
             offset := (k : Int) } p (k % r.sizeSector)
    (fun x hx => hgood x (hmemd x hx)) hlinkd hr1 rfl hr3 rfl rfl hmod hinv hp1d hp2
  refine ⟨_, res, hsk, rfl, rfl, rfl, rfl, hres, hn, he, ?_, ?_⟩
  · rw [hp]
    by_cases hfit : k % r.sizeSector + p.length ≤ r.sizeSector
    · rw [if_pos hfit]
      exact hD _ _ _ (hgood _ (hmemd _ (List.mem_cons_self _ _))).1 hfit
    · rw [if_neg hfit, List.length_append,
        hD _ _ _ (hgood _ (hmemd _ (List.mem_cons_self _ _))).1 (by omega),
        chainBytes_length (fun x c => D x 0 c) r.sizeSector good
          (fun x c hx hc => hD x 0 c hx (by omega)) _ _
          (fun x hx => (hgood x (hmemd x (List.mem_cons_of_mem _ hx))).1)
          (by rw [Nat.mul_add, Nat.mul_one] at hp1d; omega)]
      omega
  · intro j hj
    rw [hp, midBytes_getD D r.sizeSector hS0 good hD hpre _ _ _ _ j
      (fun x hx => (hgood x (hmemd x hx)).1) hmod hp1d hj, ← hdrop]
    have e1 : (k + j) / r.sizeSector = k / r.sizeSector + (k % r.sizeSector + j) / r.sizeSector := by
      rw [← Nat.mul_add_div hS0, ← Nat.add_assoc, hkk]
    have e2 : (k + j) % r.sizeSector = (k % r.sizeSector + j) % r.sizeSector := by
      rw [← Nat.mul_add_mod r.sizeSector (k / r.sizeSector) (k % r.sizeSector + j), ← Nat.add_assoc, hkk]
    rw [e1, e2]
    congr 2
    rw [List.getD_eq_getElem?_getD, List.getD_eq_getElem?_getD, List.getElem?_drop]

theorem ext_getD (l1 l2 : List Nat) (hlen : l1.length = l2.length)
    (h : ∀ j, j < l1.length → l1.getD j 0 = l2.getD j 0) : l1 = l2 := by
  apply List.ext_getElem hlen
  intro j h1 h2
  have := h j h1
  rw [List.getD_eq_getElem _ _ h1, List.getD_eq_getElem _ _ h2] at this
  exact this

theorem take_drop_take_drop (l : List Nat) (a off c S : Nat) (h : off + c ≤ S) :
    (l.drop (a + off)).take c = (((l.drop a).take S).drop off).take c := by
  rw [List.drop_take, List.take_take, List.drop_drop, min_eq_left (by omega)]

/-- Seek and read inside a regular stream over an in-memory source, below 2 GiB. -/
theorem regular_Seek_then_Read (o : Ole BytesReader) (size : Nat) (s0 : Int) (ss : List Int)
    (k : Nat) (p : List Nat) (hL : o.Lsector = 512) (hhead : ss.head? = some s0)
    (hrange : ∀ s ∈ ss, 0 ≤ s ∧ s < (o.SecID.length : Int))
    (hlink : List.Chain' (fun a b => index o.SecID a = some b) ss)
    (hk : k < size) (hsz : size < 4294967296) (hq : k / 512 < ss.length)
    (hsrc : ∀ s ∈ ss, 512 + 512 * s + 512 ≤ (o.reader.s.length : Int))
    (hp1 : k + p.length ≤ 512 * ss.length)
    (hb1 : p.length < 4294967296) (hb2 : o.SecID.length < 2147483648)
    (hb3 : ∀ s ∈ ss, 512 + 512 * s < 2147483648) :
    ∃ sk res, (o.stream_read s0 size).Seek (k : Int) 0 = Except.ok sk
      ∧ sk.reader.Read p = Except.ok res ∧ res.n = (p.length : Int) ∧ res.err = none
      ∧ res.p = (((ss.map (sectorBytes o.reader.s)).flatten).drop k).take p.length := by
  have hgood : ∀ s ∈ ss, (0 ≤ s ∧ 512 + 512 * s + 512 ≤ (o.reader.s.length : Int)
      ∧ 512 + 512 * s < 2147483648) ∧ 0 ≤ s ∧ s < (o.SecID.length : Int) :=
    fun s hs => ⟨⟨(hrange s hs).1, hsrc s hs, hb3 s hs⟩, hrange s hs⟩
  obtain ⟨sk, res, h1, _, _, _, _, h2, h3, h4, h5, h6⟩ := Seek_then_Read_chain o.SecID 512
    sector_pos
    (fun s => 0 ≤ s ∧ 512 + 512 * s + 512 ≤ (o.reader.s.length : Int) ∧ 512 + 512 * s < 2147483648)
    (fun rd => rd.s = o.reader.s)
    (fun rd s off => rd.s = o.reader.s ∧ rd.i = 512 + 512 * s + (off : Int))
    (fun s off c => (o.reader.s.drop ((512 + 512 * s).toNat + off)).take c)
    (by
      intro rd s off hinv ⟨h0, h1, h2⟩ hoff
      have hpos : i32 (sector_pos s 512 + i32 ((off : Nat) : Int)) = 512 + 512 * s + (off : Int) := by
        unfold sector_pos i32; omega
      rw [hpos]
      have hnn : ¬ (512 + 512 * s + (off : Int) < 0) := by omega
      refine ⟨_, rfl, ?_⟩
      simp only [BytesReader.Seek, true_or, if_true, hnn, if_false, and_true]
      exact hinv)
    (by
      intro rd s off b ⟨hs, hi⟩ ⟨h0, h1, h2⟩ hoff hb1
      have hlt : ¬ (rd.i ≥ (rd.s.length : Int)) := by rw [hi, hs]; omega
      have hto : rd.i.toNat = (512 + 512 * s).toNat + off := by rw [hi]; omega
      have hlen : ((rd.s.drop rd.i.toNat).take b.length).length = b.length := by
        simp only [List.length_take, List.length_drop]
        rw [hto, hs]; omega
      refine ⟨_, rfl, ?_, ?_, ?_, ?_⟩
      · simp only [BytesReader.Read, hlt, if_false, hlen, List.drop_length, List.append_nil]
        rw [hto, hs]
      · simp only [BytesReader.Read, hlt, if_false, hlen]
      · simp only [BytesReader.Read, hlt, if_false]
      · simp only [BytesReader.Read, hlt, if_false]
        exact hs)
    (by
      intro s off c ⟨h0, h1, h2⟩ hc
      simp only [List.length_take, List.length_drop]
      omega)
    (by
      intro s off c _ hc
      show _ = List.take c (List.drop off (List.take 512 (List.drop (_ + 0) _)))
      rw [Nat.add_zero]
      exact take_drop_take_drop _ _ _ _ _ hc)
    (by norm_num) (by norm_num) hb2 ss (o.stream_read s0 size) k p hgood hlink rfl hL rfl hhead
    rfl (by show ((k : Nat) : Int) < ((size : Nat) : Int); omega) (by omega) hq hp1 hb1
  refine ⟨sk, res, h1, h2, h3, h4, ?_⟩
  have hF : ∀ R, R ≤ 512 * ss.length →
      ((ss.map (sectorBytes o.reader.s)).flatten).take R
        = chainBytes (fun s c => (o.reader.s.drop (512 + 512 * s).toNat).take c) 512 ss R :=
    fun R _ => (chainBytes_sectorBytes o.reader.s ss R
      (fun s hs => ⟨(hrange s hs).1, hsrc s hs⟩)).symm
  have hDl : ∀ s c, (0 ≤ s ∧ 512 + 512 * s + 512 ≤ (o.reader.s.length : Int)) → c ≤ 512 →
      ((o.reader.s.drop (512 + 512 * s).toNat).take c).length = c := by
    intro s c ⟨h0, h1⟩ hc
    simp only [List.length_take, List.length_drop]
    omega
  have hFlen : 512 * ss.length ≤ ((ss.map (sectorBytes o.reader.s)).flatten).length := by
    have h := congrArg List.length (hF (512 * ss.length) (le_refl _))
    rw [chainBytes_length _ 512 _ hDl ss _ (fun s hs => ⟨(hrange s hs).1, hsrc s hs⟩)
      (le_refl _), List.length_take] at h
    omega
  apply ext_getD
  · rw [h5, List.length_take, List.length_drop]; omega
  · intro j hj
    rw [h5] at hj
    rw [h6 j hj, getD_take_drop _ _ _ _ hj,
      ← getD_take _ (k + p.length) (k + j) (by omega), hF _ hp1,
      chainBytes_getD _ 512 (by norm_num) _ hDl
        (by intro s c _ hc; rw [List.take_take, min_eq_left hc])
        ss _ _ (fun s hs => ⟨(hrange s hs).1, hsrc s hs⟩) hp1 (by omega)]
    rfl

/-- Seek and read inside a mini stream over an in-memory source, below 2 GiB. -/
theorem mini_Seek_then_Read (o : Ole BytesReader) (size : Nat) (m0 rootStart : Int)
    (ms rs : List Int) (k : Nat) (p : List Nat) (hL : o.Lsector = 512) (hLs : o.Lssector = 64)
    (hmhead : ms.head? = some m0)
    (hmrange : ∀ m ∈ ms, 0 ≤ m ∧ m < (o.SSecID.length : Int))
    (hmlink : List.Chain' (fun a b => index o.SSecID a = some b) ms)
    (hk : k < size) (hsz : size < 4294967296) (hq : k / 64 < ms.length)
    (hrhead : rs.head? = some rootStart)
    (hrrange : ∀ r ∈ rs, 0 ≤ r ∧ r < (o.SecID.length : Int))
    (hrlink : List.Chain' (fun a b => index o.SecID a = some b) rs)
    (hcover : ∀ m ∈ ms, (64 * m).toNat / 512 < rs.length)
    (hsrc : ∀ r ∈ rs, 512 + 512 * r + 512 ≤ (o.reader.s.length : Int))
    (hp1 : k + p.length ≤ 64 * ms.length)
    (hb1 : p.length < 4294967296) (hb2 : 64 * o.SSecID.length < 2147483648)
    (hb3 : ∀ r ∈ rs, 512 + 512 * r < 2147483648) :
    ∃ sk res, (o.short_stream_read m0 size rootStart).Seek (k : Int) 0 = Except.ok sk
      ∧ sk.reader.Read p = Except.ok res ∧ res.n = (p.length : Int) ∧ res.err = none
      ∧ res.p.length = p.length
      ∧ ∀ j, j < p.length →
          res.p.getD j 0 = o.reader.s.getD
            (512 + 512 * rs.getD ((64 * ms.getD ((k + j) / 64) 0
                + (((k + j) % 64 : Nat) : Int)) / 512).toNat 0
              + (64 * ms.getD ((k + j) / 64) 0 + (((k + j) % 64 : Nat) : Int)) % 512).toNat 0 := by
  -- the reader of the root mini-stream, as `short_stream_read` builds it
  let isz : Int := (u32 (((u32 (o.SSecID.length : Int) : Nat) : Int) * (o.Lssector : Int)) : Int)
  have hisz : isz = 64 * (o.SSecID.length : Int) := by
    show (u32 (((u32 (o.SSecID.length : Int) : Nat) : Int) * (o.Lssector : Int)) : Int) = _
    rw [hLs]; unfold u32; omega
  let good : Int → Prop := fun m =>
    0 ≤ m ∧ m < (o.SSecID.length : Int) ∧ (64 * m).toNat / 512 < rs.length
  let Inv : StreamReader BytesReader → Prop := fun rd =>
    rd.sat = o.SecID ∧ rd.start = rootStart ∧ rd.sizeSector = 512 ∧ rd.size = isz
      ∧ rd.sectorPos = sector_pos ∧ rd.reader.s = o.reader.s
  let At : StreamReader BytesReader → Int → Nat → Prop := fun rd m off =>
    Inv rd ∧ rd.offsetOfSector = rs.getD ((64 * m).toNat / 512) 0
      ∧ rd.offsetInSector = (64 * m).toNat % 512 + off
  let D : Int → Nat → Nat → List Nat := fun m off c =>
    (o.reader.s.drop ((512 + 512 * rs.getD ((64 * m).toNat / 512) 0
      + (((64 * m).toNat % 512 : Nat) : Int)).toNat + off)).take c
  have hrne : ∀ s ∈ rs, s ≠ EOFSecID := by
    intro s hs; have := (hrrange s hs).1; unfold EOFSecID; omega
  have hseek : ∀ rd s off, Inv rd → good s → off < 64 →
      ∃ sk, ReadSeeker.Seek rd (i32 (short_sector_pos s 64 + i32 ((off : Nat) : Int))) 0
          = Except.ok sk ∧ At sk.reader s off := by
    intro rd m off ⟨i1, i2, i3, i4, i5, i6⟩ ⟨g0, g1, g2⟩ hoff
    have hpos : i32 (short_sector_pos m 64 + i32 ((off : Nat) : Int))
        = ((((64 * m).toNat + off : Nat) : Nat) : Int) := by
      unfold short_sector_pos i32; omega
    rw [hpos]
    have hdiv : ((64 * m).toNat + off) / 512 = (64 * m).toNat / 512 := by omega
    have hmod : ((64 * m).toNat + off) % 512 = (64 * m).toNat % 512 + off := by omega
    have hsk := Seek_chain rd rs ((64 * m).toNat + off) (by rw [i3]; norm_num)
      (by rw [i3]; norm_num) (by rw [i1]; exact hrlink) hrne (by rw [i2]; exact hrhead)
      (by rw [i3, hdiv]; exact g2) (by omega)
    have hnot : ¬ (rd.size ≤ ((((64 * m).toNat + off : Nat) : Nat) : Int)) := by
      rw [i4, hisz]; omega
    rw [if_neg hnot] at hsk
    refine ⟨_, hsk, ⟨i1, i2, i3, i4, i5, i6⟩, ?_, ?_⟩
    · show rs.getD (((64 * m).toNat + off) / rd.sizeSector) 0 = _
      rw [i3, hdiv]
    · show ((64 * m).toNat + off) % rd.sizeSector = _
      rw [i3, hmod]
  have hread : ∀ rd s off (b : List Nat), At rd s off → good s → off < 64 →
      off + b.length ≤ 64 →
      ∃ res, ReadSeeker.Read rd b = Except.ok res ∧ res.p = D s off b.length
        ∧ res.n = (b.length : Int) ∧ res.err = none ∧ Inv res.reader := by
    intro rd m off b ⟨⟨i1, i2, i3, i4, i5, i6⟩, a1, a2⟩ ⟨g0, g1, g2⟩ hoff hb64
    have hmem := getD_mem_of_lt rs _ g2
    obtain ⟨r0, _⟩ := hrrange _ hmem
    have hs := hsrc _ hmem
    have h3 := hb3 _ hmem
    have hne : ¬ (rd.offsetOfSector = EOFSecID) := by rw [a1]; unfold EOFSecID; omega
    have hpos : i32 (rd.sectorPos rd.offsetOfSector rd.sizeSector + i32 (rd.offsetInSector : Int))
        = 512 + 512 * rs.getD ((64 * m).toNat / 512) 0
          + (((64 * m).toNat % 512 + off : Nat) : Int) := by
      rw [i5, i3, a1, a2]; unfold sector_pos i32; omega
    have hnn : ¬ (512 + 512 * rs.getD ((64 * m).toNat / 512) 0
        + (((64 * m).toNat % 512 + off : Nat) : Int) < 0) := by omega
    have hcond : ¬ (u32 ((u32 (b.length : Int) : Int) - ((0 : Nat) : Int))
        > u32 ((rd.sizeSector : Int) - (rd.offsetInSector : Int))) := by
      rw [i3, a2]; unfold u32; omega
    have hlt : ¬ (512 + 512 * rs.getD ((64 * m).toNat / 512) 0
        + (((64 * m).toNat % 512 + off : Nat) : Int) ≥ (rd.reader.s.length : Int)) := by
      rw [i6]; omega
    have hto : (512 + 512 * rs.getD ((64 * m).toNat / 512) 0
        + (((64 * m).toNat % 512 + off : Nat) : Int)).toNat
        = (512 + 512 * rs.getD ((64 * m).toNat / 512) 0
          + (((64 * m).toNat % 512 : Nat) : Int)).toNat + off := by omega
    have hlen : ((rd.reader.s.drop ((512 + 512 * rs.getD ((64 * m).toNat / 512) 0
        + (((64 * m).toNat % 512 : Nat) : Int)).toNat + off)).take b.length).length
          = b.length := by
      simp only [List.length_take, List.length_drop]
      rw [i6]; omega
    have heq : StreamReader.Read rd b = Except.ok
        { reader := { rd with
            reader := { rd.reader with i := 512 + 512 * rs.getD ((64 * m).toNat / 512) 0
              + (((64 * m).toNat % 512 + off : Nat) : Int) + (b.length : Int) },
            offsetInSector := u32 ((rd.offsetInSector : Int) + (u32 (b.length : Int) : Int)) },
          p := D m off b.length, n := (b.length : Int), err := none } := by
      unfold StreamReader.Read
      rw [if_neg hne]
      simp only [hpos, ReadSeeker.Seek, BytesReader.Seek, true_or, if_true, hnn, if_false]
      have key := fun (R : StreamReader BytesReader) (e1 : R.sizeSector = rd.sizeSector)
          (e2 : R.offsetInSector = rd.offsetInSector) =>
        readLoop_final (b.length + 1) R b 0 (by rw [e1, e2]; exact hcond) (Nat.zero_le _)
      refine (key _ ?_ ?_).trans ?_
      · rfl
      · rfl
      simp only [ReadSeeker.Read, BytesReader.Read, hlt, if_false, List.drop_zero, hto, hlen,
        List.drop_length, List.append_nil, if_true, splice, List.take_zero, List.nil_append,
        Nat.zero_add]
      rw [i6]
    exact ⟨_, heq, rfl, rfl, rfl, i1, i2, i3, i4, i5, i6⟩
  have hD : ∀ s off c, good s → off + c ≤ 64 → (D s off c).length = c := by
    intro m off c ⟨g0, g1, g2⟩ hc
    have hmem := getD_mem_of_lt rs _ g2
    obtain ⟨r0, _⟩ := hrrange _ hmem
    have hs := hsrc _ hmem
    show ((o.reader.s.drop _).take c).length = c
    simp only [List.length_take, List.length_drop]
    omega
  have hpre : ∀ s off c, good s → off + c ≤ 64 →
      D s off c = ((D s 0 64).drop off).take c := by
    intro m off c _ hc
    show _ = List.take c (List.drop off (List.take 64 (List.drop (_ + 0) _)))
    rw [Nat.add_zero]
    exact take_drop_take_drop _ _ _ _ _ hc
  have hgood : ∀ s ∈ ms, good s ∧ 0 ≤ s ∧ s < (o.SSecID.length : Int) :=
    fun s hs => ⟨⟨(hmrange s hs).1, (hmrange s hs).2, hcover s hs⟩, hmrange s hs⟩
  obtain ⟨sk, res, h1, _, _, _, _, h2, h3, h4, h5, h6⟩ := Seek_then_Read_chain o.SSecID 64
    short_sector_pos good Inv At D hseek hread hD hpre (by norm_num) (by norm_num) (by omega)
    ms (o.short_stream_read m0 size rootStart) k p hgood hmlink rfl hLs rfl hmhead
    ⟨rfl, rfl, hL, rfl, rfl, rfl⟩ (by show ((k : Nat) : Int) < ((size : Nat) : Int); omega)
    (by omega) hq hp1 hb1
  refine ⟨sk, res, h1, h2, h3, h4, h5, ?_⟩
  intro j hj
  rw [h6 j hj]
  have hjm : (k + j) / 64 < ms.length := by omega
  have hmem : ms.getD ((k + j) / 64) 0 ∈ ms := getD_mem_of_lt ms _ hjm
  obtain ⟨m0', m1'⟩ := hmrange _ hmem
  have hq2 : ((64 * ms.getD ((k + j) / 64) 0 + (((k + j) % 64 : Nat) : Int)) / 512).toNat
      = (64 * ms.getD ((k + j) / 64) 0).toNat / 512 := by omega
  rw [hq2]
  have hcv := hcover _ hmem
  obtain ⟨r0, _⟩ := hrrange _ (getD_mem_of_lt rs _ hcv)
  show ((o.reader.s.drop _).take 64).getD ((k + j) % 64) 0 = _
  rw [getD_take_drop _ _ _ _ (Nat.mod_lt _ (by norm_num))]
  congr 1
  omega

/-- A `Read` that fits the current sector, on a reader over an in-memory source that stands
at index `i`, when the position of the cursor wraps to a negative `int32`: the `Seek` of
the source fails, its error is dropped, and the bytes from index `i` on are delivered. -/
theorem Read_fit_wrapped (r : StreamReader BytesReader) (s : List Nat) (i a m : Nat)
    (p : List Nat) (hrd : r.reader = BytesReader.mk s (i : Int)) (hi : i + m ≤ s.length)
    (hi2 : i < s.length)
    (hS : r.sizeSector = 512) (hofs : r.offsetInSector = a) (hpf : r.sectorPos = sector_pos)
    (hneg : i32 (sector_pos r.offsetOfSector 512 + i32 (a : Int)) < 0)
    (hne : r.offsetOfSector ≠ EOFSecID) (hp : p.length = m) (hap : a + m ≤ 512) :
    r.Read p = Except.ok
      { reader := { r with reader := BytesReader.mk s ((i : Int) + (m : Int)),
                           offsetInSector := a + m },
        p := (s.drop i).take m, n := (m : Int), err := none } := by
  rcases r with ⟨sat0, start, ⟨s0, i0⟩, oos, ois, S, size, offset, pf⟩
  simp only [BytesReader.mk.injEq] at hrd hS hofs hpf hneg hne
  obtain ⟨rfl, rfl⟩ := hrd
  subst hS hofs hpf
  have hcond : ¬ (u32 ((u32 (p.length : Int) : Int) - ((0 : Nat) : Int))
      > u32 (((512 : Nat) : Int) - (ois : Int))) := by
    rw [hp]; unfold u32; omega
  have hlt : ¬ ((i : Int) ≥ (s0.length : Int)) := by omega
  have hlen : ((s0.drop i).take m).length = m := by
    simp only [List.length_take, List.length_drop]
    omega
  have hu : u32 ((ois : Int) + (u32 (m : Int) : Int)) = ois + m := by
    unfold u32; omega
  unfold StreamReader.Read
  rw [if_neg hne]
  simp only [ReadSeeker.Seek, BytesReader.Seek, true_or, if_true, hneg]
  refine (readLoop_final (p.length + 1) _ p 0 hcond (Nat.zero_le _)).trans ?_
  simp only [ReadSeeker.Read, BytesReader.Read, hlt, if_false, List.drop_zero, hp, hlen,
    List.drop_of_length_le (le_of_eq hp), List.append_nil, if_true, splice, List.take_zero,
    List.nil_append, Nat.zero_add, hu, Int.toNat_ofNat]

theorem sectorBytes_far_second (a : Nat) (n : Nat) (sid : Int) (h0 : 0 ≤ sid)
    (h1 : (512 + 512 * sid).toNat + 1 ≤ n) :
    ((sectorBytes (a :: List.replicate n 0) sid).drop 1).take 1 = [0] := by
  obtain ⟨k, hk⟩ : ∃ k, (512 + 512 * sid).toNat = k + 1 := ⟨(512 + 512 * sid).toNat - 1, by omega⟩
  unfold sectorBytes
  rw [hk, List.drop_succ_cons, List.drop_replicate, List.take_replicate, List.drop_replicate,
    List.take_replicate]
  have : min 1 (min 512 (n - k) - 1) = 1 := by omega
  rw [this]
  rfl

/-! ### C31 -/

/-- C31 (amended): absolute seek inside a stream. In a container with 512-byte sectors and
64-byte mini-sectors, take a fresh regular reader on an in-range linked chain
`ss = s0, s1, ...` of the sector table, or a fresh mini reader on an in-range linked chain
`ms = m0, m1, ...` of the mini-FAT, with declared size `n` (a `uint32`) and an offset
`k < n` whose sector is in the chain. `Seek(k, 0)` returns `(k, nil)` and leaves the cursor
at sector number `k div S` of the chain, `k mod S` bytes in. A following `Read` into a
buffer of `m` bytes, when the chain holds the bytes `k .. k + m` and the quantities fit the
32-bit types of the code (`m < 2^32`, fewer than `2^31` table entries and
`512 + 512*s < 2^31` for the sectors of a regular chain; `64 * len(SSecID) < 2^31` and a
linked in-range root chain `rs` below offset `2^31` that reaches every mini-sector, for a
mini chain), over an in-memory source that holds the sectors, returns `(m, nil)` and the
bytes `k .. k + m` of the stream: for a regular stream those of the concatenated sector
payloads, for a mini stream byte `j` is the source byte at offset
`512 + 512*r_q + (o mod 512)` with `o = 64*m_((k+j) div 64) + ((k+j) mod 64)` and
`q = o div 512`. -/
theorem Seek_then_Read_delivers_stream (o : Ole BytesReader) (size k : Nat) (p : List Nat)
    (hL : o.Lsector = 512) (hLs : o.Lssector = 64) (hk : k < size)
    (hsz : size < 4294967296) :
    (∀ (s0 : Int) (ss : List Int), ss.head? = some s0 →
      (∀ s ∈ ss, 0 ≤ s ∧ s < (o.SecID.length : Int)) →
      List.Chain' (fun a b => index o.SecID a = some b) ss → k / 512 < ss.length →
      ∃ sk, (o.stream_read s0 size).Seek (k : Int) 0 = Except.ok sk
        ∧ sk.offsetResult = (k : Int) ∧ sk.err = none
        ∧ sk.reader.offsetOfSector = ss.getD (k / 512) 0
        ∧ sk.reader.offsetInSector = k % 512
        ∧ ((∀ s ∈ ss, 512 + 512 * s + 512 ≤ (o.reader.s.length : Int)) →
            k + p.length ≤ 512 * ss.length → p.length < 4294967296 →
            o.SecID.length < 2147483648 → (∀ s ∈ ss, 512 + 512 * s < 2147483648) →
            ∃ res, sk.reader.Read p = Except.ok res ∧ res.n = (p.length : Int)
              ∧ res.err = none
              ∧ res.p = (((ss.map (sectorBytes o.reader.s)).flatten).drop k).take p.length))
    ∧ (∀ (m0 rootStart : Int) (ms rs : List Int), ms.head? = some m0 →
      (∀ m ∈ ms, 0 ≤ m ∧ m < (o.SSecID.length : Int)) →
      List.Chain' (fun a b => index o.SSecID a = some b) ms → k / 64 < ms.length →
      ∃ sk, (o.short_stream_read m0 size rootStart).Seek (k : Int) 0 = Except.ok sk
        ∧ sk.offsetResult = (k : Int) ∧ sk.err = none
        ∧ sk.reader.offsetOfSector = ms.getD (k / 64) 0
        ∧ sk.reader.offsetInSector = k % 64
        ∧ (rs.head? = some rootStart →
            (∀ r ∈ rs, 0 ≤ r ∧ r < (o.SecID.length : Int)) →
            List.Chain' (fun a b => index o.SecID a = some b) rs →
            (∀ m ∈ ms, (64 * m).toNat / 512 < rs.length) →
            (∀ r ∈ rs, 512 + 512 * r + 512 ≤ (o.reader.s.length : Int)) →
            k + p.length ≤ 64 * ms.length → p.length < 4294967296 →
            64 * o.SSecID.length < 2147483648 → (∀ r ∈ rs, 512 + 512 * r < 2147483648) →
            ∃ res, sk.reader.Read p = Except.ok res ∧ res.n = (p.length : Int)
              ∧ res.err = none ∧ res.p.length = p.length
              ∧ ∀ j, j < p.length →
                  res.p.getD j 0 = o.reader.s.getD
                    (512 + 512 * rs.getD ((64 * ms.getD ((k + j) / 64) 0
                        + (((k + j) % 64 : Nat) : Int)) / 512).toNat 0
                      + (64 * ms.getD ((k + j) / 64) 0
                        + (((k + j) % 64 : Nat) : Int)) % 512).toNat 0)) := by
  have hne : ∀ (l : List Int) (n : Nat), (∀ s ∈ l, 0 ≤ s ∧ s < (n : Int)) →
      ∀ s ∈ l, s ≠ EOFSecID := by
    intro l n h s hs; have := (h s hs).1; unfold EOFSecID; omega
  constructor
  · intro s0 ss hhead hrange hlink hq
    have hsk := Seek_chain (o.stream_read s0 size) ss k
      (by show 0 < o.Lsector; rw [hL]; norm_num)
      (by show o.Lsector < 4294967296; rw [hL]; norm_num) hlink (hne _ _ hrange) hhead
      (by show k / o.Lsector < ss.length; rw [hL]; exact hq) (by omega)
    rw [if_neg (by show ¬ (((size : Nat) : Int) ≤ (k : Int)); omega)] at hsk
    refine ⟨_, hsk, rfl, rfl, ?_, ?_, ?_⟩
    · show ss.getD (k / o.Lsector) 0 = _
      rw [hL]
    · show k % o.Lsector = _
      rw [hL]
    · intro hsrc hp1 hb1 hb2 hb3
      obtain ⟨sk, res, h1, h2, h3, h4, h5⟩ := regular_Seek_then_Read o size s0 ss k p hL hhead
        hrange hlink hk hsz hq hsrc hp1 hb1 hb2 hb3
      rw [hsk] at h1
      cases h1
      exact ⟨res, h2, h3, h4, h5⟩
  · intro m0 rootStart ms rs hmhead hmrange hmlink hq
    have hsk := Seek_chain (o.short_stream_read m0 size rootStart) ms k
      (by show 0 < o.Lssector; rw [hLs]; norm_num)
      (by show o.Lssector < 4294967296; rw [hLs]; norm_num) hmlink (hne _ _ hmrange) hmhead
      (by show k / o.Lssector < ms.length; rw [hLs]; exact hq) (by omega)
    rw [if_neg (by show ¬ (((size : Nat) : Int) ≤ (k : Int)); omega)] at hsk
    refine ⟨_, hsk, rfl, rfl, ?_, ?_, ?_⟩
    · show ms.getD (k / o.Lssector) 0 = _
      rw [hLs]
    · show k % o.Lssector = _
      rw [hLs]
    · intro hrhead hrrange hrlink hcover hsrc hp1 hb1 hb2 hb3
      obtain ⟨sk, res, h1, h2, h3, h4, h5, h6⟩ := mini_Seek_then_Read o size m0 rootStart ms rs
        k p hL hLs hmhead hmrange hmlink hk hsz hq hrhead hrrange hrlink hcover hsrc hp1 hb1
        hb2 hb3
      rw [hsk] at h1
      cases h1
      exact ⟨res, h2, h3, h4, h5, h6⟩

/-- C31 (counterexample): the chain made of sector 4194303 is in range of the table and
held in full by the source (at offsets 2^31 .. 2^31 + 512, all bytes 0), and the declared
size is 2. `Seek(1, 0)` returns `(1, nil)`, and the `Read` of one byte that follows returns
the byte 1 found at source offset 0, whereas byte 1 of the sector is 0 and byte 1 of what a
`Read` of two bytes from the start delivers is 0: `sector_pos` wraps to -2^31, the `Seek`
of the source fails and the source is read from where it stands. -/
theorem Seek_then_Read_differs_beyond_2GiB :
    (0 ≤ (4194303 : Int) ∧ (4194303 : Int) < (farContainer.SecID.length : Int))
    ∧ 512 + 512 * (4194303 : Int) + 512 ≤ (farContainer.reader.s.length : Int)
    ∧ observeSeek ((farContainer.stream_read 4194303 2).Seek 1 0) = Except.ok (1, none)
    ∧ seekThenRead (farContainer.stream_read 4194303 2) 1 0 [0] = Except.ok (1, none, [1])
    ∧ observe ((farContainer.stream_read 4194303 2).Read [0, 0]) = Except.ok (2, none, [1, 0])
    ∧ ((sectorBytes farContainer.reader.s 4194303).drop 1).take 1 = [0] := by
  have hlen : (1 :: List.replicate 2147484159 0).length = 2147484160 := by
    rw [List.length_cons, List.length_replicate]
  have ht1 : ((1 :: List.replicate 2147484159 0).drop 0).take 1 = [1] := rfl
  have ht2 : ((1 :: List.replicate 2147484159 0).drop 0).take 2 = [1, 0] := by
    rw [List.drop_zero, show (2147484159 : Nat) = 2147484158 + 1 from rfl,
      List.replicate_succ]
    rfl
  have hsk := Seek_chain (farContainer.stream_read 4194303 2) [4194303] 1
    (by show 0 < 512; norm_num) (by show 512 < 4294967296; norm_num)
    (List.chain'_singleton _)
    (by intro s hs; rw [List.mem_singleton] at hs; rw [hs]; unfold EOFSecID; norm_num)
    rfl (by show 1 / 512 < 1; norm_num) (by norm_num)
  rw [if_neg (by show ¬ (((2 : Nat) : Int) ≤ ((1 : Nat) : Int)); norm_num), Nat.cast_one]
    at hsk
  have hrd := Read_fit_wrapped
    { farContainer.stream_read 4194303 2 with
      offsetOfSector := [4194303].getD (1 / 512) 0, offsetInSector := 1 % 512, offset := 1 }
    (1 :: List.replicate 2147484159 0) 0 1 1 [0] rfl (by rw [hlen]; norm_num)
    (by rw [hlen]; norm_num) rfl rfl rfl
    (by show i32 (sector_pos 4194303 512 + i32 ((1 : Nat) : Int)) < 0
        unfold sector_pos i32; norm_num)
    (by show (4194303 : Int) ≠ EOFSecID; unfold EOFSecID; norm_num) rfl (by norm_num)
  have hfull := Read_fit_wrapped (farContainer.stream_read 4194303 2)
    (1 :: List.replicate 2147484159 0) 0 0 2 [0, 0] rfl (by rw [hlen]; norm_num)
    (by rw [hlen]; norm_num) rfl rfl rfl
    (by show i32 (sector_pos 4194303 512 + i32 ((0 : Nat) : Int)) < 0
        unfold sector_pos i32; norm_num)
    (by show (4194303 : Int) ≠ EOFSecID; unfold EOFSecID; norm_num) rfl (by norm_num)
  rw [ht1] at hrd
  rw [ht2] at hfull
  refine ⟨⟨by norm_num, ?_⟩, ?_, ?_, ?_, ?_, ?_⟩
  · rw [farContainer_SecID_length]; norm_num
  · rw [farContainer_source_length]; norm_num
  · rw [hsk]; rfl
  · unfold seekThenRead
    rw [hsk]
    dsimp only
    exact (congrArg observe hrd).trans rfl
  · rw [hfull]; rfl
  · rw [farContainer_source]
    exact sectorBytes_far_second 1 2147484159 4194303 (by norm_num) (by omega)

set_option maxRecDepth 100000 in
/-- Witness for C31: on the stream of declared size 600 on the chain 5 -> 6 ->
end-of-chain, `Seek(500, 0)` and a `Read` of 20 bytes give the last 12 bytes of sector 5
and the first 8 of sector 6; on the mini stream of declared size 50 at mini-sector 0 (root
mini-stream on sectors 2 -> 3), `Seek(10, 0)` and a `Read` of 20 bytes give the source
bytes at offsets 1546 .. 1566. -/
theorem Seek_then_Read_delivers_stream_witness :
    (∃ sk, ((containerOf [-1, -1, -1, -1, -1, 6, EOFSecID] []
          (numberedSource 7)).stream_read 5 600).Seek ((500 : Nat) : Int) 0 = Except.ok sk
      ∧ sk.offsetResult = ((500 : Nat) : Int) ∧ sk.err = none
      ∧ sk.reader.offsetOfSector = [5, 6].getD (500 / 512) 0
      ∧ sk.reader.offsetInSector = 500 % 512
      ∧ ∃ res, sk.reader.Read (List.replicate 20 0) = Except.ok res
          ∧ res.n = ((List.replicate 20 0).length : Int) ∧ res.err = none
          ∧ res.p = ((([5, 6].map (sectorBytes (containerOf [-1, -1, -1, -1, -1, 6, EOFSecID]
              [] (numberedSource 7)).reader.s)).flatten).drop 500).take
                (List.replicate 20 0).length)
    ∧ (∃ sk, ((containerOf [-1, -1, 3, EOFSecID] [EOFSecID]
          (numberedSource 4)).short_stream_read 0 50 2).Seek ((10 : Nat) : Int) 0 = Except.ok sk
      ∧ sk.offsetResult = ((10 : Nat) : Int) ∧ sk.err = none
      ∧ sk.reader.offsetOfSector = [0].getD (10 / 64) 0
      ∧ sk.reader.offsetInSector = 10 % 64
      ∧ ∃ res, sk.reader.Read (List.replicate 20 0) = Except.ok res
          ∧ res.n = ((List.replicate 20 0).length : Int) ∧ res.err = none
          ∧ res.p.length = (List.replicate 20 0).length) := by
  obtain ⟨sk, h1, h2, h3, h4, h5, h6⟩ := (Seek_then_Read_delivers_stream
    (containerOf [-1, -1, -1, -1, -1, 6, EOFSecID] [] (numberedSource 7)) 600 500
    (List.replicate 20 0) rfl rfl (by decide) (by decide)).1 5 [5, 6] rfl (by decide)
    (List.chain'_pair.mpr (by decide)) (by decide)
  obtain ⟨tk, g1, g2, g3, g4, g5, g6⟩ := (Seek_then_Read_delivers_stream
    (containerOf [-1, -1, 3, EOFSecID] [EOFSecID] (numberedSource 4)) 50 10
    (List.replicate 20 0) rfl rfl (by decide) (by decide)).2 0 2 [0] [2, 3] rfl (by decide)
    (List.chain'_singleton _) (by decide)
  refine ⟨⟨sk, h1, h2, h3, h4, h5, h6 (by decide!) (by decide) (by decide) (by decide)
    (by decide)⟩, tk, g1, g2, g3, g4, g5, ?_⟩
  obtain ⟨res, r1, r2, r3, r4, _⟩ := g6 rfl (by decide) (List.chain'_pair.mpr (by decide))
    (by decide) (by decide!) (by decide) (by decide) (by decide) (by decide)
  exact ⟨res, r1, r2, r3, r4⟩

/-! ### C33 -/

/-- C33 (evaluation of the code): on a fresh reader (declared size 600, chain
5 -> 6 -> end-of-chain) a `Read` of 10 bytes returns `(10, nil)` and the ten bytes of
sector 5, and leaves the cursor 10 bytes into the sector; the `Seek(0, 1)` that follows
returns the offset 0, not 10: `Read` does not advance the recorded offset. -/
theorem Seek_current_after_Read_returns_zero :
    (match ((containerOf [-1, -1, -1, -1, -1, 6, EOFSecID] [] (numberedSource 7)).stream_read
        5 600).Read (List.replicate 10 0) with
      | Except.error f => Except.error f
      | Except.ok res =>
        match res.reader.Seek 0 1 with
        | Except.error f => Except.error f
        | Except.ok sk =>
          Except.ok ((res.n, res.err, res.p), (res.reader.offsetInSector, res.reader.offset),
            (sk.offsetResult, sk.err)))
      = Except.ok ((10, none, List.replicate 10 5), (10, 0), (0, none)) := by
  decide!

/-! ### C34 -/

/-- C34 (evaluation of the code): the source ends 100 bytes into sector 0. A `Read` with a
512-byte buffer (filled with 7) on a fresh reader at sector 0 returns `(512, nil)`; the
source delivered 100 bytes, and the other 412 bytes of the buffer are as they were. -/
theorem Read_reports_bytes_not_obtained :
    truncatedSource.length = 612
    ∧ (BytesReader.Read (BytesReader.mk truncatedSource 512) (List.replicate 512 7)).n = 100
    ∧ (match ((containerOf [EOFSecID] [] truncatedSource).stream_read 0 512).Read
        (List.replicate 512 7) with
      | Except.error f => Except.error f
      | Except.ok res => Except.ok (res.n, res.err, res.p.take 102, res.p.drop 510))
      = Except.ok (512, none, List.replicate 100 9 ++ [7, 7], [7, 7]) := by
  decide!

/-! ### C35 -/

/-- C35 (evaluation of the code): the table has the one entry `sat[0] = 1`, so the chain
leaves the table after sector 0; the source holds the sectors 0 and 1. On a fresh reader
at sector 0 a `Read` with a 1100-byte buffer returns 1024 bytes and `io.EOF`, and leaves
the cursor at the start of sector 1; the next `Read`, with a 10-byte buffer and no `Seek`
in between, returns `(10, nil)` and ten bytes of sector 1. -/
theorem Read_after_EOF_returns_data :
    (match ((containerOf [1] [] (numberedSource 2)).stream_read 0 2000).Read
        (List.replicate 1100 0) with
      | Except.error f => Except.error f
      | Except.ok res1 =>
        match res1.reader.Read (List.replicate 10 0) with
        | Except.error f => Except.error f
        | Except.ok res2 =>
          Except.ok ((res1.n, res1.err),
            (res1.reader.offsetOfSector, res1.reader.offsetInSector),
            (res2.n, res2.err, res2.p)))
      = Except.ok ((1024, some GoError.EOF), (1, 0), (10, none, List.replicate 10 1)) := by
  decide!

/-! ### Interleaved calls -/

/-- The loop of `Seek` does not look at the underlying reader. -/
theorem seekLoop_reader {ρ : Type} (rd : ρ) :
    ∀ (fuel : Nat) (r : StreamReader ρ) (x : Int),
      StreamReader.seekLoop fuel { r with reader := rd } x
        = match StreamReader.seekLoop fuel r x with
          | Except.error f => Except.error f
          | Except.ok sk => Except.ok { reader := { sk.reader with reader := rd },
                                        offsetResult := sk.offsetResult, err := sk.err } := by
  intro fuel
  induction fuel with
  | zero => intro r x; rfl
  | succ fuel ih =>
    intro r x
    rw [StreamReader.seekLoop, StreamReader.seekLoop]
    dsimp only
    by_cases hc : x ≥ (u32 ((r.sizeSector : Int) - (r.offsetInSector : Int)) : Int)
    · simp only [if_pos hc]
      cases index r.sat r.offsetOfSector with
      | none => rfl
      | some next =>
        dsimp only
        by_cases heof : next = EOFSecID
        · simp only [if_pos heof]
        · simp only [if_neg heof]
          exact ih { r with offsetOfSector := next, offsetInSector := 0 } _
    · simp only [if_neg hc]
      by_cases hz : r.size ≤ r.offset
      · simp only [if_pos hz]
      · simp only [if_neg hz]

/-- `Seek` does not look at the underlying reader. -/
theorem Seek_reader {ρ : Type} (rd : ρ) (r : StreamReader ρ) (x w : Int) :
    StreamReader.Seek { r with reader := rd } x w
      = match r.Seek x w with
        | Except.error f => Except.error f
        | Except.ok sk => Except.ok { reader := { sk.reader with reader := rd },
                                      offsetResult := sk.offsetResult, err := sk.err } := by
  unfold StreamReader.Seek
  dsimp only
  by_cases hw : w = 0
  · simp only [if_pos hw]
    by_cases he : r.start = EOFSecID
    · simp only [if_pos he]
    · simp only [if_neg he]
      exact seekLoop_reader rd _
        { r with offsetOfSector := r.start, offsetInSector := 0, offset := x } _
  · simp only [if_neg hw]
    by_cases he : r.offsetOfSector = EOFSecID
    · simp only [if_pos he]
    · simp only [if_neg he]
      exact seekLoop_reader rd _ { r with offset := i64 (r.offset + x) } _

/-- A call on a regular reader whose `Read` starts on a settled cursor returns the same
wherever the source stands, and leaves the same reader but for the index of the source. -/
theorem run_moved_regular (a : StreamReader BytesReader) (c : Call) (i : Int)
    (h : ∀ p, c = Call.read p → a.settled = true) :
    (∃ f, c.run a = Except.error f ∧ c.run (OverSource.moved a i) = Except.error f)
    ∨ (∃ a1 s j, c.run a = Except.ok (a1, s)
        ∧ c.run (OverSource.moved a i) = Except.ok (OverSource.moved a1 j, s)) := by
  have hm : OverSource.moved a i = { a with reader := { a.reader with i := i } } := rfl
  rw [hm]
  cases c with
  | read p =>
    have hpos := of_decide_eq_true (h p rfl)
    rcases Read_source_index_cases a i p hpos with ⟨ha, hb⟩ | hab
    · right
      refine ⟨a, Seen.read 0 (some GoError.EOF) p, i, ?_, ?_⟩
      · simp only [Call.run, hb, seenRead]
      · simp only [Call.run, ha, seenRead]
        rfl
    · cases hr : a.Read p with
      | error f =>
        left
        exact ⟨f, by simp only [Call.run, hr, seenRead],
          by simp only [Call.run, hab, hr, seenRead]⟩
      | ok res =>
        right
        exact ⟨res.reader, Seen.read res.n res.err res.p, res.reader.reader.i,
          by simp only [Call.run, hr, seenRead],
          by simp only [Call.run, hab, hr, seenRead]; rfl⟩
  | seek x w =>
    have hsk := Seek_reader ({ a.reader with i := i } : BytesReader) a x w
    cases hr : a.Seek x w with
    | error f =>
      rw [hr] at hsk
      left
      exact ⟨f, by simp only [Call.run, hr, seenSeek], by simp only [Call.run, hsk, seenSeek]⟩
    | ok sk =>
      rw [hr] at hsk
      have hrr : sk.reader.reader = a.reader := (Seek_static _ _ _ _ hr).2.2.2.2.2
      right
      refine ⟨sk.reader, Seen.seek sk.offsetResult sk.err, i,
        by simp only [Call.run, hr, seenSeek], ?_⟩
      simp only [Call.run, hsk, seenSeek]
      show _ = Except.ok (({ sk.reader with reader := { sk.reader.reader with i := i } } :
        StreamReader BytesReader), _)
      rw [hrr]

theorem same_result_cases (e : Except Fault (ReadResult (StreamReader (StreamReader BytesReader)))) :
    (∃ f, e = Except.error f ∧ e = Except.error f)
    ∨ (∃ res j, e = Except.ok res
        ∧ e = Except.ok { res with reader := { res.reader with
              reader := { res.reader.reader with
                reader := { res.reader.reader.reader with i := j } } } }) := by
  cases e with
  | error f => left; exact ⟨f, rfl, rfl⟩
  | ok res => right; exact ⟨res, res.reader.reader.reader.i, rfl, rfl⟩

/-- The loop of `Read` of a mini stream reader, when the reader of the root mini-stream is
settled: the same result wherever the source stands, and the same reader but for the index
of the source. -/
theorem mini_readLoop_moved (fuel : Nat)
    (B : StreamReader (StreamReader BytesReader)) (i1 : Int) (p : List Nat) (readed : Nat)
    (hpos : B.reader.offsetOfSector = EOFSecID
      ∨ 0 ≤ i32 (B.reader.sectorPos B.reader.offsetOfSector B.reader.sizeSector
                  + i32 (B.reader.offsetInSector : Int))) :
    (∃ f, StreamReader.readLoop fuel B p readed = Except.error f
        ∧ StreamReader.readLoop fuel
            { B with reader := { B.reader with reader := { B.reader.reader with i := i1 } } }
            p readed = Except.error f)
    ∨ (∃ res j, StreamReader.readLoop fuel B p readed = Except.ok res
        ∧ StreamReader.readLoop fuel
            { B with reader := { B.reader with reader := { B.reader.reader with i := i1 } } }
            p readed
          = Except.ok { res with reader := { res.reader with
              reader := { res.reader.reader with
                reader := { res.reader.reader.reader with i := j } } } }) := by
  cases fuel with
  | zero => left; exact ⟨Fault.fuel, rfl, rfl⟩
  | succ fuel =>
    rw [StreamReader.readLoop, StreamReader.readLoop]
    dsimp only
    by_cases hc : u32 ((u32 (p.length : Int) : Int) - (readed : Int))
        > u32 ((B.sizeSector : Int) - (B.offsetInSector : Int))
    · simp only [if_pos hc]
      cases slice p readed (u32 ((readed : Int) + (B.sizeSector : Int) - (B.offsetInSector : Int))) with
      | none => left; exact ⟨Fault.sliceBounds, rfl, rfl⟩
      | some chunk =>
        dsimp only
        rcases Read_source_index_cases B.reader i1 chunk hpos with ⟨ha, hb⟩ | hab
        · simp only [ReadSeeker.Read, ha, hb]
          right
          exact ⟨_, i1, rfl, rfl⟩
        · simp only [ReadSeeker.Read, hab]
          exact same_result_cases _
    · simp only [if_neg hc]
      cases slice p readed p.length with
      | none => left; exact ⟨Fault.sliceBounds, rfl, rfl⟩
      | some chunk =>
        dsimp only
        rcases Read_source_index_cases B.reader i1 chunk hpos with ⟨ha, hb⟩ | hab
        · simp only [ReadSeeker.Read, ha, hb]
          right
          exact ⟨_, i1, rfl, rfl⟩
        · simp only [ReadSeeker.Read, hab]
          exact same_result_cases _

/-- A call on a mini reader whose `Read` starts on a settled cursor returns the same
wherever the source stands, and leaves the same reader but for the index of the source. -/
theorem run_moved_mini (a : StreamReader (StreamReader BytesReader)) (c : Call) (i : Int)
    (h : ∀ p, c = Call.read p → a.miniSettled = true) :
    (∃ f, c.run a = Except.error f ∧ c.run (OverSource.moved a i) = Except.error f)
    ∨ (∃ a1 s j, c.run a = Except.ok (a1, s)
        ∧ c.run (OverSource.moved a i) = Except.ok (OverSource.moved a1 j, s)) := by
  have hm : OverSource.moved a i
      = { a with reader := { a.reader with reader := { a.reader.reader with i := i } } } := rfl
  rw [hm]
  cases c with
  | read p =>
    have hs := h p rfl
    by_cases he : a.offsetOfSector = EOFSecID
    · right
      refine ⟨a, Seen.read 0 (some GoError.EOF) p, i, ?_, ?_⟩
      · simp only [Call.run, StreamReader.Read, if_pos he, seenRead]
      · simp only [Call.run, StreamReader.Read, if_pos he, seenRead]
        rfl
    · have hsk := Seek_reader ({ a.reader.reader with i := i } : BytesReader) a.reader
        (i32 (a.sectorPos a.offsetOfSector a.sizeSector + i32 (a.offsetInSector : Int))) 0
      unfold StreamReader.miniSettled at hs
      simp only [he, decide_False, Bool.false_or] at hs
      cases hr : a.reader.Seek
          (i32 (a.sectorPos a.offsetOfSector a.sizeSector + i32 (a.offsetInSector : Int))) 0 with
      | error f =>
        rw [hr] at hsk
        left
        exact ⟨f,
          by simp only [Call.run, StreamReader.Read, if_neg he, ReadSeeker.Seek, hr, seenRead],
          by simp only [Call.run, StreamReader.Read, if_neg he, ReadSeeker.Seek, hsk, seenRead]⟩
      | ok sk =>
        rw [hr] at hsk hs
        have hrr : a.reader.reader = sk.reader.reader :=
          ((Seek_static _ _ _ _ hr).2.2.2.2.2).symm
        have hpos := of_decide_eq_true hs
        have e0 : (Call.read p).run a
            = seenRead (StreamReader.readLoop (p.length + 2) { a with reader := sk.reader } p 0) := by
          simp only [Call.run, StreamReader.Read, if_neg he, ReadSeeker.Seek, hr]
        have e1 : (Call.read p).run
              { a with reader := { a.reader with reader := { a.reader.reader with i := i } } }
            = seenRead (StreamReader.readLoop (p.length + 2)
                ({ a with reader := { sk.reader with
                    reader := { sk.reader.reader with i := i } } } :
                  StreamReader (StreamReader BytesReader)) p 0) := by
          simp only [Call.run, StreamReader.Read, if_neg he, ReadSeeker.Seek, hsk]
          rw [hrr]
        rw [e0, e1]
        rcases mini_readLoop_moved (p.length + 2) { a with reader := sk.reader } i p 0 hpos
          with ⟨f, h1, h2⟩ | ⟨res, j, h1, h2⟩
        · left
          exact ⟨f, by rw [h1]; rfl, (congrArg seenRead h2).trans rfl⟩
        · right
          exact ⟨res.reader, Seen.read res.n res.err res.p, j, by rw [h1]; rfl,
            (congrArg seenRead h2).trans rfl⟩
  | seek x w =>
    have hsk := Seek_reader
      ({ a.reader with reader := { a.reader.reader with i := i } } : StreamReader BytesReader)
      a x w
    cases hr : a.Seek x w with
    | error f =>
      rw [hr] at hsk
      left
      exact ⟨f, by simp only [Call.run, hr, seenSeek], by simp only [Call.run, hsk, seenSeek]⟩
    | ok sk =>
      rw [hr] at hsk
      have hrr : sk.reader.reader = a.reader := (Seek_static _ _ _ _ hr).2.2.2.2.2
      right
      refine ⟨sk.reader, Seen.seek sk.offsetResult sk.err, i,
        by simp only [Call.run, hr, seenSeek], ?_⟩
      simp only [Call.run, hsk, seenSeek]
      show _ = Except.ok (({ sk.reader with reader := { sk.reader.reader with
        reader := { sk.reader.reader.reader with i := i } } } :
          StreamReader (StreamReader BytesReader)), _)
      rw [hrr]

/-- Calls on a second reader between the calls on a first one change nothing for the
first, when a call on the first returns the same wherever the source stands. -/
theorem interleave_alone {α β : Type} [ReadSeeker α] [ReadSeeker β] [OverSource α]
    [OverSource β] (settled : StreamReader α → Bool)
    (hlaw : ∀ (a : StreamReader α) (i j : Int),
      OverSource.moved (OverSource.moved a i) j = OverSource.moved a j)
    (hstep : ∀ (a : StreamReader α) (c : Call) (i : Int),
      (∀ p, c = Call.read p → settled a = true) →
      (∃ f, c.run a = Except.error f ∧ c.run (OverSource.moved a i) = Except.error f)
      ∨ (∃ a1 s j, c.run a = Except.ok (a1, s)
          ∧ c.run (OverSource.moved a i) = Except.ok (OverSource.moved a1 j, s))) :
    ∀ (steps : List (Call ⊕ Call)) (A : StreamReader α) (B : StreamReader β) (i : Int),
      settledRun settled A (callsOnFirst steps) = true →
      (∀ obs, interleave (OverSource.moved A i) B steps = Except.ok obs →
        alone A (callsOnFirst steps) = Except.ok obs)
      ∧ (∀ f, alone A (callsOnFirst steps) = Except.error f →
        ∃ g, interleave (OverSource.moved A i) B steps = Except.error g) := by
  intro steps
  induction steps with
  | nil =>
    intro A B i _
    constructor
    · intro obs h
      simp only [interleave, Except.ok.injEq] at h
      subst h
      rfl
    · intro f h
      simp only [callsOnFirst, alone] at h
      cases h
  | cons st rest ih =>
    intro A B i hset
    cases st with
    | inl c =>
      simp only [callsOnFirst, settledRun, Bool.and_eq_true] at hset
      obtain ⟨hs1, hs2⟩ := hset
      have hc : ∀ p, c = Call.read p → settled A = true := by
        intro p hp; subst hp; exact hs1
      rcases hstep A c i hc with ⟨f, h1, h2⟩ | ⟨a1, s, j, h1, h2⟩
      · constructor
        · intro obs h
          simp only [interleave, h2] at h
          cases h
        · intro g _
          exact ⟨f, by simp only [interleave, h2]⟩
      · rw [h1] at hs2
        obtain ⟨ih1, ih2⟩ := ih a1
          (OverSource.moved B (OverSource.sourceIndex (OverSource.moved a1 j))) j hs2
        constructor
        · intro obs h
          simp only [interleave, h2] at h
          simp only [callsOnFirst, alone, h1]
          cases hi : interleave (OverSource.moved a1 j)
              (OverSource.moved B (OverSource.sourceIndex (OverSource.moved a1 j))) rest with
          | error f => rw [hi] at h; cases h
          | ok outs =>
            rw [hi] at h
            rw [ih1 outs hi]
            exact h
        · intro f h
          simp only [callsOnFirst, alone, h1] at h
          cases ha : alone a1 (callsOnFirst rest) with
          | error g =>
            obtain ⟨g1, hg1⟩ := ih2 g ha
            exact ⟨g1, by simp only [interleave, h2, hg1]⟩
          | ok outs => rw [ha] at h; cases h
    | inr c =>
      simp only [callsOnFirst] at hset ⊢
      cases hb : c.run B with
      | error f =>
        constructor
        · intro obs h
          simp only [interleave, hb] at h
          cases h
        · intro g _
          exact ⟨f, by simp only [interleave, hb]⟩
      | ok r =>
        obtain ⟨b1, s⟩ := r
        obtain ⟨ih1, ih2⟩ := ih A b1 (OverSource.sourceIndex b1) hset
        constructor
        · intro obs h
          simp only [interleave, hb, hlaw] at h
          exact ih1 obs h
        · intro f h
          obtain ⟨g, hg⟩ := ih2 f h
          exact ⟨g, by simp only [interleave, hb, hlaw]; exact hg⟩

/-- A `Read` that fits the current sector, on a regular reader over an in-memory source,
when the position `x` of the cursor is not negative and the source holds the bytes: the
source is moved to `x` and the bytes from there on are delivered. -/
theorem Read_fit (r : StreamReader BytesReader) (s : List Nat) (i0 : Int) (x a m : Nat)
    (p : List Nat) (hrd : r.reader = BytesReader.mk s i0) (hx : x + m ≤ s.length)
    (hx2 : x < s.length)
    (hS : r.sizeSector = 512) (hofs : r.offsetInSector = a) (hpf : r.sectorPos = sector_pos)
    (hpos : i32 (sector_pos r.offsetOfSector 512 + i32 (a : Int)) = (x : Int))
    (hne : r.offsetOfSector ≠ EOFSecID) (hp : p.length = m) (hap : a + m ≤ 512) :
    r.Read p = Except.ok
      { reader := { r with reader := BytesReader.mk s ((x : Int) + (m : Int)),
                           offsetInSector := a + m },
        p := (s.drop x).take m, n := (m : Int), err := none } := by
  rcases r with ⟨sat0, start, ⟨s0, i1⟩, oos, ois, S, size, offset, pf⟩
  simp only [BytesReader.mk.injEq] at hrd hS hofs hpf hpos hne
  obtain ⟨rfl, rfl⟩ := hrd
  subst hS hofs hpf
  have hcond : ¬ (u32 ((u32 (p.length : Int) : Int) - ((0 : Nat) : Int))
      > u32 (((512 : Nat) : Int) - (ois : Int))) := by
    rw [hp]; unfold u32; omega
  have hnn : ¬ ((x : Int) < 0) := by omega
  have hlt : ¬ ((x : Int) ≥ (s0.length : Int)) := by omega
  have hlen : ((s0.drop x).take m).length = m := by
    simp only [List.length_take, List.length_drop]
    omega
  have hu : u32 ((ois : Int) + (u32 (m : Int) : Int)) = ois + m := by
    unfold u32; omega
  unfold StreamReader.Read
  rw [if_neg hne]
  simp only [ReadSeeker.Seek, BytesReader.Seek, true_or, if_true, hpos, if_neg hnn]
  refine (readLoop_final (p.length + 1) _ p 0 hcond (Nat.zero_le _)).trans ?_
  simp only [ReadSeeker.Read, BytesReader.Read, hlt, if_false, List.drop_zero, hp, hlen,
    List.drop_of_length_le (le_of_eq hp), List.append_nil, if_true, splice, List.take_zero,
    List.nil_append, Nat.zero_add, hu, Int.toNat_ofNat]

theorem run_read {ρ : Type} [ReadSeeker ρ] (r : StreamReader ρ) (p : List Nat)
    (res : ReadResult (StreamReader ρ)) (h : r.Read p = Except.ok res) :
    (Call.read p).run r = Except.ok (res.reader, Seen.read res.n res.err res.p) := by
  simp only [Call.run, h, seenRead]

theorem alone_one {α : Type} [ReadSeeker α] (a a1 : StreamReader α) (c : Call) (s : Seen)
    (h : c.run a = Except.ok (a1, s)) : alone a [c] = Except.ok [s] := by
  simp only [alone, h]

theorem interleave_second_first {α β : Type} [ReadSeeker α] [ReadSeeker β] [OverSource α]
    [OverSource β] (a a1 : StreamReader α) (b b1 : StreamReader β) (c1 c2 : Call)
    (s1 s2 : Seen) (hb : c1.run b = Except.ok (b1, s1))
    (ha : c2.run (OverSource.moved a (OverSource.sourceIndex b1)) = Except.ok (a1, s2)) :
    interleave a b [Sum.inr c1, Sum.inl c2] = Except.ok [s2] := by
  simp only [interleave, hb, ha]

/-! ### C36 -/

/-- C36 (amended): reader independence. Take a stream reader `A` over the in-memory source
of a container, regular or mini, a second stream reader `B` of any kind over the same
source, and any single-threaded run of `Read` and `Seek` calls on the two. If, in the run
of the calls of `A` alone, every `Read` starts with the cursor of `A` at end-of-chain or
at a position that the code computes as a non-negative `int32` (for a mini reader: the
cursor of its root-stream reader, once moved to the mini-sector), then whenever the
interleaved run returns, the calls on `A` have returned in it what they return in the run
of `A` alone (counts, buffers, offsets, errors); and if the run of `A` alone ends in a
panic, so does the interleaved run. -/
theorem interleaved_calls_agree {β : Type} [ReadSeeker β] [OverSource β]
    (B : StreamReader β) (steps : List (Call ⊕ Call)) :
    (∀ A : StreamReader BytesReader,
      settledRun StreamReader.settled A (callsOnFirst steps) = true →
      (∀ obs, interleave A B steps = Except.ok obs →
        alone A (callsOnFirst steps) = Except.ok obs)
      ∧ (∀ f, alone A (callsOnFirst steps) = Except.error f →
        ∃ g, interleave A B steps = Except.error g))
    ∧ (∀ A : StreamReader (StreamReader BytesReader),
      settledRun StreamReader.miniSettled A (callsOnFirst steps) = true →
      (∀ obs, interleave A B steps = Except.ok obs →
        alone A (callsOnFirst steps) = Except.ok obs)
      ∧ (∀ f, alone A (callsOnFirst steps) = Except.error f →
        ∃ g, interleave A B steps = Except.error g)) := by
  constructor
  · intro A hset
    exact interleave_alone StreamReader.settled (fun _ _ _ => rfl) run_moved_regular steps A B
      (OverSource.sourceIndex A) hset
  · intro A hset
    exact interleave_alone StreamReader.miniSettled (fun _ _ _ => rfl) run_moved_mini steps A B
      (OverSource.sourceIndex A) hset

/-- C36 (counterexample): in a container whose table has sector 4194303 in range, take the
reader `A` on the chain made of that sector and the reader `B` on sector 0. Alone, a `Read`
of one byte on `A` returns the byte 1; after a `Read` of one byte on `B` the same `Read` on
`A` returns the byte 0: `sector_pos` wraps to -2^31, the `Seek` of the source fails, and `A`
reads the source where `B` left it. -/
theorem interleaved_Read_differs_beyond_2GiB :
    (0 ≤ (4194303 : Int) ∧ (4194303 : Int) < (farContainer.SecID.length : Int))
    ∧ alone (farContainer.stream_read 4194303 1) [Call.read [0]]
        = Except.ok [Seen.read 1 none [1]]
    ∧ interleave (farContainer.stream_read 4194303 1) (farContainer.stream_read 0 1)
          [Sum.inr (Call.read [0]), Sum.inl (Call.read [0])]
        = Except.ok [Seen.read 1 none [0]] := by
  have hlen : (1 :: List.replicate 2147484159 0).length = 2147484160 := by
    rw [List.length_cons, List.length_replicate]
  have ht1 : ((1 :: List.replicate 2147484159 0).drop 0).take 1 = [1] := rfl
  have ht2 : ∀ k, k < 2147484159 →
      ((1 :: List.replicate 2147484159 0).drop (k + 1)).take 1 = [0] := by
    intro k hk
    rw [List.drop_succ_cons, List.drop_replicate, List.take_replicate]
    have : min 1 (2147484159 - k) = 1 := by omega
    rw [this]
    rfl
  have hA0 := Read_fit_wrapped (farContainer.stream_read 4194303 1)
    (1 :: List.replicate 2147484159 0) 0 0 1 [0] rfl (by rw [hlen]; norm_num)
    (by rw [hlen]; norm_num) rfl rfl rfl
    (by show i32 (sector_pos 4194303 512 + i32 ((0 : Nat) : Int)) < 0
        unfold sector_pos i32; norm_num)
    (by show (4194303 : Int) ≠ EOFSecID; unfold EOFSecID; norm_num) rfl (by norm_num)
  have hB := Read_fit (farContainer.stream_read 0 1)
    (1 :: List.replicate 2147484159 0) 0 512 0 1 [0] rfl (by rw [hlen]; norm_num)
    (by rw [hlen]; norm_num) rfl rfl rfl
    (by show i32 (sector_pos 0 512 + i32 ((0 : Nat) : Int)) = ((512 : Nat) : Int)
        unfold sector_pos i32; norm_num)
    (by show (0 : Int) ≠ EOFSecID; unfold EOFSecID; norm_num) rfl (by norm_num)
  have hA1 := Read_fit_wrapped
    (OverSource.moved (farContainer.stream_read 4194303 1) (((512 : Nat) : Int) + ((1 : Nat) : Int)))
    (1 :: List.replicate 2147484159 0) 513 0 1 [0] rfl (by rw [hlen]; norm_num)
    (by rw [hlen]; norm_num) rfl rfl rfl
    (by show i32 (sector_pos 4194303 512 + i32 ((0 : Nat) : Int)) < 0
        unfold sector_pos i32; norm_num)
    (by show (4194303 : Int) ≠ EOFSecID; unfold EOFSecID; norm_num) rfl (by norm_num)
  rw [ht1] at hA0
  rw [ht2 511 (by norm_num)] at hB
  rw [ht2 512 (by norm_num)] at hA1
  refine ⟨⟨by norm_num, ?_⟩, ?_, ?_⟩
  · rw [farContainer_SecID_length]; norm_num
  · exact alone_one _ _ _ _ (run_read _ _ _ hA0)
  · exact interleave_second_first _ _ _ _ _ _ _ _ (run_read _ _ _ hB) (run_read _ _ _ hA1)

set_option maxRecDepth 100000 in
/-- Witness for C36: a regular reader on the sectors 5 -> 6 (a `Read` of 4 bytes,
`Seek(510, 0)`, a `Read` of 4 bytes) with calls on a mini reader in between, and a mini
reader on mini-sector 0 (a `Read` of 3 bytes, `Seek(10, 0)`, a `Read` of 2 bytes) with a
call on a regular reader in between. -/
theorem interleaved_calls_agree_witness :
    (settledRun StreamReader.settled (mixedContainer.stream_read 5 600)
        (callsOnFirst [Sum.inl (Call.read [0, 0, 0, 0]), Sum.inr (Call.read [0, 0, 0]),
          Sum.inl (Call.seek 510 0), Sum.inr (Call.seek 1 0),
          Sum.inl (Call.read [0, 0, 0, 0])]) = true
      ∧ interleave (mixedContainer.stream_read 5 600) (mixedContainer.short_stream_read 0 50 2)
          [Sum.inl (Call.read [0, 0, 0, 0]), Sum.inr (Call.read [0, 0, 0]),
            Sum.inl (Call.seek 510 0), Sum.inr (Call.seek 1 0),
            Sum.inl (Call.read [0, 0, 0, 0])]
          = Except.ok [Seen.read 4 none [5, 5, 5, 5], Seen.seek 510 none,
              Seen.read 4 none [5, 5, 6, 6]]
      ∧ alone (mixedContainer.stream_read 5 600)
          (callsOnFirst [Sum.inl (Call.read [0, 0, 0, 0]), Sum.inr (Call.read [0, 0, 0]),
            Sum.inl (Call.seek 510 0), Sum.inr (Call.seek 1 0),
            Sum.inl (Call.read [0, 0, 0, 0])])
          = Except.ok [Seen.read 4 none [5, 5, 5, 5], Seen.seek 510 none,
              Seen.read 4 none [5, 5, 6, 6]])
    ∧ (settledRun StreamReader.miniSettled (mixedContainer.short_stream_read 0 50 2)
        (callsOnFirst [Sum.inl (Call.read [0, 0, 0]), Sum.inr (Call.read [0, 0]),
          Sum.inl (Call.seek 10 0), Sum.inl (Call.read [0, 0])]) = true
      ∧ interleave (mixedContainer.short_stream_read 0 50 2) (mixedContainer.stream_read 5 600)
          [Sum.inl (Call.read [0, 0, 0]), Sum.inr (Call.read [0, 0]),
            Sum.inl (Call.seek 10 0), Sum.inl (Call.read [0, 0])]
          = Except.ok [Seen.read 3 none [2, 2, 2], Seen.seek 10 none, Seen.read 2 none [2, 2]]
      ∧ alone (mixedContainer.short_stream_read 0 50 2)
          (callsOnFirst [Sum.inl (Call.read [0, 0, 0]), Sum.inr (Call.read [0, 0]),
            Sum.inl (Call.seek 10 0), Sum.inl (Call.read [0, 0])])
          = Except.ok [Seen.read 3 none [2, 2, 2], Seen.seek 10 none,
              Seen.read 2 none [2, 2]]) :=
  have h1 : settledRun StreamReader.settled (mixedContainer.stream_read 5 600)
      (callsOnFirst [Sum.inl (Call.read [0, 0, 0, 0]), Sum.inr (Call.read [0, 0, 0]),
        Sum.inl (Call.seek 510 0), Sum.inr (Call.seek 1 0),
        Sum.inl (Call.read [0, 0, 0, 0])]) = true := by decide!
  have h2 : interleave (mixedContainer.stream_read 5 600)
      (mixedContainer.short_stream_read 0 50 2)
      [Sum.inl (Call.read [0, 0, 0, 0]), Sum.inr (Call.read [0, 0, 0]),
        Sum.inl (Call.seek 510 0), Sum.inr (Call.seek 1 0),
        Sum.inl (Call.read [0, 0, 0, 0])]
      = Except.ok [Seen.read 4 none [5, 5, 5, 5], Seen.seek 510 none,
          Seen.read 4 none [5, 5, 6, 6]] := by decide!
  have h3 : settledRun StreamReader.miniSettled (mixedContainer.short_stream_read 0 50 2)
      (callsOnFirst [Sum.inl (Call.read [0, 0, 0]), Sum.inr (Call.read [0, 0]),
        Sum.inl (Call.seek 10 0), Sum.inl (Call.read [0, 0])]) = true := by decide!
  have h4 : interleave (mixedContainer.short_stream_read 0 50 2)
      (mixedContainer.stream_read 5 600)
      [Sum.inl (Call.read [0, 0, 0]), Sum.inr (Call.read [0, 0]),
        Sum.inl (Call.seek 10 0), Sum.inl (Call.read [0, 0])]
      = Except.ok [Seen.read 3 none [2, 2, 2], Seen.seek 10 none, Seen.read 2 none [2, 2]] := by
    decide!
  ⟨⟨h1, h2, ((interleaved_calls_agree (mixedContainer.short_stream_read 0 50 2) _).1 _ h1).1 _ h2⟩,
    h3, h4, ((interleaved_calls_agree (mixedContainer.stream_read 5 600) _).2 _ h3).1 _ h4⟩

/-! ### C37 -/

set_option maxRecDepth 100000 in
/-- C37 (evaluation of the code): the header of `difatSource 1` declares 110 FAT sectors
and one DIFAT sector, sector 2, whose slot 0 names FAT sector 0 and whose other 126 slots
are free (-1). `readMSAT` returns a nil error with 30208 table entries, those of
109 + 127 = 236 sectors: the count reaches 110 after slot 0 of the DIFAT sector, and the
126 free slots are still read as FAT sector ids (the id -1 is the sector at source offset
0, the header, whose first entry is the signature). -/
theorem readMSAT_reads_past_declared_count :
    (opened (difatSource 1)).header.NumberOfSectorsSAT = 110
    ∧ (msatIds (difatSource 1) 2).getD 0 0 = 0
    ∧ (msatIds (difatSource 1) 2).getD 1 0 = FreeSecID
    ∧ (msatIds (difatSource 1) 2).getD 126 0 = FreeSecID
    ∧ sector_pos (i32 FreeSecID) 512 = 0
    ∧ (fatOf (difatSource 1) FreeSecID).getD 0 0 = i32 0xE011CFD0
    ∧ (∃ o1, (opened (difatSource 1)).readMSAT = Except.ok (o1, none)
      ∧ o1.SecID.length = 30208)
    ∧ 128 * 110 < 30208 := by
  have hN : (opened (difatSource 1)).header.NumberOfSectorsSAT = 110 := by decide!
  have hw : DifatWalk (opened (difatSource 1)).reader.s
      (opened (difatSource 1)).header.NumberOfSectorsSAT
      (opened (difatSource 1)).header.FirstSecIDMSAT 109 [2] := by decide!
  obtain ⟨i, hi⟩ := readMSAT_with_DIFAT (opened (difatSource 1)) [2] rfl (by rw [hN]; decide)
    (by rw [hN]; decide) (by decide!) (by decide!) (by decide!) hw
  refine ⟨hN, by decide!, by decide!, by decide!, by decide, by decide!, ⟨_, hi, ?_⟩,
    by decide⟩
  show ((opened (difatSource 1)).SecID ++ _ ++ _).length = 30208
  rw [List.length_append, List.length_append, difatTable_one_length,
    flatten_length_const 128 _ (by
      intro x hx
      obtain ⟨k, _, rfl⟩ := List.mem_map.mp hx
      exact fatOf_length _ _), List.length_map, List.length_range]
  rfl

/-! ### C38 -/

/-- The rounds of `fromLZ77` on literal codes only: with `done` decoded so far and the
rest of the 4096-byte buffer still to fill, the result is `done` followed by the input,
cut at 4096 bytes. -/
theorem fromLZ77Loop_literal_codes (text : List Nat) :
    ∀ (fuel : Nat) (done pad : List Nat), done.length + pad.length = 4096 →
      (∀ c ∈ text, c = 0x00 ∨ (0x09 ≤ c ∧ c ≤ 0x7f)) → text.length < fuel →
      fromLZ77Loop fuel text (done ++ pad) (done.length : Int)
        = Except.ok ((done ++ text).take 4096) := by
  induction text with
  | nil =>
    intro fuel done pad hlen _ hfuel
    obtain ⟨f, rfl⟩ : ∃ f, fuel = f + 1 := ⟨fuel - 1, by simp at hfuel; omega⟩
    have hres : (done ++ pad).take ((done.length : Int)).toNat = (done ++ []).take 4096 := by
      rw [Int.toNat_ofNat, List.take_left, List.append_nil, List.take_of_length_le (by omega)]
    rw [fromLZ77Loop]
    by_cases h : (done.length : Int) = 4096
    · rw [if_pos h, hres]
    · rw [if_neg h, hres]
  | cons c rest ih =>
    intro fuel done pad hlen hlit hfuel
    obtain ⟨f, rfl⟩ : ∃ f, fuel = f + 1 := ⟨fuel - 1, by simp at hfuel; omega⟩
    rw [fromLZ77Loop]
    by_cases h : (done.length : Int) = 4096
    · have hd : done.length = 4096 := by omega
      rw [if_pos h, Int.toNat_ofNat, List.take_left, List.take_append_of_le_length (by omega),
        List.take_of_length_le (by omega)]
    · rw [if_neg h]
      simp only []
      have hc := hlit c (List.mem_cons_self _ _)
      rw [if_pos hc]
      cases pad with
      | nil => simp at hlen; omega
      | cons q pad =>
        have hs := setAt_inside (done ++ q :: pad) done.length c
          (by rw [List.length_append, List.length_cons]; omega)
        have hset : (done ++ q :: pad).set done.length c = (done ++ [c]) ++ pad := by simp
        rw [hs.1, hset]
        simp only []
        have hrec := ih f (done ++ [c]) pad
          (by rw [List.length_append, List.length_singleton]; simp at hlen; omega)
          (fun x hx => hlit x (List.mem_cons_of_mem _ hx))
          (by simp at hfuel; omega)
        rw [List.length_append, List.length_singleton, Nat.cast_add, Nat.cast_one] at hrec
        rw [hrec, List.append_assoc, List.singleton_append]

/-- C38: for every input that consists only of literal codes (the byte 0x00 and the bytes
0x09..0x7f), `fromLZ77` returns the first 4096 bytes of the input: the input unchanged
when it has at most 4096 bytes. -/
theorem fromLZ77_literals (text : List Nat)
    (hlit : ∀ c ∈ text, c = 0x00 ∨ (0x09 ≤ c ∧ c ≤ 0x7f)) :
    fromLZ77 text = Except.ok (text.take 4096)
    ∧ (text.length ≤ 4096 → fromLZ77 text = Except.ok text) := by
  have h := fromLZ77Loop_literal_codes text (text.length + 1) [] (List.replicate 4096 0)
    (by rw [List.length_nil, List.length_replicate]) hlit (Nat.lt_succ_self _)
  rw [List.nil_append, List.nil_append] at h
  have h1 : fromLZ77 text = Except.ok (text.take 4096) := h
  refine ⟨h1, ?_⟩
  intro hle
  rw [h1, List.take_of_length_le hle]

/-- Witness for C38: the five literal codes `h e l l o`. -/
theorem fromLZ77_literals_witness :
    fromLZ77 [104, 101, 108, 108, 111] = Except.ok [104, 101, 108, 108, 111] :=
  (fromLZ77_literals [104, 101, 108, 108, 111] (by decide)).2 (by decide)

end Ole2
